import Mathlib

/-!
# IOMMU-backed DMA address-space allocator (arch/arm64/mm/dma-mapping.c) and
# GPU VMA lifecycle (drivers/gpu/drm/msm/msm_gem_vma.c)

A shallow embedding of the IOVA range allocator, the mapping-context life
cycle, the device attachment path, the scatter-list mapper and the VMA
state machine, followed by the theorems that settle the specification's
claims about them.

Machine integers are natural numbers with the wrap-around of their C type
made explicit: `unsigned int` values are reduced modulo `2 ^ 32`, `size_t`,
`unsigned long` and `dma_addr_t` values modulo `2 ^ 64`.
-/

namespace MoeKernel

/-! ## Machine words and page arithmetic -/

/-- Number of values of an `unsigned int`. -/
def U32 : Nat := 2 ^ 32

/-- Number of values of a `size_t`, `unsigned long` or `dma_addr_t` (arm64). -/
def U64 : Nat := 2 ^ 64

/-- Modelled from the spec: PAGE_SHIFT comes from the architecture headers, not under
src/; the spec's scenario D counts 4096 bytes as one page, so the shift is 12. -/
def PAGE_SHIFT : Nat := 12

/-- The page size `1UL << PAGE_SHIFT`. -/
def PAGE_SIZE : Nat := 1 <<< PAGE_SHIFT

/-- The mask `~(PAGE_SIZE - 1)` as a 64-bit value. -/
def PAGE_MASK : Nat := U64 - 1 - (PAGE_SIZE - 1)

/-- Modelled from the spec: DMA_ERROR_CODE is declared in a header not under src/; it is
the distinguished sentinel address `~(dma_addr_t)0` that reports failure. -/
def DMA_ERROR_CODE : Nat := U64 - 1

/-- The kernel macro `ALIGN(x, a)`, that is `(x + mask) & ~mask` with
`mask = (typeof(x))(a) - 1`, evaluated on 64-bit words. -/
def ALIGN (x a : Nat) : Nat :=
  let mask := (a + U64 - 1) % U64
  ((x + mask) % U64) &&& (U64 - 1 - mask)

/-- The kernel macro `PAGE_ALIGN(x)`, that is `ALIGN(x, PAGE_SIZE)`. -/
def PAGE_ALIGN (x : Nat) : Nat := ALIGN x PAGE_SIZE

/-- Position of the most significant set bit among the low `w` bits, counted
from 1, and 0 for 0: the kernel's `fls`. -/
def fls : Nat → Nat → Nat
  | 0, _ => 0
  | w + 1, x => if x = 0 then 0 else fls w (x / 2) + 1

/-- The kernel's `fls64`. -/
def fls64 (x : Nat) : Nat := fls 64 (x % U64)

/-- The kernel's `get_order(size)` for a run-time argument:
`size--; size >>= PAGE_SHIFT; return fls64(size);` on an `unsigned long`. -/
def get_order (size : Nat) : Nat :=
  fls64 (((size + U64 - 1) % U64) >>> PAGE_SHIFT)

/-! ## Bitmap library (lib/bitmap.c, lib/find_bit.c) -/

/-- Linear scan used by the two bit searches: the first index `i, i+1, ...`
within `n` steps at which `p` holds, or `i + n`. -/
def scan_bits (p : Nat → Bool) : Nat → Nat → Nat
  | 0, i => i
  | n + 1, i => if p i then i else scan_bits p n (i + 1)

/-- Modelled from the spec: find_next_zero_bit is the kernel bit-search routine, not under
src/: the index of the first clear bit in `[offset, size)`, or `size`. -/
def find_next_zero_bit (map : Nat → Bool) (size offset : Nat) : Nat :=
  if size ≤ offset then size else scan_bits (fun i => !map i) (size - offset) offset

/-- Modelled from the spec: find_next_bit is the kernel bit-search routine, not under
src/: the index of the first set bit in `[offset, size)`, or `size`. -/
def find_next_bit (map : Nat → Bool) (size offset : Nat) : Nat :=
  if size ≤ offset then size else scan_bits map (size - offset) offset

/-- The macro `__ALIGN_MASK(x, mask)` for a mask of the form `2 ^ k - 1`:
round `x` up to the next multiple of `mask + 1`. -/
def __ALIGN_MASK (x mask : Nat) : Nat := (x + mask) / (mask + 1) * (mask + 1)

/-- The `again:` loop of the library search, with an explicit bound on the
number of rounds. Every round either returns or restarts strictly further
right, so `size + 1` rounds always suffice. -/
def bitmap_find_next_zero_area_loop (map : Nat → Bool) (size nr align_mask : Nat) :
    Nat → Nat → Nat
  | 0, _ => size + nr + 1
  | fuel + 1, start =>
    let index := __ALIGN_MASK (find_next_zero_bit map size start) align_mask
    let end_ := index + nr
    if end_ > size then end_
    else
      let i := find_next_bit map end_ index
      if i < end_ then bitmap_find_next_zero_area_loop map size nr align_mask fuel (i + 1)
      else index

/-- Modelled from the spec: bitmap_find_next_zero_area is the kernel bitmap library
search, not under src/; the spec describes it as finding the first zero run of
`nr` bits with the required power-of-two alignment. The model follows the
library loop: take the next clear bit from `start`, round it up to the
alignment, fail with a value above `size` when the run would not fit, and
restart after the first set bit found inside the run. -/
def bitmap_find_next_zero_area (map : Nat → Bool) (size start nr align_mask : Nat) : Nat :=
  bitmap_find_next_zero_area_loop map size nr align_mask (size + 1) start

/-- Modelled from the spec: bitmap_set is the kernel bitmap library routine, not under
src/: set the `len` bits from `start`. -/
def bitmap_set (map : Nat → Bool) (start len : Nat) : Nat → Bool :=
  fun i => if start ≤ i ∧ i < start + len then true else map i

/-- Modelled from the spec: bitmap_clear is the kernel bitmap library routine, not under
src/: clear the `len` bits from `start`. -/
def bitmap_clear (map : Nat → Bool) (start len : Nat) : Nat → Bool :=
  fun i => if start ≤ i ∧ i < start + len then false else map i

/-! ## The mapping context (struct dma_iommu_mapping) -/

/-- The DMA operation tables a context or a device can point at. -/
inductive dma_map_ops where
  | iommu_ops
  | swiotlb_dma_ops
  | iommu_dma_ops
  | fast_smmu_dma_ops
  deriving DecidableEq, Repr

/-- The IOMMU domain handle of a context: its identity and the attributes the
code reads with `iommu_domain_get_attr`. An attribute the driver does not
report is `none`; the reading variable then keeps its initial value. -/
structure iommu_domain where
  id : Nat
  attr_s1_bypass : Option Int
  attr_fast : Option Int
  attr_bitmap_iova_allocator : Option Int
  attr_errata_min_iova_align : Option Int
  attr_secure_vmid : Option Int
  deriving DecidableEq, Repr

/-- Effect of `iommu_domain_get_attr(domain, attr, &var)` on `var`. -/
def iommu_domain_get_attr (attr : Option Int) (var : Int) : Int :=
  match attr with
  | some v => v
  | none => var

/-- The fields of `struct dma_iommu_mapping` that the modelled functions use.
`addr` is the address of the object, its identity as a pointer;
`bitmap` holds the bits of the allocation bitmap (bit `i` set: page `i` used)
and `bitmap_allocated` tells whether the bitmap pointer is non-NULL;
`kref` is the reference count inside `struct kref`. -/
structure dma_iommu_mapping where
  addr : Nat
  domain : iommu_domain
  init : Bool
  kref : Nat
  ops : Option dma_map_ops
  bitmap : Nat → Bool
  bitmap_allocated : Bool
  bits : Nat
  base : Nat
  min_iova_align : Nat
  guard_page : Option Nat

/-! ## The range allocator: __alloc_iova and __free_iova -/

/-- The guard length both `__alloc_iova` and `__free_iova` compute from the
page-aligned size: `ALIGN(size, min_iova_align) - size` when the erratum is
enabled, else 0 (a `size_t`). -/
def iova_guard_len (mapping : dma_iommu_mapping) (size : Nat) : Nat :=
  if mapping.min_iova_align ≠ 0 then
    (ALIGN size mapping.min_iova_align + U64 - size % U64) % U64
  else 0

/-- The local `order` of `__alloc_iova`: `get_order(size + guard_len)` capped
at `CONFIG_ARM64_DMA_IOMMU_ALIGNMENT`, which is the parameter `maxOrder`. -/
def alloc_iova_order (maxOrder : Nat) (mapping : dma_iommu_mapping) (size : Nat) : Nat :=
  let size := PAGE_ALIGN size
  let guard_len := iova_guard_len mapping size
  let order := get_order ((size + guard_len) % U64)
  if order > maxOrder then maxOrder else order

/-- The local `count` of `__alloc_iova`:
`PAGE_ALIGN(size + guard_len) >> PAGE_SHIFT` stored in an `unsigned int`. -/
def alloc_iova_count (mapping : dma_iommu_mapping) (size : Nat) : Nat :=
  let size := PAGE_ALIGN size
  let guard_len := iova_guard_len mapping size
  (PAGE_ALIGN ((size + guard_len) % U64) >>> PAGE_SHIFT) % U32

/-- The local `start` of `__alloc_iova`: the result of the bitmap search with
`align = (1 << order) - 1`, stored in an `unsigned int`. -/
def alloc_iova_start (maxOrder : Nat) (mapping : dma_iommu_mapping) (size : Nat) : Nat :=
  let order := alloc_iova_order maxOrder mapping size
  let count := alloc_iova_count mapping size
  let align := (1 <<< order) - 1
  (bitmap_find_next_zero_area mapping.bitmap mapping.bits 0 count align) % U32

/-- The function `__alloc_iova(mapping, size)`. `iommu_map_ret` is what the
IOMMU driver returns for the guard-region `iommu_map` call, should that call
be made. The result is the mapping afterwards and the returned address. -/
def __alloc_iova (maxOrder : Nat) (mapping : dma_iommu_mapping) (size : Nat)
    (iommu_map_ret : Int) : dma_iommu_mapping × Nat :=
  let guard_len := iova_guard_len mapping (PAGE_ALIGN size)
  let count := alloc_iova_count mapping size
  let start := alloc_iova_start maxOrder mapping size
  if start > mapping.bits then
    (mapping, DMA_ERROR_CODE)
  else
    let marked := { mapping with bitmap := bitmap_set mapping.bitmap start count }
    let iova := (mapping.base + (start <<< PAGE_SHIFT) % U32) % U64
    if guard_len ≠ 0 ∧ iommu_map_ret ≠ 0 then
      ({ marked with bitmap := bitmap_clear marked.bitmap start count }, DMA_ERROR_CODE)
    else
      (marked, iova)

/-- The local `start` of `__free_iova`:
`(addr - mapping->base) >> PAGE_SHIFT` with `addr` masked by `PAGE_MASK`,
stored in an `unsigned int`. -/
def free_iova_start (mapping : dma_iommu_mapping) (addr : Nat) : Nat :=
  let addr := addr &&& PAGE_MASK
  (((addr + U64 - mapping.base % U64) % U64) >>> PAGE_SHIFT) % U32

/-- The local `count` of `__free_iova`: `(size + guard_len) >> PAGE_SHIFT`
stored in an `unsigned int`. -/
def free_iova_count (mapping : dma_iommu_mapping) (size : Nat) : Nat :=
  let size := PAGE_ALIGN size
  let guard_len := iova_guard_len mapping size
  (((size + guard_len) % U64) >>> PAGE_SHIFT) % U32

/-- The function `__free_iova(mapping, addr, size)`. -/
def __free_iova (mapping : dma_iommu_mapping) (addr size : Nat) : dma_iommu_mapping :=
  { mapping with
    bitmap := bitmap_clear mapping.bitmap (free_iova_start mapping addr)
      (free_iova_count mapping size) }

/-! ## Specification vocabulary for the allocator -/

/-- All `nr` bits from `s` are clear. -/
def zero_run (map : Nat → Bool) (s nr : Nat) : Prop :=
  ∀ j, s ≤ j → j < s + nr → map j = false

/-- Index `s` is an admissible answer of the area search: aligned to
`align_mask + 1`, with the run of `nr` bits inside the bitmap and all clear. -/
def area_candidate (map : Nat → Bool) (size nr align_mask s : Nat) : Prop :=
  s % (align_mask + 1) = 0 ∧ s + nr ≤ size ∧ zero_run map s nr

/-- A live allocation: the address and size the caller holds, and the run of
pages `[start, start + count)` that `__alloc_iova` marked for it. -/
structure live_iova where
  iova : Nat
  size : Nat
  start : Nat
  count : Nat
  deriving DecidableEq, Repr

/-- One call on a mapping: an allocation of `size` bytes (with the outcome of
the guard-region `iommu_map`, should it be called), or the release of the
`k`-th live allocation with the address and size it was allocated with. -/
inductive iova_op where
  | alloc (size : Nat) (iommu_map_ret : Int)
  | free (k : Nat)
  deriving DecidableEq, Repr

/-- A mapping together with its live allocations, newest first. -/
structure iova_state where
  mapping : dma_iommu_mapping
  live : List live_iova

/-- Apply one call. A successful `__alloc_iova` adds a live allocation; a
`free` hands the recorded address and size of a live allocation to
`__free_iova` and drops it (an index that names no live allocation is not a
call). -/
def iova_step (maxOrder : Nat) (st : iova_state) : iova_op → iova_state
  | .alloc size iommu_map_ret =>
    let r := __alloc_iova maxOrder st.mapping size iommu_map_ret
    if r.2 = DMA_ERROR_CODE then { st with mapping := r.1 }
    else
      { mapping := r.1,
        live := { iova := r.2, size := size,
                  start := alloc_iova_start maxOrder st.mapping size,
                  count := alloc_iova_count st.mapping size } :: st.live }
  | .free k =>
    match st.live.get? k with
    | some a => { mapping := __free_iova st.mapping a.iova a.size, live := st.live.eraseIdx k }
    | none => st

/-- Apply a sequence of calls, left to right. -/
def iova_run (maxOrder : Nat) (st : iova_state) (ops : List iova_op) : iova_state :=
  ops.foldl (iova_step maxOrder) st

/-- The page runs of two allocations have no page in common. -/
def runs_disjoint (a b : live_iova) : Prop :=
  ∀ p, a.start ≤ p → p < a.start + a.count → b.start ≤ p → p < b.start + b.count → False

/-- No two live allocations overlap. -/
def no_overlap (live : List live_iova) : Prop := live.Pairwise runs_disjoint

/-- The request sizes of a sequence of calls stay below `bound`. -/
def alloc_sizes_below (bound : Nat) (ops : List iova_op) : Prop :=
  ∀ op ∈ ops, ∀ size ret, op = iova_op.alloc size ret → size < bound


/-- An initialized bitmap-mode context over `bits` pages from `base` with
the given bitmap contents, used to state concrete scenarios. -/
def bitmap_mapping (base bits min_iova_align : Nat) (bitmap : Nat → Bool) :
    dma_iommu_mapping :=
  { addr := 0,
    domain := { id := 0, attr_s1_bypass := none, attr_fast := none,
                attr_bitmap_iova_allocator := some 1,
                attr_errata_min_iova_align := none, attr_secure_vmid := none },
    init := true, kref := 1, ops := some dma_map_ops.iommu_ops,
    bitmap := bitmap, bitmap_allocated := true, bits := bits, base := base,
    min_iova_align := min_iova_align, guard_page := none }

/-- Page index `s` can hold a request: a multiple of `2 ^ k` whose `count`
pages lie inside the mapping and are all free. -/
def iova_slot (m : dma_iommu_mapping) (k count s : Nat) : Prop :=
  s % 2 ^ k = 0 ∧ s + count ≤ m.bits ∧ zero_run m.bitmap s count

/-- The number of pages a request needs, guard included, as a plain number
(no truncation to `unsigned int`). -/
def iova_pages_needed (m : dma_iommu_mapping) (size : Nat) : Nat :=
  (PAGE_ALIGN size + iova_guard_len m (PAGE_ALIGN size) + (PAGE_SIZE - 1)) / PAGE_SIZE

/-- The first-fit contract of `__alloc_iova` for a request of `count` pages
with alignment order `k = min(get_order, maxOrder)`: the call succeeds
exactly when some slot exists; on success it returns
`base + s * PAGE_SIZE` for the least slot `s` and marks exactly its `count`
pages; on failure it returns `DMA_ERROR_CODE` and leaves the bitmap as it
was. -/
def alloc_iova_contract (maxOrder : Nat) (m : dma_iommu_mapping) (size : Nat) (ret : Int)
    (count : Nat) : Prop :=
  ((__alloc_iova maxOrder m size ret).2 ≠ DMA_ERROR_CODE ↔
    ∃ s, iova_slot m (alloc_iova_order maxOrder m size) count s) ∧
  ((__alloc_iova maxOrder m size ret).2 ≠ DMA_ERROR_CODE →
    ∃ s, iova_slot m (alloc_iova_order maxOrder m size) count s ∧
      (∀ t, iova_slot m (alloc_iova_order maxOrder m size) count t → s ≤ t) ∧
      (__alloc_iova maxOrder m size ret).2 = m.base + s * PAGE_SIZE ∧
      (__alloc_iova maxOrder m size ret).1.bitmap = bitmap_set m.bitmap s count) ∧
  ((__alloc_iova maxOrder m size ret).2 = DMA_ERROR_CODE →
    (__alloc_iova maxOrder m size ret).1.bitmap = m.bitmap)

/-- Scenario A of the spec with a maximum order of 9: in an empty 16-page
space two 5-page allocations land at pages 0 and 8, and a following 8-page
allocation fails with `DMA_ERROR_CODE`. -/
def scenario_A (base : Nat) : Prop :=
  (__alloc_iova 9 (bitmap_mapping base 16 0 (fun _ => false)) (5 * PAGE_SIZE) 0).2
    = base + 0 * PAGE_SIZE ∧
  (__alloc_iova 9
    (__alloc_iova 9 (bitmap_mapping base 16 0 (fun _ => false)) (5 * PAGE_SIZE) 0).1
    (5 * PAGE_SIZE) 0).2 = base + 8 * PAGE_SIZE ∧
  (__alloc_iova 9
    (__alloc_iova 9
      (__alloc_iova 9 (bitmap_mapping base 16 0 (fun _ => false)) (5 * PAGE_SIZE) 0).1
      (5 * PAGE_SIZE) 0).1
    (8 * PAGE_SIZE) 0).2 = DMA_ERROR_CODE

/-- The layout assumptions under which the allocator's 32-bit and 64-bit
arithmetic does not wrap: a page-aligned 64-bit base, at most 2^20 pages (so
that `start << PAGE_SHIFT` fits an `unsigned int`) and a 32-bit erratum
alignment. -/
def iova_layout_ok (m : dma_iommu_mapping) : Prop :=
  m.base % PAGE_SIZE = 0 ∧ m.base < U64 ∧ m.bits ≤ 2 ^ 20 ∧ m.min_iova_align < 2 ^ 32

/-- What `__free_iova` will compute for a live allocation: the recorded page
count, and for a non-empty run the recorded start. -/
def live_entry_ok (m : dma_iommu_mapping) (a : live_iova) : Prop :=
  (∀ p, a.start ≤ p → p < a.start + a.count → m.bitmap p = true) ∧
  free_iova_count m a.size = a.count ∧
  (a.count = 0 ∨ free_iova_start m a.iova = a.start)

/-- The invariant of a run of calls: the layout is sound, the live runs are
pairwise disjoint, and each live run is marked in the bitmap and is what the
matching free will clear. -/
def iova_inv (st : iova_state) : Prop :=
  iova_layout_ok st.mapping ∧ no_overlap st.live ∧ ∀ a ∈ st.live, live_entry_ok st.mapping a

/-! ## Mapping-context life cycle: init, release, attach -/

/-- The errno value `EINVAL`. -/
def EINVAL : Int := 22

/-- The errno value `ENOMEM`. -/
def ENOMEM : Int := 12

/-- What the kernel does that the context code can observe: memory released
and IOMMU driver calls made, in order. -/
inductive kernel_event where
  | kfree_bitmap
  | iommu_domain_free (domain : Nat)
  | kfree_mapping (addr : Nat)
  | fast_smmu_release_mapping (addr : Nat)
  deriving DecidableEq, Repr

/-- Modelled from the spec: kref_put is the kernel reference-count routine, not under
src/: it decrements the count, and the decrement that reaches zero, and only
that one, triggers the release action. The result is the new count and
whether the release action runs. -/
def kref_put (refcount : Nat) : Nat × Bool :=
  if refcount = 1 then (0, true) else (refcount - 1, false)

/-- The destructor `release_iommu_mapping(kref)`: frees the bitmap when the
domain has the bitmap-allocator attribute, then the domain, then the
context. -/
def release_iommu_mapping (mapping : dma_iommu_mapping) : List kernel_event :=
  let is_bitmap := iommu_domain_get_attr mapping.domain.attr_bitmap_iova_allocator 0
  (if is_bitmap ≠ 0 then [kernel_event.kfree_bitmap] else []) ++
    [kernel_event.iommu_domain_free mapping.domain.id, kernel_event.kfree_mapping mapping.addr]

/-- Modelled from the spec: fast_smmu_release_mapping is the fast-path destructor, not
under src/; like every release at count zero it frees the IOMMU domain and
then the context object itself. -/
def fast_smmu_release_mapping (mapping : dma_iommu_mapping) : List kernel_event :=
  [kernel_event.fast_smmu_release_mapping mapping.addr,
   kernel_event.iommu_domain_free mapping.domain.id, kernel_event.kfree_mapping mapping.addr]

/-- The function `arm_iommu_release_mapping(mapping)`. The argument is `none`
for a NULL pointer; the result is the context afterwards (`none` once it has
been freed) and the events of the call. -/
def arm_iommu_release_mapping (mapping : Option dma_iommu_mapping) :
    Option dma_iommu_mapping × List kernel_event :=
  match mapping with
  | none => (none, [])
  | some m =>
    if !m.init then
      (none, [kernel_event.iommu_domain_free m.domain.id, kernel_event.kfree_mapping m.addr])
    else
      let is_fast := iommu_domain_get_attr m.domain.attr_fast 0
      let release := if is_fast ≠ 0 then fast_smmu_release_mapping else release_iommu_mapping
      let r := kref_put m.kref
      if r.2 then (none, release { m with kref := r.1 })
      else (some { m with kref := r.1 }, [])

/-- The context and the accumulated events after `n` successive calls of
`arm_iommu_release_mapping` on the same pointer. -/
def release_times : Nat → Option dma_iommu_mapping → Option dma_iommu_mapping × List kernel_event
  | 0, mapping => (mapping, [])
  | n + 1, mapping =>
    let r := arm_iommu_release_mapping mapping
    let rest := release_times n r.1
    (rest.1, r.2 ++ rest.2)

/-- What the initialization of a context draws from its surroundings: the
device's DMA mask, the outcome of the allocations and of the calls into code
that is not under src/, and the constants of headers that are not under
src/. -/
structure init_env where
  dma_mask : Nat
  guard_page : Int → Option Nat
  kzalloc_ok : Bool
  vzalloc_ok : Bool
  fast_smmu_init_mapping_ret : Int
  iommu_get_dma_cookie_ret : Int
  iommu_dma_init_domain_ret : Int
  VMID_HLOS : Int
  VMID_LAST : Int
  ARM_SMMU_MIN_IOVA_ALIGN : Nat

/-- The function `iommu_init_mapping(dev, mapping)`. -/
def iommu_init_mapping (env : init_env) (mapping : dma_iommu_mapping) :
    dma_iommu_mapping × Int :=
  if env.iommu_get_dma_cookie_ret ≠ 0 then (mapping, -EINVAL)
  else if env.iommu_dma_init_domain_ret ≠ 0 then (mapping, -EINVAL)
  else ({ mapping with ops := some dma_map_ops.iommu_dma_ops }, 0)

/-- The local `vmid` of `bitmap_iommu_init_mapping` once it has been read
and range-checked. -/
def bitmap_init_vmid (env : init_env) (mapping : dma_iommu_mapping) : Int :=
  let vmid := iommu_domain_get_attr mapping.domain.attr_secure_vmid env.VMID_HLOS
  if vmid ≥ env.VMID_LAST ∨ vmid < 0 then env.VMID_HLOS else vmid

/-- The function `bitmap_iommu_init_mapping(dev, mapping)`. -/
def bitmap_iommu_init_mapping (env : init_env) (mapping : dma_iommu_mapping) :
    dma_iommu_mapping × Int :=
  let min_iova_align := iommu_domain_get_attr mapping.domain.attr_errata_min_iova_align 0
  let vmid := bitmap_init_vmid env mapping
  let m1 :=
    if min_iova_align ≠ 0 then
      { mapping with min_iova_align := env.ARM_SMMU_MIN_IOVA_ALIGN,
                     guard_page := env.guard_page vmid }
    else mapping
  if min_iova_align ≠ 0 ∧ m1.guard_page = none then (m1, -ENOMEM)
  else if env.kzalloc_ok ∨ env.vzalloc_ok then
    ({ m1 with bitmap := fun _ => false, bitmap_allocated := true,
               ops := some dma_map_ops.iommu_ops }, 0)
  else ({ m1 with bitmap_allocated := false }, -ENOMEM)

/-- Modelled from the spec: fast_smmu_init_mapping is the fast-path initializer, not
under src/ (a specialized mapper, out of scope of the spec); it reports
success or an error, and on success the context delegates to the fast
operation set. -/
def fast_smmu_init_mapping (env : init_env) (mapping : dma_iommu_mapping) :
    dma_iommu_mapping × Int :=
  if env.fast_smmu_init_mapping_ret = 0 then
    ({ mapping with ops := some dma_map_ops.fast_smmu_dma_ops }, 0)
  else (mapping, env.fast_smmu_init_mapping_ret)

/-- The local `iova_end` of `arm_iommu_init_mapping`:
`mapping->base + (mapping->bits << PAGE_SHIFT) - 1` on 64-bit words. -/
def iova_end (mapping : dma_iommu_mapping) : Nat :=
  (mapping.base + (mapping.bits <<< PAGE_SHIFT) % U64 + U64 - 1) % U64

/-- The mode selection of `arm_iommu_init_mapping`: the attribute reads and
the `if (s1_bypass) ... else if (is_fast) ... else if (is_bitmap) ... else`
chain that sets `err`. -/
def init_mapping_mode (env : init_env) (mapping : dma_iommu_mapping) :
    dma_iommu_mapping × Int :=
  let s1_bypass := iommu_domain_get_attr mapping.domain.attr_s1_bypass 0
  let is_fast := iommu_domain_get_attr mapping.domain.attr_fast 0
  let is_bitmap := iommu_domain_get_attr mapping.domain.attr_bitmap_iova_allocator 0
  if s1_bypass ≠ 0 then ({ mapping with ops := some dma_map_ops.swiotlb_dma_ops }, 0)
  else if is_fast ≠ 0 then fast_smmu_init_mapping env mapping
  else if is_bitmap ≠ 0 then bitmap_iommu_init_mapping env mapping
  else iommu_init_mapping env mapping

/-- The function `arm_iommu_init_mapping(dev, mapping)`; the device enters
through its DMA mask in `env`. -/
def arm_iommu_init_mapping (env : init_env) (mapping : dma_iommu_mapping) :
    dma_iommu_mapping × Int :=
  if mapping.init then (mapping, 0)
  else if iova_end mapping > env.dma_mask then (mapping, -EINVAL)
  else
    let r := init_mapping_mode env mapping
    if r.2 = 0 then ({ r.1 with kref := 1, init := true }, r.2)
    else r

/-- An IOMMU group: its identity and the domain it is attached to, which is
what `iommu_get_domain_for_dev` reports for its devices. -/
structure iommu_group where
  id : Nat
  domain : Option Nat
  deriving DecidableEq, Repr

/-- The fields of `struct device` the attachment code uses: the IOMMU group,
the recorded context `archdata.mapping` (by address) and the active DMA
operations. -/
structure device where
  iommu_group : Option iommu_group
  archdata_mapping : Option Nat
  dma_ops : Option dma_map_ops
  deriving DecidableEq, Repr

/-- Modelled from the spec: iommu_get_domain_for_dev is the IOMMU core lookup of the
device's currently attached domain, not under src/. -/
def iommu_get_domain_for_dev (dev : device) : Option Nat :=
  match dev.iommu_group with
  | some g => g.domain
  | none => none

/-- Modelled from the spec: iommu_attach_group is the IOMMU core group join, not under
src/: `attach_group(domain, group) -> ok|fail`; `ret` is its outcome, and on
success the group is attached to the domain. -/
def iommu_attach_group (domain : iommu_domain) (group : iommu_group) (ret : Int) :
    iommu_group × Int :=
  if ret = 0 then ({ group with domain := some domain.id }, 0) else (group, ret)

/-- Modelled from the spec: iommu_detach_group is the IOMMU core group leave, not under
src/: afterwards the group is no longer attached to the domain. -/
def iommu_detach_group (_domain : iommu_domain) (group : iommu_group) : iommu_group :=
  { group with domain := none }

/-- The function `arm_iommu_attach_device(dev, mapping)`. `attach_ret` is the
outcome of `iommu_attach_group`. The result is the device and the context
afterwards and the return value. -/
def arm_iommu_attach_device (env : init_env) (attach_ret : Int) (dev : device)
    (mapping : dma_iommu_mapping) : device × dma_iommu_mapping × Int :=
  match dev.iommu_group with
  | none => (dev, mapping, -EINVAL)
  | some group =>
    if (iommu_get_domain_for_dev dev).isSome then (dev, mapping, -EINVAL)
    else
      let a := iommu_attach_group mapping.domain group attach_ret
      if a.2 ≠ 0 then (dev, mapping, a.2)
      else
        let r := arm_iommu_init_mapping env mapping
        if r.2 ≠ 0 then
          ({ dev with iommu_group := some (iommu_detach_group mapping.domain a.1) }, r.1, r.2)
        else
          ({ iommu_group := some a.1, archdata_mapping := some mapping.addr,
             dma_ops := r.1.ops }, r.1, 0)

/-- A context as `arm_iommu_create_mapping` hands it out: zero-filled apart
from the base, the page count and the domain, and not yet initialized. -/
def uninitialized_mapping (addr base bits : Nat) (domain : iommu_domain) : dma_iommu_mapping :=
  { addr := addr, domain := domain, init := false, kref := 0, ops := none,
    bitmap := fun _ => false, bitmap_allocated := false, bits := bits, base := base,
    min_iova_align := 0, guard_page := none }

/-- A domain that reports the bitmap-allocator attribute and nothing else. -/
def bitmap_domain (id : Nat) : iommu_domain :=
  { id := id, attr_s1_bypass := none, attr_fast := none,
    attr_bitmap_iova_allocator := some 1,
    attr_errata_min_iova_align := none, attr_secure_vmid := none }

/-- Surroundings in which every allocation and every external call succeeds,
for a device with a 32-bit DMA mask. -/
def friendly_env : init_env :=
  { dma_mask := 2 ^ 32 - 1, guard_page := fun _ => some 1, kzalloc_ok := true,
    vzalloc_ok := true, fast_smmu_init_mapping_ret := 0, iommu_get_dma_cookie_ret := 0,
    iommu_dma_init_domain_ret := 0, VMID_HLOS := 3, VMID_LAST := 46,
    ARM_SMMU_MIN_IOVA_ALIGN := 16384 }

/-- A device in IOMMU group `group` that is attached to nothing. -/
def detached_device (group : Nat) : device :=
  { iommu_group := some { id := group, domain := none }, archdata_mapping := none,
    dma_ops := none }

/-! ## VMA life cycle (msm_gem_vma.c, the iova-managing operations) -/

/-- The errno value `EBUSY`. -/
def EBUSY : Int := 16

/-- The fields of `struct msm_gem_vma`: the reserved address (0: none), the
`mapped` flag, the `inuse` counter (an `int`, whose overflow is undefined in
C and is not modelled) and the start and size of the range node. -/
structure msm_gem_vma where
  iova : Nat
  mapped : Bool
  inuse : Int
  node_start : Nat
  node_size : Nat
  deriving DecidableEq, Repr

/-- The fields of `struct msm_gem_address_space` the VMA operations use:
whether `mmu` is non-NULL, the reference count, and whether the last
reference has been dropped (the object destroyed). -/
structure msm_gem_address_space where
  mmu : Bool
  kref : Nat
  destroyed : Bool
  deriving DecidableEq, Repr

/-- The function `msm_gem_address_space_put(aspace)` for a non-NULL
`aspace`: `kref_put` with the address-space destructor. -/
def msm_gem_address_space_put (aspace : msm_gem_address_space) : msm_gem_address_space :=
  let r := kref_put aspace.kref
  { aspace with kref := r.1, destroyed := aspace.destroyed || r.2 }

/-- The function `msm_gem_purge_vma(aspace, vma)`. -/
def msm_gem_purge_vma (_aspace : msm_gem_address_space) (vma : msm_gem_vma) : msm_gem_vma :=
  if vma.inuse > 0 then vma
  else if !vma.mapped then vma
  else { vma with mapped := false }

/-- The function `msm_gem_unmap_vma(aspace, vma)` of line 95:
`if (!WARN_ON(!vma->iova)) vma->inuse--;`. -/
def msm_gem_unmap_vma (_aspace : msm_gem_address_space) (vma : msm_gem_vma) : msm_gem_vma :=
  if vma.iova ≠ 0 then { vma with inuse := vma.inuse - 1 } else vma

/-- The function `msm_gem_map_vma(aspace, vma, prot, sgt, npages)` of line
102. `aspace` is `none` for a NULL pointer and `mmu_map_ret` is what the MMU
map call returns, should it be made. -/
def msm_gem_map_vma (aspace : Option msm_gem_address_space) (vma : msm_gem_vma)
    (mmu_map_ret : Int) : msm_gem_vma × Int :=
  if vma.iova = 0 then (vma, -EINVAL)
  else
    let v1 := { vma with inuse := vma.inuse + 1 }
    if v1.mapped then (v1, 0)
    else
      let v2 := { v1 with mapped := true }
      let ret : Int :=
        match aspace with
        | some a => if a.mmu then mmu_map_ret else 0
        | none => 0
      if ret ≠ 0 then ({ v2 with mapped := false, inuse := v2.inuse - 1 }, ret)
      else (v2, ret)

/-- The function `msm_gem_close_vma(aspace, vma)`. -/
def msm_gem_close_vma (aspace : msm_gem_address_space) (vma : msm_gem_vma) :
    msm_gem_address_space × msm_gem_vma :=
  if vma.inuse > 0 ∨ vma.mapped then (aspace, vma)
  else (msm_gem_address_space_put aspace, { vma with iova := 0 })

/-- The function `msm_gem_init_vma(aspace, vma, npages, range_start,
range_end)`. `insert_ret` is what `drm_mm_insert_node_in_range` returns and
`node_start` the page index it chose. -/
def msm_gem_init_vma (aspace : msm_gem_address_space) (vma : msm_gem_vma) (npages : Nat)
    (insert_ret : Int) (node_start : Nat) :
    msm_gem_address_space × msm_gem_vma × Int :=
  if vma.iova ≠ 0 then (aspace, vma, -EBUSY)
  else if insert_ret ≠ 0 then (aspace, vma, insert_ret)
  else
    ({ aspace with kref := aspace.kref + 1 },
     { vma with node_start := node_start, node_size := npages,
                iova := (node_start <<< PAGE_SHIFT) % U64, mapped := false }, 0)

/-- One call on a VMA, with the outcome of the external call it may make. -/
inductive vma_op where
  | init (npages : Nat) (insert_ret : Int) (node_start : Nat)
  | map (mmu_map_ret : Int)
  | unmap
  | purge
  | close
  deriving DecidableEq, Repr

/-- An address space and one VMA in it. -/
structure vma_state where
  aspace : msm_gem_address_space
  vma : msm_gem_vma
  deriving DecidableEq, Repr

/-- Apply one call. -/
def vma_step (st : vma_state) : vma_op → vma_state
  | .init npages insert_ret node_start =>
    let r := msm_gem_init_vma st.aspace st.vma npages insert_ret node_start
    { aspace := r.1, vma := r.2.1 }
  | .map mmu_map_ret => { st with vma := (msm_gem_map_vma (some st.aspace) st.vma mmu_map_ret).1 }
  | .unmap => { st with vma := msm_gem_unmap_vma st.aspace st.vma }
  | .purge => { st with vma := msm_gem_purge_vma st.aspace st.vma }
  | .close =>
    let r := msm_gem_close_vma st.aspace st.vma
    { aspace := r.1, vma := r.2 }

/-- The states after each call of a sequence, in order. -/
def vma_states (st : vma_state) : List vma_op → List vma_state
  | [] => []
  | op :: ops => vma_step st op :: vma_states (vma_step st op) ops

/-- The zeroed VMA: `iova = 0`, `mapped = false`, `inuse = 0`. -/
def zeroed_vma : msm_gem_vma :=
  { iova := 0, mapped := false, inuse := 0, node_start := 0, node_size := 0 }

/-- The VMA invariant of the spec: `mapped == false` implies `inuse == 0`. -/
def vma_invariant (vma : msm_gem_vma) : Prop := vma.mapped = false → vma.inuse = 0

/-- Every `msm_gem_unmap_vma` of the sequence is issued while the counter is
positive, that is, it drops a use that a map call took. -/
def unmaps_balanced (st : vma_state) : List vma_op → Prop
  | [] => True
  | op :: ops => (op = vma_op.unmap → 0 < st.vma.inuse) ∧ unmaps_balanced (vma_step st op) ops

/-! ## Scatter-list mapping: arm_iommu_map_sg -/

/-- The fields of `struct scatterlist` the mapper uses: the segment length
and the two DMA annotations (`unsigned int length`, `dma_addr_t dma_address`,
`unsigned int dma_length`). -/
structure scatterlist where
  length : Nat
  dma_address : Nat
  dma_length : Nat
  deriving DecidableEq, Repr

/-- The first loop of `arm_iommu_map_sg`: `total_length += s->length` over
the segments, in an `unsigned int`. -/
def sg_total_length (sg : List scatterlist) : Nat :=
  sg.foldl (fun total s => (total + s.length) % U32) 0

/-- The second loop of `arm_iommu_map_sg`, entered with `current_offset`:
each segment gets `dma_address = iova + current_offset` and
`dma_length = total_length - current_offset`, and the offset advances by the
segment length (both `unsigned int`). -/
def sg_assign (iova total_length : Nat) : Nat → List scatterlist → List scatterlist
  | _, [] => []
  | current_offset, s :: rest =>
    { s with dma_address := (iova + current_offset) % U64,
             dma_length := (total_length + U32 - current_offset) % U32 } ::
      sg_assign iova total_length ((current_offset + s.length) % U32) rest

/-- The function `arm_iommu_map_sg(dev, sg, nents, dir, attrs)` on the
context of the device. `guard_map_ret` is the outcome of the guard-region
`iommu_map` inside `__alloc_iova`, `iommu_map_sg_ret` the length
`iommu_map_sg` reports as mapped. The result is the context and the list
afterwards and the return value. -/
def arm_iommu_map_sg (maxOrder : Nat) (mapping : dma_iommu_mapping) (sg : List scatterlist)
    (nents : Nat) (guard_map_ret : Int) (iommu_map_sg_ret : Nat) :
    dma_iommu_mapping × List scatterlist × Nat :=
  let total_length := sg_total_length (sg.take nents)
  let a := __alloc_iova maxOrder mapping total_length guard_map_ret
  if a.2 = DMA_ERROR_CODE then (a.1, sg, 0)
  else if iommu_map_sg_ret % U32 ≠ total_length then
    (__free_iova a.1 a.2 total_length, sg, 0)
  else (a.1, sg_assign a.2 total_length 0 (sg.take nents) ++ sg.drop nents, nents)

/-- The sum of the segment lengths, as a plain number. -/
def sg_lengths_sum (sg : List scatterlist) : Nat := (sg.map scatterlist.length).sum

/-! ## Device detachment: arm_iommu_detach_device -/

/-- The calls `arm_iommu_detach_device` makes into code outside the file, in
the order it makes them: the drain of the deferred unmaps
(`msm_dma_unmap_all_for_dev`) and the removal of the group from the domain
(`iommu_detach_group`, with the identities of the domain and the group). -/
inductive detach_event where
  | msm_dma_unmap_all_for_dev
  | iommu_detach_group (domain group : Nat)
  deriving DecidableEq, Repr

/-- The function `arm_iommu_detach_device(dev)`. `deref` reads the context a
recorded pointer refers to (`to_dma_iommu_mapping(dev)` is
`dev->archdata.mapping`). The result is the device afterwards and the calls
made. -/
def arm_iommu_detach_device (deref : Nat → dma_iommu_mapping) (dev : device) :
    device × List detach_event :=
  match dev.archdata_mapping with
  | none => (dev, [])
  | some addr =>
    let mapping := deref addr
    match dev.iommu_group with
    | none => (dev, [])
    | some group =>
      let s1_bypass := iommu_domain_get_attr mapping.domain.attr_s1_bypass 0
      ({ iommu_group := some (iommu_detach_group mapping.domain group),
         archdata_mapping := none,
         dma_ops := if s1_bypass = 0 then none else dev.dma_ops },
       [detach_event.msm_dma_unmap_all_for_dev,
        detach_event.iommu_detach_group mapping.domain.id group.id])

/-! ## Effects of the buffer mapper: IOMMU programming, cache maintenance, pages -/

/-- The values of `enum dma_data_direction`. -/
inductive dma_data_direction where
  | DMA_BIDIRECTIONAL
  | DMA_TO_DEVICE
  | DMA_FROM_DEVICE
  | DMA_NONE
  deriving DecidableEq, Repr

/-- The calls the buffer mapper makes into code outside the file, in the
order it makes them. A page (`struct page *`) is named by its page-frame
number; a call that returns a value carries the value returned. -/
inductive dma_event where
  | iommu_map (iova paddr size : Nat) (ret : Int)
  | iommu_unmap (iova size : Nat)
  | dma_map_area (page off size : Nat) (dir : dma_data_direction)
  | dma_unmap_area (page off size : Nat) (dir : dma_data_direction)
  | set_dcache_clean (page : Nat)
  | memset_zero (page size : Nat)
  | dma_flush_area (page size : Nat)
  | alloc_page_array (array_size : Nat) (ok : Bool)
  | free_page_array
  | alloc_pages (order : Nat) (page : Option Nat)
  | split_page (page order : Nat)
  | free_pages (page order : Nat)
  | dma_alloc_from_contiguous (count order : Nat) (page : Option Nat)
  | dma_release_from_contiguous (page count : Nat)
  | alloc_from_pool (size : Nat) (page : Option Nat)
  | free_from_pool (page size : Nat)
  | dma_common_pages_remap (size : Nat) (ok : Bool)
  | dma_common_free_remap (size : Nat)
  | WARN
  deriving DecidableEq, Repr

/-- The DMA attribute bits the modelled functions test
(`DMA_ATTR_FORCE_CONTIGUOUS`, `DMA_ATTR_NO_KERNEL_MAPPING`,
`DMA_ATTR_SKIP_ZEROING`, `DMA_ATTR_SKIP_CPU_SYNC`). -/
structure dma_attrs where
  force_contiguous : Bool
  no_kernel_mapping : Bool
  skip_zeroing : Bool
  skip_cpu_sync : Bool
  deriving DecidableEq, Repr

/-- Modelled from the spec: page_to_phys is an architecture macro, not under src/: the
physical address of the page with page-frame number `page`, a 64-bit
`phys_addr_t`. -/
def page_to_phys (page : Nat) : Nat := (page <<< PAGE_SHIFT) % U64

/-- Modelled from the spec: phys_to_page is an architecture macro, not under src/: the
page that holds a physical address. -/
def phys_to_page (phys : Nat) : Nat := phys >>> PAGE_SHIFT

/-- Conversion of an unsigned word to `int`: the low 32 bits, read in two's
complement. -/
def to_int (x : Nat) : Int :=
  if x % U32 < 2 ^ 31 then ((x % U32 : Nat) : Int) else ((x % U32 : Nat) : Int) - ((U32 : Nat) : Int)

/-- Conversion of an `int` to a 64-bit unsigned word (`size_t`,
`unsigned long`, `dma_addr_t`): the value modulo 2^64. -/
def of_int (i : Int) : Nat := (i % ((U64 : Nat) : Int)).toNat

/-- The function `__dma_page_cpu_to_dev(page, off, size, dir)`. -/
def __dma_page_cpu_to_dev (page off size : Nat) (dir : dma_data_direction) : List dma_event :=
  [dma_event.dma_map_area page off size dir]

/-- The function `__dma_page_dev_to_cpu(page, off, size, dir)`: the cache
invalidate of the region, and the `PG_dcache_clean` mark for a whole page
that the device may have written. -/
def __dma_page_dev_to_cpu (page off size : Nat) (dir : dma_data_direction) : List dma_event :=
  dma_event.dma_unmap_area page off size dir ::
    (if dir ≠ dma_data_direction.DMA_TO_DEVICE ∧ off = 0 ∧ size ≥ PAGE_SIZE then
      [dma_event.set_dcache_clean page]
     else [])

/-- The IOMMU call `__alloc_iova(mapping, size)` makes: the mapping of the
guard region behind the run to the guard page, attempted when the search
succeeded and the guard length is not zero. -/
def alloc_iova_events (maxOrder : Nat) (mapping : dma_iommu_mapping) (size : Nat)
    (iommu_map_ret : Int) : List dma_event :=
  let guard_len := iova_guard_len mapping (PAGE_ALIGN size)
  let start := alloc_iova_start maxOrder mapping size
  if start > mapping.bits then []
  else
    let iova := (mapping.base + (start <<< PAGE_SHIFT) % U32) % U64
    if guard_len ≠ 0 then
      [dma_event.iommu_map ((iova + PAGE_ALIGN size) % U64)
        (page_to_phys (mapping.guard_page.getD 0)) guard_len iommu_map_ret]
    else []

/-- The IOMMU call `__free_iova(mapping, addr, size)` makes: the unmapping of
the guard region, whenever the erratum alignment is set. -/
def free_iova_events (mapping : dma_iommu_mapping) (addr size : Nat) : List dma_event :=
  let addr := addr &&& PAGE_MASK
  let size := PAGE_ALIGN size
  if mapping.min_iova_align ≠ 0 then
    [dma_event.iommu_unmap ((addr + size) % U64) (iova_guard_len mapping size)]
  else []

/-! ## Single-buffer mapping: arm_iommu_map_page and arm_iommu_unmap_page -/

/-- The local `len` of `arm_coherent_iommu_map_page`:
`PAGE_ALIGN(map_offset + size)` stored in an `int`, with
`map_offset = offset & ~PAGE_MASK` an `int` as well. -/
def map_page_len (offset size : Nat) : Int :=
  let map_offset := to_int (offset &&& (PAGE_SIZE - 1))
  to_int (PAGE_ALIGN ((of_int map_offset + size) % U64))

/-- The function `arm_coherent_iommu_map_page(dev, page, offset, size, dir,
attrs)` on the context of the device. `guard_map_ret` is the outcome of the
guard-region `iommu_map` inside `__alloc_iova`, `iommu_map_ret` that of the
`iommu_map` of the buffer. The result is the context afterwards, the
returned address and the calls made. -/
def arm_coherent_iommu_map_page (maxOrder : Nat) (mapping : dma_iommu_mapping)
    (page offset size : Nat) (guard_map_ret iommu_map_ret : Int) :
    dma_iommu_mapping × Nat × List dma_event :=
  let map_offset := to_int (offset &&& (PAGE_SIZE - 1))
  let start_offset := to_int (offset &&& PAGE_MASK)
  let len := map_page_len offset size
  let a := __alloc_iova maxOrder mapping (of_int len) guard_map_ret
  let ev := alloc_iova_events maxOrder mapping (of_int len) guard_map_ret
  if a.2 = DMA_ERROR_CODE then (a.1, a.2, ev)
  else
    let ev := ev ++ [dma_event.iommu_map a.2 ((page_to_phys page + of_int start_offset) % U64)
      (of_int len) iommu_map_ret]
    if iommu_map_ret < 0 then
      (__free_iova a.1 a.2 (of_int len), DMA_ERROR_CODE,
        ev ++ free_iova_events a.1 a.2 (of_int len))
    else (a.1, (a.2 + of_int map_offset) % U64, ev)

/-- The function `arm_iommu_map_page(dev, page, offset, size, dir, attrs)`.
`coherent` is the value of `is_dma_coherent(dev, attrs)`. -/
def arm_iommu_map_page (maxOrder : Nat) (mapping : dma_iommu_mapping) (coherent : Bool)
    (attrs : dma_attrs) (page offset size : Nat) (dir : dma_data_direction)
    (guard_map_ret iommu_map_ret : Int) : dma_iommu_mapping × Nat × List dma_event :=
  let sync :=
    if !coherent && !attrs.skip_cpu_sync then __dma_page_cpu_to_dev page offset size dir
    else []
  let r := arm_coherent_iommu_map_page maxOrder mapping page offset size guard_map_ret
    iommu_map_ret
  (r.1, r.2.1, sync ++ r.2.2)

/-- The local `len` of `arm_iommu_unmap_page`: `PAGE_ALIGN(size + offset)`
stored in an `int`, with `offset = handle & ~PAGE_MASK` an `int` as well. -/
def unmap_page_len (handle size : Nat) : Int :=
  let offset := to_int (handle &&& (PAGE_SIZE - 1))
  to_int (PAGE_ALIGN ((size + of_int offset) % U64))

/-- The function `arm_iommu_unmap_page(dev, handle, size, dir, attrs)` on the
context of the device. `coherent` is the value of
`is_dma_coherent(dev, attrs)`, `iommu_iova_to_phys` the translation the
IOMMU driver reports. The result is the context afterwards and the calls
made. -/
def arm_iommu_unmap_page (mapping : dma_iommu_mapping) (coherent : Bool) (attrs : dma_attrs)
    (iommu_iova_to_phys : Nat → Nat) (handle size : Nat) (dir : dma_data_direction) :
    dma_iommu_mapping × List dma_event :=
  let iova := handle &&& PAGE_MASK
  let page := phys_to_page (iommu_iova_to_phys iova)
  let offset := to_int (handle &&& (PAGE_SIZE - 1))
  let len := unmap_page_len handle size
  let sync :=
    if !(coherent || attrs.skip_cpu_sync) then
      __dma_page_dev_to_cpu page (of_int offset) size dir
    else []
  (__free_iova mapping iova (of_int len),
    sync ++ [dma_event.iommu_unmap iova (of_int len)] ++
      free_iova_events mapping iova (of_int len))

/-- The attribute word with no bit set. -/
def no_attrs : dma_attrs :=
  { force_contiguous := false, no_kernel_mapping := false, skip_zeroing := false,
    skip_cpu_sync := false }

/-! ## Coherent buffers: arm_iommu_alloc_attrs and arm_iommu_free_attrs -/

/-- How a run of the model ended: normally, at a point where the C code has
undefined behaviour (`__fls(0)`, a wild pointer), or with a loop bound of the
model exhausted. In the last two cases the other components of a result are
the state reached so far. -/
inductive run_status where
  | finished
  | undefined_behaviour
  | out_of_fuel
  deriving DecidableEq, Repr

/-- What the buffer allocator draws from its surroundings: the outcome of
the `iommu_map` of a run (by iova, physical address and length) and of the
guard-region `iommu_map`, of the allocation of the page array, of the n-th
`alloc_pages` call (by n and order), of `dma_alloc_from_contiguous` (by
count and order), of `__alloc_from_pool` (by size; the backing page) and of
`dma_common_pages_remap`, and the `pgsize_bitmap` of the domain and the
constant `MAX_ORDER`. -/
structure dma_env where
  iommu_map : Nat → Nat → Nat → Int
  guard_map_ret : Int
  page_array_ok : Bool
  alloc_pages : Nat → Nat → Option Nat
  dma_alloc_from_contiguous : Nat → Nat → Option Nat
  alloc_from_pool : Nat → Option Nat
  remap_ok : Bool
  pgsize_bitmap : Nat
  MAX_ORDER : Nat

/-- Modelled from the spec: __fls is the kernel bit routine, not under src/: the index of
the most significant set bit of an `unsigned long`, undefined for 0
(`none`). -/
def __fls (x : Nat) : Option Nat :=
  if x % U64 = 0 then none else some (fls 64 (x % U64) - 1)

/-- The pages `page`, `page + 1`, ..., `page + n - 1`. -/
def page_range (page n : Nat) : List Nat := (List.range n).map (fun j => page + j)

/-- The function `__dma_clear_buffer(page, size, attrs, is_coherent)`: the
zero fill unless `DMA_ATTR_SKIP_ZEROING` is set, and the cache flush for a
non-coherent buffer. -/
def __dma_clear_buffer (page size : Nat) (attrs : dma_attrs) (is_coherent : Bool) :
    List dma_event :=
  (if !attrs.skip_zeroing then [dma_event.memset_zero page size] else []) ++
  (if !is_coherent then [dma_event.dma_flush_area page size] else [])

/-- The state of one round of the page-acquisition loop of
`__iommu_alloc_buffer`: `pages[i]`, `order`, `order_mask`, the number of
`alloc_pages` calls made so far, and the calls made. -/
structure buffer_try where
  page : Option Nat
  order : Nat
  order_mask : Nat
  calls : Nat
  events : List dma_event
  status : run_status

/-- The retry loop `while (!pages[i] && order)` of `__iommu_alloc_buffer`:
drop the order that failed from the mask (`~(1U << order)` is an
`unsigned int`), take the highest order left and try again. -/
def alloc_buffer_retry (env : dma_env) : Nat → buffer_try → buffer_try
  | 0, t => if t.page = none ∧ t.order ≠ 0 then { t with status := run_status.out_of_fuel } else t
  | fuel + 1, t =>
    if t.page = none ∧ t.order ≠ 0 then
      let order_mask := t.order_mask &&& (U32 - 1 - (1 <<< t.order) % U32)
      match __fls order_mask with
      | none => { t with order_mask := order_mask, status := run_status.undefined_behaviour }
      | some order =>
        let page := env.alloc_pages t.calls order
        alloc_buffer_retry env fuel
          { page := page, order := order, order_mask := order_mask, calls := t.calls + 1,
            events := t.events ++ [dma_event.alloc_pages order page], status := t.status }
    else t

/-- The state of the loop `while (count)` of `__iommu_alloc_buffer`: the
entries `pages[0..i)` written so far, `order_mask`, `count`, the number of
`alloc_pages` calls made so far, and the calls made. -/
structure buffer_loop where
  pages : List Nat
  order_mask : Nat
  count : Nat
  calls : Nat
  events : List dma_event

/-- How the loop `while (count)` ended: `ok` when it ran to `count == 0`,
not `ok` when it left with `goto error`. -/
structure buffer_loop_result where
  ok : Bool
  pages : List Nat
  events : List dma_event
  status : run_status

/-- The loop `while (count)` of `__iommu_alloc_buffer`. Each round takes the
highest order of the mask that does not exceed the pages left
(`order_mask &= (2U << __fls(count)) - 1`, a shift of an `unsigned int`,
undefined from 32 bits on), acquires a chunk of that order or, failing that,
of a lower one, splits it and clears it. -/
def alloc_buffer_loop (env : dma_env) (attrs : dma_attrs) (is_coherent : Bool) :
    Nat → buffer_loop → buffer_loop_result
  | 0, s =>
    if s.count = 0 then
      { ok := true, pages := s.pages, events := s.events, status := run_status.finished }
    else { ok := false, pages := s.pages, events := s.events, status := run_status.out_of_fuel }
  | fuel + 1, s =>
    if s.count = 0 then
      { ok := true, pages := s.pages, events := s.events, status := run_status.finished }
    else
      match __fls s.count with
      | none =>
        { ok := false, pages := s.pages, events := s.events,
          status := run_status.undefined_behaviour }
      | some top =>
        let order_mask := s.order_mask &&& (((2 <<< top) % U32 + U32 - 1) % U32)
        match (if top < 32 then __fls order_mask else none) with
        | none =>
          { ok := false, pages := s.pages, events := s.events,
            status := run_status.undefined_behaviour }
        | some order =>
          let page := env.alloc_pages s.calls order
          let r := alloc_buffer_retry env 64
            { page := page, order := order, order_mask := order_mask, calls := s.calls + 1,
              events := s.events ++ [dma_event.alloc_pages order page],
              status := run_status.finished }
          if r.status ≠ run_status.finished then
            { ok := false, pages := s.pages, events := r.events, status := r.status }
          else
            match r.page with
            | none =>
              { ok := false, pages := s.pages, events := r.events,
                status := run_status.finished }
            | some p =>
              alloc_buffer_loop env attrs is_coherent fuel
                { pages := s.pages ++ page_range p (1 <<< r.order),
                  order_mask := r.order_mask,
                  count := (s.count + U64 - (1 <<< r.order) % U64) % U64,
                  calls := r.calls,
                  events := r.events ++
                    (if r.order ≠ 0 then [dma_event.split_page p r.order] else []) ++
                    __dma_clear_buffer p ((PAGE_SIZE <<< r.order) % U64) attrs is_coherent }

/-- The function `__iommu_alloc_buffer(dev, size, gfp, attrs)`. The result is
the page array (`none` for NULL), the calls made and how the run ended. The
array is the list of its entries; every entry below `i` has been written
with a page, so the NULL test of the error path passes for each of them. -/
def __iommu_alloc_buffer (env : dma_env) (size : Nat) (attrs : dma_attrs)
    (is_coherent : Bool) : Option (List Nat) × List dma_event × run_status :=
  let count := size >>> PAGE_SHIFT
  let array_size := (count * 8) % U64
  let ev := [dma_event.alloc_page_array array_size env.page_array_ok]
  if !env.page_array_ok then (none, ev, run_status.finished)
  else if attrs.force_contiguous then
    let order := get_order size
    match env.dma_alloc_from_contiguous count order with
    | none =>
      (none, ev ++ [dma_event.dma_alloc_from_contiguous count order none,
        dma_event.free_page_array], run_status.finished)
    | some p =>
      (some (page_range p count),
       ev ++ [dma_event.dma_alloc_from_contiguous count order (some p)] ++
         __dma_clear_buffer p size attrs is_coherent, run_status.finished)
  else
    let alloc_sizes := env.pgsize_bitmap % U32
    let order_mask := (alloc_sizes >>> PAGE_SHIFT) &&&
      (((2 <<< env.MAX_ORDER) % U32 + U32 - 1) % U32)
    if order_mask = 0 then (none, ev ++ [dma_event.free_page_array], run_status.finished)
    else
      let r := alloc_buffer_loop env attrs is_coherent count
        { pages := [], order_mask := order_mask, count := count, calls := 0, events := ev }
      if r.status ≠ run_status.finished then (none, r.events, r.status)
      else if r.ok then (some r.pages, r.events, run_status.finished)
      else
        (none,
         r.events ++ r.pages.reverse.map (fun p => dma_event.free_pages p 0) ++
           [dma_event.free_page_array], run_status.finished)

/-- The function `__iommu_free_buffer(dev, pages, size, attrs)`; `count` is
an `int`. An entry read beyond the end of the list reads as page 0. -/
def __iommu_free_buffer (pages : List Nat) (size : Nat) (attrs : dma_attrs) :
    List dma_event :=
  let count := to_int (size >>> PAGE_SHIFT)
  (if attrs.force_contiguous then
    [dma_event.dma_release_from_contiguous (pages.getD 0 0) (of_int count)]
   else (List.range count.toNat).map (fun i => dma_event.free_pages (pages.getD i 0) 0)) ++
  [dma_event.free_page_array]

/-- The inner loop of `__iommu_create_mapping`,
`for (j = i + 1; j < count; j++, next_pfn++)`: the first `j` whose page does
not continue the run of consecutive page-frame numbers, or `count`. No more
than `count` rounds are ever needed. -/
def run_end (pages : List Nat) (count : Nat) : Nat → Nat → Nat → Nat
  | 0, j, _ => j
  | fuel + 1, j, next_pfn =>
    if j < count then
      if pages.getD j 0 ≠ next_pfn then j
      else run_end pages count fuel (j + 1) ((next_pfn + 1) % U32)
    else j

/-- The loop `for (i = 0; i < count; )` of `__iommu_create_mapping`, entered
with `i` and `iova`: one `iommu_map` per run of pages with consecutive
page-frame numbers. The result tells whether the loop ran to the end
(`false`: it left with `goto fail`), the final `iova` and the calls made. No
more than `count` rounds are ever needed, since every round advances `i`. -/
def create_mapping_loop (env : dma_env) (pages : List Nat) (count : Nat) :
    Nat → Nat → Nat → List dma_event → Bool × Nat × List dma_event
  | 0, _, iova, events => (true, iova, events)
  | fuel + 1, i, iova, events =>
    if i < count then
      let next_pfn := (pages.getD i 0 + 1) % U32
      let phys := page_to_phys (pages.getD i 0)
      let j := run_end pages count count (i + 1) next_pfn
      let len := ((j - i) <<< PAGE_SHIFT) % U32
      let ret := env.iommu_map iova phys len
      let events := events ++ [dma_event.iommu_map iova phys len ret]
      if ret < 0 then (false, iova, events)
      else create_mapping_loop env pages count fuel j ((iova + len) % U64) events
    else (true, iova, events)

/-- The function `__iommu_create_mapping(dev, pages, size, attrs)` on the
context of the device. The result is the context afterwards, the returned
address and the calls made. -/
def __iommu_create_mapping (maxOrder : Nat) (env : dma_env) (mapping : dma_iommu_mapping)
    (pages : List Nat) (size : Nat) : dma_iommu_mapping × Nat × List dma_event :=
  let count := (PAGE_ALIGN size >>> PAGE_SHIFT) % U32
  let a := __alloc_iova maxOrder mapping size env.guard_map_ret
  let ev := alloc_iova_events maxOrder mapping size env.guard_map_ret
  if a.2 = DMA_ERROR_CODE then (a.1, a.2, ev)
  else
    let r := create_mapping_loop env pages count count 0 a.2 ev
    if r.1 then (a.1, a.2, r.2.2)
    else
      (__free_iova a.1 a.2 size, DMA_ERROR_CODE,
       r.2.2 ++ [dma_event.iommu_unmap a.2 ((r.2.1 + U64 - a.2) % U64)] ++
         free_iova_events a.1 a.2 size)

/-- The function `__iommu_remove_mapping(dev, iova, size)` on the context of
the device. -/
def __iommu_remove_mapping (mapping : dma_iommu_mapping) (iova size : Nat) :
    dma_iommu_mapping × List dma_event :=
  let size := PAGE_ALIGN (((iova &&& (PAGE_SIZE - 1)) + size) % U64)
  let iova := iova &&& PAGE_MASK
  (__free_iova mapping iova size,
   [dma_event.iommu_unmap iova size] ++ free_iova_events mapping iova size)


/-- A CPU address `arm_iommu_alloc_attrs` can hand out, by what it points
at: nothing (NULL), the linear-map address of a page (`page_address`), an
address inside the atomic pool with its backing page, the address of a
remapped area with the pages of the area, or the page array itself (with
`DMA_ATTR_NO_KERNEL_MAPPING`). -/
inductive cpu_addr where
  | NULL
  | page_address (page : Nat)
  | pool (page : Nat)
  | remap (pages : List Nat)
  | page_array (pages : List Nat)
  deriving DecidableEq, Repr

/-- The result of `arm_iommu_alloc_attrs`: the context afterwards, the
returned CPU address, the value left in `*handle`, the calls made and how
the run ended. -/
structure alloc_result where
  mapping : dma_iommu_mapping
  cpu_addr : cpu_addr
  handle : Nat
  events : List dma_event
  status : run_status

/-- The function `__iommu_alloc_atomic(dev, size, handle, gfp, attrs)` on the
context of the device; `coherent` is the value of
`is_dma_coherent(dev, attrs)`. -/
def __iommu_alloc_atomic (maxOrder : Nat) (env : dma_env) (mapping : dma_iommu_mapping)
    (size : Nat) (coherent : Bool) : alloc_result :=
  let count := size >>> PAGE_SHIFT
  let array_size := (count * 8) % U64
  let ev := [dma_event.alloc_page_array array_size env.page_array_ok]
  if !env.page_array_ok then
    { mapping := mapping, cpu_addr := cpu_addr.NULL, handle := DMA_ERROR_CODE, events := ev,
      status := run_status.finished }
  else
    let page := if coherent then env.alloc_pages 0 (get_order size) else env.alloc_from_pool size
    let ev := ev ++
      [if coherent then dma_event.alloc_pages (get_order size) page
       else dma_event.alloc_from_pool size page]
    match page with
    | none =>
      { mapping := mapping, cpu_addr := cpu_addr.NULL, handle := DMA_ERROR_CODE,
        events := ev ++ [dma_event.free_page_array], status := run_status.finished }
    | some p =>
      let c := __iommu_create_mapping maxOrder env mapping (page_range p count) size
      if c.2.1 = DMA_ERROR_CODE then
        { mapping := c.1, cpu_addr := cpu_addr.NULL, handle := c.2.1,
          events := ev ++ c.2.2 ++
            [if coherent then dma_event.free_pages p (get_order size)
             else dma_event.free_from_pool p size] ++
            [dma_event.free_page_array],
          status := run_status.finished }
      else
        { mapping := c.1,
          cpu_addr := if coherent then cpu_addr.page_address p else cpu_addr.pool p,
          handle := c.2.1, events := ev ++ c.2.2 ++ [dma_event.free_page_array],
          status := run_status.finished }

/-- The function `arm_iommu_alloc_attrs(dev, size, handle, gfp, attrs)` on
the context of the device. `blocking` is the value of
`gfpflags_allow_blocking(gfp)`, `coherent` that of
`is_dma_coherent(dev, attrs)`. -/
def arm_iommu_alloc_attrs (maxOrder : Nat) (env : dma_env) (mapping : dma_iommu_mapping)
    (size : Nat) (blocking : Bool) (attrs : dma_attrs) (coherent : Bool) : alloc_result :=
  let size := PAGE_ALIGN size
  if !blocking then __iommu_alloc_atomic maxOrder env mapping size coherent
  else
    let b := __iommu_alloc_buffer env size attrs coherent
    if b.2.2 ≠ run_status.finished then
      { mapping := mapping, cpu_addr := cpu_addr.NULL, handle := DMA_ERROR_CODE,
        events := b.2.1, status := b.2.2 }
    else
      match b.1 with
      | none =>
        { mapping := mapping, cpu_addr := cpu_addr.NULL, handle := DMA_ERROR_CODE,
          events := b.2.1, status := run_status.finished }
      | some pages =>
        let c := __iommu_create_mapping maxOrder env mapping pages size
        if c.2.1 = DMA_ERROR_CODE then
          { mapping := c.1, cpu_addr := cpu_addr.NULL, handle := c.2.1,
            events := b.2.1 ++ c.2.2 ++ __iommu_free_buffer pages size attrs,
            status := run_status.finished }
        else if attrs.no_kernel_mapping then
          { mapping := c.1, cpu_addr := cpu_addr.page_array pages, handle := c.2.1,
            events := b.2.1 ++ c.2.2, status := run_status.finished }
        else
          let ev := b.2.1 ++ c.2.2 ++ [dma_event.dma_common_pages_remap size env.remap_ok]
          if env.remap_ok then
            { mapping := c.1, cpu_addr := cpu_addr.remap pages, handle := c.2.1, events := ev,
              status := run_status.finished }
          else
            let rm := __iommu_remove_mapping c.1 c.2.1 size
            { mapping := rm.1, cpu_addr := cpu_addr.NULL, handle := c.2.1,
              events := ev ++ rm.2 ++ __iommu_free_buffer pages size attrs,
              status := run_status.finished }

/-- Modelled from the spec: __in_atomic_pool is the pool membership test, not under src/:
it holds for the addresses `__alloc_from_pool` hands out and for no other
(the spec's preallocated emergency pool). -/
def __in_atomic_pool (cpu_addr : cpu_addr) : Bool :=
  match cpu_addr with
  | .pool _ => true
  | _ => false

/-- The backing page of an address inside the atomic pool. -/
def pool_page (cpu_addr : cpu_addr) : Nat :=
  match cpu_addr with
  | .pool page => page
  | _ => 0

/-- Modelled from the spec: find_vm_area is the kernel lookup of a remapped area, not
under src/: it finds the areas `dma_common_pages_remap` created, with the
pages they were created from, and no other address. -/
def find_vm_area (cpu_addr : cpu_addr) : Option (List Nat) :=
  match cpu_addr with
  | .remap pages => some pages
  | _ => none

/-- What a `struct page **` obtained from a CPU address is: NULL, a page
array, or a pointer that does not point at a page array. -/
inductive page_array_ptr where
  | NULL
  | array (pages : List Nat)
  | wild
  deriving DecidableEq, Repr

/-- The function `__iommu_get_pages(cpu_addr, attrs)`. For a pool address it
returns `__atomic_get_pages`, a `struct page *` cast to `struct page **`;
with `DMA_ATTR_NO_KERNEL_MAPPING` it returns the address itself, which is a
page array only if the allocation handed out the page array; otherwise it
returns the pages of the area `find_vm_area` finds, or NULL. -/
def __iommu_get_pages (cpu_addr : cpu_addr) (attrs : dma_attrs) : page_array_ptr :=
  if __in_atomic_pool cpu_addr then page_array_ptr.wild
  else if attrs.no_kernel_mapping then
    match cpu_addr with
    | .NULL => page_array_ptr.NULL
    | .page_array pages => page_array_ptr.array pages
    | _ => page_array_ptr.wild
  else
    match find_vm_area cpu_addr with
    | some pages => page_array_ptr.array pages
    | none => page_array_ptr.NULL

/-- The function `arm_iommu_free_attrs(dev, size, cpu_addr, handle, attrs)`
on the context of the device. The result is the context afterwards, the
calls made and how the run ended (a wild page array makes
`__iommu_free_buffer` read through a pointer that is not one). -/
def arm_iommu_free_attrs (mapping : dma_iommu_mapping) (size : Nat) (cpu_addr : cpu_addr)
    (handle : Nat) (attrs : dma_attrs) : dma_iommu_mapping × List dma_event × run_status :=
  let size := PAGE_ALIGN size
  if __in_atomic_pool cpu_addr then
    let rm := __iommu_remove_mapping mapping handle size
    (rm.1, rm.2 ++ [dma_event.free_from_pool (pool_page cpu_addr) size], run_status.finished)
  else
    match __iommu_get_pages cpu_addr attrs with
    | .NULL => (mapping, [dma_event.WARN], run_status.finished)
    | .array pages =>
      let ev := if !attrs.no_kernel_mapping then [dma_event.dma_common_free_remap size] else []
      let rm := __iommu_remove_mapping mapping handle size
      (rm.1, ev ++ rm.2 ++ __iommu_free_buffer pages size attrs, run_status.finished)
    | .wild =>
      let ev := if !attrs.no_kernel_mapping then [dma_event.dma_common_free_remap size] else []
      let rm := __iommu_remove_mapping mapping handle size
      (rm.1, ev ++ rm.2, run_status.undefined_behaviour)

/-! ## Specification vocabulary for the buffer mapper -/

/-- Modelled from the spec: iommu_map and iommu_unmap are the IOMMU driver, not under
src/ (`map(domain, iova, phys, len, prot) -> ok|fail`,
`unmap(domain, iova, len)`): a map call that returns 0 makes every address of
`[iova, iova + size)` translate to the matching physical address, a failed
one changes nothing, and an unmap call removes the translations of
`[iova, iova + size)`. Every other call leaves the page table alone. -/
def iommu_apply (pgtable : Nat → Option Nat) : dma_event → Nat → Option Nat
  | .iommu_map iova paddr size ret =>
    if ret = 0 then
      fun a => if iova ≤ a ∧ a < iova + size then some (paddr + (a - iova)) else pgtable a
    else pgtable
  | .iommu_unmap iova size =>
    fun a => if iova ≤ a ∧ a < iova + size then none else pgtable a
  | _ => pgtable

/-- The translations that a sequence of calls, replayed on an empty page
table, leaves behind: the page-table entries the calls created and did not
remove. -/
def iommu_entries (events : List dma_event) : Nat → Option Nat :=
  events.foldl iommu_apply (fun _ => none)

/-- Modelled from the spec: the page providers are not under src/ (`alloc_pages(order)`,
the contiguous-memory pool, the atomic pool): a successful call hands out the
pages from the returned one on, `2 ^ order` of them for `alloc_pages`, `count`
for the contiguous pool and the pages of `size` bytes for the atomic pool. -/
def event_acquires : dma_event → List Nat
  | .alloc_pages order (some page) => page_range page (2 ^ order)
  | .dma_alloc_from_contiguous count _ (some page) => page_range page count
  | .alloc_from_pool size (some page) => page_range page ((size + (PAGE_SIZE - 1)) / PAGE_SIZE)
  | _ => []

/-- Modelled from the spec: the page providers are not under src/: the pages a release
call gives back, `2 ^ order` for `__free_pages`, `count` for the contiguous
pool and the pages of `size` bytes for the atomic pool. -/
def event_releases : dma_event → List Nat
  | .free_pages page order => page_range page (2 ^ order)
  | .dma_release_from_contiguous page count => page_range page count
  | .free_from_pool page size => page_range page ((size + (PAGE_SIZE - 1)) / PAGE_SIZE)
  | _ => []

/-- The pages a sequence of calls acquired, in order. -/
def pages_acquired : List dma_event → List Nat
  | [] => []
  | e :: rest => event_acquires e ++ pages_acquired rest

/-- The pages a sequence of calls released, in order. -/
def pages_released : List dma_event → List Nat
  | [] => []
  | e :: rest => event_releases e ++ pages_released rest

/-- The call is an `alloc_pages` call (the general page allocator). -/
def is_alloc_pages : dma_event → Bool
  | .alloc_pages _ _ => true
  | _ => false

/-- The call is an `__alloc_from_pool` call (the atomic pool). -/
def is_alloc_from_pool : dma_event → Bool
  | .alloc_from_pool _ _ => true
  | _ => false

/-- Surroundings in which every call succeeds: the page array and the remap
are granted, the n-th `alloc_pages` call returns page `0x100 + 0x10 * n`,
the pools return page `0x800`, every `iommu_map` returns 0, and the IOMMU
supports 4 KiB pages only. -/
def generous_env : dma_env :=
  { iommu_map := fun _ _ _ => 0, guard_map_ret := 0, page_array_ok := true,
    alloc_pages := fun n _ => some (0x100 + 0x10 * n),
    dma_alloc_from_contiguous := fun _ _ => some 0x800,
    alloc_from_pool := fun _ => some 0x800, remap_ok := true,
    pgsize_bitmap := 0x1000, MAX_ORDER := 11 }

/-- Surroundings like `generous_env`, except that every `iommu_map` of a run
of pages fails with `-ENOMEM`. -/
def failing_map_env : dma_env :=
  { generous_env with iommu_map := fun _ _ _ => -12 }


/-- The call is an IOMMU driver call (`iommu_map` or `iommu_unmap`). -/
def is_iommu_call : dma_event → Bool
  | .iommu_map _ _ _ _ => true
  | .iommu_unmap _ _ => true
  | _ => false

/-- The calls neither acquire nor release a page and leave the IOMMU
alone. -/
def quiet_events (events : List dma_event) : Prop :=
  pages_acquired events = [] ∧ pages_released events = [] ∧
  ∀ e ∈ events, is_iommu_call e = false

/-- The invariant of the retry loop of `__iommu_alloc_buffer`: the run is
still regular, the mask is odd with `order` its highest set bit (below 32),
the pages acquired so far are `base` followed by the chunk just obtained, if
any, no page has been released and no IOMMU call made. -/
def buffer_try_inv (t : buffer_try) (base : List Nat) : Prop :=
  t.status = run_status.finished ∧ t.order_mask % 2 = 1 ∧ 2 ^ t.order ≤ t.order_mask ∧
  t.order_mask < 2 ^ (t.order + 1) ∧ t.order < 32 ∧
  pages_acquired t.events =
    base ++ (match t.page with
      | some p => page_range p (2 ^ t.order)
      | none => []) ∧
  pages_released t.events = [] ∧ (∀ e ∈ t.events, is_iommu_call e = false)

/-- The invariant of the loop `while (count)` of `__iommu_alloc_buffer`: the
mask is odd, fewer than 2^31 pages are left, the pages acquired so far are
the entries written so far, no page has been released and no IOMMU call
made. -/
def buffer_loop_inv (s : buffer_loop) : Prop :=
  s.order_mask % 2 = 1 ∧ s.count < 2 ^ 31 ∧ pages_acquired s.events = s.pages ∧
  pages_released s.events = [] ∧ (∀ e ∈ s.events, is_iommu_call e = false)

/-- The effect of a call on the page table stays inside the addresses that
satisfy `R`: the call is an `iommu_map`, and if it succeeds its range lies
inside `R`. -/
def map_inside (R : Nat → Prop) (e : dma_event) : Prop :=
  ∃ iova paddr size ret, e = dma_event.iommu_map iova paddr size ret ∧
    (ret = 0 → ∀ a, iova ≤ a → a < iova + size → R a)

/-- Every step of an allocation has been unwound: the bitmap of the context
is the bitmap of `m`, no translation created by the calls is left in the
page table, and the pages released are the pages acquired. -/
def unwound (m : dma_iommu_mapping) (r : alloc_result) : Prop :=
  r.mapping.bitmap = m.bitmap ∧ (∀ a, iommu_entries r.events a = none) ∧
  (pages_released r.events).Perm (pages_acquired r.events)

/-- No stage of an allocation failed: the page array was granted, no
`iommu_map` call reported an error, and the handle is a real address. -/
def no_stage_failed (env : dma_env) (r : alloc_result) : Prop :=
  env.page_array_ok = true ∧ r.handle ≠ DMA_ERROR_CODE ∧
  ∀ iova paddr size ret, dma_event.iommu_map iova paddr size ret ∈ r.events → 0 ≤ ret

/-- The page acquisition of an allocation of `size` bytes (page-aligned)
failed: on the blocking path `__iommu_alloc_buffer` returned NULL, on the
other path `alloc_pages` (coherent device) or the atomic pool did. -/
def page_acquisition_failed (env : dma_env) (size : Nat) (blocking : Bool) (attrs : dma_attrs)
    (coherent : Bool) : Prop :=
  if blocking then (__iommu_alloc_buffer env size attrs coherent).1 = none
  else (if coherent then env.alloc_pages 0 (get_order size) else env.alloc_from_pool size) = none

/-! ## Context creation: arm_iommu_create_mapping -/

/-- The function `arm_iommu_create_mapping(bus, base, size)`. `kzalloc` is
the address of the zero-filled context object (`none`: the allocation
failed) and `domain` what `iommu_domain_alloc(bus)` returns (`none`: NULL).
The result is the context, or the error carried by `ERR_PTR`, and the
memory released on the way. -/
def arm_iommu_create_mapping (base size : Nat) (kzalloc : Option Nat)
    (domain : Option iommu_domain) : Except Int dma_iommu_mapping × List kernel_event :=
  let bits := (size >>> PAGE_SHIFT) % U32
  if bits = 0 then (Except.error (-EINVAL), [])
  else
    match kzalloc with
    | none => (Except.error (-ENOMEM), [])
    | some addr =>
      match domain with
      | none => (Except.error (-ENOMEM), [kernel_event.kfree_mapping addr])
      | some d =>
        (Except.ok
          { addr := addr, domain := d, init := false, kref := 0, ops := none,
            bitmap := fun _ => false, bitmap_allocated := false, bits := bits, base := base,
            min_iova_align := 0, guard_page := none }, [])

/-! ## VMA operations: the calls they make, and the SDE address-space operations -/

/-- The calls a VMA operation makes into code outside the file, and its
`WARN_ON` reports: the MMU driver, the range allocator `drm_mm`, and the
reference count of the address space. -/
inductive vma_call where
  | WARN
  | mmu_unmap (iova size : Nat)
  | mmu_map (iova size : Nat)
  | drm_mm_insert_node_in_range (npages : Nat)
  | drm_mm_remove_node (node_start : Nat)
  | kref_get
  | kref_put
  | map_dma_buf
  | unmap_dma_buf
  deriving DecidableEq, Repr

/-- The calls of `msm_gem_purge_vma(aspace, vma)`; `size` is an
`unsigned`. -/
def msm_gem_purge_vma_calls (aspace : msm_gem_address_space) (vma : msm_gem_vma) :
    List vma_call :=
  let size := (vma.node_size <<< PAGE_SHIFT) % U32
  if vma.inuse > 0 then [vma_call.WARN]
  else if !vma.mapped then []
  else if aspace.mmu then [vma_call.mmu_unmap vma.iova size] else []

/-- The calls of `msm_gem_map_vma(aspace, vma, prot, sgt, npages)` of line
102; `size` is `npages << PAGE_SHIFT` as an `unsigned`. -/
def msm_gem_map_vma_calls (aspace : Option msm_gem_address_space) (vma : msm_gem_vma)
    (npages : Nat) : List vma_call :=
  let size := (npages <<< PAGE_SHIFT) % U32
  if vma.iova = 0 then [vma_call.WARN]
  else if vma.mapped then []
  else
    match aspace with
    | some a => if a.mmu then [vma_call.mmu_map vma.iova size] else []
    | none => []

/-- The calls of `msm_gem_close_vma(aspace, vma)`. -/
def msm_gem_close_vma_calls (_aspace : msm_gem_address_space) (vma : msm_gem_vma) :
    List vma_call :=
  if vma.inuse > 0 ∨ vma.mapped then [vma_call.WARN]
  else
    (if vma.iova ≠ 0 then [vma_call.drm_mm_remove_node vma.node_start] else []) ++
    [vma_call.kref_put]

/-- The calls of `msm_gem_init_vma(aspace, vma, npages, range_start,
range_end)`. -/
def msm_gem_init_vma_calls (_aspace : msm_gem_address_space) (vma : msm_gem_vma)
    (npages : Nat) (insert_ret : Int) : List vma_call :=
  if vma.iova ≠ 0 then [vma_call.WARN]
  else
    [vma_call.drm_mm_insert_node_in_range npages] ++
    (if insert_ret ≠ 0 then [] else [vma_call.kref_get])

/-- The function `smmu_aspace_unmap_vma(aspace, vma, sgt, flags)`; `aspace`
is `none` for a NULL pointer, which `msm_gem_address_space_put` tolerates. -/
def smmu_aspace_unmap_vma (aspace : Option msm_gem_address_space) (vma : msm_gem_vma) :
    Option msm_gem_address_space × msm_gem_vma × List vma_call :=
  if vma.iova = 0 then (aspace, vma, [])
  else
    match aspace with
    | some a =>
      (some (msm_gem_address_space_put a), { vma with iova := 0 },
       [vma_call.unmap_dma_buf, vma_call.kref_put])
    | none => (none, { vma with iova := 0 }, [])

/-- The function `smmu_aspace_map_vma(aspace, vma, sgt, npages, flags)`.
`domain_attached` is the field of that name of the address space,
`map_dma_buf_ret` what the `map_dma_buf` call returns and `sg_dma_address`
the address it left in the first entry of the table. The result is the
address space, the VMA, the return value and the calls. -/
def smmu_aspace_map_vma (aspace : Option msm_gem_address_space) (domain_attached : Bool)
    (vma : msm_gem_vma) (map_dma_buf_ret : Int) (sg_dma_address : Nat) :
    Option msm_gem_address_space × msm_gem_vma × Int × List vma_call :=
  match aspace with
  | none => (none, vma, -EINVAL, [])
  | some a =>
    if !domain_attached then (some a, vma, -EINVAL, [])
    else
      let vma1 := if map_dma_buf_ret = 0 then { vma with iova := sg_dma_address } else vma
      (some { a with kref := a.kref + 1 }, vma1, map_dma_buf_ret,
       [vma_call.map_dma_buf, vma_call.kref_get])

/-- Whether the VMA holds a reservation taken by a successful
`msm_gem_init_vma` and not yet given up by a `msm_gem_close_vma` that
acted, after one more call; `held` is the answer before the call. -/
def vma_held_step (held : Bool) (st : vma_state) : vma_op → Bool
  | .init npages insert_ret node_start =>
    if (msm_gem_init_vma st.aspace st.vma npages insert_ret node_start).2.2 = 0 then true
    else held
  | .close => if st.vma.inuse > 0 ∨ st.vma.mapped then held else false
  | _ => held

/-- The states after each call of a sequence, each with the answer of
`vma_held_step`. -/
def vma_trace (held : Bool) (st : vma_state) : List vma_op → List (Bool × vma_state)
  | [] => []
  | op :: ops =>
    (vma_held_step held st op, vma_step st op) ::
      vma_trace (vma_held_step held st op) (vma_step st op) ops

/-- A call respects the convention of the callers: a `msm_gem_init_vma`
whose node insertion succeeds is given a node whose address
`node.start << PAGE_SHIFT` is not zero, and `msm_gem_close_vma` is called on
a VMA that has a reserved address (or refuses to act). -/
def vma_op_disciplined (st : vma_state) (op : vma_op) : Prop :=
  match op with
  | .init _ insert_ret node_start => insert_ret = 0 → (node_start <<< PAGE_SHIFT) % U64 ≠ 0
  | .close => st.vma.iova ≠ 0 ∨ st.vma.inuse > 0 ∨ st.vma.mapped = true
  | _ => True

/-- Every call of a sequence respects the convention of the callers, in the
state it is made in. -/
def vma_ops_disciplined (st : vma_state) : List vma_op → Prop
  | [] => True
  | op :: ops => vma_op_disciplined st op ∧ vma_ops_disciplined (vma_step st op) ops

/-- The invariant behind the balance of the reference count: the VMA holds
a reservation exactly when its iova is not zero, and the count is the
initial one plus the reference of the reservation. -/
def vma_kref_inv (k0 : Nat) (held : Bool) (st : vma_state) : Prop :=
  (held = true ↔ st.vma.iova ≠ 0) ∧ st.aspace.kref = k0 + (if held = true then 1 else 0)

/-- Surroundings like `generous_env` for an IOMMU that supports 64 KiB
pages only. -/
def large_page_env : dma_env :=
  { generous_env with pgsize_bitmap := 0x10000 }

/-! ## Specification vocabulary for __iommu_create_mapping -/

/-- The number of leading pages of a list that continue a run of
consecutive page-frame numbers whose next number is `next`. -/
def run_length (next : Nat) : List Nat → Nat
  | [] => 0
  | q :: rest => if q = next then run_length (next + 1) rest + 1 else 0

/-- The maximal runs of pages with consecutive page-frame numbers, in the
order of the list; `fuel` bounds the number of runs and the length of the
list is always enough. -/
def split_runs : Nat → List Nat → List (List Nat)
  | 0, _ => []
  | _ + 1, [] => []
  | fuel + 1, p :: rest =>
    (p :: rest.take (run_length (p + 1) rest)) ::
      split_runs fuel (rest.drop (run_length (p + 1) rest))

/-- One successful `iommu_map` call per run, over adjacent IOVA ranges in
order from `iova` on: each maps the bytes of the run from the physical
address of its first page. -/
def run_maps (iova : Nat) : List (List Nat) → List dma_event
  | [] => []
  | r :: rs =>
    dma_event.iommu_map iova (page_to_phys (r.headD 0)) (r.length * PAGE_SIZE) 0 ::
      run_maps (iova + r.length * PAGE_SIZE) rs

/-- Two runs that follow each other are not physically adjacent: the first
page of the second does not continue the page-frame numbers of the first. -/
def runs_apart (r1 r2 : List Nat) : Prop := r2.headD 0 ≠ r1.headD 0 + r1.length

/-! ## Specification vocabulary for __iommu_alloc_buffer -/

/-- The local `order_mask` of `__iommu_alloc_buffer` as the loop receives
it: the page sizes of the IOMMU as orders, cut at `MAX_ORDER`. -/
def buffer_order_mask (env : dma_env) : Nat :=
  ((env.pgsize_bitmap % U32) >>> PAGE_SHIFT) &&&
    (((2 <<< env.MAX_ORDER) % U32 + U32 - 1) % U32)

/-- The pages of a list of chunks, each chunk given by its first page and
its order. -/
def chunk_pages : List (Nat × Nat) → List Nat
  | [] => []
  | c :: cs => page_range c.1 (2 ^ c.2) ++ chunk_pages cs

/-- The chunks supply exactly `remaining` pages, each with an order of the
mask that does not exceed the base-2 logarithm of the pages still to come
(`2 ^ order <= remaining`). -/
def chunks_fit (mask : Nat) : Nat → List (Nat × Nat) → Prop
  | remaining, [] => remaining = 0
  | remaining, c :: cs =>
    mask.testBit c.2 = true ∧ 2 ^ c.2 ≤ remaining ∧ chunks_fit mask (remaining - 2 ^ c.2) cs

/-- Surroundings like `generous_env` in which the page array cannot be
allocated. -/
def no_array_env : dma_env :=
  { generous_env with page_array_ok := false }

/-- Surroundings for an IOMMU that supports 4 KiB and 8 KiB pages, in which
`alloc_pages` supplies single pages only: the n-th call returns page
`0x100 + 0x10 * n` when its order is 0 and fails otherwise. -/
def fragmented_env : dma_env :=
  { generous_env with
    alloc_pages := fun n order => if order = 0 then some (0x100 + 0x10 * n) else none,
    pgsize_bitmap := 0x3000 }

/-- The least `k` at or above the given one with `n ≤ 2 ^ k`, searched
upward for at most `fuel` steps. -/
def ceil_log2_from (n : Nat) : Nat → Nat → Nat
  | 0, k => k
  | fuel + 1, k => if n ≤ 2 ^ k then k else ceil_log2_from n fuel (k + 1)

/-- The ceiling of the base-2 logarithm of a number up to 2^64: the least
`k` with `n ≤ 2 ^ k` (0 for 0 and for 1). -/
def ceil_log2 (n : Nat) : Nat := ceil_log2_from n 64 0

/-! ## Lemmas: machine arithmetic, bit searches, the area search -/

theorem and_mod_two_pow_eq (a b n : Nat) : (a &&& b) % 2 ^ n = (a % 2 ^ n) &&& (b % 2 ^ n) := by
  apply Nat.eq_of_testBit_eq
  intro i
  simp only [Nat.testBit_mod_two_pow, Nat.testBit_and]
  cases decide (i < n) <;> simp

theorem and_compl_add_and (n : Nat) : ∀ y m : Nat, y < 2 ^ n → m < 2 ^ n →
    (y &&& (2 ^ n - 1 - m)) + (y &&& m) = y := by
  induction n with
  | zero =>
    intro y m hy hm
    have : y = 0 := by simpa using hy
    subst this; simp
  | succ n ih =>
    intro y m hy hm
    have hy2 : y / 2 < 2 ^ n := by
      rw [Nat.div_lt_iff_lt_mul (by norm_num)]; rw [pow_succ] at hy; exact hy
    have hm2 : m / 2 < 2 ^ n := by
      rw [Nat.div_lt_iff_lt_mul (by norm_num)]; rw [pow_succ] at hm; exact hm
    have h := ih (y / 2) (m / 2) hy2 hm2
    have hc : (2 ^ (n + 1) - 1 - m) / 2 = 2 ^ n - 1 - m / 2 := by
      rw [pow_succ] at hm ⊢; omega
    have e1 : (y &&& (2 ^ (n + 1) - 1 - m)) / 2 = (y / 2) &&& (2 ^ n - 1 - m / 2) := by
      rw [Nat.and_div_two, hc]
    have e2 : (y &&& m) / 2 = (y / 2) &&& (m / 2) := Nat.and_div_two
    have hcm : (2 ^ (n + 1) - 1 - m) % 2 = 1 - m % 2 := by
      rw [pow_succ] at hm ⊢; omega
    have b1 := and_mod_two_pow_eq y (2 ^ (n + 1) - 1 - m) 1
    have b2 := and_mod_two_pow_eq y m 1
    simp only [pow_one] at b1 b2
    rw [hcm] at b1
    have hy01 : y % 2 = 0 ∨ y % 2 = 1 := by omega
    have hm01 : m % 2 = 0 ∨ m % 2 = 1 := by omega
    have b1' : (y &&& (2 ^ (n + 1) - 1 - m)) % 2 + (y &&& m) % 2 = y % 2 := by
      rcases hy01 with h1 | h1 <;> rcases hm01 with h2 | h2 <;> rw [b1, b2, h1, h2] <;> decide
    omega


theorem PAGE_SIZE_eq : PAGE_SIZE = 4096 := by decide
theorem U64_eq : U64 = 18446744073709551616 := by decide
theorem U32_eq : U32 = 4294967296 := by decide
theorem PAGE_MASK_eq : PAGE_MASK = 2 ^ 64 - 1 - 4095 := by decide

theorem and_not_mask (y m : Nat) (hy : y < 2 ^ 64) (hm : m < 2 ^ 64) :
    y &&& (2 ^ 64 - 1 - m) = y - (y &&& m) := by
  have := and_compl_add_and 64 y m hy hm
  omega

theorem ALIGN_eq (x a : Nat) (ha : 0 < a) (hx : x + a ≤ U64) :
    ALIGN x a = (x + (a - 1)) - ((x + (a - 1)) &&& (a - 1)) := by
  rw [U64_eq] at hx
  have h1 : (a + U64 - 1) % U64 = a - 1 := by rw [U64_eq]; omega
  have h2 : (x + (a - 1)) % U64 = x + (a - 1) := by rw [U64_eq]; omega
  unfold ALIGN
  simp only [h1, h2]
  have := and_not_mask (x + (a - 1)) (a - 1) (by norm_num; omega) (by norm_num; omega)
  rw [U64_eq]; norm_num at this ⊢; exact this

theorem ALIGN_ge (x a : Nat) (ha : 0 < a) (hx : x + a ≤ U64) : x ≤ ALIGN x a := by
  rw [ALIGN_eq x a ha hx]
  have := @Nat.and_le_right (x + (a - 1)) (a - 1)
  omega

theorem ALIGN_le (x a : Nat) (ha : 0 < a) (hx : x + a ≤ U64) : ALIGN x a ≤ x + (a - 1) := by
  rw [ALIGN_eq x a ha hx]
  omega

theorem ALIGN_page_multiple (x a : Nat) (ha : 0 < a) (hx : x + a ≤ U64)
    (hxp : x % 4096 = 0) : ALIGN x a % 4096 = 0 := by
  rw [ALIGN_eq x a ha hx]
  have h1 := and_mod_two_pow_eq (x + (a - 1)) (a - 1) 12
  have h2 : (x + (a - 1)) % 2 ^ 12 = (a - 1) % 2 ^ 12 := by norm_num; omega
  rw [h2, Nat.and_self] at h1
  have h3 := @Nat.and_le_left (x + (a - 1)) (a - 1)
  norm_num at h1
  omega

theorem PAGE_ALIGN_eq (x : Nat) (hx : x + 4096 ≤ U64) :
    PAGE_ALIGN x = (x + 4095) / 4096 * 4096 := by
  unfold PAGE_ALIGN
  rw [PAGE_SIZE_eq, ALIGN_eq x 4096 (by norm_num) hx]
  have := Nat.and_pow_two_sub_one_eq_mod (x + 4095) 12
  norm_num at this ⊢
  rw [this]; omega

theorem and_PAGE_MASK (x : Nat) (hx : x < U64) : x &&& PAGE_MASK = x / 4096 * 4096 := by
  rw [PAGE_MASK_eq, and_not_mask x 4095 (by rw [U64_eq] at hx; omega) (by norm_num)]
  have := Nat.and_pow_two_sub_one_eq_mod x 12
  norm_num at this ⊢
  rw [this]; omega


theorem scan_bits_spec (p : Nat → Bool) : ∀ n i : Nat,
    i ≤ scan_bits p n i ∧ scan_bits p n i ≤ i + n ∧
    (∀ j, i ≤ j → j < scan_bits p n i → p j = false) ∧
    (scan_bits p n i < i + n → p (scan_bits p n i) = true) := by
  intro n
  induction n with
  | zero => intro i; simp only [scan_bits]; refine ⟨le_refl _, le_refl _, ?_, ?_⟩ <;> intros <;> omega
  | succ n ih =>
    intro i
    simp only [scan_bits]
    by_cases hp : p i = true
    · rw [if_pos hp]
      refine ⟨le_refl _, by omega, ?_, fun _ => hp⟩
      intros; omega
    · rw [if_neg hp]
      obtain ⟨h1, h2, h3, h4⟩ := ih (i + 1)
      refine ⟨by omega, by omega, ?_, fun h => h4 (by omega)⟩
      intro j hj1 hj2
      by_cases hji : j = i
      · subst hji; simpa using hp
      · exact h3 j (by omega) hj2

theorem find_next_zero_bit_spec (map : Nat → Bool) (size offset : Nat) (h : offset ≤ size) :
    offset ≤ find_next_zero_bit map size offset ∧ find_next_zero_bit map size offset ≤ size ∧
    (∀ j, offset ≤ j → j < find_next_zero_bit map size offset → map j = true) ∧
    (find_next_zero_bit map size offset < size →
      map (find_next_zero_bit map size offset) = false) := by
  unfold find_next_zero_bit
  by_cases hs : size ≤ offset
  · rw [if_pos hs]
    refine ⟨h, le_refl _, ?_, ?_⟩ <;> intros <;> omega
  · rw [if_neg hs]
    obtain ⟨h1, h2, h3, h4⟩ := scan_bits_spec (fun i => !map i) (size - offset) offset
    refine ⟨h1, by omega, ?_, ?_⟩
    · intro j hj1 hj2; simpa using h3 j hj1 hj2
    · intro hlt; simpa using h4 (by omega)

theorem find_next_bit_spec (map : Nat → Bool) (size offset : Nat) (h : offset ≤ size) :
    offset ≤ find_next_bit map size offset ∧ find_next_bit map size offset ≤ size ∧
    (∀ j, offset ≤ j → j < find_next_bit map size offset → map j = false) ∧
    (find_next_bit map size offset < size → map (find_next_bit map size offset) = true) := by
  unfold find_next_bit
  by_cases hs : size ≤ offset
  · rw [if_pos hs]
    refine ⟨h, le_refl _, ?_, ?_⟩ <;> intros <;> omega
  · rw [if_neg hs]
    obtain ⟨h1, h2, h3, h4⟩ := scan_bits_spec map (size - offset) offset
    exact ⟨h1, by omega, h3, fun hlt => h4 (by omega)⟩

theorem ALIGN_MASK_spec (x mask : Nat) :
    __ALIGN_MASK x mask % (mask + 1) = 0 ∧ x ≤ __ALIGN_MASK x mask ∧
    __ALIGN_MASK x mask ≤ x + mask ∧
    (∀ s, x ≤ s → s % (mask + 1) = 0 → __ALIGN_MASK x mask ≤ s) := by
  unfold __ALIGN_MASK
  have hpos : 0 < mask + 1 := Nat.succ_pos _
  have hdm := Nat.div_add_mod (x + mask) (mask + 1)
  have hlt := Nat.mod_lt (x + mask) hpos
  have hmul : (x + mask) / (mask + 1) * (mask + 1) = (mask + 1) * ((x + mask) / (mask + 1)) :=
    Nat.mul_comm _ _
  refine ⟨Nat.mul_mod_left _ _, by omega, by omega, ?_⟩
  intro s hs hsm
  have hs' : s = s / (mask + 1) * (mask + 1) := by
    have := Nat.div_add_mod s (mask + 1)
    rw [hsm, Nat.mul_comm] at this; omega
  rw [hs']
  apply Nat.mul_le_mul_right
  rw [Nat.le_div_iff_mul_le hpos]
  by_contra hc
  push_neg at hc
  -- s < q * (mask+1) with q = (x+mask)/(mask+1); both multiples, so s + (mask+1) ≤ q*(mask+1) ≤ x + mask
  have hq : s / (mask + 1) < (x + mask) / (mask + 1) := by
    by_contra hq; push_neg at hq
    have := Nat.mul_le_mul_right (mask + 1) hq
    omega
  have := Nat.mul_le_mul_right (mask + 1) (Nat.succ_le_of_lt hq)
  rw [Nat.succ_mul] at this
  omega


theorem bitmap_find_next_zero_area_loop_spec (map : Nat → Bool) (size nr mask : Nat) :
    ∀ fuel start : Nat, start ≤ size → size + 1 ≤ fuel + start →
    (bitmap_find_next_zero_area_loop map size nr mask fuel start ≤ size →
      area_candidate map size nr mask (bitmap_find_next_zero_area_loop map size nr mask fuel start) ∧
      (0 < nr → ∀ s, start ≤ s → area_candidate map size nr mask s →
        bitmap_find_next_zero_area_loop map size nr mask fuel start ≤ s)) ∧
    (size < bitmap_find_next_zero_area_loop map size nr mask fuel start →
      bitmap_find_next_zero_area_loop map size nr mask fuel start ≤ size + mask + nr ∧
      (0 < nr → ∀ s, start ≤ s → ¬ area_candidate map size nr mask s)) := by
  intro fuel
  induction fuel with
  | zero => intro start h1 h2; omega
  | succ fuel ih =>
    intro start hstart hfuel
    obtain ⟨z1, z2, z3, z4⟩ := find_next_zero_bit_spec map size start hstart
    obtain ⟨a1, a2, a3, a4⟩ := ALIGN_MASK_spec (find_next_zero_bit map size start) mask
    -- every candidate from `start` on lies at or after the aligned index
    have hcand : 0 < nr → ∀ s, start ≤ s → area_candidate map size nr mask s →
        __ALIGN_MASK (find_next_zero_bit map size start) mask ≤ s := by
      intro hnr s hs hc
      obtain ⟨c1, c2, c3⟩ := hc
      apply a4 s _ c1
      by_contra hlt
      push_neg at hlt
      have := z3 s hs hlt
      have := c3 s (le_refl _) (by omega)
      simp_all
    simp only [bitmap_find_next_zero_area_loop]
    by_cases hend : __ALIGN_MASK (find_next_zero_bit map size start) mask + nr > size
    · rw [if_pos hend]
      refine ⟨fun h => by omega, fun _ => ⟨by omega, ?_⟩⟩
      intro hnr s hs hc
      have := hcand hnr s hs hc
      have := hc.2.1
      omega
    · rw [if_neg hend]
      push_neg at hend
      obtain ⟨f1, f2, f3, f4⟩ := find_next_bit_spec map
        (__ALIGN_MASK (find_next_zero_bit map size start) mask + nr)
        (__ALIGN_MASK (find_next_zero_bit map size start) mask) (Nat.le_add_right _ _)
      by_cases hi : find_next_bit map
          (__ALIGN_MASK (find_next_zero_bit map size start) mask + nr)
          (__ALIGN_MASK (find_next_zero_bit map size start) mask) <
          __ALIGN_MASK (find_next_zero_bit map size start) mask + nr
      · rw [if_pos hi]
        have hset := f4 hi
        obtain ⟨i1, i2⟩ := ih (find_next_bit map
          (__ALIGN_MASK (find_next_zero_bit map size start) mask + nr)
          (__ALIGN_MASK (find_next_zero_bit map size start) mask) + 1) (by omega) (by omega)
        -- candidates cannot start at or before the set bit that was found
        have hskip : 0 < nr → ∀ s, start ≤ s → area_candidate map size nr mask s →
            find_next_bit map
              (__ALIGN_MASK (find_next_zero_bit map size start) mask + nr)
              (__ALIGN_MASK (find_next_zero_bit map size start) mask) + 1 ≤ s := by
          intro hnr s hs hc
          have h1 := hcand hnr s hs hc
          by_contra hlt
          push_neg at hlt
          have := hc.2.2 _ (by omega : s ≤ find_next_bit map
              (__ALIGN_MASK (find_next_zero_bit map size start) mask + nr)
              (__ALIGN_MASK (find_next_zero_bit map size start) mask)) (by omega)
          simp_all
        refine ⟨fun h => ⟨(i1 h).1, ?_⟩, fun h => ⟨(i2 h).1, ?_⟩⟩
        · intro hnr s hs hc
          exact (i1 h).2 hnr s (hskip hnr s hs hc) hc
        · intro hnr s hs hc
          exact (i2 h).2 hnr s (hskip hnr s hs hc) hc
      · rw [if_neg hi]
        refine ⟨fun _ => ⟨⟨a1, hend, ?_⟩, hcand⟩, fun h => by omega⟩
        intro j hj1 hj2
        exact f3 j hj1 (by omega)


theorem fls_le (w : Nat) : ∀ x k : Nat, x < 2 ^ k → fls w x ≤ k := by
  induction w with
  | zero => intro x k _; simp [fls]
  | succ w ih =>
    intro x k hx
    simp only [fls]
    by_cases h0 : x = 0
    · rw [if_pos h0]; omega
    · rw [if_neg h0]
      cases k with
      | zero => simp at hx; omega
      | succ k =>
        have : x / 2 < 2 ^ k := by
          rw [Nat.div_lt_iff_lt_mul (by norm_num)]; rw [pow_succ] at hx; exact hx
        have := ih (x / 2) k this
        omega

theorem shiftRight_page (x : Nat) : x >>> PAGE_SHIFT = x / 4096 := by
  rw [Nat.shiftRight_eq_div_pow]; rfl

theorem shiftLeft_page (x : Nat) : x <<< PAGE_SHIFT = x * 4096 := by
  rw [Nat.shiftLeft_eq]; rfl

/-- Under 32-bit bounds on the request and on the erratum alignment, the
padded size is a page multiple below `2 ^ 33` and both functions derive the
same page count from it. -/
theorem iova_size_facts (m : dma_iommu_mapping) (size : Nat)
    (hmin : m.min_iova_align < 2 ^ 32) (hsize : size < 2 ^ 32) :
    ∃ T : Nat, T % 4096 = 0 ∧ T < 2 ^ 33 ∧ size ≤ T ∧
      PAGE_ALIGN size ≤ T ∧
      (PAGE_ALIGN size + iova_guard_len m (PAGE_ALIGN size)) % U64 = T ∧
      iova_guard_len m (PAGE_ALIGN size) = T - PAGE_ALIGN size ∧
      alloc_iova_count m size = T / 4096 ∧ free_iova_count m size = T / 4096 := by
  have hS := PAGE_ALIGN_eq size (by rw [U64_eq]; omega)
  have hS0 : PAGE_ALIGN size % 4096 = 0 := by rw [hS]; omega
  have hS1 : size ≤ PAGE_ALIGN size := by rw [hS]; omega
  have hS2 : PAGE_ALIGN size ≤ 2 ^ 32 := by rw [hS]; omega
  have hG : iova_guard_len m (PAGE_ALIGN size) % 4096 = 0 ∧
      iova_guard_len m (PAGE_ALIGN size) < 2 ^ 32 := by
    unfold iova_guard_len
    by_cases ha : m.min_iova_align ≠ 0
    · rw [if_pos ha]
      have hpos : 0 < m.min_iova_align := Nat.pos_of_ne_zero ha
      have hx : PAGE_ALIGN size + m.min_iova_align ≤ U64 := by rw [U64_eq]; omega
      have g1 := ALIGN_ge _ _ hpos hx
      have g2 := ALIGN_le _ _ hpos hx
      have g3 := ALIGN_page_multiple _ _ hpos hx hS0
      rw [U64_eq]
      omega
    · rw [if_neg ha]; simp
  obtain ⟨hG0, hG1⟩ := hG
  refine ⟨PAGE_ALIGN size + iova_guard_len m (PAGE_ALIGN size), by omega, by omega, by omega,
    by omega, ?_, by omega, ?_, ?_⟩
  · rw [U64_eq]; omega
  · unfold alloc_iova_count
    simp only []
    have e1 : (PAGE_ALIGN size + iova_guard_len m (PAGE_ALIGN size)) % U64 =
        PAGE_ALIGN size + iova_guard_len m (PAGE_ALIGN size) := by rw [U64_eq]; omega
    rw [e1, PAGE_ALIGN_eq _ (by rw [U64_eq]; omega), shiftRight_page, U32_eq]
    omega
  · unfold free_iova_count
    simp only []
    have e1 : (PAGE_ALIGN size + iova_guard_len m (PAGE_ALIGN size)) % U64 =
        PAGE_ALIGN size + iova_guard_len m (PAGE_ALIGN size) := by rw [U64_eq]; omega
    rw [e1, shiftRight_page, U32_eq]
    omega


theorem alloc_iova_order_le (maxOrder : Nat) (m : dma_iommu_mapping) (size : Nat)
    (hmin : m.min_iova_align < 2 ^ 32) (hsize : size < 2 ^ 32)
    (h : 0 < size ∨ maxOrder ≤ 30) : alloc_iova_order maxOrder m size ≤ 30 := by
  obtain ⟨T, t1, t2, t3, t4, t5, t6, t7, t8⟩ := iova_size_facts m size hmin hsize
  unfold alloc_iova_order
  simp only []
  rw [t5]
  split
  · rcases h with h | h
    · rename_i hgt
      have : get_order T ≤ 21 := by
        unfold get_order fls64
        apply fls_le
        rw [shiftRight_page, U64_eq]
        omega
      omega
    · exact h
  · rename_i hle
    rcases h with h | h
    · have : get_order T ≤ 21 := by
        unfold get_order fls64
        apply fls_le
        rw [shiftRight_page, U64_eq]
        omega
      omega
    · omega

theorem align_mask_succ (k : Nat) : (1 <<< k) - 1 + 1 = 2 ^ k := by
  rw [Nat.shiftLeft_eq, Nat.one_mul]
  have := Nat.two_pow_pos k
  omega

theorem align_mask_lt (k n : Nat) (h : k ≤ n) : (1 <<< k) - 1 < 2 ^ n := by
  rw [Nat.shiftLeft_eq, Nat.one_mul]
  have h2 : 2 ^ k ≤ 2 ^ n := Nat.pow_le_pow_right (by norm_num) h
  have h3 := Nat.two_pow_pos k
  generalize 2 ^ k = a at h2 h3 ⊢
  generalize 2 ^ n = b at h2 ⊢
  omega

/-- What the search in `__alloc_iova` returns when nothing overflows: an
aligned zero run inside the bitmap, the first one, or a value above `bits`
when there is none. -/
theorem alloc_iova_start_spec (maxOrder : Nat) (m : dma_iommu_mapping) (size : Nat)
    (hbits : m.bits ≤ 2 ^ 20) (hmin : m.min_iova_align < 2 ^ 32) (hsize : size < 2 ^ 32)
    (h : 0 < size ∨ maxOrder ≤ 30) :
    (alloc_iova_start maxOrder m size ≤ m.bits →
      area_candidate m.bitmap m.bits (alloc_iova_count m size)
        ((1 <<< alloc_iova_order maxOrder m size) - 1) (alloc_iova_start maxOrder m size) ∧
      (0 < alloc_iova_count m size → ∀ s,
        area_candidate m.bitmap m.bits (alloc_iova_count m size)
          ((1 <<< alloc_iova_order maxOrder m size) - 1) s →
        alloc_iova_start maxOrder m size ≤ s)) ∧
    (m.bits < alloc_iova_start maxOrder m size →
      (0 < alloc_iova_count m size → ∀ s,
        ¬ area_candidate m.bitmap m.bits (alloc_iova_count m size)
          ((1 <<< alloc_iova_order maxOrder m size) - 1) s)) := by
  obtain ⟨T, t1, t2, t3, t4, t5, t6, t7, t8⟩ := iova_size_facts m size hmin hsize
  have hord := alloc_iova_order_le maxOrder m size hmin hsize h
  have hmask : (1 <<< alloc_iova_order maxOrder m size) - 1 < 2 ^ 30 :=
    align_mask_lt _ _ hord
  have hcnt : alloc_iova_count m size < 2 ^ 21 := by rw [t7]; omega
  obtain ⟨l1, l2⟩ := bitmap_find_next_zero_area_loop_spec m.bitmap m.bits
    (alloc_iova_count m size) ((1 <<< alloc_iova_order maxOrder m size) - 1)
    (m.bits + 1) 0 (Nat.zero_le _) (by omega)
  have hr : alloc_iova_start maxOrder m size =
      bitmap_find_next_zero_area_loop m.bitmap m.bits (alloc_iova_count m size)
        ((1 <<< alloc_iova_order maxOrder m size) - 1) (m.bits + 1) 0 := by
    show (bitmap_find_next_zero_area_loop m.bitmap m.bits (alloc_iova_count m size)
        ((1 <<< alloc_iova_order maxOrder m size) - 1) (m.bits + 1) 0) % U32 = _
    apply Nat.mod_eq_of_lt
    rw [U32_eq]
    by_cases hc : bitmap_find_next_zero_area_loop m.bitmap m.bits (alloc_iova_count m size)
        ((1 <<< alloc_iova_order maxOrder m size) - 1) (m.bits + 1) 0 ≤ m.bits
    · omega
    · have := (l2 (by omega)).1
      omega
  rw [hr]
  refine ⟨fun hle => ⟨(l1 hle).1, fun hc s hs => (l1 hle).2 hc s (Nat.zero_le _) hs⟩,
    fun hgt hc s hs => (l2 hgt).2 hc s (Nat.zero_le _) hs⟩


theorem bitmap_clear_set (map : Nat → Bool) (s c : Nat) (h : zero_run map s c) :
    bitmap_clear (bitmap_set map s c) s c = map := by
  funext i
  unfold bitmap_clear bitmap_set
  by_cases hi : s ≤ i ∧ i < s + c
  · rw [if_pos hi]; exact (h i hi.1 hi.2).symm
  · rw [if_neg hi, if_neg hi]

theorem bitmap_clear_zero (map : Nat → Bool) (s : Nat) : bitmap_clear map s 0 = map := by
  funext i
  unfold bitmap_clear
  rw [if_neg (by omega)]

/-- The three ways `__alloc_iova` can end. -/
theorem alloc_iova_cases (maxOrder : Nat) (m : dma_iommu_mapping) (size : Nat) (ret : Int) :
    (m.bits < alloc_iova_start maxOrder m size ∧
      __alloc_iova maxOrder m size ret = (m, DMA_ERROR_CODE)) ∨
    (alloc_iova_start maxOrder m size ≤ m.bits ∧
      (iova_guard_len m (PAGE_ALIGN size) ≠ 0 ∧ ret ≠ 0) ∧
      __alloc_iova maxOrder m size ret =
        ({ m with bitmap := (bitmap_clear (bitmap_set m.bitmap (alloc_iova_start maxOrder m size)
            (alloc_iova_count m size)) (alloc_iova_start maxOrder m size)
            (alloc_iova_count m size)) }, DMA_ERROR_CODE)) ∨
    (alloc_iova_start maxOrder m size ≤ m.bits ∧
      ¬ (iova_guard_len m (PAGE_ALIGN size) ≠ 0 ∧ ret ≠ 0) ∧
      __alloc_iova maxOrder m size ret =
        ({ m with bitmap := (bitmap_set m.bitmap (alloc_iova_start maxOrder m size)
            (alloc_iova_count m size)) },
         (m.base + (alloc_iova_start maxOrder m size <<< PAGE_SHIFT) % U32) % U64)) := by
  unfold __alloc_iova
  simp only []
  by_cases h1 : alloc_iova_start maxOrder m size > m.bits
  · left; rw [if_pos h1]; exact ⟨h1, rfl⟩
  · right
    rw [if_neg h1]
    by_cases h2 : iova_guard_len m (PAGE_ALIGN size) ≠ 0 ∧ ret ≠ 0
    · left; rw [if_pos h2]; exact ⟨by omega, h2, rfl⟩
    · right; rw [if_neg h2]; exact ⟨by omega, h2, rfl⟩

/-- For a page-aligned 64-bit base, `__free_iova` recovers the page index
from the address `__alloc_iova` formed for it. -/
theorem free_iova_start_of_alloc (m : dma_iommu_mapping) (s : Nat)
    (hbase : m.base % PAGE_SIZE = 0) (hb64 : m.base < U64) (hs : s < 2 ^ 20) :
    free_iova_start m ((m.base + (s <<< PAGE_SHIFT) % U32) % U64) = s := by
  unfold free_iova_start
  simp only []
  rw [PAGE_SIZE_eq] at hbase
  have hlt : (m.base + (s <<< PAGE_SHIFT) % U32) % U64 < U64 := Nat.mod_lt _ (by rw [U64_eq]; norm_num)
  rw [and_PAGE_MASK _ hlt, shiftRight_page, shiftLeft_page]
  rw [U64_eq] at hb64 ⊢
  rw [U32_eq]
  omega

theorem alloc_iova_count_pos (m : dma_iommu_mapping) (size : Nat)
    (hmin : m.min_iova_align < 2 ^ 32) (hsize : size < 2 ^ 32) (hpos : 0 < size) :
    0 < alloc_iova_count m size := by
  obtain ⟨T, t1, t2, t3, t4, t5, t6, t7, t8⟩ := iova_size_facts m size hmin hsize
  rw [t7]; omega

theorem free_iova_count_eq (m : dma_iommu_mapping) (size : Nat)
    (hmin : m.min_iova_align < 2 ^ 32) (hsize : size < 2 ^ 32) :
    free_iova_count m size = alloc_iova_count m size := by
  obtain ⟨T, t1, t2, t3, t4, t5, t6, t7, t8⟩ := iova_size_facts m size hmin hsize
  rw [t7, t8]

/-- What `__free_iova` clears for an address and size that a successful
`__alloc_iova` produced: the run that was marked (or nothing, for an empty
run). -/
theorem free_after_alloc_bitmap (maxOrder : Nat) (m : dma_iommu_mapping) (size : Nat)
    (map : Nat → Bool)
    (hbase : m.base % PAGE_SIZE = 0) (hb64 : m.base < U64) (hbits : m.bits ≤ 2 ^ 20)
    (hmin : m.min_iova_align < 2 ^ 32) (hsize : size < 2 ^ 32)
    (hle : alloc_iova_start maxOrder m size + alloc_iova_count m size ≤ m.bits) :
    (__free_iova { m with bitmap := map }
      ((m.base + (alloc_iova_start maxOrder m size <<< PAGE_SHIFT) % U32) % U64) size).bitmap =
    bitmap_clear map (alloc_iova_start maxOrder m size) (alloc_iova_count m size) := by
  show bitmap_clear map (free_iova_start m _) (free_iova_count m size) = _
  rw [free_iova_count_eq m size hmin hsize]
  by_cases hc : alloc_iova_count m size = 0
  · rw [hc, bitmap_clear_zero, bitmap_clear_zero]
  · rw [free_iova_start_of_alloc m _ hbase hb64 (by omega)]

/-! ## C2: allocate then free restores the bitmap -/

/-- C2 (as stated, refuted): with a base that is not page-aligned (0x800) a
successful one-page allocation followed by the matching free leaves page 0
marked, so the bitmap differs from the all-free bitmap it started from. -/
theorem C2_roundtrip_fails_unaligned_base :
    (__alloc_iova 9 (bitmap_mapping 0x800 16 0 (fun _ => false)) 4096 0).2 ≠ DMA_ERROR_CODE ∧
    (__free_iova (__alloc_iova 9 (bitmap_mapping 0x800 16 0 (fun _ => false)) 4096 0).1
      (__alloc_iova 9 (bitmap_mapping 0x800 16 0 (fun _ => false)) 4096 0).2 4096).bitmap ≠
    (bitmap_mapping 0x800 16 0 (fun _ => false)).bitmap := by
  refine ⟨by decide, ?_⟩
  intro h
  have h0 := congrFun h 0
  revert h0
  decide

/-- C2 (amended): for a mapping with a page-aligned 64-bit base, at most
2^20 pages and a 32-bit erratum alignment, and every size with
0 < size < 2^32, a successful `__alloc_iova` followed by `__free_iova` of the
returned address and the same size restores the bitmap bit for bit; the
free recomputes the page count, guard included, that the allocation
marked. -/
theorem C2_alloc_free_roundtrip (maxOrder : Nat) (m : dma_iommu_mapping) (size : Nat)
    (ret : Int)
    (hbase : m.base % PAGE_SIZE = 0) (hb64 : m.base < U64) (hbits : m.bits ≤ 2 ^ 20)
    (hmin : m.min_iova_align < 2 ^ 32) (hpos : 0 < size) (hsize : size < 2 ^ 32)
    (hok : (__alloc_iova maxOrder m size ret).2 ≠ DMA_ERROR_CODE) :
    (__free_iova (__alloc_iova maxOrder m size ret).1
      (__alloc_iova maxOrder m size ret).2 size).bitmap = m.bitmap ∧
    free_iova_count m size = alloc_iova_count m size := by
  refine ⟨?_, free_iova_count_eq m size hmin hsize⟩
  rcases alloc_iova_cases maxOrder m size ret with ⟨_, h⟩ | ⟨_, _, h⟩ | ⟨hle, _, h⟩
  · rw [h] at hok; exact absurd rfl hok
  · rw [h] at hok; exact absurd rfl hok
  · obtain ⟨hc, _⟩ := (alloc_iova_start_spec maxOrder m size hbits hmin hsize (Or.inl hpos)).1 hle
    rw [h]
    show (__free_iova { m with bitmap := _ } _ size).bitmap = _
    rw [free_after_alloc_bitmap maxOrder m size _ hbase hb64 hbits hmin hsize hc.2.1]
    exact bitmap_clear_set _ _ _ hc.2.2

/-- C2 witness: a 5-page allocation in an empty 16-page space at 0x10000000,
then the matching free. -/
theorem C2_alloc_free_roundtrip_witness :
    (__alloc_iova 9 (bitmap_mapping 0x10000000 16 0 (fun _ => false)) 20480 0).2
      ≠ DMA_ERROR_CODE ∧
    (__free_iova (__alloc_iova 9 (bitmap_mapping 0x10000000 16 0 (fun _ => false)) 20480 0).1
      (__alloc_iova 9 (bitmap_mapping 0x10000000 16 0 (fun _ => false)) 20480 0).2
      20480).bitmap = (bitmap_mapping 0x10000000 16 0 (fun _ => false)).bitmap :=
  ⟨by decide,
   (C2_alloc_free_roundtrip 9 (bitmap_mapping 0x10000000 16 0 (fun _ => false)) 20480 0
    (by decide) (by decide) (by decide) (by decide) (by decide) (by decide) (by decide)).1⟩

/-! ## C3: alignment of returned addresses -/

theorem page_shift_order (k : Nat) : PAGE_SIZE <<< k = 2 ^ (12 + k) := by
  rw [Nat.shiftLeft_eq, PAGE_SIZE_eq, pow_add]; norm_num

theorem two_pow_le_imp (k n : Nat) (h : 2 ^ k ≤ 2 ^ n) : k ≤ n :=
  (Nat.pow_le_pow_iff_right (by norm_num)).1 h

/-- The address formed for an aligned page index is aligned whenever the base is. -/
theorem iova_aligned_of_start (base s k : Nat) (hk : k ≤ 30) (hs : s ≤ 2 ^ 20)
    (hsk : s % 2 ^ k = 0) (hbase : base % 2 ^ (12 + k) = 0) :
    ((base + (s <<< PAGE_SHIFT) % U32) % U64) % 2 ^ (12 + k) = 0 := by
  have hU64 : (2 : Nat) ^ (12 + k) ∣ U64 := by
    show (2 : Nat) ^ (12 + k) ∣ 2 ^ 64
    exact pow_dvd_pow 2 (by omega)
  apply Nat.mod_eq_zero_of_dvd
  rw [Nat.dvd_mod_iff hU64]
  apply Nat.dvd_add (Nat.dvd_of_mod_eq_zero hbase)
  by_cases h0 : s = 0
  · subst h0; simp
  · have hdvd : 2 ^ k ∣ s := Nat.dvd_of_mod_eq_zero hsk
    have hle : 2 ^ k ≤ 2 ^ 20 := le_trans (Nat.le_of_dvd (Nat.pos_of_ne_zero h0) hdvd) hs
    have hk20 := two_pow_le_imp k 20 hle
    have hU32 : (2 : Nat) ^ (12 + k) ∣ U32 := by
      show (2 : Nat) ^ (12 + k) ∣ 2 ^ 32
      exact pow_dvd_pow 2 (by omega)
    rw [Nat.dvd_mod_iff hU32, shiftLeft_page]
    have : (2 : Nat) ^ (12 + k) = 2 ^ k * 4096 := by rw [Nat.add_comm, pow_add]; rfl
    rw [this]
    exact Nat.mul_dvd_mul_right hdvd 4096

/-! ## C4: the first-fit contract of __alloc_iova -/

theorem iova_slot_iff_candidate (m : dma_iommu_mapping) (k count s : Nat) :
    iova_slot m k count s ↔ area_candidate m.bitmap m.bits count ((1 <<< k) - 1) s := by
  unfold iova_slot area_candidate
  rw [align_mask_succ]

/-- C4 (as stated, refuted): a request of 2^44 bytes needs 2^32 pages, but
the `unsigned int` page count wraps to 0. In a 1024-page space whose page 0
is used the call succeeds and returns page 512: no run of 2^32 free pages
exists, and page 512 is not the least slot for the wrapped count either. -/
theorem C4_contract_fails_for_huge_size :
    iova_pages_needed (bitmap_mapping 0 1024 0 (fun i => i == 0)) (2 ^ 44) = 2 ^ 32 ∧
    alloc_iova_count (bitmap_mapping 0 1024 0 (fun i => i == 0)) (2 ^ 44) = 0 ∧
    (__alloc_iova 9 (bitmap_mapping 0 1024 0 (fun i => i == 0)) (2 ^ 44) 0).2
      = 512 * PAGE_SIZE ∧
    ¬ alloc_iova_contract 9 (bitmap_mapping 0 1024 0 (fun i => i == 0)) (2 ^ 44) 0
        (iova_pages_needed (bitmap_mapping 0 1024 0 (fun i => i == 0)) (2 ^ 44)) ∧
    ¬ alloc_iova_contract 9 (bitmap_mapping 0 1024 0 (fun i => i == 0)) (2 ^ 44) 0
        (alloc_iova_count (bitmap_mapping 0 1024 0 (fun i => i == 0)) (2 ^ 44)) := by
  have hp : iova_pages_needed (bitmap_mapping 0 1024 0 (fun i => i == 0)) (2 ^ 44) = 2 ^ 32 := by
    decide
  have hc : alloc_iova_count (bitmap_mapping 0 1024 0 (fun i => i == 0)) (2 ^ 44) = 0 := by
    decide
  have hr : (__alloc_iova 9 (bitmap_mapping 0 1024 0 (fun i => i == 0)) (2 ^ 44) 0).2
      = 512 * PAGE_SIZE := by decide
  have hok : (__alloc_iova 9 (bitmap_mapping 0 1024 0 (fun i => i == 0)) (2 ^ 44) 0).2
      ≠ DMA_ERROR_CODE := by decide
  refine ⟨hp, hc, hr, ?_, ?_⟩
  · rintro ⟨h1, _, _⟩
    obtain ⟨s, _, hs, _⟩ := h1.1 hok
    rw [hp] at hs
    have : (bitmap_mapping 0 1024 0 (fun i => i == 0)).bits = 1024 := rfl
    omega
  · rintro ⟨_, h2, _⟩
    obtain ⟨s, _, hleast, haddr, _⟩ := h2 hok
    rw [hc] at hleast
    have h0 : iova_slot (bitmap_mapping 0 1024 0 (fun i => i == 0))
        (alloc_iova_order 9 (bitmap_mapping 0 1024 0 (fun i => i == 0)) (2 ^ 44)) 0 0 := by
      refine ⟨Nat.zero_mod _, Nat.zero_le _, ?_⟩
      intro j _ hj; omega
    have hs0 := hleast 0 h0
    rw [hr] at haddr
    have hb : (bitmap_mapping 0 1024 0 (fun i => i == 0)).base = 0 := rfl
    rw [hb, PAGE_SIZE_eq] at haddr
    omega


theorem iova_pages_needed_eq (m : dma_iommu_mapping) (size : Nat)
    (hmin : m.min_iova_align < 2 ^ 32) (hsize : size < 2 ^ 32) :
    alloc_iova_count m size = iova_pages_needed m size := by
  obtain ⟨T, t1, t2, t3, t4, t5, t6, t7, t8⟩ := iova_size_facts m size hmin hsize
  unfold iova_pages_needed
  rw [t7, t6, PAGE_SIZE_eq]
  omega

/-- C4 (amended): for a mapping of at most 2^20 pages lying inside the 64-bit
address range, a 32-bit erratum alignment, every bitmap state and every size
with 0 < size < 2^32 (no guard, or the guard mapping succeeding),
`__alloc_iova` meets its first-fit contract with the page count it computes,
which is the number of pages needed; and scenario A holds. -/
theorem C4_alloc_iova_first_fit (maxOrder : Nat) (m : dma_iommu_mapping) (size : Nat)
    (ret : Int)
    (hspace : m.base + m.bits * PAGE_SIZE ≤ U64) (hbits : m.bits ≤ 2 ^ 20)
    (hmin : m.min_iova_align < 2 ^ 32) (hpos : 0 < size) (hsize : size < 2 ^ 32)
    (hguard : iova_guard_len m (PAGE_ALIGN size) = 0 ∨ ret = 0) :
    alloc_iova_contract maxOrder m size ret (alloc_iova_count m size) ∧
    alloc_iova_count m size = iova_pages_needed m size ∧
    scenario_A 0x10000000 := by
  refine ⟨?_, iova_pages_needed_eq m size hmin hsize, by unfold scenario_A; decide⟩
  have hcpos := alloc_iova_count_pos m size hmin hsize hpos
  obtain ⟨sp1, sp2⟩ := alloc_iova_start_spec maxOrder m size hbits hmin hsize (Or.inl hpos)
  rcases alloc_iova_cases maxOrder m size ret with ⟨hgt, h⟩ | ⟨_, hg, _⟩ | ⟨hle, _, h⟩
  · have hnone := sp2 hgt hcpos
    unfold alloc_iova_contract
    rw [h]
    refine ⟨⟨fun hne => absurd rfl hne, ?_⟩, fun hne => absurd rfl hne, fun _ => rfl⟩
    rintro ⟨s, hs⟩
    exact absurd ((iova_slot_iff_candidate m _ _ s).1 hs) (hnone s)
  · rcases hguard with hg0 | hr0
    · exact absurd hg0 hg.1
    · exact absurd hr0 hg.2
  · obtain ⟨hcand, hleast⟩ := sp1 hle
    have hslot := (iova_slot_iff_candidate m _ _ _).2 hcand
    have hfit := hcand.2.1
    have haddr : (m.base + (alloc_iova_start maxOrder m size <<< PAGE_SHIFT) % U32) % U64 =
        m.base + alloc_iova_start maxOrder m size * PAGE_SIZE := by
      rw [shiftLeft_page, PAGE_SIZE_eq, U32_eq]
      rw [PAGE_SIZE_eq, U64_eq] at hspace
      rw [U64_eq]
      omega
    have hne : m.base + alloc_iova_start maxOrder m size * PAGE_SIZE ≠ DMA_ERROR_CODE := by
      rw [PAGE_SIZE_eq, U64_eq] at hspace
      rw [PAGE_SIZE_eq]
      show _ ≠ U64 - 1
      rw [U64_eq]
      omega
    unfold alloc_iova_contract
    rw [h]
    simp only [haddr]
    refine ⟨⟨fun _ => ⟨_, hslot⟩, fun _ => hne⟩, fun _ => ⟨_, hslot, ?_, rfl, rfl⟩,
      fun he => absurd he hne⟩
    intro t ht
    exact hleast hcpos t ((iova_slot_iff_candidate m _ _ t).1 ht)

/-- C4 witness: the first 5-page allocation of scenario A. -/
theorem C4_alloc_iova_first_fit_witness :
    alloc_iova_contract 9 (bitmap_mapping 0x10000000 16 0 (fun _ => false)) (5 * PAGE_SIZE) 0
      (alloc_iova_count (bitmap_mapping 0x10000000 16 0 (fun _ => false)) (5 * PAGE_SIZE)) ∧
    alloc_iova_count (bitmap_mapping 0x10000000 16 0 (fun _ => false)) (5 * PAGE_SIZE) =
      iova_pages_needed (bitmap_mapping 0x10000000 16 0 (fun _ => false)) (5 * PAGE_SIZE) ∧
    scenario_A 0x10000000 :=
  C4_alloc_iova_first_fit 9 (bitmap_mapping 0x10000000 16 0 (fun _ => false)) (5 * PAGE_SIZE) 0
    (by decide) (by decide) (by decide) (by decide) (by decide) (by decide)

/-! ## C1: live allocations never overlap -/

theorem runs_disjoint_symm (a b : live_iova) (h : runs_disjoint a b) : runs_disjoint b a :=
  fun p h1 h2 h3 h4 => h p h3 h4 h1 h2

theorem pairwise_eraseIdx_rel {α : Type} (R : α → α → Prop) (hsym : ∀ a b, R a b → R b a) :
    ∀ (l : List α) (k : Nat) (a : α), l.get? k = some a → l.Pairwise R →
      ∀ b ∈ l.eraseIdx k, R a b := by
  intro l
  induction l with
  | nil => intro k a h; simp at h
  | cons x xs ih =>
    intro k a hk hp b hb
    rw [List.pairwise_cons] at hp
    cases k with
    | zero =>
      have hk' : x = a := Option.some.inj hk
      subst hk'
      exact hp.1 b hb
    | succ k =>
      have hk' : xs.get? k = some a := hk
      have hb' : b ∈ x :: xs.eraseIdx k := hb
      rcases List.mem_cons.1 hb' with hb | hb
      · subst hb
        apply hsym
        apply hp.1
        exact List.get?_mem hk'
      · exact ih k a hk' hp.2 b hb

theorem mem_of_mem_eraseIdx {α : Type} (l : List α) (k : Nat) (b : α) (h : b ∈ l.eraseIdx k) :
    b ∈ l :=
  (List.eraseIdx_sublist l k).subset h

theorem iova_step_alloc_inv (maxOrder : Nat) (st : iova_state) (size : Nat) (ret : Int)
    (hcfg : maxOrder ≤ 30) (hsize : size < 2 ^ 32) (hinv : iova_inv st) :
    iova_inv (iova_step maxOrder st (iova_op.alloc size ret)) := by
  obtain ⟨⟨hbase, hb64, hbits, hmin⟩, hno, hlive⟩ := hinv
  obtain ⟨sp1, _⟩ := alloc_iova_start_spec maxOrder st.mapping size hbits hmin hsize (Or.inr hcfg)
  -- marking more pages keeps every live entry sound
  have hframe : ∀ a ∈ st.live, live_entry_ok
      { st.mapping with bitmap := (bitmap_set st.mapping.bitmap
          (alloc_iova_start maxOrder st.mapping size) (alloc_iova_count st.mapping size)) } a := by
    intro a ha
    obtain ⟨e1, e2, e3⟩ := hlive a ha
    refine ⟨?_, e2, e3⟩
    intro p hp1 hp2
    show bitmap_set _ _ _ p = true
    unfold bitmap_set
    split
    · rfl
    · exact e1 p hp1 hp2
  rcases alloc_iova_cases maxOrder st.mapping size ret with ⟨_, h⟩ | ⟨hle, _, h⟩ | ⟨hle, _, h⟩
  · simp only [iova_step, h, if_true]
    exact ⟨⟨hbase, hb64, hbits, hmin⟩, hno, hlive⟩
  · have hz := ((sp1 hle).1).2.2
    rw [bitmap_clear_set _ _ _ hz] at h
    simp only [iova_step, h, if_true]
    exact ⟨⟨hbase, hb64, hbits, hmin⟩, hno, hlive⟩
  · obtain ⟨hc1, hc2, hz⟩ := (sp1 hle).1
    simp only [iova_step, h]
    split
    · exact ⟨⟨hbase, hb64, hbits, hmin⟩, hno, hframe⟩
    · refine ⟨⟨hbase, hb64, hbits, hmin⟩, ?_, ?_⟩
      · show List.Pairwise runs_disjoint (_ :: st.live)
        rw [List.pairwise_cons]
        refine ⟨?_, hno⟩
        intro b hb p hp1 hp2 hp3 hp4
        have h1 := (hlive b hb).1 p hp3 hp4
        have h2 := hz p hp1 hp2
        rw [h1] at h2
        exact Bool.noConfusion h2
      · intro a ha
        rcases List.mem_cons.1 ha with rfl | ha
        · refine ⟨?_, ?_, ?_⟩
          · intro p hp1 hp2
            show bitmap_set _ _ _ p = true
            unfold bitmap_set
            rw [if_pos ⟨hp1, hp2⟩]
          · exact free_iova_count_eq st.mapping size hmin hsize
          · by_cases hc0 : alloc_iova_count st.mapping size = 0
            · exact Or.inl hc0
            · right
              exact free_iova_start_of_alloc st.mapping _ hbase hb64 (by omega)
        · exact hframe a ha

theorem iova_step_free_inv (maxOrder : Nat) (st : iova_state) (k : Nat) (hinv : iova_inv st) :
    iova_inv (iova_step maxOrder st (iova_op.free k)) := by
  obtain ⟨hlay, hno, hlive⟩ := hinv
  simp only [iova_step]
  cases hk : st.live.get? k with
  | none => exact ⟨hlay, hno, hlive⟩
  | some a =>
    have ha : a ∈ st.live := List.get?_mem hk
    obtain ⟨_, e2, e3⟩ := hlive a ha
    have hbm : (__free_iova st.mapping a.iova a.size).bitmap =
        bitmap_clear st.mapping.bitmap a.start a.count := by
      show bitmap_clear _ (free_iova_start st.mapping a.iova) (free_iova_count st.mapping a.size) = _
      rw [e2]
      rcases e3 with h0 | hs
      · rw [h0, bitmap_clear_zero, bitmap_clear_zero]
      · rw [hs]
    refine ⟨hlay, List.Pairwise.sublist (List.eraseIdx_sublist _ _) hno, ?_⟩
    intro b hb
    have hdis := pairwise_eraseIdx_rel runs_disjoint runs_disjoint_symm st.live k a hk hno b hb
    obtain ⟨f1, f2, f3⟩ := hlive b (mem_of_mem_eraseIdx _ _ _ hb)
    refine ⟨?_, f2, f3⟩
    intro p hp1 hp2
    show (__free_iova st.mapping a.iova a.size).bitmap p = true
    rw [hbm]
    unfold bitmap_clear
    split
    · rename_i hin
      exact absurd hp2 (fun h => hdis p hin.1 hin.2 hp1 h)
    · exact f1 p hp1 hp2

theorem iova_run_inv (maxOrder : Nat) (hcfg : maxOrder ≤ 30) :
    ∀ (ops : List iova_op) (st : iova_state), alloc_sizes_below (2 ^ 32) ops → iova_inv st →
      iova_inv (iova_run maxOrder st ops) := by
  intro ops
  induction ops with
  | nil => intro st _ h; exact h
  | cons op ops ih =>
    intro st hs hinv
    show iova_inv (iova_run maxOrder (iova_step maxOrder st op) ops)
    apply ih
    · intro o ho; exact hs o (List.mem_cons_of_mem _ ho)
    · cases op with
      | alloc size ret =>
        exact iova_step_alloc_inv maxOrder st size ret hcfg
          (hs _ (List.mem_cons_self _ _) size ret rfl) hinv
      | free k => exact iova_step_free_inv maxOrder st k hinv


/-- C1 (as stated, refuted): over a base that is not page-aligned (0x800),
starting from an all-free 16-page bitmap, allocate one page twice (pages 0
and 1), free the second allocation with its own address and size, and
allocate one page again. The free clears page 0 instead of page 1, so the
last allocation lands on page 0, which the first allocation still holds. -/
theorem C1_overlap_with_unaligned_base :
    ¬ no_overlap (iova_run 9 ⟨bitmap_mapping 0x800 16 0 (fun _ => false), []⟩
      [iova_op.alloc 4096 0, iova_op.alloc 4096 0, iova_op.free 0, iova_op.alloc 4096 0]).live := by
  have hlive : (iova_run 9 ⟨bitmap_mapping 0x800 16 0 (fun _ => false), []⟩
      [iova_op.alloc 4096 0, iova_op.alloc 4096 0, iova_op.free 0, iova_op.alloc 4096 0]).live =
      [⟨0x800, 4096, 0, 1⟩, ⟨0x800, 4096, 0, 1⟩] := by decide
  rw [hlive]
  intro h
  unfold no_overlap at h
  rw [List.pairwise_cons] at h
  exact h.1 ⟨0x800, 4096, 0, 1⟩ (List.mem_singleton.2 rfl) 0 (by decide) (by decide)
    (by decide) (by decide)

/-- C1 (amended): for a mapping with a page-aligned 64-bit base, at most
2^20 pages and a 32-bit erratum alignment (maximum order at most 30), and
every sequence of `__alloc_iova` calls with sizes below 2^32 and
`__free_iova` calls that each release a live allocation with the address and
size it was allocated with, no two live allocations overlap. -/
theorem C1_no_overlap (maxOrder : Nat) (m : dma_iommu_mapping) (ops : List iova_op)
    (hcfg : maxOrder ≤ 30) (hlay : iova_layout_ok m)
    (hsizes : alloc_sizes_below (2 ^ 32) ops) :
    no_overlap (iova_run maxOrder ⟨m, []⟩ ops).live :=
  (iova_run_inv maxOrder hcfg ops ⟨m, []⟩ hsizes
    ⟨hlay, List.Pairwise.nil, fun _ h => absurd h (List.not_mem_nil _)⟩).2.1

/-- C1 witness: the trace of the counterexample over the page-aligned base
0x10000000. -/
theorem C1_no_overlap_witness :
    iova_layout_ok (bitmap_mapping 0x10000000 16 0 (fun _ => false)) ∧
    no_overlap (iova_run 9 ⟨bitmap_mapping 0x10000000 16 0 (fun _ => false), []⟩
      [iova_op.alloc 4096 0, iova_op.alloc 4096 0, iova_op.free 0, iova_op.alloc 4096 0]).live :=
  ⟨⟨by decide, by decide, by decide, by decide⟩,
   C1_no_overlap 9 (bitmap_mapping 0x10000000 16 0 (fun _ => false))
    [iova_op.alloc 4096 0, iova_op.alloc 4096 0, iova_op.free 0, iova_op.alloc 4096 0]
    (by decide) ⟨by decide, by decide, by decide, by decide⟩
    (by
      intro op hop size ret h
      subst h
      simp at hop
      omega)⟩

/-! ## C5: reference life cycle of a context -/

/-- The events of the destructor that `arm_iommu_release_mapping` selects. -/
theorem release_last (m : dma_iommu_mapping) (hinit : m.init = true) (hk : m.kref = 1) :
    arm_iommu_release_mapping (some m) =
      (none, if iommu_domain_get_attr m.domain.attr_fast 0 ≠ 0
        then fast_smmu_release_mapping m else release_iommu_mapping m) := by
  by_cases hf : iommu_domain_get_attr m.domain.attr_fast 0 ≠ 0
  · simp [arm_iommu_release_mapping, hinit, kref_put, hk, hf, fast_smmu_release_mapping]
  · simp [arm_iommu_release_mapping, hinit, kref_put, hk, hf, release_iommu_mapping]

theorem release_not_last (m : dma_iommu_mapping) (hinit : m.init = true) (hk : 1 < m.kref) :
    arm_iommu_release_mapping (some m) = (some { m with kref := m.kref - 1 }, []) := by
  have h1 : m.kref ≠ 1 := by omega
  simp [arm_iommu_release_mapping, hinit, kref_put, h1]

theorem release_times_early : ∀ (j : Nat) (m : dma_iommu_mapping), m.init = true →
    j < m.kref → release_times j (some m) = (some { m with kref := m.kref - j }, []) := by
  intro j
  induction j with
  | zero => intro m _ _; rfl
  | succ j ih =>
    intro m hinit hj
    simp only [release_times]
    rw [release_not_last m hinit (by omega)]
    have := ih { m with kref := m.kref - 1 } hinit (by show j < m.kref - 1; omega)
    rw [this]
    simp only [List.append_nil, List.nil_append]
    show (some { m with kref := m.kref - 1 - j }, []) = _
    rw [Nat.sub_sub, Nat.add_comm]

theorem release_times_all : ∀ (j : Nat) (m : dma_iommu_mapping), m.init = true →
    m.kref = j + 1 → release_times (j + 1) (some m) =
      (none, if iommu_domain_get_attr m.domain.attr_fast 0 ≠ 0
        then fast_smmu_release_mapping m else release_iommu_mapping m) := by
  intro j
  induction j with
  | zero =>
    intro m hinit hk
    simp only [release_times]
    rw [release_last m hinit hk]
    simp
  | succ j ih =>
    intro m hinit hk
    rw [release_times, release_not_last m hinit (by omega)]
    have := ih { m with kref := m.kref - 1 } hinit (by show m.kref - 1 = j + 1; omega)
    simp only [this, List.nil_append]
    rfl

/-- C5: for every initialized context holding N >= 1 references, each of
the first N-1 calls of `arm_iommu_release_mapping` only decrements the count
and frees nothing, and the N-th call destroys the context: afterwards the
context is gone and over all N calls the IOMMU domain and the context object
have each been freed exactly once. -/
theorem C5_release_lifecycle (m : dma_iommu_mapping) (N : Nat)
    (hinit : m.init = true) (hN : 1 ≤ N) (hk : m.kref = N) :
    (∀ j, j < N → release_times j (some m) = (some { m with kref := N - j }, [])) ∧
    (release_times N (some m)).1 = none ∧
    (release_times N (some m)).2.count (kernel_event.iommu_domain_free m.domain.id) = 1 ∧
    (release_times N (some m)).2.count (kernel_event.kfree_mapping m.addr) = 1 := by
  subst hk
  refine ⟨fun j hj => release_times_early j m hinit hj, ?_⟩
  obtain ⟨j, hj⟩ : ∃ j, m.kref = j + 1 := ⟨m.kref - 1, by omega⟩
  rw [hj, release_times_all j m hinit hj]
  refine ⟨rfl, ?_, ?_⟩
  · split
    · simp [fast_smmu_release_mapping]
    · simp only [release_iommu_mapping]
      by_cases hb : iommu_domain_get_attr m.domain.attr_bitmap_iova_allocator 0 ≠ 0
      · rw [if_pos hb]; simp
      · rw [if_neg hb]; simp
  · split
    · simp [fast_smmu_release_mapping]
    · simp only [release_iommu_mapping]
      by_cases hb : iommu_domain_get_attr m.domain.attr_bitmap_iova_allocator 0 ≠ 0
      · rw [if_pos hb]; simp
      · rw [if_neg hb]; simp

/-- C5 witness: a bitmap-mode context holding three references. -/
theorem C5_release_lifecycle_witness :
    (∀ j, j < 3 → release_times j
        (some { bitmap_mapping 0x10000000 16 0 (fun _ => false) with kref := 3 }) =
      (some { bitmap_mapping 0x10000000 16 0 (fun _ => false) with kref := 3 - j }, [])) ∧
    (release_times 3
      (some { bitmap_mapping 0x10000000 16 0 (fun _ => false) with kref := 3 })).1 = none ∧
    (release_times 3
      (some { bitmap_mapping 0x10000000 16 0 (fun _ => false) with kref := 3 })).2.count
        (kernel_event.iommu_domain_free 0) = 1 ∧
    (release_times 3
      (some { bitmap_mapping 0x10000000 16 0 (fun _ => false) with kref := 3 })).2.count
        (kernel_event.kfree_mapping 0) = 1 :=
  C5_release_lifecycle { bitmap_mapping 0x10000000 16 0 (fun _ => false) with kref := 3 } 3
    rfl (by decide) rfl

/-! ## C9, C10: context initialization and device attachment -/

/-- In bitmap mode `arm_iommu_init_mapping` runs `bitmap_iommu_init_mapping`
and completes the context only when that succeeds. -/
theorem init_mapping_bitmap_mode (env : init_env) (m : dma_iommu_mapping)
    (hinit : m.init = false) (hmask : iova_end m ≤ env.dma_mask)
    (hbitmap : iommu_domain_get_attr m.domain.attr_bitmap_iova_allocator 0 ≠ 0)
    (hs1 : iommu_domain_get_attr m.domain.attr_s1_bypass 0 = 0)
    (hfast : iommu_domain_get_attr m.domain.attr_fast 0 = 0) :
    arm_iommu_init_mapping env m =
      if (bitmap_iommu_init_mapping env m).2 = 0 then
        ({ (bitmap_iommu_init_mapping env m).1 with kref := 1, init := true },
          (bitmap_iommu_init_mapping env m).2)
      else bitmap_iommu_init_mapping env m := by
  have hm : ¬ iova_end m > env.dma_mask := by omega
  simp only [arm_iommu_init_mapping, init_mapping_mode, hinit, hs1, hfast, ne_eq,
    not_true_eq_false, if_false, hm, hbitmap, not_false_eq_true, if_true, Bool.false_eq_true]

/-- No path of `bitmap_iommu_init_mapping` touches `init`. -/
theorem bitmap_init_keeps_init (env : init_env) (m : dma_iommu_mapping) :
    (bitmap_iommu_init_mapping env m).1.init = m.init := by
  unfold bitmap_iommu_init_mapping
  simp only []
  by_cases he : iommu_domain_get_attr m.domain.attr_errata_min_iova_align 0 ≠ 0
  · simp only [he, ne_eq, not_false_eq_true, if_true, true_and]
    by_cases hg : env.guard_page (bitmap_init_vmid env m) = none
    · simp only [hg, if_true]
    · simp only [hg, if_false]
      by_cases ha : env.kzalloc_ok = true ∨ env.vzalloc_ok = true
      · simp only [ha, if_true]
      · simp only [ha, if_false]
  · simp only [he, ne_eq, false_and, if_false]
    by_cases ha : env.kzalloc_ok = true ∨ env.vzalloc_ok = true
    · simp only [ha, if_true]
    · simp only [ha, if_false]

/-- C9: for an uninitialized context that passes the device-mask check and
whose domain reports the bitmap-allocator attribute and neither S1 bypass
nor the fast attribute: when the guard page (if the erratum applies) and the
bitmap can be allocated, `arm_iommu_init_mapping` returns 0 with the
operation set `iommu_ops`, an allocated all-free bitmap over the unchanged
`bits`, `init = true` and a reference count of 1; when
`bitmap_iommu_init_mapping` fails, `init` stays false and its error is
returned. -/
theorem C9_init_selects_bitmap_mode (env : init_env) (m : dma_iommu_mapping)
    (hinit : m.init = false) (hmask : iova_end m ≤ env.dma_mask)
    (hbitmap : iommu_domain_get_attr m.domain.attr_bitmap_iova_allocator 0 ≠ 0)
    (hs1 : iommu_domain_get_attr m.domain.attr_s1_bypass 0 = 0)
    (hfast : iommu_domain_get_attr m.domain.attr_fast 0 = 0) :
    (((iommu_domain_get_attr m.domain.attr_errata_min_iova_align 0 = 0 ∨
        env.guard_page (bitmap_init_vmid env m) ≠ none) ∧
      (env.kzalloc_ok = true ∨ env.vzalloc_ok = true)) →
      (arm_iommu_init_mapping env m).2 = 0 ∧
      (arm_iommu_init_mapping env m).1.ops = some dma_map_ops.iommu_ops ∧
      (arm_iommu_init_mapping env m).1.bitmap_allocated = true ∧
      (∀ i, (arm_iommu_init_mapping env m).1.bitmap i = false) ∧
      (arm_iommu_init_mapping env m).1.bits = m.bits ∧
      (arm_iommu_init_mapping env m).1.init = true ∧
      (arm_iommu_init_mapping env m).1.kref = 1) ∧
    ((bitmap_iommu_init_mapping env m).2 ≠ 0 →
      (arm_iommu_init_mapping env m).1.init = false ∧
      (arm_iommu_init_mapping env m).2 = (bitmap_iommu_init_mapping env m).2) := by
  rw [init_mapping_bitmap_mode env m hinit hmask hbitmap hs1 hfast]
  constructor
  · rintro ⟨hg, ha⟩
    have hb : bitmap_iommu_init_mapping env m =
        ({ (if iommu_domain_get_attr m.domain.attr_errata_min_iova_align 0 ≠ 0 then
              { m with min_iova_align := env.ARM_SMMU_MIN_IOVA_ALIGN,
                       guard_page := env.guard_page (bitmap_init_vmid env m) }
            else m) with
            bitmap := fun _ => false, bitmap_allocated := true,
            ops := some dma_map_ops.iommu_ops }, 0) := by
      unfold bitmap_iommu_init_mapping
      simp only []
      by_cases he : iommu_domain_get_attr m.domain.attr_errata_min_iova_align 0 ≠ 0
      · have hgp : env.guard_page (bitmap_init_vmid env m) ≠ none := by
          rcases hg with h | h
          · exact absurd h he
          · exact h
        simp only [he, ne_eq, not_false_eq_true, if_true, hgp, and_false, if_false, ha]
      · simp only [he, ne_eq, false_and, if_false, ha, if_true]
    rw [hb, if_pos rfl]
    refine ⟨rfl, rfl, rfl, fun _ => rfl, ?_, rfl, rfl⟩
    show (if iommu_domain_get_attr m.domain.attr_errata_min_iova_align 0 ≠ 0 then
        { m with min_iova_align := env.ARM_SMMU_MIN_IOVA_ALIGN,
                 guard_page := env.guard_page (bitmap_init_vmid env m) }
      else m).bits = m.bits
    by_cases he : iommu_domain_get_attr m.domain.attr_errata_min_iova_align 0 ≠ 0
    · simp only [he, ne_eq, not_false_eq_true, if_true]
    · simp only [he, if_false]
  · intro herr
    rw [if_neg herr]
    exact ⟨by rw [bitmap_init_keeps_init, hinit], rfl⟩


/-- C9 witness: a fresh 16-page context at 0x10000000 over a bitmap domain,
with every allocation succeeding. -/
theorem C9_init_selects_bitmap_mode_witness :
    (arm_iommu_init_mapping friendly_env
      (uninitialized_mapping 1 0x10000000 16 (bitmap_domain 7))).2 = 0 ∧
    (arm_iommu_init_mapping friendly_env
      (uninitialized_mapping 1 0x10000000 16 (bitmap_domain 7))).1.ops
        = some dma_map_ops.iommu_ops ∧
    (arm_iommu_init_mapping friendly_env
      (uninitialized_mapping 1 0x10000000 16 (bitmap_domain 7))).1.init = true ∧
    (arm_iommu_init_mapping friendly_env
      (uninitialized_mapping 1 0x10000000 16 (bitmap_domain 7))).1.kref = 1 :=
  have h := (C9_init_selects_bitmap_mode friendly_env
    (uninitialized_mapping 1 0x10000000 16 (bitmap_domain 7)) rfl (by decide) (by decide)
    (by decide) (by decide)).1 ⟨Or.inl (by decide), Or.inl rfl⟩
  ⟨h.1, h.2.1, h.2.2.2.2.2.1, h.2.2.2.2.2.2⟩

/-- C10: `arm_iommu_attach_device` returns 0 exactly when the device has an
IOMMU group, no domain is attached to it, the group join succeeds and the
context initialization succeeds. On success the device records the given
context and gets the context's operation set. On every failure the recorded
context and the DMA operations are unchanged; when the initialization is
what failed, its error is returned and the group is left detached. -/
theorem C10_attach_device (env : init_env) (attach_ret : Int) (dev : device)
    (m : dma_iommu_mapping) :
    ((arm_iommu_attach_device env attach_ret dev m).2.2 = 0 ↔
      dev.iommu_group ≠ none ∧ iommu_get_domain_for_dev dev = none ∧ attach_ret = 0 ∧
      (arm_iommu_init_mapping env m).2 = 0) ∧
    ((arm_iommu_attach_device env attach_ret dev m).2.2 = 0 →
      (arm_iommu_attach_device env attach_ret dev m).1.archdata_mapping = some m.addr ∧
      (arm_iommu_attach_device env attach_ret dev m).1.dma_ops =
        (arm_iommu_attach_device env attach_ret dev m).2.1.ops) ∧
    ((arm_iommu_attach_device env attach_ret dev m).2.2 ≠ 0 →
      (arm_iommu_attach_device env attach_ret dev m).1.archdata_mapping = dev.archdata_mapping ∧
      (arm_iommu_attach_device env attach_ret dev m).1.dma_ops = dev.dma_ops) ∧
    (dev.iommu_group ≠ none → iommu_get_domain_for_dev dev = none → attach_ret = 0 →
      (arm_iommu_init_mapping env m).2 ≠ 0 →
      (arm_iommu_attach_device env attach_ret dev m).2.2 = (arm_iommu_init_mapping env m).2 ∧
      iommu_get_domain_for_dev (arm_iommu_attach_device env attach_ret dev m).1 = none) := by
  have hE : (-EINVAL : Int) ≠ 0 := by decide
  cases hg : dev.iommu_group with
  | none =>
    simp [arm_iommu_attach_device, hg, hE]
  | some g =>
    cases hd : g.domain with
    | some d =>
      simp [arm_iommu_attach_device, hg, iommu_get_domain_for_dev, hd, hE]
    | none =>
      by_cases ha : attach_ret = 0
      · by_cases hi : (arm_iommu_init_mapping env m).2 = 0
        · simp [arm_iommu_attach_device, hg, iommu_get_domain_for_dev, hd, iommu_attach_group,
            ha, hi]
        · simp [arm_iommu_attach_device, hg, iommu_get_domain_for_dev, hd, iommu_attach_group,
            ha, hi, iommu_detach_group]
      · simp [arm_iommu_attach_device, hg, iommu_get_domain_for_dev, hd, iommu_attach_group, ha]

/-! ## C8: a second attach does not touch the reference count -/

/-- A successful initialization leaves the context initialized with a
reference count of 1. -/
theorem init_mapping_success (env : init_env) (m : dma_iommu_mapping) (hinit : m.init = false)
    (hok : (arm_iommu_init_mapping env m).2 = 0) :
    (arm_iommu_init_mapping env m).1.init = true ∧ (arm_iommu_init_mapping env m).1.kref = 1 := by
  have hE : (-EINVAL : Int) ≠ 0 := by decide
  by_cases hm : iova_end m > env.dma_mask
  · simp [arm_iommu_init_mapping, hinit, hm, hE] at hok
  · by_cases hr : (init_mapping_mode env m).2 = 0
    · simp [arm_iommu_init_mapping, hinit, hm, hr]
    · simp [arm_iommu_init_mapping, hinit, hm, hr] at hok

/-- A successful attach returns the context as the initialization left it. -/
theorem attach_success_mapping (env : init_env) (attach_ret : Int) (dev : device)
    (m : dma_iommu_mapping) (hok : (arm_iommu_attach_device env attach_ret dev m).2.2 = 0) :
    (arm_iommu_attach_device env attach_ret dev m).2.1 = (arm_iommu_init_mapping env m).1 ∧
    (arm_iommu_init_mapping env m).2 = 0 := by
  have hE : (-EINVAL : Int) ≠ 0 := by decide
  cases hg : dev.iommu_group with
  | none => simp [arm_iommu_attach_device, hg, hE] at hok
  | some g =>
    cases hd : g.domain with
    | some d => simp [arm_iommu_attach_device, hg, iommu_get_domain_for_dev, hd, hE] at hok
    | none =>
      by_cases ha : attach_ret = 0
      · by_cases hi : (arm_iommu_init_mapping env m).2 = 0
        · simp [arm_iommu_attach_device, hg, iommu_get_domain_for_dev, hd, iommu_attach_group,
            ha, hi]
        · simp [arm_iommu_attach_device, hg, iommu_get_domain_for_dev, hd, iommu_attach_group,
            ha, hi] at hok
      · simp [arm_iommu_attach_device, hg, iommu_get_domain_for_dev, hd, iommu_attach_group,
          ha] at hok

/-- C8 (as stated, refuted): attach a first device to a fresh bitmap-mode
context and then a second device to the same context, both successfully.
The reference count is 1 after the second attach, not 2. -/
theorem C8_second_attach_refcount_is_one :
    (arm_iommu_attach_device friendly_env 0 (detached_device 1)
      (uninitialized_mapping 1 0x10000000 16 (bitmap_domain 7))).2.2 = 0 ∧
    (arm_iommu_attach_device friendly_env 0 (detached_device 2)
      (arm_iommu_attach_device friendly_env 0 (detached_device 1)
        (uninitialized_mapping 1 0x10000000 16 (bitmap_domain 7))).2.1).2.2 = 0 ∧
    (arm_iommu_attach_device friendly_env 0 (detached_device 2)
      (arm_iommu_attach_device friendly_env 0 (detached_device 1)
        (uninitialized_mapping 1 0x10000000 16 (bitmap_domain 7))).2.1).2.1.kref = 1 ∧
    (arm_iommu_attach_device friendly_env 0 (detached_device 2)
      (arm_iommu_attach_device friendly_env 0 (detached_device 1)
        (uninitialized_mapping 1 0x10000000 16 (bitmap_domain 7))).2.1).2.1.kref ≠ 2 := by
  decide

/-- C8 (amended): after a first device has been attached successfully to an
uninitialized context, the context is initialized with a reference count
of 1, and a successful attach of a second device to the same context leaves
the context exactly as it was: no re-initialization, the operation set
unchanged, and the reference count still 1. -/
theorem C8_second_attach_leaves_context (env1 env2 : init_env) (ret1 ret2 : Int)
    (d1 d2 : device) (c : dma_iommu_mapping) (hc : c.init = false)
    (h1 : (arm_iommu_attach_device env1 ret1 d1 c).2.2 = 0)
    (h2 : (arm_iommu_attach_device env2 ret2 d2
      (arm_iommu_attach_device env1 ret1 d1 c).2.1).2.2 = 0) :
    (arm_iommu_attach_device env1 ret1 d1 c).2.1.init = true ∧
    (arm_iommu_attach_device env1 ret1 d1 c).2.1.kref = 1 ∧
    (arm_iommu_attach_device env2 ret2 d2 (arm_iommu_attach_device env1 ret1 d1 c).2.1).2.1 =
      (arm_iommu_attach_device env1 ret1 d1 c).2.1 ∧
    (arm_iommu_attach_device env2 ret2 d2
      (arm_iommu_attach_device env1 ret1 d1 c).2.1).2.1.kref = 1 ∧
    (arm_iommu_attach_device env2 ret2 d2
      (arm_iommu_attach_device env1 ret1 d1 c).2.1).2.1.ops =
      (arm_iommu_attach_device env1 ret1 d1 c).2.1.ops := by
  obtain ⟨e1, i1⟩ := attach_success_mapping env1 ret1 d1 c h1
  obtain ⟨hinit, hkref⟩ := init_mapping_success env1 c hc i1
  obtain ⟨e2, _⟩ := attach_success_mapping env2 ret2 d2 _ h2
  have hsame : (arm_iommu_init_mapping env2 (arm_iommu_attach_device env1 ret1 d1 c).2.1).1 =
      (arm_iommu_attach_device env1 ret1 d1 c).2.1 := by
    have hi : (arm_iommu_attach_device env1 ret1 d1 c).2.1.init = true := by rw [e1]; exact hinit
    unfold arm_iommu_init_mapping
    rw [if_pos hi]
  rw [e2, hsame]
  rw [e1]
  exact ⟨hinit, hkref, rfl, hkref, rfl⟩

/-- C8 witness: the two attaches of scenario B. -/
theorem C8_second_attach_leaves_context_witness :
    (arm_iommu_attach_device friendly_env 0 (detached_device 1)
      (uninitialized_mapping 1 0x10000000 16 (bitmap_domain 7))).2.1.init = true ∧
    (arm_iommu_attach_device friendly_env 0 (detached_device 1)
      (uninitialized_mapping 1 0x10000000 16 (bitmap_domain 7))).2.1.kref = 1 ∧
    (arm_iommu_attach_device friendly_env 0 (detached_device 2)
      (arm_iommu_attach_device friendly_env 0 (detached_device 1)
        (uninitialized_mapping 1 0x10000000 16 (bitmap_domain 7))).2.1).2.1.kref = 1 :=
  have h := C8_second_attach_leaves_context friendly_env friendly_env 0 0
    (detached_device 1) (detached_device 2)
    (uninitialized_mapping 1 0x10000000 16 (bitmap_domain 7)) rfl (by decide) (by decide)
  ⟨h.1, h.2.1, h.2.2.2.1⟩

/-! ## C6: the VMA invariant -/

/-- The invariant that balanced call sequences maintain: without a
reservation the VMA is unmapped and unused, an unmapped VMA is unused, and
the counter is never negative. -/
theorem vma_step_balanced (st : vma_state) (op : vma_op)
    (hbal : op = vma_op.unmap → 0 < st.vma.inuse)
    (h : (st.vma.iova = 0 → st.vma.mapped = false ∧ st.vma.inuse = 0) ∧
      (st.vma.mapped = false → st.vma.inuse = 0) ∧ 0 ≤ st.vma.inuse) :
    ((vma_step st op).vma.iova = 0 →
      (vma_step st op).vma.mapped = false ∧ (vma_step st op).vma.inuse = 0) ∧
    ((vma_step st op).vma.mapped = false → (vma_step st op).vma.inuse = 0) ∧
    0 ≤ (vma_step st op).vma.inuse := by
  obtain ⟨h1, h2, h3⟩ := h
  cases op with
  | init npages insert_ret node_start =>
    simp only [vma_step, msm_gem_init_vma]
    by_cases hi : st.vma.iova ≠ 0
    · rw [if_pos hi]; exact ⟨h1, h2, h3⟩
    · rw [if_neg hi]
      have hz := h1 (not_not.1 hi)
      by_cases hr : insert_ret ≠ 0
      · rw [if_pos hr]; exact ⟨h1, h2, h3⟩
      · rw [if_neg hr]
        exact ⟨fun _ => ⟨rfl, hz.2⟩, fun _ => hz.2, h3⟩
  | map mmu_map_ret =>
    simp only [vma_step, msm_gem_map_vma]
    by_cases hi : st.vma.iova = 0
    · rw [if_pos hi]; exact ⟨h1, h2, h3⟩
    · rw [if_neg hi]
      by_cases hm : st.vma.mapped = true
      · rw [if_pos hm]
        refine ⟨fun h0 => absurd h0 hi, fun hf => ?_, ?_⟩
        · have : st.vma.mapped = false := hf
          rw [hm] at this; exact absurd this (by decide)
        · show 0 ≤ st.vma.inuse + 1
          omega
      · rw [if_neg hm]
        have hmf : st.vma.mapped = false := by
          cases hmm : st.vma.mapped
          · rfl
          · exact absurd hmm hm
        have hz := h2 hmf
        generalize (if st.aspace.mmu = true then mmu_map_ret else 0) = ret
        by_cases hr : ret ≠ 0
        · rw [if_pos hr]
          refine ⟨fun h0 => absurd h0 hi, fun _ => ?_, ?_⟩
          · show st.vma.inuse + 1 - 1 = 0
            omega
          · show 0 ≤ st.vma.inuse + 1 - 1
            omega
        · rw [if_neg hr]
          refine ⟨fun h0 => absurd h0 hi, fun hf => Bool.noConfusion hf, ?_⟩
          show 0 ≤ st.vma.inuse + 1
          omega
  | unmap =>
    have hpos := hbal rfl
    simp only [vma_step, msm_gem_unmap_vma]
    by_cases hi : st.vma.iova ≠ 0
    · rw [if_pos hi]
      refine ⟨fun h0 => absurd h0 hi, fun hf => ?_, ?_⟩
      · have := h2 hf
        omega
      · show 0 ≤ st.vma.inuse - 1
        omega
    · rw [if_neg hi]; exact ⟨h1, h2, h3⟩
  | purge =>
    simp only [vma_step, msm_gem_purge_vma]
    by_cases hu : st.vma.inuse > 0
    · rw [if_pos hu]; exact ⟨h1, h2, h3⟩
    · rw [if_neg hu]
      split
      · exact ⟨h1, h2, h3⟩
      · exact ⟨fun h0 => ⟨rfl, (h1 h0).2⟩, fun _ => by show st.vma.inuse = 0; omega, h3⟩
  | close =>
    simp only [vma_step, msm_gem_close_vma]
    by_cases hc : st.vma.inuse > 0 ∨ st.vma.mapped = true
    · rw [if_pos hc]; exact ⟨h1, h2, h3⟩
    · rw [if_neg hc]
      push_neg at hc
      have hmf : st.vma.mapped = false := by
        cases hmm : st.vma.mapped
        · rfl
        · exact absurd hmm hc.2
      exact ⟨fun _ => ⟨hmf, h2 hmf⟩, h2, h3⟩

theorem vma_states_balanced : ∀ (ops : List vma_op) (st : vma_state),
    unmaps_balanced st ops →
    ((st.vma.iova = 0 → st.vma.mapped = false ∧ st.vma.inuse = 0) ∧
      (st.vma.mapped = false → st.vma.inuse = 0) ∧ 0 ≤ st.vma.inuse) →
    ∀ s ∈ vma_states st ops, vma_invariant s.vma := by
  intro ops
  induction ops with
  | nil => intro st _ _ s hs; simp [vma_states] at hs
  | cons op ops ih =>
    intro st hbal hinv s hs
    have hstep := vma_step_balanced st op hbal.1 hinv
    simp only [vma_states, List.mem_cons] at hs
    rcases hs with rfl | hs
    · exact hstep.2.1
    · exact ih (vma_step st op) hbal.2 hstep s hs

/-- C6 (as stated, refuted): on a zeroed VMA, a successful `msm_gem_init_vma`
at page 1 followed by `msm_gem_unmap_vma` leaves `mapped = false` with
`inuse = -1`. -/
theorem C6_unmap_breaks_invariant :
    ∃ s ∈ vma_states ⟨⟨true, 1, false⟩, zeroed_vma⟩ [vma_op.init 1 0 1, vma_op.unmap],
      ¬ vma_invariant s.vma := by
  refine ⟨⟨⟨true, 2, false⟩, ⟨4096, false, -1, 1, 1⟩⟩, by decide, ?_⟩
  intro h
  exact absurd (h rfl) (by decide)

/-- C6 (amended): for every sequence of init, map, unmap, purge and close
calls on a zeroed VMA in which every `msm_gem_unmap_vma` is issued while
`inuse > 0`, with the range insertion and the MMU map call free to succeed
or fail, `mapped == false` implies `inuse == 0` after every call. -/
theorem C6_vma_invariant (aspace : msm_gem_address_space) (ops : List vma_op)
    (hbal : unmaps_balanced ⟨aspace, zeroed_vma⟩ ops) :
    ∀ s ∈ vma_states ⟨aspace, zeroed_vma⟩ ops, vma_invariant s.vma :=
  vma_states_balanced ops ⟨aspace, zeroed_vma⟩ hbal
    ⟨fun _ => ⟨rfl, rfl⟩, fun _ => rfl, le_refl _⟩

/-- C6 witness: reserve, map with a failing MMU call, map, map again, unmap
twice, purge, close. -/
theorem C6_vma_invariant_witness :
    unmaps_balanced ⟨⟨true, 1, false⟩, zeroed_vma⟩
      [vma_op.init 4 0 1, vma_op.map (-12), vma_op.map 0, vma_op.map 0, vma_op.unmap,
       vma_op.unmap, vma_op.purge, vma_op.close] ∧
    ∀ s ∈ vma_states ⟨⟨true, 1, false⟩, zeroed_vma⟩
      [vma_op.init 4 0 1, vma_op.map (-12), vma_op.map 0, vma_op.map 0, vma_op.unmap,
       vma_op.unmap, vma_op.purge, vma_op.close], vma_invariant s.vma :=
  ⟨by simp [unmaps_balanced, vma_step, msm_gem_init_vma, msm_gem_map_vma, msm_gem_unmap_vma,
      zeroed_vma, PAGE_SHIFT, U64],
   C6_vma_invariant ⟨true, 1, false⟩
    [vma_op.init 4 0 1, vma_op.map (-12), vma_op.map 0, vma_op.map 0, vma_op.unmap,
     vma_op.unmap, vma_op.purge, vma_op.close]
    (by simp [unmaps_balanced, vma_step, msm_gem_init_vma, msm_gem_map_vma, msm_gem_unmap_vma,
      zeroed_vma, PAGE_SHIFT, U64])⟩

/-! ## C7: the annotations of a mapped scatter list -/

theorem sg_total_length_acc : ∀ (sg : List scatterlist) (acc : Nat),
    acc + sg_lengths_sum sg < U32 →
    sg.foldl (fun total s => (total + s.length) % U32) acc = acc + sg_lengths_sum sg := by
  intro sg
  induction sg with
  | nil => intro acc _; simp [sg_lengths_sum]
  | cons s rest ih =>
    intro acc h
    have hs : sg_lengths_sum (s :: rest) = s.length + sg_lengths_sum rest := by
      simp [sg_lengths_sum]
    rw [hs] at h ⊢
    simp only [List.foldl_cons]
    have hmod : (acc + s.length) % U32 = acc + s.length := Nat.mod_eq_of_lt (by omega)
    rw [hmod, ih (acc + s.length) (by omega)]
    omega

theorem sg_total_length_eq (sg : List scatterlist) (h : sg_lengths_sum sg < U32) :
    sg_total_length sg = sg_lengths_sum sg := by
  unfold sg_total_length
  rw [sg_total_length_acc sg 0 (by omega)]
  omega

theorem sg_assign_length (iova total : Nat) : ∀ (sg : List scatterlist) (off : Nat),
    (sg_assign iova total off sg).length = sg.length := by
  intro sg
  induction sg with
  | nil => intro off; rfl
  | cons s rest ih => intro off; simp [sg_assign, ih]

/-- The annotations the second loop writes when nothing wraps. -/
theorem sg_assign_get (iova total : Nat) (htot : total < U32) (hiova : iova + total < U64) :
    ∀ (sg : List scatterlist) (off i : Nat) (s : scatterlist),
    off + sg_lengths_sum sg ≤ total → sg.get? i = some s →
    (sg_assign iova total off sg).get? i =
      some { s with dma_address := iova + (off + sg_lengths_sum (sg.take i)),
                    dma_length := total - (off + sg_lengths_sum (sg.take i)) } := by
  intro sg
  induction sg with
  | nil => intro off i s _ h; simp at h
  | cons x rest ih =>
    intro off i s hle hget
    have hs : sg_lengths_sum (x :: rest) = x.length + sg_lengths_sum rest := by
      simp [sg_lengths_sum]
    rw [hs] at hle
    cases i with
    | zero =>
      have hx : x = s := Option.some.inj hget
      subst hx
      have e1 : (iova + off) % U64 = iova + off := Nat.mod_eq_of_lt (by omega)
      have e2 : (total + U32 - off) % U32 = total - off := by
        rw [U32_eq] at htot ⊢; omega
      simp [sg_assign, e1, e2, sg_lengths_sum]
    | succ i =>
      have hget' : rest.get? i = some s := hget
      have hmod : (off + x.length) % U32 = off + x.length := Nat.mod_eq_of_lt (by omega)
      have := ih (off + x.length) i s (by omega) hget'
      have hsum : sg_lengths_sum ((x :: rest).take (i + 1)) =
          x.length + sg_lengths_sum (rest.take i) := by
        simp [sg_lengths_sum]
      show (sg_assign iova total ((off + x.length) % U32) rest).get? i = _
      rw [hmod, this, hsum]
      simp only [Nat.add_assoc]


/-- Where a successful `__alloc_iova` puts a request when nothing wraps: at a
page-aligned address, with the whole request below 2^64, the marked run
being the only change of the bitmap. -/
theorem alloc_iova_success_addr (maxOrder : Nat) (m : dma_iommu_mapping) (size : Nat)
    (ret : Int) (hcfg : maxOrder ≤ 30) (hlay : iova_layout_ok m)
    (hspace : m.base + m.bits * PAGE_SIZE < U64) (hsize : size < 2 ^ 32)
    (hok : (__alloc_iova maxOrder m size ret).2 ≠ DMA_ERROR_CODE) :
    (__alloc_iova maxOrder m size ret).2 % PAGE_SIZE = 0 ∧
    (__alloc_iova maxOrder m size ret).2 + size < U64 ∧
    (__alloc_iova maxOrder m size ret).1.bitmap =
      bitmap_set m.bitmap (alloc_iova_start maxOrder m size) (alloc_iova_count m size) := by
  obtain ⟨hbase, hb64, hbits, hmin⟩ := hlay
  rcases alloc_iova_cases maxOrder m size ret with ⟨_, h⟩ | ⟨_, _, h⟩ | ⟨hle, _, h⟩
  · rw [h] at hok; exact absurd rfl hok
  · rw [h] at hok; exact absurd rfl hok
  · obtain ⟨hc, _⟩ := (alloc_iova_start_spec maxOrder m size hbits hmin hsize (Or.inr hcfg)).1 hle
    obtain ⟨T, t1, t2, t3, t4, t5, t6, t7, t8⟩ := iova_size_facts m size hmin hsize
    have hfit := hc.2.1
    rw [t7] at hfit
    rw [h]
    rw [PAGE_SIZE_eq] at hbase hspace ⊢
    rw [U64_eq] at hb64 hspace ⊢
    refine ⟨?_, ?_, rfl⟩
    · show (m.base + (alloc_iova_start maxOrder m size <<< PAGE_SHIFT) % U32) %
        18446744073709551616 % 4096 = 0
      rw [shiftLeft_page, U32_eq]
      omega
    · show (m.base + (alloc_iova_start maxOrder m size <<< PAGE_SHIFT) % U32) %
        18446744073709551616 + size < 18446744073709551616
      rw [shiftLeft_page, U32_eq]
      omega

/-- C7 (as stated, refuted): two segments of 2^31 bytes sum to 2^32, which
the `unsigned int` total wraps to 0. The call then succeeds (it returns 2,
even when `iommu_map_sg` reports nothing mapped), reserves no page, and
segment 0 gets `dma_length = 0`, not the total of 2^32. -/
theorem C7_total_length_wraps :
    sg_lengths_sum [⟨2 ^ 31, 0, 0⟩, ⟨2 ^ 31, 0, 0⟩] = 2 ^ 32 ∧
    (arm_iommu_map_sg 9 (bitmap_mapping 0x10000000 16 0 (fun _ => false))
      [⟨2 ^ 31, 0, 0⟩, ⟨2 ^ 31, 0, 0⟩] 2 0 0).2.2 = 2 ∧
    (arm_iommu_map_sg 9 (bitmap_mapping 0x10000000 16 0 (fun _ => false))
      [⟨2 ^ 31, 0, 0⟩, ⟨2 ^ 31, 0, 0⟩] 2 0 0).2.1 =
      [⟨2 ^ 31, 0x10000000, 0⟩, ⟨2 ^ 31, 0x10000000 + 2 ^ 31, 2 ^ 31⟩] ∧
    ((arm_iommu_map_sg 9 (bitmap_mapping 0x10000000 16 0 (fun _ => false))
      [⟨2 ^ 31, 0, 0⟩, ⟨2 ^ 31, 0, 0⟩] 2 0 0).2.1.map scatterlist.dma_length).head? ≠
      some (sg_lengths_sum [⟨2 ^ 31, 0, 0⟩, ⟨2 ^ 31, 0, 0⟩]) ∧
    (∀ i, i < 16 → (arm_iommu_map_sg 9 (bitmap_mapping 0x10000000 16 0 (fun _ => false))
      [⟨2 ^ 31, 0, 0⟩, ⟨2 ^ 31, 0, 0⟩] 2 0 0).1.bitmap i = false) := by
  decide

/-- C7 (amended): for a mapping with a page-aligned base, at most 2^20 pages
ending below 2^64 and a 32-bit erratum alignment (maximum order at most 30),
and every scatter list of n >= 1 segments whose lengths sum to a total below
2^32, a successful `arm_iommu_map_sg` returns n, reserves one run for the
total at a page-aligned address iova (the pages `__alloc_iova` marks for the
total, as many as the total needs), and gives segment i the address
`iova + (L0 + ... + L(i-1))` and the length `total - (L0 + ... + L(i-1))`. -/
theorem C7_map_sg_fields (maxOrder : Nat) (m : dma_iommu_mapping) (sg : List scatterlist)
    (guard_map_ret : Int) (iommu_map_sg_ret : Nat)
    (hcfg : maxOrder ≤ 30) (hlay : iova_layout_ok m)
    (hspace : m.base + m.bits * PAGE_SIZE < U64)
    (hsum : sg_lengths_sum sg < 2 ^ 32)
    (hok : (arm_iommu_map_sg maxOrder m sg sg.length guard_map_ret iommu_map_sg_ret).2.2 ≠ 0) :
    (arm_iommu_map_sg maxOrder m sg sg.length guard_map_ret iommu_map_sg_ret).2.2 = sg.length ∧
    (__alloc_iova maxOrder m (sg_lengths_sum sg) guard_map_ret).2 ≠ DMA_ERROR_CODE ∧
    (__alloc_iova maxOrder m (sg_lengths_sum sg) guard_map_ret).2 % PAGE_SIZE = 0 ∧
    (arm_iommu_map_sg maxOrder m sg sg.length guard_map_ret iommu_map_sg_ret).1.bitmap =
      bitmap_set m.bitmap (alloc_iova_start maxOrder m (sg_lengths_sum sg))
        (alloc_iova_count m (sg_lengths_sum sg)) ∧
    alloc_iova_count m (sg_lengths_sum sg) = iova_pages_needed m (sg_lengths_sum sg) ∧
    (arm_iommu_map_sg maxOrder m sg sg.length guard_map_ret iommu_map_sg_ret).2.1.length
      = sg.length ∧
    ∀ i s, sg.get? i = some s →
      (arm_iommu_map_sg maxOrder m sg sg.length guard_map_ret iommu_map_sg_ret).2.1.get? i =
        some { s with
          dma_address := (__alloc_iova maxOrder m (sg_lengths_sum sg) guard_map_ret).2 +
            sg_lengths_sum (sg.take i),
          dma_length := sg_lengths_sum sg - sg_lengths_sum (sg.take i) } := by
  have hU : sg_lengths_sum sg < U32 := hsum
  have htot : sg_total_length sg = sg_lengths_sum sg := sg_total_length_eq sg hU
  unfold arm_iommu_map_sg at hok ⊢
  simp only [List.take_length, List.drop_length, List.append_nil, htot] at hok ⊢
  by_cases h1 : (__alloc_iova maxOrder m (sg_lengths_sum sg) guard_map_ret).2 = DMA_ERROR_CODE
  · rw [if_pos h1] at hok; exact absurd rfl hok
  · rw [if_neg h1] at hok ⊢
    by_cases h2 : iommu_map_sg_ret % U32 ≠ sg_lengths_sum sg
    · rw [if_pos h2] at hok; exact absurd rfl hok
    · rw [if_neg h2]
      obtain ⟨a1, a2, a3⟩ := alloc_iova_success_addr maxOrder m (sg_lengths_sum sg)
        guard_map_ret hcfg hlay hspace hsum h1
      refine ⟨rfl, h1, a1, a3, iova_pages_needed_eq m _ hlay.2.2.2 hsum,
        sg_assign_length _ _ _ _, ?_⟩
      intro i s hget
      have := sg_assign_get (__alloc_iova maxOrder m (sg_lengths_sum sg) guard_map_ret).2
        (sg_lengths_sum sg) hU a2 sg 0 i s (by omega) hget
      simpa using this

/-- C7 witness: scenario D, the segments [4096, 8192] in an empty 16-page
space at 0x10000000: three pages are reserved and the segments get
(iova, 12288) and (iova + 4096, 8192). -/
theorem C7_map_sg_fields_witness :
    (arm_iommu_map_sg 9 (bitmap_mapping 0x10000000 16 0 (fun _ => false))
      [⟨4096, 0, 0⟩, ⟨8192, 0, 0⟩] 2 0 12288).2.2 = 2 ∧
    alloc_iova_count (bitmap_mapping 0x10000000 16 0 (fun _ => false)) 12288 = 3 ∧
    (__alloc_iova 9 (bitmap_mapping 0x10000000 16 0 (fun _ => false)) 12288 0).2
      = 0x10000000 ∧
    (arm_iommu_map_sg 9 (bitmap_mapping 0x10000000 16 0 (fun _ => false))
      [⟨4096, 0, 0⟩, ⟨8192, 0, 0⟩] 2 0 12288).2.1 =
      [⟨4096, 0x10000000, 12288⟩, ⟨8192, 0x10000000 + 4096, 8192⟩] :=
  have h := C7_map_sg_fields 9 (bitmap_mapping 0x10000000 16 0 (fun _ => false))
    [⟨4096, 0, 0⟩, ⟨8192, 0, 0⟩] 0 12288 (by decide)
    ⟨by decide, by decide, by decide, by decide⟩ (by decide) (by decide) (by decide)
  ⟨h.1, by decide, by decide, by decide⟩

/-! ## Why the layout bounds are needed: the 32-bit wrap above 2^20 pages -/

theorem alloc_iova_start_unfold (maxOrder : Nat) (m : dma_iommu_mapping) (size : Nat) :
    alloc_iova_start maxOrder m size =
      (bitmap_find_next_zero_area_loop m.bitmap m.bits (alloc_iova_count m size)
        ((1 <<< alloc_iova_order maxOrder m size) - 1) (m.bits + 1) 0) % U32 := rfl

/-- The one-page request in a space of 2^20 + 16 pages whose first 2^20
pages are used, for any mapping of that shape. -/
theorem iova_wrap_general (m : dma_iommu_mapping) (hbase : m.base = 0)
    (hbits : m.bits = 2 ^ 20 + 16) (hmin : m.min_iova_align = 0)
    (hmap : m.bitmap = fun i => decide (i < 2 ^ 20)) :
    alloc_iova_start 9 m 4096 = 2 ^ 20 ∧
    (__alloc_iova 9 m 4096 0).2 = 0 ∧
    (__free_iova (__alloc_iova 9 m 4096 0).1 (__alloc_iova 9 m 4096 0).2 4096).bitmap 0
      = false := by
  have hguard : iova_guard_len m (PAGE_ALIGN 4096) = 0 := by
    unfold iova_guard_len
    rw [if_neg (by rw [hmin]; exact fun h => h rfl)]
  have hcount : alloc_iova_count m 4096 = 1 := by
    unfold alloc_iova_count
    simp only [hguard]
    decide
  have horder : alloc_iova_order 9 m 4096 = 0 := by
    unfold alloc_iova_order
    simp only [hguard]
    decide
  have hfc : free_iova_count m 4096 = 1 := by
    unfold free_iova_count
    simp only [hguard]
    decide
  have hfs : free_iova_start m 0 = 0 := by
    unfold free_iova_start
    simp only [hbase]
    decide
  obtain ⟨l1, l2⟩ := bitmap_find_next_zero_area_loop_spec
    m.bitmap m.bits 1 0 (m.bits + 1) 0 (Nat.zero_le _) (by omega)
  have hcand : area_candidate m.bitmap m.bits 1 0 (2 ^ 20) := by
    refine ⟨by omega, by omega, ?_⟩
    intro j hj1 hj2
    rw [hmap]
    simp only [decide_eq_false_iff_not]
    omega
  have hr : bitmap_find_next_zero_area_loop m.bitmap m.bits 1 0 (m.bits + 1) 0 = 2 ^ 20 := by
    generalize bitmap_find_next_zero_area_loop m.bitmap m.bits 1 0 (m.bits + 1) 0 = r at l1 l2 ⊢
    by_cases hle : r ≤ m.bits
    · obtain ⟨⟨_, _, hz⟩, hleast⟩ := l1 hle
      have h1 := hleast (by omega) (2 ^ 20) (Nat.zero_le _) hcand
      have h2 := hz _ (le_refl _) (by omega)
      rw [hmap] at h2
      simp only [decide_eq_false_iff_not] at h2
      omega
    · exact absurd hcand ((l2 (by omega)).2 (by omega) (2 ^ 20) (Nat.zero_le _))
  have hstart : alloc_iova_start 9 m 4096 = 2 ^ 20 := by
    rw [alloc_iova_start_unfold, hcount, horder]
    have hmask : (1 <<< 0) - 1 = 0 := by decide
    rw [hmask, hr]
    decide
  rcases alloc_iova_cases 9 m 4096 0 with ⟨hgt, _⟩ | ⟨_, hg, _⟩ | ⟨_, _, h⟩
  · rw [hstart, hbits] at hgt
    exact absurd hgt (by decide)
  · exact absurd hguard hg.1
  · have haddr : (m.base + (2 ^ 20 <<< PAGE_SHIFT) % U32) % U64 = 0 := by
      rw [hbase]; decide
    rw [h, hstart, hcount]
    refine ⟨rfl, haddr, ?_⟩
    show bitmap_clear _ (free_iova_start m ((m.base + (2 ^ 20 <<< PAGE_SHIFT) % U32) % U64))
      (free_iova_count m 4096) 0 = false
    rw [haddr, hfs, hfc]
    unfold bitmap_clear
    rw [if_pos (by omega)]

/-- Beyond 2^20 pages the address arithmetic wraps: in a space of 2^20 + 16
pages whose first 2^20 pages are used, a one-page allocation marks page 2^20
but `start << PAGE_SHIFT` is computed in an `unsigned int`, so the address
returned is the base itself, and the matching free clears page 0, which was
in use before the allocation. -/
theorem iova_wraps_beyond_4GiB :
    alloc_iova_start 9 (bitmap_mapping 0 (2 ^ 20 + 16) 0 (fun i => decide (i < 2 ^ 20))) 4096
      = 2 ^ 20 ∧
    (__alloc_iova 9 (bitmap_mapping 0 (2 ^ 20 + 16) 0 (fun i => decide (i < 2 ^ 20))) 4096 0).2
      = 0 ∧
    (__free_iova
      (__alloc_iova 9 (bitmap_mapping 0 (2 ^ 20 + 16) 0 (fun i => decide (i < 2 ^ 20))) 4096 0).1
      (__alloc_iova 9 (bitmap_mapping 0 (2 ^ 20 + 16) 0 (fun i => decide (i < 2 ^ 20))) 4096 0).2
      4096).bitmap 0 = false ∧
    (bitmap_mapping 0 (2 ^ 20 + 16) 0 (fun i => decide (i < 2 ^ 20))).bitmap 0 = true :=
  have h := iova_wrap_general (bitmap_mapping 0 (2 ^ 20 + 16) 0 (fun i => decide (i < 2 ^ 20)))
    rfl rfl rfl rfl
  ⟨h.1, h.2.1, h.2.2, by decide⟩

/-! ## C19, C20: the early return and the mask check of arm_iommu_init_mapping -/

/-- C19: `arm_iommu_init_mapping` on a context whose `init` flag is set
returns 0 and hands the context back as it was, whatever the DMA mask of the
device and whatever the domain attributes read: the operation set, the
bitmap, the page count, the base, the guard page and the erratum alignment
(every field) are unchanged. -/
theorem C19_init_mapping_idempotent (env : init_env) (m : dma_iommu_mapping)
    (h : m.init = true) : arm_iommu_init_mapping env m = (m, 0) := by
  unfold arm_iommu_init_mapping
  rw [if_pos h]

/-- C19 witness: an initialized bitmap-mode context, presented with a device
whose DMA mask (0) is far too small for it. -/
theorem C19_init_mapping_idempotent_witness :
    (bitmap_mapping 0x10000000 16 0 (fun _ => false)).init = true ∧
    arm_iommu_init_mapping { friendly_env with dma_mask := 0 }
      (bitmap_mapping 0x10000000 16 0 (fun _ => false)) =
      (bitmap_mapping 0x10000000 16 0 (fun _ => false), 0) :=
  ⟨rfl, C19_init_mapping_idempotent _ _ rfl⟩

/-- C20 (as stated, refuted): a two-page context whose base is the last page
of the 64-bit address space. Its last address `base + size - 1` is
`2^64 + 4095`, far above the 32-bit DMA mask of the device, but the code
computes it in a 64-bit word, where it wraps to 4095: the check passes and
the initialization succeeds, selecting a mode and setting `init`. -/
theorem C20_mask_check_wraps :
    (uninitialized_mapping 1 (2 ^ 64 - 4096) 2 (bitmap_domain 7)).init = false ∧
    (uninitialized_mapping 1 (2 ^ 64 - 4096) 2 (bitmap_domain 7)).base +
      (uninitialized_mapping 1 (2 ^ 64 - 4096) 2 (bitmap_domain 7)).bits * PAGE_SIZE - 1
      > friendly_env.dma_mask ∧
    iova_end (uninitialized_mapping 1 (2 ^ 64 - 4096) 2 (bitmap_domain 7)) = 4095 ∧
    (arm_iommu_init_mapping friendly_env
      (uninitialized_mapping 1 (2 ^ 64 - 4096) 2 (bitmap_domain 7))).2 = 0 ∧
    (arm_iommu_init_mapping friendly_env
      (uninitialized_mapping 1 (2 ^ 64 - 4096) 2 (bitmap_domain 7))).1.init = true ∧
    (arm_iommu_init_mapping friendly_env
      (uninitialized_mapping 1 (2 ^ 64 - 4096) 2 (bitmap_domain 7))).1.ops =
      some dma_map_ops.iommu_ops := by
  decide

/-- The local `iova_end` when the range of the context lies inside the
64-bit address space. -/
theorem iova_end_eq (m : dma_iommu_mapping) (hbits : 1 ≤ m.bits)
    (hfit : m.base + m.bits * PAGE_SIZE ≤ U64) :
    iova_end m = m.base + m.bits * PAGE_SIZE - 1 := by
  unfold iova_end
  rw [shiftLeft_page]
  rw [PAGE_SIZE_eq] at hfit
  rw [U64_eq] at hfit ⊢
  rw [PAGE_SIZE_eq]
  omega

/-- C20 (amended): for an uninitialized context of at least one page whose
range `[base, base + size)` lies inside the 64-bit address space (size being
the page count times the page size): when `base + size - 1` exceeds the DMA
mask of the device, `arm_iommu_init_mapping` returns `-EINVAL` and hands the
context back untouched (no mode selected, `init` still false); when it does
not, the result is that of the mode selection alone, so the check causes no
failure. -/
theorem C20_mask_check (env : init_env) (m : dma_iommu_mapping) (hinit : m.init = false)
    (hbits : 1 ≤ m.bits) (hfit : m.base + m.bits * PAGE_SIZE ≤ U64) :
    (m.base + m.bits * PAGE_SIZE - 1 > env.dma_mask →
      arm_iommu_init_mapping env m = (m, -EINVAL) ∧
      (arm_iommu_init_mapping env m).1.init = false ∧
      (arm_iommu_init_mapping env m).1.ops = m.ops) ∧
    (¬ (m.base + m.bits * PAGE_SIZE - 1 > env.dma_mask) →
      arm_iommu_init_mapping env m =
        if (init_mapping_mode env m).2 = 0 then
          ({ (init_mapping_mode env m).1 with kref := 1, init := true }, 0)
        else init_mapping_mode env m) := by
  have he := iova_end_eq m hbits hfit
  have hi : ¬ (m.init = true) := by rw [hinit]; exact Bool.noConfusion
  constructor
  · intro hgt
    have h : arm_iommu_init_mapping env m = (m, -EINVAL) := by
      unfold arm_iommu_init_mapping
      rw [if_neg hi, if_pos (by rw [he]; exact hgt)]
    rw [h]
    exact ⟨rfl, hinit, rfl⟩
  · intro hle
    unfold arm_iommu_init_mapping
    rw [if_neg hi, if_neg (by rw [he]; exact hle)]
    by_cases hz : (init_mapping_mode env m).2 = 0
    · simp only [hz, if_true]
    · simp only [hz, if_false]

/-- C20 witness: a 16-page context at 0x10000000 passes the check of a
device with a 32-bit mask and fails that of a device with a 28-bit mask. -/
theorem C20_mask_check_witness :
    arm_iommu_init_mapping { friendly_env with dma_mask := 2 ^ 28 - 1 }
      (uninitialized_mapping 1 0x10000000 16 (bitmap_domain 7)) =
      (uninitialized_mapping 1 0x10000000 16 (bitmap_domain 7), -EINVAL) ∧
    (arm_iommu_init_mapping friendly_env
      (uninitialized_mapping 1 0x10000000 16 (bitmap_domain 7))).2 = 0 :=
  ⟨((C20_mask_check { friendly_env with dma_mask := 2 ^ 28 - 1 }
      (uninitialized_mapping 1 0x10000000 16 (bitmap_domain 7)) rfl (by decide)
      (by decide)).1 (by decide)).1,
   by decide⟩

/-! ## C11: device detachment -/

/-- C11: `arm_iommu_detach_device` does nothing (no drain, no group detach,
device unchanged) when the device has no recorded context or no IOMMU group.
Otherwise it makes exactly two calls, the drain of the deferred unmaps and
then the removal of the group from the domain of the recorded context;
afterwards the recorded context is NULL, the group is attached to no domain,
and the DMA operations are NULL unless the domain reads as pass-through
(S1 bypass), in which case they are what they were. -/
theorem C11_detach_device (deref : Nat → dma_iommu_mapping) (dev : device) :
    ((dev.archdata_mapping = none ∨ dev.iommu_group = none) →
      arm_iommu_detach_device deref dev = (dev, [])) ∧
    (∀ addr group, dev.archdata_mapping = some addr → dev.iommu_group = some group →
      (arm_iommu_detach_device deref dev).2 =
        [detach_event.msm_dma_unmap_all_for_dev,
         detach_event.iommu_detach_group (deref addr).domain.id group.id] ∧
      (arm_iommu_detach_device deref dev).1.archdata_mapping = none ∧
      iommu_get_domain_for_dev (arm_iommu_detach_device deref dev).1 = none ∧
      (iommu_domain_get_attr (deref addr).domain.attr_s1_bypass 0 = 0 →
        (arm_iommu_detach_device deref dev).1.dma_ops = none) ∧
      (iommu_domain_get_attr (deref addr).domain.attr_s1_bypass 0 ≠ 0 →
        (arm_iommu_detach_device deref dev).1.dma_ops = dev.dma_ops)) := by
  constructor
  · intro h
    unfold arm_iommu_detach_device
    cases ha : dev.archdata_mapping with
    | none => rfl
    | some addr =>
      rcases h with h | h
      · rw [ha] at h; exact Option.noConfusion h
      · simp only [h]
  · intro addr group ha hg
    have hr : arm_iommu_detach_device deref dev =
        ({ iommu_group := some (iommu_detach_group (deref addr).domain group),
           archdata_mapping := none,
           dma_ops := if iommu_domain_get_attr (deref addr).domain.attr_s1_bypass 0 = 0
             then none else dev.dma_ops },
         [detach_event.msm_dma_unmap_all_for_dev,
          detach_event.iommu_detach_group (deref addr).domain.id group.id]) := by
      unfold arm_iommu_detach_device
      simp only [ha, hg]
    rw [hr]
    refine ⟨rfl, rfl, rfl, ?_, ?_⟩
    · intro h; show (if _ then _ else _) = _; rw [if_pos h]
    · intro h; show (if _ then _ else _) = _; rw [if_neg h]

/-! ## C14: the failure paths of arm_iommu_map_sg -/

/-- A failed `__alloc_iova` leaves the bitmap as it was when nothing wraps:
either the search found no run, or the run it marked is cleared again. -/
theorem alloc_iova_failure_bitmap (maxOrder : Nat) (m : dma_iommu_mapping) (size : Nat)
    (ret : Int) (hcfg : maxOrder ≤ 30) (hlay : iova_layout_ok m) (hsize : size < 2 ^ 32)
    (hfail : (__alloc_iova maxOrder m size ret).2 = DMA_ERROR_CODE) :
    (__alloc_iova maxOrder m size ret).1.bitmap = m.bitmap := by
  obtain ⟨hbase, hb64, hbits, hmin⟩ := hlay
  rcases alloc_iova_cases maxOrder m size ret with ⟨_, h⟩ | ⟨hle, _, h⟩ | ⟨hle, _, h⟩
  · rw [h]
  · obtain ⟨hc, _⟩ := (alloc_iova_start_spec maxOrder m size hbits hmin hsize (Or.inr hcfg)).1 hle
    rw [h]
    exact bitmap_clear_set _ _ _ hc.2.2
  · exfalso
    rw [h] at hfail
    have hfail' : (m.base + (alloc_iova_start maxOrder m size <<< PAGE_SHIFT) % U32) % U64 =
        DMA_ERROR_CODE := hfail
    rw [shiftLeft_page, U32_eq] at hfail'
    rw [PAGE_SIZE_eq] at hbase
    have hd : DMA_ERROR_CODE = 18446744073709551615 := by decide
    rw [hd, U64_eq] at hfail'
    omega

/-- A successful `__alloc_iova` followed by the matching `__free_iova`
restores the bitmap, for every size below 2^32 (zero included). -/
theorem alloc_free_bitmap (maxOrder : Nat) (m : dma_iommu_mapping) (size : Nat)
    (ret : Int) (hcfg : maxOrder ≤ 30) (hlay : iova_layout_ok m) (hsize : size < 2 ^ 32)
    (hok : (__alloc_iova maxOrder m size ret).2 ≠ DMA_ERROR_CODE) :
    (__free_iova (__alloc_iova maxOrder m size ret).1
      (__alloc_iova maxOrder m size ret).2 size).bitmap = m.bitmap := by
  obtain ⟨hbase, hb64, hbits, hmin⟩ := hlay
  rcases alloc_iova_cases maxOrder m size ret with ⟨_, h⟩ | ⟨_, _, h⟩ | ⟨hle, _, h⟩
  · rw [h] at hok; exact absurd rfl hok
  · rw [h] at hok; exact absurd rfl hok
  · obtain ⟨hc, _⟩ := (alloc_iova_start_spec maxOrder m size hbits hmin hsize (Or.inr hcfg)).1 hle
    rw [h]
    show (__free_iova { m with bitmap := _ } _ size).bitmap = _
    rw [free_after_alloc_bitmap maxOrder m size _ hbase hb64 hbits hmin hsize hc.2.1]
    exact bitmap_clear_set _ _ _ hc.2.2

/-- C14 (as stated, refuted): two segments of 2^31 bytes sum to 2^32, and
`iommu_map_sg` reports 0 bytes mapped, a length different from the summed
total. The `unsigned int` total has wrapped to 0, so the comparison
`ret != total_length` sees no failure: the call returns 2, not 0, and has
rewritten the `dma_address` and `dma_length` of the segments. -/
theorem C14_unmapped_list_reported_mapped :
    sg_lengths_sum [⟨2 ^ 31, 7, 7⟩, ⟨2 ^ 31, 7, 7⟩] = 2 ^ 32 ∧
    (0 : Nat) ≠ sg_lengths_sum [⟨2 ^ 31, 7, 7⟩, ⟨2 ^ 31, 7, 7⟩] ∧
    sg_total_length [⟨2 ^ 31, 7, 7⟩, ⟨2 ^ 31, 7, 7⟩] = 0 ∧
    (arm_iommu_map_sg 9 (bitmap_mapping 0x10000000 16 0 (fun _ => false))
      [⟨2 ^ 31, 7, 7⟩, ⟨2 ^ 31, 7, 7⟩] 2 0 0).2.2 = 2 ∧
    (arm_iommu_map_sg 9 (bitmap_mapping 0x10000000 16 0 (fun _ => false))
      [⟨2 ^ 31, 7, 7⟩, ⟨2 ^ 31, 7, 7⟩] 2 0 0).2.1 =
      [⟨2 ^ 31, 0x10000000, 0⟩, ⟨2 ^ 31, 0x10000000 + 2 ^ 31, 2 ^ 31⟩] := by
  decide

/-- The layout bound in the amended C14 is needed too: with the base 0x800,
which is not page-aligned, a call whose `iommu_map_sg` maps nothing returns 0
but leaves page 0 marked in a bitmap that was empty. -/
theorem map_sg_failure_unaligned_base :
    (arm_iommu_map_sg 9 (bitmap_mapping 0x800 16 0 (fun _ => false))
      [⟨4096, 0, 0⟩] 1 0 0).2.2 = 0 ∧
    (arm_iommu_map_sg 9 (bitmap_mapping 0x800 16 0 (fun _ => false))
      [⟨4096, 0, 0⟩] 1 0 0).1.bitmap 0 = true := by
  decide

/-- C14 (amended): for a mapping with a page-aligned 64-bit base, at most
2^20 pages and a 32-bit erratum alignment (maximum order at most 30), a
scatter list whose first `nents` lengths sum to a total below 2^32, and a
mapped length reported by `iommu_map_sg` below 2^32: when the IOVA
reservation fails, or the mapped length differs from the total,
`arm_iommu_map_sg` returns 0, the bitmap equals its pre-call state, and the
scatter list is handed back with every segment as it was. -/
theorem C14_map_sg_failure (maxOrder : Nat) (m : dma_iommu_mapping) (sg : List scatterlist)
    (nents : Nat) (guard_map_ret : Int) (iommu_map_sg_ret : Nat)
    (hcfg : maxOrder ≤ 30) (hlay : iova_layout_ok m)
    (hsum : sg_lengths_sum (sg.take nents) < 2 ^ 32) (hret : iommu_map_sg_ret < 2 ^ 32)
    (hfail : (__alloc_iova maxOrder m (sg_lengths_sum (sg.take nents)) guard_map_ret).2 =
        DMA_ERROR_CODE ∨ iommu_map_sg_ret ≠ sg_lengths_sum (sg.take nents)) :
    (arm_iommu_map_sg maxOrder m sg nents guard_map_ret iommu_map_sg_ret).2.2 = 0 ∧
    (arm_iommu_map_sg maxOrder m sg nents guard_map_ret iommu_map_sg_ret).1.bitmap = m.bitmap ∧
    (arm_iommu_map_sg maxOrder m sg nents guard_map_ret iommu_map_sg_ret).2.1 = sg := by
  have hU : sg_lengths_sum (sg.take nents) < U32 := hsum
  have htot : sg_total_length (sg.take nents) = sg_lengths_sum (sg.take nents) :=
    sg_total_length_eq _ hU
  have hmod : iommu_map_sg_ret % U32 = iommu_map_sg_ret := Nat.mod_eq_of_lt hret
  unfold arm_iommu_map_sg
  simp only [htot, hmod]
  by_cases h1 : (__alloc_iova maxOrder m (sg_lengths_sum (sg.take nents)) guard_map_ret).2 =
      DMA_ERROR_CODE
  · rw [if_pos h1]
    exact ⟨rfl, alloc_iova_failure_bitmap maxOrder m _ guard_map_ret hcfg hlay hsum h1, rfl⟩
  · rw [if_neg h1]
    have h2 : iommu_map_sg_ret ≠ sg_lengths_sum (sg.take nents) := by
      rcases hfail with h | h
      · exact absurd h h1
      · exact h
    rw [if_pos h2]
    exact ⟨rfl, alloc_free_bitmap maxOrder m _ guard_map_ret hcfg hlay hsum h1, rfl⟩

/-- C14 witness: the segments [4096, 8192] in an empty 16-page space, with
`iommu_map_sg` mapping only the first 4096 of the 12288 bytes. -/
theorem C14_map_sg_failure_witness :
    (arm_iommu_map_sg 9 (bitmap_mapping 0x10000000 16 0 (fun _ => false))
      [⟨4096, 0, 0⟩, ⟨8192, 0, 0⟩] 2 0 4096).2.2 = 0 ∧
    (arm_iommu_map_sg 9 (bitmap_mapping 0x10000000 16 0 (fun _ => false))
      [⟨4096, 0, 0⟩, ⟨8192, 0, 0⟩] 2 0 4096).1.bitmap =
      (bitmap_mapping 0x10000000 16 0 (fun _ => false)).bitmap ∧
    (arm_iommu_map_sg 9 (bitmap_mapping 0x10000000 16 0 (fun _ => false))
      [⟨4096, 0, 0⟩, ⟨8192, 0, 0⟩] 2 0 4096).2.1 = [⟨4096, 0, 0⟩, ⟨8192, 0, 0⟩] :=
  C14_map_sg_failure 9 (bitmap_mapping 0x10000000 16 0 (fun _ => false))
    [⟨4096, 0, 0⟩, ⟨8192, 0, 0⟩] 2 0 4096 (by decide)
    ⟨by decide, by decide, by decide, by decide⟩ (by decide) (by decide)
    (Or.inr (by decide))

/-! ## C15, C16, C17: mapping and unmapping a single buffer -/

theorem of_int_to_int (x : Nat) (h : x < 2 ^ 31) : of_int (to_int x) = x := by
  unfold of_int to_int
  have h1 : x % U32 = x := Nat.mod_eq_of_lt (by rw [U32_eq]; omega)
  rw [h1, if_pos h, U64_eq]
  omega

theorem and_page_offset (x : Nat) : x &&& (PAGE_SIZE - 1) = x % 4096 := by
  have h : PAGE_SIZE - 1 = 2 ^ 12 - 1 := by decide
  rw [h, Nat.and_pow_two_sub_one_eq_mod]

/-- The `int` length of `arm_coherent_iommu_map_page` is the page-aligned
length itself when that fits an `int`. -/
theorem map_page_len_eq (offset size : Nat)
    (hsize : offset % PAGE_SIZE + size ≤ 2 ^ 31 - PAGE_SIZE) :
    of_int (map_page_len offset size) = PAGE_ALIGN (offset % PAGE_SIZE + size) ∧
    PAGE_ALIGN (offset % PAGE_SIZE + size) < 2 ^ 31 ∧
    PAGE_ALIGN (offset % PAGE_SIZE + size) =
      (offset % PAGE_SIZE + size + 4095) / 4096 * 4096 := by
  rw [PAGE_SIZE_eq] at hsize ⊢
  have hA := PAGE_ALIGN_eq (offset % 4096 + size) (by rw [U64_eq]; omega)
  have hlt : PAGE_ALIGN (offset % 4096 + size) < 2 ^ 31 := by rw [hA]; omega
  refine ⟨?_, hlt, hA⟩
  unfold map_page_len
  simp only []
  have e1 : of_int (to_int (offset % 4096)) = offset % 4096 := of_int_to_int _ (by omega)
  have h2 : (offset % 4096 + size) % U64 = offset % 4096 + size :=
    Nat.mod_eq_of_lt (by rw [U64_eq]; omega)
  rw [and_page_offset, e1, h2, of_int_to_int _ hlt]

/-- The length `arm_iommu_unmap_page` recomputes from a handle with the same
sub-page offset is the length `arm_coherent_iommu_map_page` computed. -/
theorem unmap_page_len_eq (handle offset size : Nat) (h : handle % 4096 = offset % 4096) :
    unmap_page_len handle size = map_page_len offset size := by
  unfold unmap_page_len map_page_len
  simp only []
  rw [and_page_offset, and_page_offset, h, Nat.add_comm]

/-- A successful `__alloc_iova` on a page-aligned base returns a page-aligned
64-bit address and changes the bitmap by marking the run it found. -/
theorem alloc_iova_success_page (maxOrder : Nat) (m : dma_iommu_mapping) (size : Nat)
    (ret : Int) (hbase : m.base % PAGE_SIZE = 0)
    (hok : (__alloc_iova maxOrder m size ret).2 ≠ DMA_ERROR_CODE) :
    (__alloc_iova maxOrder m size ret).2 % 4096 = 0 ∧
    (__alloc_iova maxOrder m size ret).2 < U64 ∧
    (__alloc_iova maxOrder m size ret).1.bitmap =
      bitmap_set m.bitmap (alloc_iova_start maxOrder m size) (alloc_iova_count m size) ∧
    (__alloc_iova maxOrder m size ret).1.min_iova_align = m.min_iova_align := by
  rcases alloc_iova_cases maxOrder m size ret with ⟨_, h⟩ | ⟨_, _, h⟩ | ⟨hle, _, h⟩
  · rw [h] at hok; exact absurd rfl hok
  · rw [h] at hok; exact absurd rfl hok
  · rw [h]
    rw [PAGE_SIZE_eq] at hbase
    refine ⟨?_, ?_, rfl, rfl⟩
    · show (m.base + (alloc_iova_start maxOrder m size <<< PAGE_SHIFT) % U32) % U64 % 4096 = 0
      rw [shiftLeft_page, U32_eq, U64_eq]
      omega
    · exact Nat.mod_lt _ (by rw [U64_eq]; norm_num)

/-- The function `arm_coherent_iommu_map_page` when its `int` locals hold the
values they are meant to hold: `L` is the page-aligned length. -/
theorem coherent_map_page_eq (maxOrder : Nat) (m : dma_iommu_mapping)
    (page offset size : Nat) (g r : Int) (hoff : offset < 2 ^ 31)
    (hsize : offset % PAGE_SIZE + size ≤ 2 ^ 31 - PAGE_SIZE) :
    arm_coherent_iommu_map_page maxOrder m page offset size g r =
      if (__alloc_iova maxOrder m (PAGE_ALIGN (offset % PAGE_SIZE + size)) g).2 = DMA_ERROR_CODE
      then
        ((__alloc_iova maxOrder m (PAGE_ALIGN (offset % PAGE_SIZE + size)) g).1,
         (__alloc_iova maxOrder m (PAGE_ALIGN (offset % PAGE_SIZE + size)) g).2,
         alloc_iova_events maxOrder m (PAGE_ALIGN (offset % PAGE_SIZE + size)) g)
      else if r < 0 then
        (__free_iova (__alloc_iova maxOrder m (PAGE_ALIGN (offset % PAGE_SIZE + size)) g).1
           (__alloc_iova maxOrder m (PAGE_ALIGN (offset % PAGE_SIZE + size)) g).2
           (PAGE_ALIGN (offset % PAGE_SIZE + size)),
         DMA_ERROR_CODE,
         alloc_iova_events maxOrder m (PAGE_ALIGN (offset % PAGE_SIZE + size)) g ++
           [dma_event.iommu_map
             (__alloc_iova maxOrder m (PAGE_ALIGN (offset % PAGE_SIZE + size)) g).2
             ((page_to_phys page + offset / PAGE_SIZE * PAGE_SIZE) % U64)
             (PAGE_ALIGN (offset % PAGE_SIZE + size)) r] ++
           free_iova_events (__alloc_iova maxOrder m (PAGE_ALIGN (offset % PAGE_SIZE + size)) g).1
             (__alloc_iova maxOrder m (PAGE_ALIGN (offset % PAGE_SIZE + size)) g).2
             (PAGE_ALIGN (offset % PAGE_SIZE + size)))
      else
        ((__alloc_iova maxOrder m (PAGE_ALIGN (offset % PAGE_SIZE + size)) g).1,
         ((__alloc_iova maxOrder m (PAGE_ALIGN (offset % PAGE_SIZE + size)) g).2 +
           offset % PAGE_SIZE) % U64,
         alloc_iova_events maxOrder m (PAGE_ALIGN (offset % PAGE_SIZE + size)) g ++
           [dma_event.iommu_map
             (__alloc_iova maxOrder m (PAGE_ALIGN (offset % PAGE_SIZE + size)) g).2
             ((page_to_phys page + offset / PAGE_SIZE * PAGE_SIZE) % U64)
             (PAGE_ALIGN (offset % PAGE_SIZE + size)) r]) := by
  obtain ⟨hL, _, _⟩ := map_page_len_eq offset size hsize
  have e1 : of_int (to_int (offset &&& (PAGE_SIZE - 1))) = offset % PAGE_SIZE := by
    rw [and_page_offset, PAGE_SIZE_eq]
    exact of_int_to_int _ (by omega)
  have e2 : of_int (to_int (offset &&& PAGE_MASK)) = offset / PAGE_SIZE * PAGE_SIZE := by
    rw [and_PAGE_MASK _ (by rw [U64_eq]; omega), PAGE_SIZE_eq]
    exact of_int_to_int _ (by omega)
  unfold arm_coherent_iommu_map_page
  simp only [hL, e1, e2]

/-- C15 (as stated, refuted): a request of 2^32 bytes at offset 0. The
page-aligned length is 2^32 bytes, but `len` is an `int` and holds 0: the
call reserves no page (the bitmap stays empty), issues an `iommu_map` of
length 0, and reports success by returning the base of the space. -/
theorem C15_int_length_truncates :
    PAGE_ALIGN (0 % PAGE_SIZE + 2 ^ 32) = 2 ^ 32 ∧
    (arm_iommu_map_page 9 (bitmap_mapping 0x10000000 16 0 (fun _ => false)) true no_attrs
      5 0 (2 ^ 32) dma_data_direction.DMA_TO_DEVICE 0 0).2.1 = 0x10000000 ∧
    (arm_iommu_map_page 9 (bitmap_mapping 0x10000000 16 0 (fun _ => false)) true no_attrs
      5 0 (2 ^ 32) dma_data_direction.DMA_TO_DEVICE 0 0).2.2 =
      [dma_event.iommu_map 0x10000000 (5 * 4096) 0 0] ∧
    (∀ i, i < 16 →
      (arm_iommu_map_page 9 (bitmap_mapping 0x10000000 16 0 (fun _ => false)) true no_attrs
        5 0 (2 ^ 32) dma_data_direction.DMA_TO_DEVICE 0 0).1.bitmap i = false) := by
  decide

/-- C15 (amended): for a mapping with a page-aligned 64-bit base, at most
2^20 pages and a 32-bit erratum alignment (maximum order at most 30), an
offset below 2^31 and a size with `(offset mod PAGE_SIZE) + size` at most
`2^31 - PAGE_SIZE`, let `L = PAGE_ALIGN((offset mod PAGE_SIZE) + size)`.
`arm_iommu_map_page` reserves with `__alloc_iova(mapping, L)`: the pages
`L` needs, guard included. If the reservation fails it returns
`DMA_ERROR_CODE` with the bitmap unchanged and no `iommu_map` of the buffer.
If it succeeds at `iova`, the calls are the optional cache clean, the guard
mapping of `__alloc_iova`, and exactly one `iommu_map` of length `L` at
`iova` from the physical address of the page plus the page-aligned part of
the offset; when that call does not fail the result is
`iova + (offset mod PAGE_SIZE)` with the run marked, and when it fails the
result is `DMA_ERROR_CODE` and the bitmap equals its pre-call state. -/
theorem C15_map_page (maxOrder : Nat) (m : dma_iommu_mapping) (coherent : Bool)
    (attrs : dma_attrs) (page offset size : Nat) (dir : dma_data_direction)
    (guard_map_ret iommu_map_ret : Int)
    (hcfg : maxOrder ≤ 30) (hlay : iova_layout_ok m) (hoff : offset < 2 ^ 31)
    (hsize : offset % PAGE_SIZE + size ≤ 2 ^ 31 - PAGE_SIZE) :
    alloc_iova_count m (PAGE_ALIGN (offset % PAGE_SIZE + size)) =
      iova_pages_needed m (PAGE_ALIGN (offset % PAGE_SIZE + size)) ∧
    ((__alloc_iova maxOrder m (PAGE_ALIGN (offset % PAGE_SIZE + size)) guard_map_ret).2 =
        DMA_ERROR_CODE →
      (arm_iommu_map_page maxOrder m coherent attrs page offset size dir guard_map_ret
        iommu_map_ret).2.1 = DMA_ERROR_CODE ∧
      (arm_iommu_map_page maxOrder m coherent attrs page offset size dir guard_map_ret
        iommu_map_ret).1.bitmap = m.bitmap ∧
      (arm_iommu_map_page maxOrder m coherent attrs page offset size dir guard_map_ret
        iommu_map_ret).2.2 =
        (if !coherent && !attrs.skip_cpu_sync then [dma_event.dma_map_area page offset size dir]
         else []) ++
        alloc_iova_events maxOrder m (PAGE_ALIGN (offset % PAGE_SIZE + size)) guard_map_ret) ∧
    ((__alloc_iova maxOrder m (PAGE_ALIGN (offset % PAGE_SIZE + size)) guard_map_ret).2 ≠
        DMA_ERROR_CODE →
      (arm_iommu_map_page maxOrder m coherent attrs page offset size dir guard_map_ret
        iommu_map_ret).2.2 =
        (if !coherent && !attrs.skip_cpu_sync then [dma_event.dma_map_area page offset size dir]
         else []) ++
        (alloc_iova_events maxOrder m (PAGE_ALIGN (offset % PAGE_SIZE + size)) guard_map_ret ++
        [dma_event.iommu_map
          (__alloc_iova maxOrder m (PAGE_ALIGN (offset % PAGE_SIZE + size)) guard_map_ret).2
          ((page_to_phys page + offset / PAGE_SIZE * PAGE_SIZE) % U64)
          (PAGE_ALIGN (offset % PAGE_SIZE + size)) iommu_map_ret] ++
        (if iommu_map_ret < 0 then
          free_iova_events
            (__alloc_iova maxOrder m (PAGE_ALIGN (offset % PAGE_SIZE + size)) guard_map_ret).1
            (__alloc_iova maxOrder m (PAGE_ALIGN (offset % PAGE_SIZE + size)) guard_map_ret).2
            (PAGE_ALIGN (offset % PAGE_SIZE + size))
         else [])) ∧
      (0 ≤ iommu_map_ret →
        (arm_iommu_map_page maxOrder m coherent attrs page offset size dir guard_map_ret
          iommu_map_ret).2.1 =
          (__alloc_iova maxOrder m (PAGE_ALIGN (offset % PAGE_SIZE + size)) guard_map_ret).2 +
            offset % PAGE_SIZE ∧
        (arm_iommu_map_page maxOrder m coherent attrs page offset size dir guard_map_ret
          iommu_map_ret).1.bitmap =
          bitmap_set m.bitmap
            (alloc_iova_start maxOrder m (PAGE_ALIGN (offset % PAGE_SIZE + size)))
            (alloc_iova_count m (PAGE_ALIGN (offset % PAGE_SIZE + size)))) ∧
      (iommu_map_ret < 0 →
        (arm_iommu_map_page maxOrder m coherent attrs page offset size dir guard_map_ret
          iommu_map_ret).2.1 = DMA_ERROR_CODE ∧
        (arm_iommu_map_page maxOrder m coherent attrs page offset size dir guard_map_ret
          iommu_map_ret).1.bitmap = m.bitmap)) := by
  obtain ⟨_, hL, _⟩ := map_page_len_eq offset size hsize
  have hL32 : PAGE_ALIGN (offset % PAGE_SIZE + size) < 2 ^ 32 := by omega
  have hq := coherent_map_page_eq maxOrder m page offset size guard_map_ret iommu_map_ret hoff
    hsize
  refine ⟨iova_pages_needed_eq m _ hlay.2.2.2 hL32, ?_, ?_⟩
  · intro hf
    unfold arm_iommu_map_page
    simp only [__dma_page_cpu_to_dev]
    rw [hq, if_pos hf]
    exact ⟨hf, alloc_iova_failure_bitmap maxOrder m _ guard_map_ret hcfg hlay hL32 hf, rfl⟩
  · intro hok
    obtain ⟨p1, p2, p3, _⟩ := alloc_iova_success_page maxOrder m _ guard_map_ret hlay.1 hok
    unfold arm_iommu_map_page
    simp only [__dma_page_cpu_to_dev]
    rw [hq, if_neg hok]
    by_cases hr : iommu_map_ret < 0
    · rw [if_pos hr, if_pos hr]
      refine ⟨rfl, fun h0 => absurd hr (by omega), fun _ => ⟨rfl, ?_⟩⟩
      exact alloc_free_bitmap maxOrder m _ guard_map_ret hcfg hlay hL32 hok
    · rw [if_neg hr, if_neg hr]
      refine ⟨by simp, fun _ => ⟨?_, p3⟩, fun h0 => absurd h0 hr⟩
      show ((__alloc_iova maxOrder m (PAGE_ALIGN (offset % PAGE_SIZE + size)) guard_map_ret).2 +
        offset % PAGE_SIZE) % U64 = _
      apply Nat.mod_eq_of_lt
      generalize (__alloc_iova maxOrder m (PAGE_ALIGN (offset % PAGE_SIZE + size))
        guard_map_ret).2 = v at p1 p2 ⊢
      rw [PAGE_SIZE_eq]
      rw [U64_eq] at p2 ⊢
      omega

/-- C15 witness: 100 bytes at offset 0x1234 of page 5 in an empty 16-page
space at 0x10000000: one page is reserved at the base, one `iommu_map` of
4096 bytes from physical 0x5000 + 0x1000 is issued, and the handle is the
base plus 0x234. -/
theorem C15_map_page_witness :
    (arm_iommu_map_page 9 (bitmap_mapping 0x10000000 16 0 (fun _ => false)) true no_attrs
      5 0x1234 100 dma_data_direction.DMA_TO_DEVICE 0 0).2.2 =
      [dma_event.iommu_map 0x10000000 0x6000 4096 0] ∧
    (arm_iommu_map_page 9 (bitmap_mapping 0x10000000 16 0 (fun _ => false)) true no_attrs
      5 0x1234 100 dma_data_direction.DMA_TO_DEVICE 0 0).2.1 = 0x10000234 :=
  have h := (C15_map_page 9 (bitmap_mapping 0x10000000 16 0 (fun _ => false)) true no_attrs
    5 0x1234 100 dma_data_direction.DMA_TO_DEVICE 0 0 (by decide)
    ⟨by decide, by decide, by decide, by decide⟩ (by decide) (by decide)).2.2 (by decide)
  ⟨h.1.trans (by decide), (h.2.1 (by decide)).1.trans (by decide)⟩

/-- The context and the address `arm_iommu_map_page` returns, in terms of the
reservation for the page-aligned length. -/
theorem map_page_result (maxOrder : Nat) (m : dma_iommu_mapping) (coherent : Bool)
    (attrs : dma_attrs) (page offset size : Nat) (dir : dma_data_direction) (g r : Int)
    (hsize : offset % PAGE_SIZE + size ≤ 2 ^ 31 - PAGE_SIZE) :
    (arm_iommu_map_page maxOrder m coherent attrs page offset size dir g r).1 =
      (if (__alloc_iova maxOrder m (PAGE_ALIGN (offset % PAGE_SIZE + size)) g).2 =
          DMA_ERROR_CODE then
        (__alloc_iova maxOrder m (PAGE_ALIGN (offset % PAGE_SIZE + size)) g).1
      else if r < 0 then
        __free_iova (__alloc_iova maxOrder m (PAGE_ALIGN (offset % PAGE_SIZE + size)) g).1
          (__alloc_iova maxOrder m (PAGE_ALIGN (offset % PAGE_SIZE + size)) g).2
          (PAGE_ALIGN (offset % PAGE_SIZE + size))
      else (__alloc_iova maxOrder m (PAGE_ALIGN (offset % PAGE_SIZE + size)) g).1) ∧
    (arm_iommu_map_page maxOrder m coherent attrs page offset size dir g r).2.1 =
      (if (__alloc_iova maxOrder m (PAGE_ALIGN (offset % PAGE_SIZE + size)) g).2 =
          DMA_ERROR_CODE then DMA_ERROR_CODE
      else if r < 0 then DMA_ERROR_CODE
      else ((__alloc_iova maxOrder m (PAGE_ALIGN (offset % PAGE_SIZE + size)) g).2 +
        offset % PAGE_SIZE) % U64) := by
  obtain ⟨hL, _, _⟩ := map_page_len_eq offset size hsize
  have e1 : of_int (to_int (offset &&& (PAGE_SIZE - 1))) = offset % PAGE_SIZE := by
    rw [and_page_offset, PAGE_SIZE_eq]
    exact of_int_to_int _ (by omega)
  unfold arm_iommu_map_page arm_coherent_iommu_map_page
  simp only [hL, e1]
  by_cases h1 : (__alloc_iova maxOrder m (PAGE_ALIGN (offset % PAGE_SIZE + size)) g).2 =
      DMA_ERROR_CODE
  · simp [h1]
  · by_cases h2 : r < 0
    · simp [h1, h2]
    · simp [h1, h2]

/-- The context `arm_iommu_unmap_page` leaves and the calls it makes, with
the locals written out. -/
theorem unmap_page_result (m : dma_iommu_mapping) (coherent : Bool) (attrs : dma_attrs)
    (itp : Nat → Nat) (handle size : Nat) (dir : dma_data_direction) :
    (arm_iommu_unmap_page m coherent attrs itp handle size dir).1 =
      __free_iova m (handle &&& PAGE_MASK) (of_int (unmap_page_len handle size)) ∧
    (arm_iommu_unmap_page m coherent attrs itp handle size dir).2 =
      (if !(coherent || attrs.skip_cpu_sync) then
        __dma_page_dev_to_cpu (phys_to_page (itp (handle &&& PAGE_MASK)))
          (of_int (to_int (handle &&& (PAGE_SIZE - 1)))) size dir
       else []) ++
      [dma_event.iommu_unmap (handle &&& PAGE_MASK) (of_int (unmap_page_len handle size))] ++
      free_iova_events m (handle &&& PAGE_MASK) (of_int (unmap_page_len handle size)) :=
  ⟨rfl, rfl⟩

/-- A map followed by the matching unmap in a space of 2^20 + 16 pages whose
first 2^20 pages are used, for any mapping of that shape. -/
theorem map_unmap_page_wrap_general (m : dma_iommu_mapping) (itp : Nat → Nat)
    (hbase : m.base = 0) (hbits : m.bits = 2 ^ 20 + 16) (hmin : m.min_iova_align = 0)
    (hmap : m.bitmap = fun i => decide (i < 2 ^ 20)) :
    (arm_iommu_map_page 9 m true no_attrs 5 0 4096 dma_data_direction.DMA_TO_DEVICE 0 0).2.1
      = 0 ∧
    (arm_iommu_unmap_page
      (arm_iommu_map_page 9 m true no_attrs 5 0 4096 dma_data_direction.DMA_TO_DEVICE 0 0).1
      true no_attrs itp 0 4096 dma_data_direction.DMA_TO_DEVICE).1.bitmap 0 = false := by
  obtain ⟨_, w2, w3⟩ := iova_wrap_general m hbase hbits hmin hmap
  obtain ⟨r1, r2⟩ := map_page_result 9 m true no_attrs 5 0 4096
    dma_data_direction.DMA_TO_DEVICE 0 0 (by decide)
  have hL : PAGE_ALIGN (0 % PAGE_SIZE + 4096) = 4096 := by decide
  have hE : (0 : Nat) ≠ DMA_ERROR_CODE := by decide
  have hr : ¬ ((0 : Int) < 0) := by decide
  rw [hL] at r1 r2
  rw [w2, if_neg hE, if_neg hr] at r2
  rw [if_neg (by rw [w2]; exact hE), if_neg hr] at r1
  refine ⟨r2.trans (by decide), ?_⟩
  rw [r1, (unmap_page_result _ true no_attrs itp 0 4096 dma_data_direction.DMA_TO_DEVICE).1]
  have hu : of_int (unmap_page_len 0 4096) = 4096 := by decide
  have hm : (0 : Nat) &&& PAGE_MASK = 0 := by decide
  rw [hu, hm]
  rw [w2] at w3
  exact w3

/-- C16 (as stated, refuted): a page-aligned base (0) and a space of
2^20 + 16 pages whose first 2^20 pages are in use. Mapping one page succeeds
and marks page 2^20, but `start << PAGE_SHIFT` is computed in an
`unsigned int` and wraps, so the handle is 0; the matching unmap recomputes
page 0 and clears it. Page 0 was in use before the map and is free after the
unmap: the bitmap is not restored. -/
theorem C16_unmap_page_clears_wrong_page :
    (bitmap_mapping 0 (2 ^ 20 + 16) 0 (fun i => decide (i < 2 ^ 20))).base % PAGE_SIZE = 0 ∧
    (arm_iommu_map_page 9 (bitmap_mapping 0 (2 ^ 20 + 16) 0 (fun i => decide (i < 2 ^ 20)))
      true no_attrs 5 0 4096 dma_data_direction.DMA_TO_DEVICE 0 0).2.1 = 0 ∧
    (0 : Nat) ≠ DMA_ERROR_CODE ∧
    (bitmap_mapping 0 (2 ^ 20 + 16) 0 (fun i => decide (i < 2 ^ 20))).bitmap 0 = true ∧
    (arm_iommu_unmap_page
      (arm_iommu_map_page 9 (bitmap_mapping 0 (2 ^ 20 + 16) 0 (fun i => decide (i < 2 ^ 20)))
        true no_attrs 5 0 4096 dma_data_direction.DMA_TO_DEVICE 0 0).1
      true no_attrs (fun _ => 0x5000) 0 4096 dma_data_direction.DMA_TO_DEVICE).1.bitmap 0
      = false :=
  have h := map_unmap_page_wrap_general
    (bitmap_mapping 0 (2 ^ 20 + 16) 0 (fun i => decide (i < 2 ^ 20))) (fun _ => 0x5000)
    rfl rfl rfl rfl
  ⟨by decide, h.1, by decide, by decide, h.2⟩

/-- C16 (amended): for a mapping with a page-aligned 64-bit base, at most
2^20 pages and a 32-bit erratum alignment (maximum order at most 30), and
every page, offset and size with `(offset mod PAGE_SIZE) + size` at most
`2^31 - PAGE_SIZE`: if `arm_iommu_map_page` returns a handle other than
`DMA_ERROR_CODE`, then `arm_iommu_unmap_page(handle, size)` recomputes the
reserved iova (`handle & PAGE_MASK`) and the reserved length
`L = PAGE_ALIGN((offset mod PAGE_SIZE) + size)`, issues one `iommu_unmap` of
exactly that range (after the optional cache invalidate and before the guard
unmap of `__free_iova`), and leaves the bitmap as it was before the map. -/
theorem C16_map_unmap_page (maxOrder : Nat) (m : dma_iommu_mapping) (coherent : Bool)
    (attrs : dma_attrs) (page offset size : Nat) (dir : dma_data_direction)
    (guard_map_ret iommu_map_ret : Int) (itp : Nat → Nat)
    (hcfg : maxOrder ≤ 30) (hlay : iova_layout_ok m)
    (hsize : offset % PAGE_SIZE + size ≤ 2 ^ 31 - PAGE_SIZE)
    (hok : (arm_iommu_map_page maxOrder m coherent attrs page offset size dir guard_map_ret
      iommu_map_ret).2.1 ≠ DMA_ERROR_CODE) :
    (__alloc_iova maxOrder m (PAGE_ALIGN (offset % PAGE_SIZE + size)) guard_map_ret).2 ≠
      DMA_ERROR_CODE ∧
    (arm_iommu_map_page maxOrder m coherent attrs page offset size dir guard_map_ret
      iommu_map_ret).2.1 &&& PAGE_MASK =
      (__alloc_iova maxOrder m (PAGE_ALIGN (offset % PAGE_SIZE + size)) guard_map_ret).2 ∧
    of_int (unmap_page_len
      (arm_iommu_map_page maxOrder m coherent attrs page offset size dir guard_map_ret
        iommu_map_ret).2.1 size) = PAGE_ALIGN (offset % PAGE_SIZE + size) ∧
    (arm_iommu_unmap_page
      (arm_iommu_map_page maxOrder m coherent attrs page offset size dir guard_map_ret
        iommu_map_ret).1 coherent attrs itp
      (arm_iommu_map_page maxOrder m coherent attrs page offset size dir guard_map_ret
        iommu_map_ret).2.1 size dir).2 =
      (if !(coherent || attrs.skip_cpu_sync) then
        __dma_page_dev_to_cpu
          (phys_to_page (itp
            (__alloc_iova maxOrder m (PAGE_ALIGN (offset % PAGE_SIZE + size)) guard_map_ret).2))
          (offset % PAGE_SIZE) size dir
       else []) ++
      [dma_event.iommu_unmap
        (__alloc_iova maxOrder m (PAGE_ALIGN (offset % PAGE_SIZE + size)) guard_map_ret).2
        (PAGE_ALIGN (offset % PAGE_SIZE + size))] ++
      free_iova_events m
        (__alloc_iova maxOrder m (PAGE_ALIGN (offset % PAGE_SIZE + size)) guard_map_ret).2
        (PAGE_ALIGN (offset % PAGE_SIZE + size)) ∧
    (arm_iommu_unmap_page
      (arm_iommu_map_page maxOrder m coherent attrs page offset size dir guard_map_ret
        iommu_map_ret).1 coherent attrs itp
      (arm_iommu_map_page maxOrder m coherent attrs page offset size dir guard_map_ret
        iommu_map_ret).2.1 size dir).1.bitmap = m.bitmap := by
  obtain ⟨hLi, hL, _⟩ := map_page_len_eq offset size hsize
  have hL32 : PAGE_ALIGN (offset % PAGE_SIZE + size) < 2 ^ 32 := by omega
  obtain ⟨r1, r2⟩ := map_page_result maxOrder m coherent attrs page offset size dir
    guard_map_ret iommu_map_ret hsize
  have ha : (__alloc_iova maxOrder m (PAGE_ALIGN (offset % PAGE_SIZE + size)) guard_map_ret).2 ≠
      DMA_ERROR_CODE := by
    intro h
    rw [if_pos h] at r2
    exact hok r2
  have hr : ¬ (iommu_map_ret < 0) := by
    intro h
    rw [if_neg ha, if_pos h] at r2
    exact hok r2
  rw [if_neg ha, if_neg hr] at r1 r2
  obtain ⟨p1, p2, _, p4⟩ := alloc_iova_success_page maxOrder m _ guard_map_ret hlay.1 ha
  have hbal := alloc_free_bitmap maxOrder m _ guard_map_ret hcfg hlay hL32 ha
  have hfe : ∀ a s, free_iova_events
      (__alloc_iova maxOrder m (PAGE_ALIGN (offset % PAGE_SIZE + size)) guard_map_ret).1 a s =
      free_iova_events m a s := by
    intro a s
    unfold free_iova_events iova_guard_len
    simp only [p4]
  generalize (__alloc_iova maxOrder m (PAGE_ALIGN (offset % PAGE_SIZE + size))
    guard_map_ret) = av at r1 r2 ha p1 p2 hbal hfe ⊢
  have hoffs : offset % PAGE_SIZE < 4096 := by rw [PAGE_SIZE_eq]; exact Nat.mod_lt _ (by norm_num)
  have hh : (av.2 + offset % PAGE_SIZE) % U64 = av.2 + offset % PAGE_SIZE := by
    apply Nat.mod_eq_of_lt
    rw [U64_eq] at p2 ⊢
    omega
  rw [hh] at r2
  have hmask : (av.2 + offset % PAGE_SIZE) &&& PAGE_MASK = av.2 := by
    rw [and_PAGE_MASK _ (by rw [U64_eq] at p2 ⊢; omega)]
    omega
  have hlow : (av.2 + offset % PAGE_SIZE) % 4096 = offset % 4096 := by
    rw [PAGE_SIZE_eq] at hoffs ⊢
    omega
  have hlen : of_int (unmap_page_len (av.2 + offset % PAGE_SIZE) size) =
      PAGE_ALIGN (offset % PAGE_SIZE + size) := by
    rw [unmap_page_len_eq _ offset size hlow, hLi]
  have hoi : of_int (to_int ((av.2 + offset % PAGE_SIZE) &&& (PAGE_SIZE - 1))) =
      offset % PAGE_SIZE := by
    rw [and_page_offset, hlow, PAGE_SIZE_eq]
    exact of_int_to_int _ (by omega)
  obtain ⟨u1, u2⟩ := unmap_page_result
    (arm_iommu_map_page maxOrder m coherent attrs page offset size dir guard_map_ret
      iommu_map_ret).1 coherent attrs itp
    (arm_iommu_map_page maxOrder m coherent attrs page offset size dir guard_map_ret
      iommu_map_ret).2.1 size dir
  rw [u1, u2, r1, r2, hmask, hlen, hoi, hfe]
  exact ⟨ha, rfl, rfl, rfl, hbal⟩

/-- C16 witness: 100 bytes at offset 0x234 of page 5 in an empty 16-page
space at 0x10000000, mapped and unmapped again. -/
theorem C16_map_unmap_page_witness :
    (arm_iommu_map_page 9 (bitmap_mapping 0x10000000 16 0 (fun _ => false)) true no_attrs
      5 0x234 100 dma_data_direction.DMA_TO_DEVICE 0 0).2.1 = 0x10000234 ∧
    (arm_iommu_unmap_page
      (arm_iommu_map_page 9 (bitmap_mapping 0x10000000 16 0 (fun _ => false)) true no_attrs
        5 0x234 100 dma_data_direction.DMA_TO_DEVICE 0 0).1 true no_attrs (fun _ => 0x5000)
      (arm_iommu_map_page 9 (bitmap_mapping 0x10000000 16 0 (fun _ => false)) true no_attrs
        5 0x234 100 dma_data_direction.DMA_TO_DEVICE 0 0).2.1 100
      dma_data_direction.DMA_TO_DEVICE).1.bitmap =
      (bitmap_mapping 0x10000000 16 0 (fun _ => false)).bitmap :=
  ⟨by decide,
   (C16_map_unmap_page 9 (bitmap_mapping 0x10000000 16 0 (fun _ => false)) true no_attrs
    5 0x234 100 dma_data_direction.DMA_TO_DEVICE 0 0 (fun _ => 0x5000) (by decide)
    ⟨by decide, by decide, by decide, by decide⟩ (by decide) (by decide)).2.2.2.2⟩

/-- C17 (as stated, refuted): unmapping the page at 0x10000000 on a
non-coherent device without skip-CPU-sync. The cache invalidate
(`__dma_page_dev_to_cpu`: the `dma_unmap_area` call and the dcache mark) is
issued first and the `iommu_unmap` of the range last, so device access is
removed after the invalidate, not before it. -/
theorem C17_invalidate_precedes_iommu_unmap :
    (arm_iommu_unmap_page (bitmap_mapping 0x10000000 16 0 (fun i => decide (i < 1))) false
      no_attrs (fun _ => 0x5000) 0x10000000 4096 dma_data_direction.DMA_FROM_DEVICE).2 =
      [dma_event.dma_unmap_area 5 0 4096 dma_data_direction.DMA_FROM_DEVICE,
       dma_event.set_dcache_clean 5,
       dma_event.iommu_unmap 0x10000000 4096] := by
  decide

/-- C17 (amended): in `arm_iommu_unmap_page` on a non-coherent device without
the skip-CPU-sync attribute the calls are, in this order, the cache
invalidate of the region (`__dma_page_dev_to_cpu`, on the page the IOMMU
still translates the iova to), then the `iommu_unmap` of the range, then the
guard unmap of `__free_iova`: the invalidate precedes the removal of device
access. For a coherent device or with skip-CPU-sync the calls are the
`iommu_unmap` and the guard unmap alone, with no cache operation. -/
theorem C17_unmap_page_order (m : dma_iommu_mapping) (coherent : Bool) (attrs : dma_attrs)
    (itp : Nat → Nat) (handle size : Nat) (dir : dma_data_direction) :
    ((coherent = false ∧ attrs.skip_cpu_sync = false) →
      (arm_iommu_unmap_page m coherent attrs itp handle size dir).2 =
        __dma_page_dev_to_cpu (phys_to_page (itp (handle &&& PAGE_MASK)))
          (of_int (to_int (handle &&& (PAGE_SIZE - 1)))) size dir ++
        [dma_event.iommu_unmap (handle &&& PAGE_MASK) (of_int (unmap_page_len handle size))] ++
        free_iova_events m (handle &&& PAGE_MASK) (of_int (unmap_page_len handle size))) ∧
    ((coherent = true ∨ attrs.skip_cpu_sync = true) →
      (arm_iommu_unmap_page m coherent attrs itp handle size dir).2 =
        [dma_event.iommu_unmap (handle &&& PAGE_MASK) (of_int (unmap_page_len handle size))] ++
        free_iova_events m (handle &&& PAGE_MASK) (of_int (unmap_page_len handle size))) ∧
    (∀ page off len d,
      dma_event.dma_unmap_area page off len d ∈ __dma_page_dev_to_cpu
        (phys_to_page (itp (handle &&& PAGE_MASK)))
        (of_int (to_int (handle &&& (PAGE_SIZE - 1)))) size dir ↔
      (page = phys_to_page (itp (handle &&& PAGE_MASK)) ∧
       off = of_int (to_int (handle &&& (PAGE_SIZE - 1))) ∧ len = size ∧ d = dir)) := by
  obtain ⟨_, u2⟩ := unmap_page_result m coherent attrs itp handle size dir
  refine ⟨?_, ?_, ?_⟩
  · rintro ⟨hc, hs⟩
    rw [u2, hc, hs]
    rfl
  · intro h
    rw [u2]
    have hb : (!(coherent || attrs.skip_cpu_sync)) = false := by
      rcases h with h | h
      · rw [h]; rfl
      · rw [h]; simp
    rw [hb]
    rfl
  · intro page off len d
    unfold __dma_page_dev_to_cpu
    by_cases hd : dir ≠ dma_data_direction.DMA_TO_DEVICE ∧
        of_int (to_int (handle &&& (PAGE_SIZE - 1))) = 0 ∧ size ≥ PAGE_SIZE
    · rw [if_pos hd]; simp
    · rw [if_neg hd]; simp

/-! ## Lemmas: the highest set bit and the order mask -/

theorem fls_pow_le (w : Nat) : ∀ x : Nat, 0 < x → 2 ^ fls w x ≤ 2 * x := by
  induction w with
  | zero => intro x hx; simp only [fls]; omega
  | succ w ih =>
    intro x hx
    simp only [fls]
    rw [if_neg (by omega)]
    rw [pow_succ]
    by_cases h2 : x / 2 = 0
    · have hf : fls w (x / 2) = 0 := by
        rw [h2]; cases w <;> simp [fls]
      rw [hf]; omega
    · have := ih (x / 2) (by omega)
      omega

theorem fls_lt_pow (w : Nat) : ∀ x : Nat, x < 2 ^ w → x < 2 ^ fls w x := by
  induction w with
  | zero => intro x hx; simp only [fls]; simpa using hx
  | succ w ih =>
    intro x hx
    simp only [fls]
    by_cases h0 : x = 0
    · rw [if_pos h0, h0]; norm_num
    · rw [if_neg h0, pow_succ]
      have h1 : x / 2 < 2 ^ w := by
        rw [Nat.div_lt_iff_lt_mul (by norm_num)]; rw [pow_succ] at hx; exact hx
      have := ih (x / 2) h1
      omega

theorem fls_pos (w x : Nat) (hx : 0 < x) : 0 < fls (w + 1) x := by
  simp only [fls]
  rw [if_neg (by omega)]
  omega

/-- What `__fls` returns for a non-zero 64-bit word: the `k` with
`2 ^ k ≤ x < 2 ^ (k + 1)`. -/
theorem fls_some (x : Nat) (hx : 0 < x) (h64 : x < U64) :
    ∃ k, __fls x = some k ∧ 2 ^ k ≤ x ∧ x < 2 ^ (k + 1) := by
  have hm : x % U64 = x := Nat.mod_eq_of_lt h64
  refine ⟨fls 64 x - 1, ?_, ?_, ?_⟩
  · unfold __fls
    rw [hm, if_neg (by omega)]
  · have h1 := fls_pow_le 64 x hx
    have h2 : 0 < fls 64 x := fls_pos 63 x hx
    have h3 : fls 64 x = (fls 64 x - 1) + 1 := by omega
    rw [h3, pow_succ] at h1
    omega
  · have h1 := fls_lt_pow 64 x h64
    have h2 : 0 < fls 64 x := fls_pos 63 x hx
    have h3 : fls 64 x - 1 + 1 = fls 64 x := by omega
    rw [h3]
    exact h1

theorem fls_none (x : Nat) (h : __fls x = none) : x % U64 = 0 := by
  unfold __fls at h
  by_cases h0 : x % U64 = 0
  · exact h0
  · rw [if_neg h0] at h; exact Option.noConfusion h

/-- The index `__fls` returns is determined by the two powers of two that
enclose the word. -/
theorem fls_unique (x k j : Nat) (h1 : 2 ^ k ≤ x) (h2 : x < 2 ^ (j + 1)) : k ≤ j := by
  by_contra hc
  have : 2 ^ (j + 1) ≤ 2 ^ k := Nat.pow_le_pow_right (by norm_num) (by omega)
  omega

theorem odd_and (a b : Nat) (ha : a % 2 = 1) (hb : b % 2 = 1) : (a &&& b) % 2 = 1 := by
  have h := and_mod_two_pow_eq a b 1
  rw [pow_one, ha, hb] at h
  rw [h]
  decide

/-- The mask `(2U << top) - 1` for a shift that stays inside 32 bits. -/
theorem top_mask_eq (top : Nat) (h : top ≤ 30) :
    ((2 <<< top) % U32 + U32 - 1) % U32 = 2 ^ (top + 1) - 1 := by
  have h1 : 2 <<< top = 2 ^ (top + 1) := by
    rw [Nat.shiftLeft_eq, pow_succ, Nat.mul_comm]
  have h2 : 2 ^ (top + 1) ≤ 2 ^ 31 := Nat.pow_le_pow_right (by norm_num) (by omega)
  have h3 := Nat.two_pow_pos (top + 1)
  rw [h1, U32_eq]
  generalize 2 ^ (top + 1) = a at h2 h3 ⊢
  omega

/-- The mask `(2U << MAX_ORDER) - 1` is odd whatever `MAX_ORDER` is. -/
theorem max_order_mask_odd (n : Nat) : ((2 <<< n) % U32 + U32 - 1) % U32 % 2 = 1 := by
  have h1 : 2 <<< n = 2 * 2 ^ n := by rw [Nat.shiftLeft_eq]
  rw [h1, U32_eq]
  generalize 2 ^ n = a
  omega

theorem mod_two_pow_mod_two (x k : Nat) : x % 2 ^ (k + 1) % 2 = x % 2 := by
  apply Nat.mod_mod_of_dvd
  exact Dvd.intro_left (2 ^ k) rfl

theorem testBit_top (y k : Nat) (h1 : 2 ^ k ≤ y) (h2 : y < 2 ^ (k + 1)) :
    y.testBit k = true := by
  rw [Nat.testBit_to_div_mod]
  have h3 : y / 2 ^ k = 1 := by
    apply Nat.div_eq_of_lt_le
    · omega
    · rw [pow_succ] at h2; omega
  rw [h3]
  decide

/-- The statement `order_mask &= ~(1U << order)` when `order` is the highest
set bit of the mask: it removes that bit. -/
theorem clear_top_bit (y k : Nat) (h1 : 2 ^ k ≤ y) (h2 : y < 2 ^ (k + 1)) (hk : k < 32) :
    y &&& (U32 - 1 - (1 <<< k) % U32) = y - 2 ^ k := by
  have hp : 2 ^ k < 2 ^ 32 := Nat.pow_lt_pow_right (by norm_num) hk
  have hy : y < 2 ^ 32 := lt_of_lt_of_le h2 (Nat.pow_le_pow_right (by norm_num) (by omega))
  have hs : (1 <<< k) % U32 = 2 ^ k := by
    rw [Nat.one_shiftLeft]
    exact Nat.mod_eq_of_lt hp
  have hU : U32 - 1 - (1 <<< k) % U32 = 2 ^ 32 - 1 - 2 ^ k := by rw [hs]; rfl
  rw [hU]
  have h := and_compl_add_and 32 y (2 ^ k) hy hp
  have hle : y &&& 2 ^ k ≤ 2 ^ k := Nat.and_le_right
  have hge : 2 ^ k ≤ y &&& 2 ^ k := by
    apply Nat.testBit_implies_ge
    rw [Nat.testBit_and, testBit_top y k h1 h2, Nat.testBit_two_pow_self]
    rfl
  omega

/-! ## Lemmas: page accounting and the page-acquisition loops -/

theorem pages_acquired_append (a b : List dma_event) :
    pages_acquired (a ++ b) = pages_acquired a ++ pages_acquired b := by
  induction a with
  | nil => rfl
  | cons e rest ih =>
    show event_acquires e ++ pages_acquired (rest ++ b) = _
    rw [ih]
    simp only [pages_acquired, List.append_assoc]

theorem pages_released_append (a b : List dma_event) :
    pages_released (a ++ b) = pages_released a ++ pages_released b := by
  induction a with
  | nil => rfl
  | cons e rest ih =>
    show event_releases e ++ pages_released (rest ++ b) = _
    rw [ih]
    simp only [pages_released, List.append_assoc]

theorem pages_acquired_single (e : dma_event) : pages_acquired [e] = event_acquires e := by
  simp [pages_acquired]

theorem pages_released_single (e : dma_event) : pages_released [e] = event_releases e := by
  simp [pages_released]

theorem page_range_length (p n : Nat) : (page_range p n).length = n := by
  simp [page_range]

theorem quiet_append (a b : List dma_event) (ha : quiet_events a) (hb : quiet_events b) :
    quiet_events (a ++ b) := by
  obtain ⟨a1, a2, a3⟩ := ha
  obtain ⟨b1, b2, b3⟩ := hb
  refine ⟨?_, ?_, ?_⟩
  · rw [pages_acquired_append, a1, b1]; rfl
  · rw [pages_released_append, a2, b2]; rfl
  · intro e he
    rcases List.mem_append.mp he with h | h
    · exact a3 e h
    · exact b3 e h

theorem clear_buffer_quiet (p size : Nat) (attrs : dma_attrs) (c : Bool) :
    quiet_events (__dma_clear_buffer p size attrs c) := by
  unfold __dma_clear_buffer quiet_events
  cases attrs.skip_zeroing <;> cases c <;>
    simp [pages_acquired, pages_released, event_acquires, event_releases, is_iommu_call]

theorem split_page_quiet (p order : Nat) :
    quiet_events (if order ≠ 0 then [dma_event.split_page p order] else []) := by
  unfold quiet_events
  by_cases h : order ≠ 0
  · rw [if_pos h]
    simp [pages_acquired, pages_released, event_acquires, event_releases, is_iommu_call]
  · rw [if_neg h]
    simp [pages_acquired, pages_released]

theorem retry_unfold (env : dma_env) (fuel : Nat) (t : buffer_try)
    (hc : t.page = none ∧ t.order ≠ 0) (om k : Nat)
    (hom : t.order_mask &&& (U32 - 1 - (1 <<< t.order) % U32) = om)
    (hk : __fls om = some k) :
    alloc_buffer_retry env (fuel + 1) t =
      alloc_buffer_retry env fuel
        { page := env.alloc_pages t.calls k, order := k, order_mask := om,
          calls := t.calls + 1,
          events := t.events ++ [dma_event.alloc_pages k (env.alloc_pages t.calls k)],
          status := t.status } := by
  rw [alloc_buffer_retry, if_pos hc]
  simp only [hom, hk]

/-- The retry loop keeps its invariant, never lowers below what the mask
allows, and never raises the order; 64 rounds are more than it can use. -/
theorem alloc_buffer_retry_spec (env : dma_env) (base : List Nat) :
    ∀ (fuel : Nat) (t : buffer_try), buffer_try_inv t base → t.order ≤ fuel →
      buffer_try_inv (alloc_buffer_retry env fuel t) base ∧
      (alloc_buffer_retry env fuel t).order ≤ t.order := by
  intro fuel
  induction fuel with
  | zero =>
    intro t hinv hle
    have h0 : ¬ (t.page = none ∧ t.order ≠ 0) := fun h => h.2 (by omega)
    rw [alloc_buffer_retry, if_neg h0]
    exact ⟨hinv, le_refl _⟩
  | succ fuel ih =>
    intro t hinv hle
    by_cases hc : t.page = none ∧ t.order ≠ 0
    · obtain ⟨h1, h2, h3, h4, h5, h6, h7, h8⟩ := hinv
      have hclear := clear_top_bit t.order_mask t.order h3 h4 h5
      have hpk : 2 ^ t.order = 2 * 2 ^ (t.order - 1) := by
        have : t.order = (t.order - 1) + 1 := by omega
        rw [this, pow_succ]; simp; ring
      have h32 : 2 ^ t.order ≤ 2 ^ 31 := Nat.pow_le_pow_right (by norm_num) (by omega)
      have hpos : 0 < t.order_mask - 2 ^ t.order := by
        generalize 2 ^ t.order = a at h3 h4 hpk ⊢
        generalize 2 ^ (t.order - 1) = b at hpk
        omega
      have hlt : t.order_mask - 2 ^ t.order < 2 ^ t.order := by
        rw [pow_succ] at h4
        generalize 2 ^ t.order = a at h3 h4 ⊢
        omega
      have hodd : (t.order_mask - 2 ^ t.order) % 2 = 1 := by
        generalize 2 ^ t.order = a at h3 h4 hpk ⊢
        generalize 2 ^ (t.order - 1) = b at hpk
        omega
      have h64 : t.order_mask - 2 ^ t.order < U64 := by
        rw [U64_eq]
        generalize 2 ^ t.order = a at h3 h4 hlt h32 ⊢
        omega
      obtain ⟨k, hk, hk1, hk2⟩ := fls_some _ hpos h64
      have hkl : k ≤ t.order - 1 := by
        apply fls_unique _ _ _ hk1
        have : t.order - 1 + 1 = t.order := by omega
        rw [this]
        exact hlt
      rw [retry_unfold env fuel t hc _ k hclear hk]
      have hinv' : buffer_try_inv
          { page := env.alloc_pages t.calls k, order := k,
            order_mask := t.order_mask - 2 ^ t.order, calls := t.calls + 1,
            events := t.events ++ [dma_event.alloc_pages k (env.alloc_pages t.calls k)],
            status := t.status } base := by
        refine ⟨h1, hodd, hk1, hk2, (by show k < 32; omega), ?_, ?_, ?_⟩
        · show pages_acquired (t.events ++ _) = _
          rw [pages_acquired_append, h6, hc.1, pages_acquired_single]
          cases env.alloc_pages t.calls k <;> simp [event_acquires]
        · show pages_released (t.events ++ _) = _
          rw [pages_released_append, h7, pages_released_single]
          rfl
        · intro e he
          rcases List.mem_append.mp he with h | h
          · exact h8 e h
          · rw [List.mem_singleton.mp h]; rfl
      obtain ⟨r1, r2⟩ := ih _ hinv' (by show k ≤ fuel; omega)
      refine ⟨r1, ?_⟩
      have : k ≤ t.order := by omega
      exact le_trans r2 this
    · have : alloc_buffer_retry env (fuel + 1) t = t := by
        rw [alloc_buffer_retry, if_neg hc]
      rw [this]
      exact ⟨hinv, le_refl _⟩

theorem loop_unfold (env : dma_env) (attrs : dma_attrs) (coh : Bool) (fuel : Nat)
    (s : buffer_loop) (top om order : Nat) (hcount : ¬ s.count = 0)
    (htop : __fls s.count = some top) (hlt : top < 32)
    (hom : s.order_mask &&& (((2 <<< top) % U32 + U32 - 1) % U32) = om)
    (hord : __fls om = some order) (r : buffer_try)
    (hr : alloc_buffer_retry env 64
      { page := env.alloc_pages s.calls order, order := order, order_mask := om,
        calls := s.calls + 1,
        events := s.events ++ [dma_event.alloc_pages order (env.alloc_pages s.calls order)],
        status := run_status.finished } = r)
    (hst : r.status = run_status.finished) :
    (r.page = none →
      alloc_buffer_loop env attrs coh (fuel + 1) s =
        { ok := false, pages := s.pages, events := r.events, status := run_status.finished }) ∧
    (∀ p, r.page = some p →
      alloc_buffer_loop env attrs coh (fuel + 1) s =
        alloc_buffer_loop env attrs coh fuel
          { pages := s.pages ++ page_range p (1 <<< r.order),
            order_mask := r.order_mask,
            count := (s.count + U64 - (1 <<< r.order) % U64) % U64,
            calls := r.calls,
            events := r.events ++
              (if r.order ≠ 0 then [dma_event.split_page p r.order] else []) ++
              __dma_clear_buffer p ((PAGE_SIZE <<< r.order) % U64) attrs coh }) := by
  have hne : ¬ (r.status ≠ run_status.finished) := fun h => h hst
  constructor
  · intro hp
    rw [alloc_buffer_loop, if_neg hcount]
    simp only [htop, hom, if_pos hlt, hord, hr, if_neg hne, hp]
  · intro p hp
    rw [alloc_buffer_loop, if_neg hcount]
    simp only [htop, hom, if_pos hlt, hord, hr, if_neg hne, hp]

/-- The loop `while (count)` with an odd order mask: it ends regularly within
`count` rounds, the pages it acquired are the entries it wrote, and when it
runs to the end it has written `count` entries more. -/
theorem alloc_buffer_loop_spec (env : dma_env) (attrs : dma_attrs) (coh : Bool) :
    ∀ (fuel : Nat) (s : buffer_loop), buffer_loop_inv s → s.count ≤ fuel →
      (alloc_buffer_loop env attrs coh fuel s).status = run_status.finished ∧
      pages_acquired (alloc_buffer_loop env attrs coh fuel s).events =
        (alloc_buffer_loop env attrs coh fuel s).pages ∧
      pages_released (alloc_buffer_loop env attrs coh fuel s).events = [] ∧
      (∀ e ∈ (alloc_buffer_loop env attrs coh fuel s).events, is_iommu_call e = false) ∧
      ((alloc_buffer_loop env attrs coh fuel s).ok = true →
        (alloc_buffer_loop env attrs coh fuel s).pages.length = s.pages.length + s.count) := by
  intro fuel
  induction fuel with
  | zero =>
    intro s hinv hle
    obtain ⟨_, _, i3, i4, i5⟩ := hinv
    have h0 : s.count = 0 := by omega
    rw [alloc_buffer_loop, if_pos h0]
    exact ⟨rfl, i3, i4, i5, fun _ => by rw [h0]; rfl⟩
  | succ fuel ih =>
    intro s hinv hle
    obtain ⟨i1, i2, i3, i4, i5⟩ := hinv
    by_cases h0 : s.count = 0
    · rw [alloc_buffer_loop, if_pos h0]
      exact ⟨rfl, i3, i4, i5, fun _ => by rw [h0]; rfl⟩
    · obtain ⟨top, htop, ht1, ht2⟩ := fls_some s.count (by omega) (by rw [U64_eq]; omega)
      have htop30 : top ≤ 30 := fls_unique _ _ _ ht1 i2
      have hmask := top_mask_eq top htop30
      have hom : s.order_mask &&& (((2 <<< top) % U32 + U32 - 1) % U32) =
          s.order_mask % 2 ^ (top + 1) := by
        rw [hmask, Nat.and_pow_two_sub_one_eq_mod]
      have hodd : s.order_mask % 2 ^ (top + 1) % 2 = 1 := by
        rw [mod_two_pow_mod_two]; exact i1
      have hlt : s.order_mask % 2 ^ (top + 1) < 2 ^ (top + 1) :=
        Nat.mod_lt _ (Nat.two_pow_pos _)
      have h31 : 2 ^ (top + 1) ≤ 2 ^ 31 := Nat.pow_le_pow_right (by norm_num) (by omega)
      obtain ⟨order, hord, ho1, ho2⟩ := fls_some (s.order_mask % 2 ^ (top + 1)) (by omega)
        (by rw [U64_eq]; omega)
      have hot : order ≤ top := fls_unique _ _ _ ho1 hlt
      have hpow : 2 ^ order ≤ 2 ^ top := Nat.pow_le_pow_right (by norm_num) hot
      have hT : buffer_try_inv
          { page := env.alloc_pages s.calls order, order := order,
            order_mask := s.order_mask % 2 ^ (top + 1), calls := s.calls + 1,
            events := s.events ++
              [dma_event.alloc_pages order (env.alloc_pages s.calls order)],
            status := run_status.finished } s.pages := by
        refine ⟨rfl, hodd, ho1, ho2, (by show order < 32; omega), ?_, ?_, ?_⟩
        · show pages_acquired (s.events ++ _) = _
          rw [pages_acquired_append, i3, pages_acquired_single]
          cases env.alloc_pages s.calls order <;> simp [event_acquires]
        · show pages_released (s.events ++ _) = _
          rw [pages_released_append, i4, pages_released_single]
          rfl
        · intro e he
          rcases List.mem_append.mp he with h | h
          · exact i5 e h
          · rw [List.mem_singleton.mp h]; rfl
      obtain ⟨hr, hro⟩ := alloc_buffer_retry_spec env s.pages 64 _ hT (by show order ≤ 64; omega)
      generalize hrdef : alloc_buffer_retry env 64
        { page := env.alloc_pages s.calls order, order := order,
          order_mask := s.order_mask % 2 ^ (top + 1), calls := s.calls + 1,
          events := s.events ++
            [dma_event.alloc_pages order (env.alloc_pages s.calls order)],
          status := run_status.finished } = r at hr hro
      obtain ⟨r1, r2, r3, r4, r5, r6, r7, r8⟩ := hr
      obtain ⟨u1, u2⟩ := loop_unfold env attrs coh fuel s top _ order h0 htop (by omega) hom
        hord r hrdef r1
      have hro' : r.order ≤ order := hro
      cases hp : r.page with
      | none =>
        rw [u1 hp]
        rw [hp] at r6
        have e6 : pages_acquired r.events = s.pages := by rw [r6]; simp
        exact ⟨rfl, e6, r7, r8, fun h => Bool.noConfusion h⟩
      | some p =>
        rw [u2 p hp]
        rw [hp] at r6
        have hsh : 1 <<< r.order = 2 ^ r.order := Nat.one_shiftLeft _
        have hpr : 2 ^ r.order ≤ 2 ^ order := Nat.pow_le_pow_right (by norm_num) hro'
        have hcnt : (s.count + U64 - (1 <<< r.order) % U64) % U64 = s.count - 2 ^ r.order := by
          rw [hsh, U64_eq]
          generalize 2 ^ r.order = a at hpr ⊢
          generalize 2 ^ order = b at hpr hpow
          generalize 2 ^ top = c at hpow ht1
          omega
        have hpos := Nat.two_pow_pos r.order
        have hq := quiet_append _ _ (split_page_quiet p r.order)
          (clear_buffer_quiet p ((PAGE_SIZE <<< r.order) % U64) attrs coh)
        obtain ⟨q1, q2, q3⟩ := hq
        have hinv' : buffer_loop_inv
            { pages := s.pages ++ page_range p (1 <<< r.order),
              order_mask := r.order_mask,
              count := (s.count + U64 - (1 <<< r.order) % U64) % U64,
              calls := r.calls,
              events := r.events ++
                (if r.order ≠ 0 then [dma_event.split_page p r.order] else []) ++
                __dma_clear_buffer p ((PAGE_SIZE <<< r.order) % U64) attrs coh } := by
          refine ⟨r2, ?_, ?_, ?_, ?_⟩
          · show (s.count + U64 - (1 <<< r.order) % U64) % U64 < 2 ^ 31
            rw [hcnt]; omega
          · show pages_acquired (r.events ++ _ ++ _) = s.pages ++ page_range p (1 <<< r.order)
            rw [List.append_assoc, pages_acquired_append, r6, q1, hsh]
            simp
          · show pages_released (r.events ++ _ ++ _) = []
            rw [List.append_assoc, pages_released_append, r7, q2]
            rfl
          · intro e he
            have he' : e ∈ r.events ++ ((if r.order ≠ 0 then [dma_event.split_page p r.order]
                else []) ++ __dma_clear_buffer p ((PAGE_SIZE <<< r.order) % U64) attrs coh) := by
              rw [← List.append_assoc]; exact he
            rcases List.mem_append.mp he' with h | h
            · exact r8 e h
            · exact q3 e h
        have hfuel : (s.count + U64 - (1 <<< r.order) % U64) % U64 ≤ fuel := by
          rw [hcnt]; omega
        obtain ⟨f1, f2, f3, f4, f5⟩ := ih _ hinv' hfuel
        refine ⟨f1, f2, f3, f4, ?_⟩
        intro hok
        rw [f5 hok]
        show (s.pages ++ page_range p (1 <<< r.order)).length +
          (s.count + U64 - (1 <<< r.order) % U64) % U64 = _
        rw [hcnt, List.length_append, page_range_length, hsh]
        generalize 2 ^ r.order = a at hpr ⊢
        generalize 2 ^ order = b at hpr hpow
        generalize 2 ^ top = c at hpow ht1
        omega

theorem page_range_zero (p : Nat) : page_range p 0 = [] := rfl

theorem page_range_getD (p n : Nat) (h : 0 < n) : (page_range p n).getD 0 0 = p := by
  cases n with
  | zero => omega
  | succ n => simp [page_range, List.range_succ_eq_map]

theorem map_getD_range (pages : List Nat) :
    (List.range pages.length).map (fun i => pages.getD i 0) = pages := by
  apply List.ext_getElem
  · simp
  · intro i h1 h2
    simp [List.getD_eq_getElem?_getD, List.getElem?_eq_getElem h2]

theorem pages_released_free_each (l : List Nat) :
    pages_released (l.map (fun p => dma_event.free_pages p 0)) = l ∧
    pages_acquired (l.map (fun p => dma_event.free_pages p 0)) = [] ∧
    ∀ e ∈ l.map (fun p => dma_event.free_pages p 0), is_iommu_call e = false := by
  induction l with
  | nil => exact ⟨rfl, rfl, fun e he => by simp at he⟩
  | cons a rest ih =>
    obtain ⟨i1, i2, i3⟩ := ih
    refine ⟨?_, ?_, ?_⟩
    · show event_releases (dma_event.free_pages a 0) ++ pages_released (rest.map _) = _
      rw [i1]
      rfl
    · show event_acquires (dma_event.free_pages a 0) ++ pages_acquired (rest.map _) = _
      rw [i2]
      rfl
    · intro e he
      rcases List.mem_cons.mp he with h | h
      · rw [h]; rfl
      · exact i3 e h

/-- What `__iommu_alloc_buffer` does for a page-aligned size below 2^32 when
the IOMMU supports the CPU page size: it ends regularly and makes no IOMMU
call; when it returns NULL it has released every page it acquired; when it
returns an array, the array holds `size / PAGE_SIZE` pages, exactly the
pages acquired, none released. -/
theorem alloc_buffer_spec (env : dma_env) (attrs : dma_attrs) (coh : Bool) (size : Nat)
    (h4k : env.pgsize_bitmap / PAGE_SIZE % 2 = 1) (hsize : size < 2 ^ 32) :
    (__iommu_alloc_buffer env size attrs coh).2.2 = run_status.finished ∧
    (∀ e ∈ (__iommu_alloc_buffer env size attrs coh).2.1, is_iommu_call e = false) ∧
    ((__iommu_alloc_buffer env size attrs coh).1 = none →
      (pages_released (__iommu_alloc_buffer env size attrs coh).2.1).Perm
        (pages_acquired (__iommu_alloc_buffer env size attrs coh).2.1)) ∧
    (∀ pages, (__iommu_alloc_buffer env size attrs coh).1 = some pages →
      pages_acquired (__iommu_alloc_buffer env size attrs coh).2.1 = pages ∧
      pages_released (__iommu_alloc_buffer env size attrs coh).2.1 = [] ∧
      pages.length = size / PAGE_SIZE ∧
      (attrs.force_contiguous = true → ∃ p, pages = page_range p (size / PAGE_SIZE))) := by
  have hcount : size >>> PAGE_SHIFT = size / PAGE_SIZE := by
    rw [shiftRight_page, PAGE_SIZE_eq]
  unfold __iommu_alloc_buffer
  simp only [hcount]
  by_cases hA : env.page_array_ok = true
  · have hA' : (!env.page_array_ok) = false := by rw [hA]; rfl
    simp only [hA', Bool.false_eq_true, if_false]
    by_cases hF : attrs.force_contiguous = true
    · simp only [hF, if_true]
      cases hP : env.dma_alloc_from_contiguous (size / PAGE_SIZE) (get_order size) with
      | none =>
        refine ⟨rfl, ?_, fun _ => ?_, fun pages h => Option.noConfusion h⟩
        · intro e he
          simp at he
          rcases he with h | h | h <;> rw [h] <;> rfl
        · simp [pages_acquired, pages_released, event_acquires, event_releases]
      | some p =>
        have hq := clear_buffer_quiet p size attrs coh
        obtain ⟨q1, q2, q3⟩ := hq
        refine ⟨rfl, ?_, fun h => Option.noConfusion h, ?_⟩
        · intro e he
          rcases List.mem_append.mp he with h | h
          · simp at h
            rcases h with h | h <;> rw [h] <;> rfl
          · exact q3 e h
        · intro pages hpages
          have hp : page_range p (size / PAGE_SIZE) = pages := Option.some.inj hpages
          refine ⟨?_, ?_, ?_, fun _ => ⟨p, hp.symm⟩⟩
          · rw [pages_acquired_append, q1, ← hp]
            simp [pages_acquired, event_acquires]
          · rw [pages_released_append, q2]
            simp [pages_released, event_releases]
          · rw [← hp, page_range_length]
    · simp only [hF, Bool.false_eq_true, if_false]
      by_cases hM : ((env.pgsize_bitmap % U32) >>> PAGE_SHIFT) &&&
          (((2 <<< env.MAX_ORDER) % U32 + U32 - 1) % U32) = 0
      · rw [if_pos hM]
        refine ⟨rfl, ?_, fun _ => ?_, fun pages h => Option.noConfusion h⟩
        · intro e he
          simp at he
          rcases he with h | h <;> rw [h] <;> rfl
        · simp [pages_acquired, pages_released, event_acquires, event_releases]
      · rw [if_neg hM]
        have hodd : (((env.pgsize_bitmap % U32) >>> PAGE_SHIFT) &&&
            (((2 <<< env.MAX_ORDER) % U32 + U32 - 1) % U32)) % 2 = 1 := by
          apply odd_and
          · rw [shiftRight_page, U32_eq]
            rw [PAGE_SIZE_eq] at h4k
            omega
          · exact max_order_mask_odd _
        have hinv : buffer_loop_inv
            { pages := [],
              order_mask := ((env.pgsize_bitmap % U32) >>> PAGE_SHIFT) &&&
                (((2 <<< env.MAX_ORDER) % U32 + U32 - 1) % U32),
              count := size / PAGE_SIZE, calls := 0,
              events := [dma_event.alloc_page_array (size / PAGE_SIZE * 8 % U64)
                env.page_array_ok] } := by
          refine ⟨hodd, ?_, rfl, rfl, ?_⟩
          · show size / PAGE_SIZE < 2 ^ 31
            rw [PAGE_SIZE_eq]; omega
          · intro e he
            rw [List.mem_singleton.mp he]; rfl
        obtain ⟨l1, l2, l3, l4, l5⟩ := alloc_buffer_loop_spec env attrs coh (size / PAGE_SIZE) _
          hinv (le_refl _)
        generalize alloc_buffer_loop env attrs coh (size / PAGE_SIZE)
          { pages := [],
            order_mask := ((env.pgsize_bitmap % U32) >>> PAGE_SHIFT) &&&
              (((2 <<< env.MAX_ORDER) % U32 + U32 - 1) % U32),
            count := size / PAGE_SIZE, calls := 0,
            events := [dma_event.alloc_page_array (size / PAGE_SIZE * 8 % U64)
              env.page_array_ok] } = r at l1 l2 l3 l4 l5
        rw [if_neg (by rw [l1]; exact fun h => h rfl)]
        by_cases hok : r.ok = true
        · rw [if_pos hok]
          refine ⟨rfl, l4, fun h => Option.noConfusion h, ?_⟩
          intro pages hpages
          have hp : r.pages = pages := Option.some.inj hpages
          rw [← hp]
          refine ⟨l2, l3, ?_, fun h => h.elim⟩
          rw [l5 hok]
          simp
        · rw [if_neg hok]
          obtain ⟨f1, f2, f3⟩ := pages_released_free_each r.pages.reverse
          refine ⟨rfl, ?_, fun _ => ?_, fun pages h => Option.noConfusion h⟩
          · intro e he
            rcases List.mem_append.mp he with h | h
            · rcases List.mem_append.mp h with h | h
              · exact l4 e h
              · exact f3 e h
            · rw [List.mem_singleton.mp h]; rfl
          · show (pages_released (r.events ++ _ ++ _)).Perm (pages_acquired (r.events ++ _ ++ _))
            rw [pages_released_append, pages_released_append, pages_acquired_append,
              pages_acquired_append, l2, l3, f1, f2]
            simp [pages_acquired, pages_released, event_acquires, event_releases]
  · have hA' : (!env.page_array_ok) = true := by
      cases h : env.page_array_ok
      · rfl
      · exact absurd h hA
    rw [if_pos hA']
    refine ⟨rfl, ?_, fun _ => ?_, fun pages h => Option.noConfusion h⟩
    · intro e he
      rw [List.mem_singleton.mp he]; rfl
    · simp [pages_acquired, pages_released, event_acquires, event_releases]


/-- The function `__iommu_free_buffer` on an array of `size / PAGE_SIZE` pages
(a contiguous range when the buffer was forced contiguous): it releases
exactly the pages of the array and makes no IOMMU call. -/
theorem free_buffer_spec (pages : List Nat) (size : Nat) (attrs : dma_attrs)
    (hsize : size < 2 ^ 32) (hlen : pages.length = size / PAGE_SIZE)
    (hcontig : attrs.force_contiguous = true → ∃ p, pages = page_range p (size / PAGE_SIZE)) :
    pages_released (__iommu_free_buffer pages size attrs) = pages ∧
    pages_acquired (__iommu_free_buffer pages size attrs) = [] ∧
    ∀ e ∈ __iommu_free_buffer pages size attrs, is_iommu_call e = false := by
  have hc : size >>> PAGE_SHIFT = size / PAGE_SIZE := by rw [shiftRight_page, PAGE_SIZE_eq]
  have hn : size / PAGE_SIZE < 2 ^ 31 := by rw [PAGE_SIZE_eq]; omega
  have hi : to_int (size / PAGE_SIZE) = ((size / PAGE_SIZE : Nat) : Int) := by
    unfold to_int
    have h1 : size / PAGE_SIZE % U32 = size / PAGE_SIZE :=
      Nat.mod_eq_of_lt (by rw [U32_eq]; omega)
    rw [h1, if_pos hn]
  unfold __iommu_free_buffer
  simp only [hc]
  by_cases hF : attrs.force_contiguous = true
  · obtain ⟨p, hp⟩ := hcontig hF
    rw [if_pos hF, of_int_to_int _ hn]
    have hrel : page_range (pages.getD 0 0) (size / PAGE_SIZE) = pages := by
      by_cases h0 : size / PAGE_SIZE = 0
      · rw [hp, h0]; rfl
      · rw [hp, page_range_getD p _ (by omega)]
    refine ⟨?_, ?_, ?_⟩
    · show event_releases (dma_event.dma_release_from_contiguous (pages.getD 0 0)
        (size / PAGE_SIZE)) ++ pages_released [dma_event.free_page_array] = pages
      show page_range (pages.getD 0 0) (size / PAGE_SIZE) ++ [] = pages
      rw [hrel, List.append_nil]
    · rfl
    · intro e he
      simp at he
      rcases he with h | h <;> rw [h] <;> rfl
  · rw [if_neg hF, hi, Int.toNat_ofNat, ← hlen]
    have hm : (List.range pages.length).map (fun i => dma_event.free_pages (pages.getD i 0) 0) =
        ((List.range pages.length).map (fun i => pages.getD i 0)).map
          (fun p => dma_event.free_pages p 0) := by
      rw [List.map_map]; rfl
    rw [hm, map_getD_range]
    obtain ⟨f1, f2, f3⟩ := pages_released_free_each pages
    refine ⟨?_, ?_, ?_⟩
    · rw [pages_released_append, f1]
      simp [pages_released, event_releases]
    · rw [pages_acquired_append, f2]
      simp [pages_acquired, event_acquires]
    · intro e he
      rcases List.mem_append.mp he with h | h
      · exact f3 e h
      · rw [List.mem_singleton.mp h]; rfl

/-- The inner scan of `__iommu_create_mapping` never goes back and stops at
`count` at the latest. -/
theorem run_end_bounds (pages : List Nat) (count : Nat) :
    ∀ (fuel j next_pfn : Nat), j ≤ count → count - j ≤ fuel →
      j ≤ run_end pages count fuel j next_pfn ∧ run_end pages count fuel j next_pfn ≤ count := by
  intro fuel
  induction fuel with
  | zero => intro j n hj hf; simp only [run_end]; omega
  | succ fuel ih =>
    intro j n hj hf
    simp only [run_end]
    by_cases h1 : j < count
    · rw [if_pos h1]
      by_cases h2 : pages.getD j 0 ≠ n
      · rw [if_pos h2]; omega
      · rw [if_neg h2]
        have := ih (j + 1) ((n + 1) % U32) (by omega) (by omega)
        omega
    · rw [if_neg h1]; omega



theorem map_inside_mono (R S : Nat → Prop) (h : ∀ a, R a → S a) (e : dma_event)
    (he : map_inside R e) : map_inside S e := by
  obtain ⟨iova, paddr, size, ret, h1, h2⟩ := he
  exact ⟨iova, paddr, size, ret, h1, fun hr a ha hb => h a (h2 hr a ha hb)⟩

/-- The mapping loop of `__iommu_create_mapping` for fewer than 2^20 pages in
a range that ends below 2^64: it only appends `iommu_map` calls, each
successful one inside the part of the range it has walked, and the final
`iova` is the start of the range plus the pages walked. -/
theorem create_mapping_loop_spec (env : dma_env) (pages : List Nat) (count dma : Nat)
    (hcount : count < 2 ^ 20) (hfit : dma + count * 4096 < U64) :
    ∀ (fuel i : Nat) (evs : List dma_event), i ≤ count → count - i ≤ fuel →
      ∃ maps k,
        (create_mapping_loop env pages count fuel i (dma + i * 4096) evs).2.2 = evs ++ maps ∧
        (create_mapping_loop env pages count fuel i (dma + i * 4096) evs).2.1 =
          dma + k * 4096 ∧
        i ≤ k ∧ k ≤ count ∧
        (∀ e ∈ maps, map_inside (fun a => dma + i * 4096 ≤ a ∧ a < dma + k * 4096) e) ∧
        ((create_mapping_loop env pages count fuel i (dma + i * 4096) evs).1 = true →
          k = count ∧
          ∀ iova paddr size ret, dma_event.iommu_map iova paddr size ret ∈ maps → 0 ≤ ret) := by
  intro fuel
  induction fuel with
  | zero =>
    intro i evs hi hf
    refine ⟨[], i, ?_, rfl, le_refl _, hi, fun e he => by simp at he, fun _ => ⟨by omega, ?_⟩⟩
    · simp [create_mapping_loop]
    · intro _ _ _ _ h; simp at h
  | succ fuel ih =>
    intro i evs hi hf
    by_cases h1 : i < count
    · obtain ⟨j1, j2⟩ := run_end_bounds pages count count (i + 1)
        ((pages.getD i 0 + 1) % U32) (by omega) (by omega)
      generalize hj : run_end pages count count (i + 1) ((pages.getD i 0 + 1) % U32) = j
        at j1 j2
      have hlen : ((j - i) <<< PAGE_SHIFT) % U32 = (j - i) * 4096 := by
        rw [shiftLeft_page, U32_eq]; omega
      have hnext : (dma + i * 4096 + (j - i) * 4096) % U64 = dma + j * 4096 := by
        rw [U64_eq] at hfit ⊢
        omega
      by_cases hr : env.iommu_map (dma + i * 4096) (page_to_phys (pages.getD i 0))
          ((j - i) * 4096) < 0
      · have hres : create_mapping_loop env pages count (fuel + 1) i (dma + i * 4096) evs =
            (false, dma + i * 4096, evs ++ [dma_event.iommu_map (dma + i * 4096)
              (page_to_phys (pages.getD i 0)) ((j - i) * 4096)
              (env.iommu_map (dma + i * 4096) (page_to_phys (pages.getD i 0))
                ((j - i) * 4096))]) := by
          rw [create_mapping_loop, if_pos h1]
          simp only [hj, hlen, if_pos hr]
        rw [hres]
        refine ⟨_, i, rfl, rfl, le_refl _, hi, ?_, fun h => Bool.noConfusion h⟩
        intro e he
        rw [List.mem_singleton.mp he]
        exact ⟨_, _, _, _, rfl, fun h0 => absurd hr (by omega)⟩
      · have hres : create_mapping_loop env pages count (fuel + 1) i (dma + i * 4096) evs =
            create_mapping_loop env pages count fuel j (dma + j * 4096)
              (evs ++ [dma_event.iommu_map (dma + i * 4096)
                (page_to_phys (pages.getD i 0)) ((j - i) * 4096)
                (env.iommu_map (dma + i * 4096) (page_to_phys (pages.getD i 0))
                  ((j - i) * 4096))]) := by
          rw [create_mapping_loop, if_pos h1]
          simp only [hj, hlen, if_neg hr, hnext]
        rw [hres]
        obtain ⟨maps, k, m1, m2, m3, m4, m5, m6⟩ := ih j
          (evs ++ [dma_event.iommu_map (dma + i * 4096)
            (page_to_phys (pages.getD i 0)) ((j - i) * 4096)
            (env.iommu_map (dma + i * 4096) (page_to_phys (pages.getD i 0))
              ((j - i) * 4096))]) j2 (by omega)
        refine ⟨dma_event.iommu_map (dma + i * 4096)
            (page_to_phys (pages.getD i 0)) ((j - i) * 4096)
            (env.iommu_map (dma + i * 4096) (page_to_phys (pages.getD i 0))
              ((j - i) * 4096)) :: maps, k, ?_, m2, by omega, m4, ?_, ?_⟩
        · rw [m1]; simp
        · intro e he
          rcases List.mem_cons.mp he with h | h
          · rw [h]
            refine ⟨_, _, _, _, rfl, fun _ a ha hb => ?_⟩
            constructor
            · exact ha
            · omega
          · exact map_inside_mono _ _ (fun a ha => ⟨by omega, ha.2⟩) e (m5 e h)
        · intro hok
          obtain ⟨k1, k2⟩ := m6 hok
          refine ⟨k1, ?_⟩
          intro iova paddr size ret hmem
          rcases List.mem_cons.mp hmem with h | h
          · injection h with e1 e2 e3 e4
            rw [e4]; omega
          · exact k2 iova paddr size ret h
    · have hres : create_mapping_loop env pages count (fuel + 1) i (dma + i * 4096) evs =
          (true, dma + i * 4096, evs) := by
        rw [create_mapping_loop, if_neg h1]
      rw [hres]
      refine ⟨[], i, by simp, rfl, le_refl _, hi, fun e he => by simp at he,
        fun _ => ⟨by omega, ?_⟩⟩
      intro _ _ _ _ h; simp at h

/-! ## Lemmas: replaying IOMMU calls on a page table -/

theorem iommu_apply_not_call (pt : Nat → Option Nat) (e : dma_event)
    (h : is_iommu_call e = false) : iommu_apply pt e = pt := by
  cases e <;> first | rfl | exact Bool.noConfusion h

theorem replay_filter : ∀ (evs : List dma_event) (pt : Nat → Option Nat),
    evs.foldl iommu_apply pt = (evs.filter is_iommu_call).foldl iommu_apply pt := by
  intro evs
  induction evs with
  | nil => intro pt; rfl
  | cons e rest ih =>
    intro pt
    by_cases h : is_iommu_call e = true
    · rw [List.filter_cons_of_pos h]
      exact ih _
    · have h' : is_iommu_call e = false := by
        cases hh : is_iommu_call e
        · rfl
        · exact absurd hh h
      rw [List.filter_cons_of_neg h]
      show rest.foldl iommu_apply (iommu_apply pt e) = _
      rw [iommu_apply_not_call pt e h']
      exact ih _

theorem filter_calls_of_quiet (evs : List dma_event)
    (h : ∀ e ∈ evs, is_iommu_call e = false) : evs.filter is_iommu_call = [] := by
  rw [List.filter_eq_nil_iff]
  intro e he
  rw [h e he]
  exact Bool.noConfusion

theorem filter_calls_of_calls (evs : List dma_event)
    (h : ∀ e ∈ evs, is_iommu_call e = true) : evs.filter is_iommu_call = evs := by
  rw [List.filter_eq_self]
  exact h

/-- Calls whose effect stays inside `R` leave every translation outside `R`
as it was. -/
theorem replay_inside (R : Nat → Prop) : ∀ (evs : List dma_event) (pt : Nat → Option Nat),
    (∀ e ∈ evs, map_inside R e) → ∀ x, ¬ R x → evs.foldl iommu_apply pt x = pt x := by
  intro evs
  induction evs with
  | nil => intro pt _ x _; rfl
  | cons e rest ih =>
    intro pt h x hx
    show rest.foldl iommu_apply (iommu_apply pt e) x = pt x
    rw [ih (iommu_apply pt e) (fun e' he' => h e' (List.mem_cons_of_mem _ he')) x hx]
    obtain ⟨iova, paddr, size, ret, h1, h2⟩ := h e (List.mem_cons_self _ _)
    rw [h1]
    show (if ret = 0 then
        fun a => if iova ≤ a ∧ a < iova + size then some (paddr + (a - iova)) else pt a
      else pt) x = pt x
    by_cases hr : ret = 0
    · rw [if_pos hr]
      show (if iova ≤ x ∧ x < iova + size then some (paddr + (x - iova)) else pt x) = pt x
      rw [if_neg (fun hc => hx (h2 hr x hc.1 hc.2))]
    · rw [if_neg hr]

/-- Unwinding: after calls whose effect stays inside `[lo, mid)` and the
guard region `[hi, hi + g)`, an unmap of `[lo, mid)` followed by the guard
unmap (absent only when the guard is empty) leaves no translation the calls
created: every address translates to nothing or to what it did before. -/
theorem unwind_entries (A F : List dma_event) (lo mid hi g : Nat) (hlm : lo ≤ mid)
    (hA : ∀ e ∈ A, map_inside (fun a => (lo ≤ a ∧ a < mid) ∨ (hi ≤ a ∧ a < hi + g)) e)
    (hF : F = [dma_event.iommu_unmap hi g] ∨ (F = [] ∧ g = 0))
    (pt : Nat → Option Nat) (x : Nat) :
    (A ++ [dma_event.iommu_unmap lo (mid - lo)] ++ F).foldl iommu_apply pt x = none ∨
    (A ++ [dma_event.iommu_unmap lo (mid - lo)] ++ F).foldl iommu_apply pt x = pt x := by
  rw [List.foldl_append, List.foldl_append]
  have hin := replay_inside _ A pt hA x
  generalize A.foldl iommu_apply pt = p1 at hin
  have e1 : [dma_event.iommu_unmap lo (mid - lo)].foldl iommu_apply p1 =
      fun a => if lo ≤ a ∧ a < lo + (mid - lo) then none else p1 a := rfl
  rw [e1]
  rcases hF with hF | ⟨hF, hg⟩
  · rw [hF]
    have e2 : [dma_event.iommu_unmap hi g].foldl iommu_apply
        (fun a => if lo ≤ a ∧ a < lo + (mid - lo) then none else p1 a) x =
        (if hi ≤ x ∧ x < hi + g then none
          else (if lo ≤ x ∧ x < lo + (mid - lo) then none else p1 x)) := rfl
    rw [e2]
    by_cases h1 : hi ≤ x ∧ x < hi + g
    · left; rw [if_pos h1]
    · rw [if_neg h1]
      by_cases h2 : lo ≤ x ∧ x < lo + (mid - lo)
      · left; rw [if_pos h2]
      · right
        rw [if_neg h2]
        apply hin
        intro hc
        rcases hc with hc | hc
        · exact h2 ⟨hc.1, by omega⟩
        · exact h1 hc
  · rw [hF]
    have e2 : ([] : List dma_event).foldl iommu_apply
        (fun a => if lo ≤ a ∧ a < lo + (mid - lo) then none else p1 a) x =
        (if lo ≤ x ∧ x < lo + (mid - lo) then none else p1 x) := rfl
    rw [e2]
    by_cases h2 : lo ≤ x ∧ x < lo + (mid - lo)
    · left; rw [if_pos h2]
    · right
      rw [if_neg h2]
      apply hin
      intro hc
      rcases hc with hc | hc
      · exact h2 ⟨hc.1, by omega⟩
      · omega

/-! ## Lemmas: __iommu_create_mapping -/

theorem PAGE_ALIGN_aligned (size : Nat) (hal : size % PAGE_SIZE = 0) (hsize : size < 2 ^ 32) :
    PAGE_ALIGN size = size := by
  rw [PAGE_ALIGN_eq size (by rw [U64_eq]; omega)]
  rw [PAGE_SIZE_eq] at hal
  omega

/-- A successful `__alloc_iova` for a page-aligned size in a space that ends
below 2^64: the address is page-aligned, the run and its guard region end
below 2^64, the guard mapping (if any) succeeded, and the calls of the
allocation and of the matching `__free_iova` are the guard map and the guard
unmap. -/
theorem alloc_iova_success_range (maxOrder : Nat) (m : dma_iommu_mapping) (size : Nat)
    (ret : Int) (hcfg : maxOrder ≤ 30) (hlay : iova_layout_ok m)
    (hspace : m.base + m.bits * PAGE_SIZE < U64) (hal : size % PAGE_SIZE = 0)
    (hsize : size < 2 ^ 32)
    (hok : (__alloc_iova maxOrder m size ret).2 ≠ DMA_ERROR_CODE) :
    (__alloc_iova maxOrder m size ret).2 % 4096 = 0 ∧
    (__alloc_iova maxOrder m size ret).2 + size + iova_guard_len m size < U64 ∧
    (iova_guard_len m size ≠ 0 → ret = 0) ∧
    alloc_iova_events maxOrder m size ret =
      (if iova_guard_len m size ≠ 0 then
        [dma_event.iommu_map ((__alloc_iova maxOrder m size ret).2 + size)
          (page_to_phys (m.guard_page.getD 0)) (iova_guard_len m size) ret]
       else []) ∧
    free_iova_events (__alloc_iova maxOrder m size ret).1
        (__alloc_iova maxOrder m size ret).2 size =
      (if m.min_iova_align ≠ 0 then
        [dma_event.iommu_unmap ((__alloc_iova maxOrder m size ret).2 + size)
          (iova_guard_len m size)]
       else []) ∧
    (m.min_iova_align = 0 → iova_guard_len m size = 0) := by
  have hPA := PAGE_ALIGN_aligned size hal hsize
  obtain ⟨hbase, hb64, hbits, hmin⟩ := hlay
  have hg0 : m.min_iova_align = 0 → iova_guard_len m size = 0 := by
    intro h
    unfold iova_guard_len
    rw [if_neg (by rw [h]; exact fun hh => hh rfl)]
  rcases alloc_iova_cases maxOrder m size ret with ⟨_, h⟩ | ⟨_, _, h⟩ | ⟨hle, hgr, h⟩
  · rw [h] at hok; exact absurd rfl hok
  · rw [h] at hok; exact absurd rfl hok
  · obtain ⟨hc, _⟩ := (alloc_iova_start_spec maxOrder m size hbits hmin hsize (Or.inr hcfg)).1 hle
    obtain ⟨T, t1, t2, t3, t4, t5, t6, t7, t8⟩ := iova_size_facts m size hmin hsize
    have hfit := hc.2.1
    rw [t7] at hfit
    rw [hPA] at hgr t4 t5 t6
    have hiova : (__alloc_iova maxOrder m size ret).2 =
        (m.base + (alloc_iova_start maxOrder m size <<< PAGE_SHIFT) % U32) % U64 := by
      rw [h]
    have hev : alloc_iova_events maxOrder m size ret =
        (if iova_guard_len m size ≠ 0 then
          [dma_event.iommu_map
            (((m.base + (alloc_iova_start maxOrder m size <<< PAGE_SHIFT) % U32) % U64 + size)
              % U64)
            (page_to_phys (m.guard_page.getD 0)) (iova_guard_len m size) ret]
         else []) := by
      unfold alloc_iova_events
      simp only [hPA]
      rw [if_neg (by omega)]
    have hfe : free_iova_events (__alloc_iova maxOrder m size ret).1
        (__alloc_iova maxOrder m size ret).2 size =
        (if m.min_iova_align ≠ 0 then
          [dma_event.iommu_unmap
            ((((m.base + (alloc_iova_start maxOrder m size <<< PAGE_SHIFT) % U32) % U64
              &&& PAGE_MASK) + size) % U64)
            (iova_guard_len m size)]
         else []) := by
      rw [h]
      unfold free_iova_events iova_guard_len
      simp only [hPA]
    rw [hev, hfe, hiova]
    generalize hv : (m.base + (alloc_iova_start maxOrder m size <<< PAGE_SHIFT) % U32) % U64 = v
    have hvfacts : v % 4096 = 0 ∧ v + size + iova_guard_len m size < U64 := by
      rw [← hv, shiftLeft_page, U32_eq]
      rw [PAGE_SIZE_eq] at hbase hspace
      rw [U64_eq] at hb64 hspace ⊢
      omega
    obtain ⟨hv1, hv2⟩ := hvfacts
    have hmask : v &&& PAGE_MASK = v := by
      rw [and_PAGE_MASK v (by omega)]
      omega
    have hmod : (v + size) % U64 = v + size := Nat.mod_eq_of_lt (by omega)
    rw [hmask, hmod]
    refine ⟨hv1, hv2, ?_, rfl, rfl, hg0⟩
    intro hne
    by_contra hr
    exact hgr ⟨hne, hr⟩

theorem alloc_iova_events_calls (maxOrder : Nat) (m : dma_iommu_mapping) (size : Nat)
    (ret : Int) : ∀ e ∈ alloc_iova_events maxOrder m size ret, is_iommu_call e = true := by
  intro e he
  unfold alloc_iova_events at he
  simp only [] at he
  by_cases h1 : alloc_iova_start maxOrder m size > m.bits
  · rw [if_pos h1] at he; simp at he
  · rw [if_neg h1] at he
    by_cases h2 : iova_guard_len m (PAGE_ALIGN size) ≠ 0
    · rw [if_pos h2] at he
      rw [List.mem_singleton.mp he]; rfl
    · rw [if_neg h2] at he; simp at he

theorem free_iova_events_calls (m : dma_iommu_mapping) (addr size : Nat) :
    ∀ e ∈ free_iova_events m addr size, is_iommu_call e = true := by
  intro e he
  unfold free_iova_events at he
  simp only [] at he
  by_cases h1 : m.min_iova_align ≠ 0
  · rw [if_pos h1] at he
    rw [List.mem_singleton.mp he]; rfl
  · rw [if_neg h1] at he; simp at he

/-- The calls of a failed `__alloc_iova` leave the page table as it was: no
call at all, or a guard mapping that failed. -/
theorem alloc_iova_failure_events (maxOrder : Nat) (m : dma_iommu_mapping) (size : Nat)
    (ret : Int) (hbase : m.base % PAGE_SIZE = 0)
    (hfail : (__alloc_iova maxOrder m size ret).2 = DMA_ERROR_CODE)
    (pt : Nat → Option Nat) :
    (alloc_iova_events maxOrder m size ret).foldl iommu_apply pt = pt := by
  unfold alloc_iova_events
  simp only []
  rcases alloc_iova_cases maxOrder m size ret with ⟨hgt, _⟩ | ⟨hle, hg, _⟩ | ⟨hle, _, h⟩
  · rw [if_pos hgt]; rfl
  · rw [if_neg (by omega), if_pos hg.1]
    show (if ret = 0 then _ else pt) = pt
    rw [if_neg hg.2]
  · exfalso
    rw [h] at hfail
    have hfail' : (m.base + (alloc_iova_start maxOrder m size <<< PAGE_SHIFT) % U32) % U64 =
        DMA_ERROR_CODE := hfail
    rw [shiftLeft_page, U32_eq] at hfail'
    rw [PAGE_SIZE_eq] at hbase
    have hd : DMA_ERROR_CODE = 18446744073709551615 := by decide
    rw [hd, U64_eq] at hfail'
    omega

/-- The function `__iommu_create_mapping` for a page-aligned size below 2^32
on a sound layout: it only makes IOMMU calls; when it fails the bitmap is as
before and no translation it created is left; when it succeeds no
`iommu_map` call failed, and the matching removal (unmap of the range, then
`__free_iova`) restores the bitmap and leaves no translation it created. -/
theorem create_mapping_spec (maxOrder : Nat) (env : dma_env) (m : dma_iommu_mapping)
    (pages : List Nat) (S : Nat) (hcfg : maxOrder ≤ 30) (hlay : iova_layout_ok m)
    (hspace : m.base + m.bits * PAGE_SIZE < U64) (hal : S % PAGE_SIZE = 0)
    (hS : S < 2 ^ 32) :
    (∀ e ∈ (__iommu_create_mapping maxOrder env m pages S).2.2, is_iommu_call e = true) ∧
    ((__iommu_create_mapping maxOrder env m pages S).2.1 = DMA_ERROR_CODE →
      (__iommu_create_mapping maxOrder env m pages S).1.bitmap = m.bitmap ∧
      ∀ pt x,
        (__iommu_create_mapping maxOrder env m pages S).2.2.foldl iommu_apply pt x = none ∨
        (__iommu_create_mapping maxOrder env m pages S).2.2.foldl iommu_apply pt x = pt x) ∧
    ((__iommu_create_mapping maxOrder env m pages S).2.1 ≠ DMA_ERROR_CODE →
      (__iommu_create_mapping maxOrder env m pages S).2.1 % 4096 = 0 ∧
      (__iommu_create_mapping maxOrder env m pages S).2.1 + S < U64 ∧
      (__free_iova (__iommu_create_mapping maxOrder env m pages S).1
        (__iommu_create_mapping maxOrder env m pages S).2.1 S).bitmap = m.bitmap ∧
      (∀ pt x,
        ((__iommu_create_mapping maxOrder env m pages S).2.2 ++
          [dma_event.iommu_unmap (__iommu_create_mapping maxOrder env m pages S).2.1 S] ++
          free_iova_events (__iommu_create_mapping maxOrder env m pages S).1
            (__iommu_create_mapping maxOrder env m pages S).2.1 S).foldl iommu_apply pt x =
          none ∨
        ((__iommu_create_mapping maxOrder env m pages S).2.2 ++
          [dma_event.iommu_unmap (__iommu_create_mapping maxOrder env m pages S).2.1 S] ++
          free_iova_events (__iommu_create_mapping maxOrder env m pages S).1
            (__iommu_create_mapping maxOrder env m pages S).2.1 S).foldl iommu_apply pt x =
          pt x) ∧
      (∀ iova paddr size ret, dma_event.iommu_map iova paddr size ret ∈
        (__iommu_create_mapping maxOrder env m pages S).2.2 → 0 ≤ ret)) := by
  have hPA := PAGE_ALIGN_aligned S hal hS
  have hcnt : (PAGE_ALIGN S >>> PAGE_SHIFT) % U32 = S / 4096 := by
    rw [hPA, shiftRight_page, U32_eq]; omega
  unfold __iommu_create_mapping
  simp only [hcnt]
  by_cases hE : (__alloc_iova maxOrder m S env.guard_map_ret).2 = DMA_ERROR_CODE
  · simp only [if_pos hE]
    refine ⟨alloc_iova_events_calls maxOrder m S env.guard_map_ret, fun _ => ⟨?_, ?_⟩,
      fun h => absurd hE h⟩
    · exact alloc_iova_failure_bitmap maxOrder m S env.guard_map_ret hcfg hlay hS hE
    · intro pt x
      right
      rw [alloc_iova_failure_events maxOrder m S env.guard_map_ret hlay.1 hE pt]
  · simp only [if_neg hE]
    obtain ⟨a1, a2, a3, a4, a5, a6⟩ := alloc_iova_success_range maxOrder m S env.guard_map_ret
      hcfg hlay hspace hal hS hE
    have hbal := alloc_free_bitmap maxOrder m S env.guard_map_ret hcfg hlay hS hE
    generalize hav : __alloc_iova maxOrder m S env.guard_map_ret = av
      at hE a1 a2 a3 a4 a5 a6 hbal
    generalize hG : iova_guard_len m S = G at a2 a3 a4 a5 a6
    rw [PAGE_SIZE_eq] at hal
    have hfit : av.2 + S / 4096 * 4096 < U64 := by omega
    obtain ⟨maps, k, l1, l2, l3, l4, l5, l6⟩ := create_mapping_loop_spec env pages (S / 4096)
      av.2 (by omega) hfit (S / 4096) 0 (alloc_iova_events maxOrder m S env.guard_map_ret)
      (Nat.zero_le _) (by omega)
    simp only [Nat.zero_mul, Nat.add_zero] at l1 l2 l5 l6
    generalize hr : create_mapping_loop env pages (S / 4096) (S / 4096) 0 av.2
      (alloc_iova_events maxOrder m S env.guard_map_ret) = r at l1 l2 l6
    have hguard : ∀ e ∈ alloc_iova_events maxOrder m S env.guard_map_ret,
        map_inside (fun a => (av.2 ≤ a ∧ a < av.2 + k * 4096) ∨
          (av.2 + S ≤ a ∧ a < av.2 + S + G)) e := by
      intro e he
      rw [a4] at he
      by_cases hg : G ≠ 0
      · rw [if_pos hg] at he
        rw [List.mem_singleton.mp he]
        exact ⟨_, _, _, _, rfl, fun _ a ha hb => Or.inr ⟨ha, hb⟩⟩
      · rw [if_neg hg] at he; simp at he
    have hall : ∀ e ∈ alloc_iova_events maxOrder m S env.guard_map_ret ++ maps,
        map_inside (fun a => (av.2 ≤ a ∧ a < av.2 + k * 4096) ∨
          (av.2 + S ≤ a ∧ a < av.2 + S + G)) e := by
      intro e he
      rcases List.mem_append.mp he with h | h
      · exact hguard e h
      · exact map_inside_mono _ _ (fun a ha => Or.inl ha) e (l5 e h)
    have hcalls : ∀ e ∈ alloc_iova_events maxOrder m S env.guard_map_ret ++ maps,
        is_iommu_call e = true := by
      intro e he
      obtain ⟨_, _, _, _, h1, _⟩ := hall e he
      rw [h1]; rfl
    have hF : free_iova_events av.1 av.2 S = [dma_event.iommu_unmap (av.2 + S) G] ∨
        (free_iova_events av.1 av.2 S = [] ∧ G = 0) := by
      rw [a5]
      by_cases hm : m.min_iova_align ≠ 0
      · left; rw [if_pos hm]
      · right; rw [if_neg hm]
        exact ⟨rfl, a6 (by omega)⟩
    by_cases hl : r.1 = true
    · simp only [hl, if_true]
      obtain ⟨hk, hrets⟩ := l6 hl
      rw [l1]
      refine ⟨hcalls, fun h => absurd h hE, fun _ => ⟨a1, by omega, hbal, ?_, ?_⟩⟩
      · intro pt x
        have hmid : S = (av.2 + S) - av.2 := by omega
        have hall' : ∀ e ∈ alloc_iova_events maxOrder m S env.guard_map_ret ++ maps,
            map_inside (fun a => (av.2 ≤ a ∧ a < av.2 + S) ∨
              (av.2 + S ≤ a ∧ a < av.2 + S + G)) e := by
          intro e he
          refine map_inside_mono _ _ (fun a ha => ?_) e (hall e he)
          rcases ha with ha | ha
          · left; exact ⟨ha.1, by rw [hk] at ha; omega⟩
          · right; exact ha
        have := unwind_entries (alloc_iova_events maxOrder m S env.guard_map_ret ++ maps)
          (free_iova_events av.1 av.2 S) av.2 (av.2 + S) (av.2 + S) G (by omega) hall' hF pt x
        rw [← hmid] at this
        exact this
      · intro iova paddr size ret hmem
        rcases List.mem_append.mp hmem with h | h
        · rw [a4] at h
          by_cases hg : G ≠ 0
          · rw [if_pos hg] at h
            have := List.mem_singleton.mp h
            injection this with e1 e2 e3 e4
            rw [e4, a3 hg]
          · rw [if_neg hg] at h; simp at h
        · exact hrets iova paddr size ret h
    · have hl' : r.1 = false := by
        cases h : r.1
        · rfl
        · exact absurd h hl
      simp only [hl', Bool.false_eq_true, if_false]
      rw [l1, l2]
      have hlen : (av.2 + k * 4096 + U64 - av.2) % U64 = (av.2 + k * 4096) - av.2 := by
        rw [U64_eq] at hfit ⊢
        omega
      rw [hlen]
      refine ⟨?_, fun _ => ⟨hbal, ?_⟩, fun h => absurd rfl h⟩
      · intro e he
        rcases List.mem_append.mp he with h | h
        · rcases List.mem_append.mp h with h | h
          · exact hcalls e h
          · rw [List.mem_singleton.mp h]; rfl
        · exact free_iova_events_calls av.1 av.2 S e h
      · intro pt x
        exact unwind_entries (alloc_iova_events maxOrder m S env.guard_map_ret ++ maps)
          (free_iova_events av.1 av.2 S) av.2 (av.2 + k * 4096) (av.2 + S) G (by omega)
          hall hF pt x


/-! ## C12: unwinding of a failed coherent allocation -/

theorem calls_no_pages (evs : List dma_event) (h : ∀ e ∈ evs, is_iommu_call e = true) :
    pages_acquired evs = [] ∧ pages_released evs = [] := by
  induction evs with
  | nil => exact ⟨rfl, rfl⟩
  | cons e rest ih =>
    obtain ⟨i1, i2⟩ := ih (fun e' he' => h e' (List.mem_cons_of_mem _ he'))
    have he := h e (List.mem_cons_self _ _)
    constructor
    · show event_acquires e ++ pages_acquired rest = []
      rw [i1]
      cases e <;> first | rfl | exact Bool.noConfusion he
    · show event_releases e ++ pages_released rest = []
      rw [i2]
      cases e <;> first | rfl | exact Bool.noConfusion he

theorem entries_none_of_filter (evs calls : List dma_event)
    (hf : evs.filter is_iommu_call = calls)
    (h : ∀ pt x, calls.foldl iommu_apply pt x = none ∨ calls.foldl iommu_apply pt x = pt x) :
    ∀ a, iommu_entries evs a = none := by
  intro a
  unfold iommu_entries
  rw [replay_filter, hf]
  rcases h (fun _ => none) a with h1 | h1
  · exact h1
  · rw [h1]

/-- The function `__iommu_remove_mapping` on a page-aligned address and a
page-aligned size: it unmaps exactly that range and frees it. -/
theorem remove_mapping_aligned (m : dma_iommu_mapping) (iova S : Nat)
    (h1 : iova % 4096 = 0) (h2 : iova + S < U64) (hal : S % PAGE_SIZE = 0)
    (hS : S < 2 ^ 32) :
    __iommu_remove_mapping m iova S =
      (__free_iova m iova S,
       [dma_event.iommu_unmap iova S] ++ free_iova_events m iova S) := by
  have hPA := PAGE_ALIGN_aligned S hal hS
  have e1 : iova &&& (PAGE_SIZE - 1) = 0 := by rw [and_page_offset]; exact h1
  have e2 : iova &&& PAGE_MASK = iova := by
    rw [and_PAGE_MASK iova (by omega)]; omega
  have e3 : (0 + S) % U64 = S := by
    rw [Nat.zero_add]; exact Nat.mod_eq_of_lt (by omega)
  unfold __iommu_remove_mapping
  simp only [e1, e2, e3, hPA]
theorem rel_alloc_page_array (a : Nat) (ok : Bool) :
    event_releases (dma_event.alloc_page_array a ok) = [] := rfl
theorem acq_alloc_page_array (a : Nat) (ok : Bool) :
    event_acquires (dma_event.alloc_page_array a ok) = [] := rfl
theorem rel_free_page_array : event_releases dma_event.free_page_array = [] := rfl
theorem acq_free_page_array : event_acquires dma_event.free_page_array = [] := rfl
theorem rel_alloc_pages (o : Nat) (p : Option Nat) :
    event_releases (dma_event.alloc_pages o p) = [] := rfl
theorem acq_alloc_pages (o p : Nat) :
    event_acquires (dma_event.alloc_pages o (some p)) = page_range p (2 ^ o) := rfl
theorem rel_free_pages (o p : Nat) :
    event_releases (dma_event.free_pages p o) = page_range p (2 ^ o) := rfl
theorem acq_free_pages (o p : Nat) : event_acquires (dma_event.free_pages p o) = [] := rfl
theorem rel_alloc_from_pool (s : Nat) (p : Option Nat) :
    event_releases (dma_event.alloc_from_pool s p) = [] := rfl
theorem acq_alloc_from_pool (s p : Nat) :
    event_acquires (dma_event.alloc_from_pool s (some p)) =
      page_range p ((s + (PAGE_SIZE - 1)) / PAGE_SIZE) := rfl
theorem rel_free_from_pool (s p : Nat) :
    event_releases (dma_event.free_from_pool p s) =
      page_range p ((s + (PAGE_SIZE - 1)) / PAGE_SIZE) := rfl
theorem acq_free_from_pool (s p : Nat) :
    event_acquires (dma_event.free_from_pool p s) = [] := rfl

theorem atomic_balance (coherent : Bool) (p S a o : Nat) (ok : Bool) (c : List dma_event)
    (n1 : pages_acquired c = []) (n2 : pages_released c = []) :
    (pages_released ([dma_event.alloc_page_array a ok] ++
        [if coherent = true then dma_event.alloc_pages o (some p)
         else dma_event.alloc_from_pool S (some p)] ++ c ++
        [if coherent = true then dma_event.free_pages p o
         else dma_event.free_from_pool p S] ++ [dma_event.free_page_array])).Perm
      (pages_acquired ([dma_event.alloc_page_array a ok] ++
        [if coherent = true then dma_event.alloc_pages o (some p)
         else dma_event.alloc_from_pool S (some p)] ++ c ++
        [if coherent = true then dma_event.free_pages p o
         else dma_event.free_from_pool p S] ++ [dma_event.free_page_array])) := by
  simp only [pages_released_append, pages_acquired_append, n1, n2, pages_released_single,
    pages_acquired_single]
  cases coherent
  · rw [if_neg Bool.false_ne_true, if_neg Bool.false_ne_true]
    simp only [rel_alloc_page_array, acq_alloc_page_array, rel_free_page_array,
      acq_free_page_array, rel_alloc_from_pool, acq_alloc_from_pool, rel_free_from_pool,
      acq_free_from_pool, List.nil_append, List.append_nil]
    exact List.Perm.refl _
  · rw [if_pos rfl, if_pos rfl]
    simp only [rel_alloc_page_array, acq_alloc_page_array, rel_free_page_array,
      acq_free_page_array, rel_alloc_pages, acq_alloc_pages, rel_free_pages,
      acq_free_pages, List.nil_append, List.append_nil]
    exact List.Perm.refl _


/-- The non-blocking path for a page-aligned size below 2^32 on a sound
layout: it ends regularly; when it returns NULL every step has been unwound;
when it returns an address no stage failed. -/
theorem alloc_atomic_spec (maxOrder : Nat) (env : dma_env) (m : dma_iommu_mapping)
    (S : Nat) (coherent : Bool) (hcfg : maxOrder ≤ 30) (hlay : iova_layout_ok m)
    (hspace : m.base + m.bits * PAGE_SIZE < U64) (hal : S % PAGE_SIZE = 0)
    (hS : S < 2 ^ 32) :
    (__iommu_alloc_atomic maxOrder env m S coherent).status = run_status.finished ∧
    ((__iommu_alloc_atomic maxOrder env m S coherent).cpu_addr = cpu_addr.NULL →
      unwound m (__iommu_alloc_atomic maxOrder env m S coherent)) ∧
    ((__iommu_alloc_atomic maxOrder env m S coherent).cpu_addr ≠ cpu_addr.NULL →
      no_stage_failed env (__iommu_alloc_atomic maxOrder env m S coherent)) := by
  by_cases hA : env.page_array_ok = true
  · have hA' : (!env.page_array_ok) = false := by rw [hA]; rfl
    cases hP : (if coherent = true then env.alloc_pages 0 (get_order S)
        else env.alloc_from_pool S) with
    | none =>
      have hres : __iommu_alloc_atomic maxOrder env m S coherent =
          { mapping := m, cpu_addr := cpu_addr.NULL, handle := DMA_ERROR_CODE,
            events := [dma_event.alloc_page_array ((S >>> PAGE_SHIFT) * 8 % U64)
                env.page_array_ok] ++
              [if coherent = true then dma_event.alloc_pages (get_order S) none
               else dma_event.alloc_from_pool S none] ++ [dma_event.free_page_array],
            status := run_status.finished } := by
        unfold __iommu_alloc_atomic
        simp only [hA', Bool.false_eq_true, if_false, hP]
      rw [hres]
      refine ⟨rfl, fun _ => ⟨rfl, ?_, ?_⟩, fun h => absurd rfl h⟩
      · apply entries_none_of_filter _ []
        · cases coherent <;> rfl
        · intro pt x; right; rfl
      · cases coherent <;> exact List.Perm.refl _
    | some p =>
      obtain ⟨c1, c2, c3⟩ := create_mapping_spec maxOrder env m
        (page_range p (S >>> PAGE_SHIFT)) S hcfg hlay hspace hal hS
      obtain ⟨n1, n2⟩ := calls_no_pages _ c1
      have hfc := filter_calls_of_calls _ c1
      by_cases hE : (__iommu_create_mapping maxOrder env m (page_range p (S >>> PAGE_SHIFT))
          S).2.1 = DMA_ERROR_CODE
      · have hres : __iommu_alloc_atomic maxOrder env m S coherent =
            { mapping := (__iommu_create_mapping maxOrder env m
                (page_range p (S >>> PAGE_SHIFT)) S).1,
              cpu_addr := cpu_addr.NULL,
              handle := (__iommu_create_mapping maxOrder env m
                (page_range p (S >>> PAGE_SHIFT)) S).2.1,
              events := [dma_event.alloc_page_array ((S >>> PAGE_SHIFT) * 8 % U64)
                  env.page_array_ok] ++
                [if coherent = true then dma_event.alloc_pages (get_order S) (some p)
                 else dma_event.alloc_from_pool S (some p)] ++
                (__iommu_create_mapping maxOrder env m
                  (page_range p (S >>> PAGE_SHIFT)) S).2.2 ++
                [if coherent = true then dma_event.free_pages p (get_order S)
                 else dma_event.free_from_pool p S] ++ [dma_event.free_page_array],
              status := run_status.finished } := by
          unfold __iommu_alloc_atomic
          simp only [hA', Bool.false_eq_true, if_false, hP, hE, if_true]
        rw [hres]
        generalize __iommu_create_mapping maxOrder env m (page_range p (S >>> PAGE_SHIFT)) S = c
          at c1 c2 c3 n1 n2 hfc hE
        obtain ⟨b1, b2⟩ := c2 hE
        refine ⟨rfl, fun _ => ⟨b1, ?_, ?_⟩, fun h => absurd rfl h⟩
        · apply entries_none_of_filter _ c.2.2
          · show List.filter is_iommu_call (_ ++ _ ++ c.2.2 ++ _ ++ _) = c.2.2
            rw [List.filter_append, List.filter_append, List.filter_append,
              List.filter_append, hfc]
            cases coherent <;> simp [List.filter, is_iommu_call]
          · exact b2
        · exact atomic_balance coherent p S _ (get_order S) _ c.2.2 n1 n2
      · have hres : __iommu_alloc_atomic maxOrder env m S coherent =
            { mapping := (__iommu_create_mapping maxOrder env m
                (page_range p (S >>> PAGE_SHIFT)) S).1,
              cpu_addr := if coherent = true then cpu_addr.page_address p else cpu_addr.pool p,
              handle := (__iommu_create_mapping maxOrder env m
                (page_range p (S >>> PAGE_SHIFT)) S).2.1,
              events := [dma_event.alloc_page_array ((S >>> PAGE_SHIFT) * 8 % U64)
                  env.page_array_ok] ++
                [if coherent = true then dma_event.alloc_pages (get_order S) (some p)
                 else dma_event.alloc_from_pool S (some p)] ++
                (__iommu_create_mapping maxOrder env m
                  (page_range p (S >>> PAGE_SHIFT)) S).2.2 ++ [dma_event.free_page_array],
              status := run_status.finished } := by
          unfold __iommu_alloc_atomic
          simp only [hA', Bool.false_eq_true, if_false, hP, hE]
        rw [hres]
        obtain ⟨_, _, _, _, b5⟩ := c3 hE
        generalize __iommu_create_mapping maxOrder env m (page_range p (S >>> PAGE_SHIFT)) S = c
          at c1 b5 hE
        refine ⟨rfl, fun h => ?_, fun _ => ⟨hA, hE, ?_⟩⟩
        · exfalso
          cases coherent
          · exact cpu_addr.noConfusion h
          · exact cpu_addr.noConfusion h
        · intro iova paddr size ret hmem
          apply b5 iova paddr size ret
          have hmem' : dma_event.iommu_map iova paddr size ret ∈
              [dma_event.alloc_page_array ((S >>> PAGE_SHIFT) * 8 % U64) env.page_array_ok] ++
              [if coherent = true then dma_event.alloc_pages (get_order S) (some p)
               else dma_event.alloc_from_pool S (some p)] ++ c.2.2 ++
              [dma_event.free_page_array] := hmem
          rcases List.mem_append.mp hmem' with h | h
          · rcases List.mem_append.mp h with h | h
            · rcases List.mem_append.mp h with h | h
              · exact dma_event.noConfusion (List.mem_singleton.mp h)
              · cases coherent <;> exact dma_event.noConfusion (List.mem_singleton.mp h)
            · exact h
          · exact dma_event.noConfusion (List.mem_singleton.mp h)
  · have hA' : (!env.page_array_ok) = true := by
      cases h : env.page_array_ok
      · rfl
      · exact absurd h hA
    have hres : __iommu_alloc_atomic maxOrder env m S coherent =
        { mapping := m, cpu_addr := cpu_addr.NULL, handle := DMA_ERROR_CODE,
          events := [dma_event.alloc_page_array ((S >>> PAGE_SHIFT) * 8 % U64)
            env.page_array_ok],
          status := run_status.finished } := by
      unfold __iommu_alloc_atomic
      simp only [hA', if_true]
    rw [hres]
    refine ⟨rfl, fun _ => ⟨rfl, ?_, ?_⟩, fun h => absurd rfl h⟩
    · apply entries_none_of_filter _ []
      · rfl
      · intro pt x; right; rfl
    · exact List.Perm.refl _


theorem alloc_buffer_some_array_ok (env : dma_env) (attrs : dma_attrs) (coh : Bool)
    (size : Nat) (pages : List Nat)
    (h : (__iommu_alloc_buffer env size attrs coh).1 = some pages) :
    env.page_array_ok = true := by
  cases hA : env.page_array_ok
  · exfalso
    unfold __iommu_alloc_buffer at h
    simp only [hA, Bool.not_false, if_true] at h
    exact Option.noConfusion h
  · rfl

theorem not_iommu_map_of_quiet (evs : List dma_event)
    (h : ∀ e ∈ evs, is_iommu_call e = false) (iova paddr size : Nat) (ret : Int) :
    dma_event.iommu_map iova paddr size ret ∉ evs := by
  intro hmem
  exact Bool.noConfusion (h _ hmem)

theorem blocking_balance (b c fb mid : List dma_event) (pages : List Nat)
    (b1 : pages_acquired b = pages) (b2 : pages_released b = [])
    (c1 : pages_acquired c = []) (c2 : pages_released c = [])
    (m1 : pages_acquired mid = []) (m2 : pages_released mid = [])
    (f1 : pages_released fb = pages) (f2 : pages_acquired fb = []) :
    (pages_released (b ++ c ++ mid ++ fb)).Perm (pages_acquired (b ++ c ++ mid ++ fb)) := by
  rw [pages_released_append, pages_released_append, pages_released_append,
    pages_acquired_append, pages_acquired_append, pages_acquired_append,
    b1, b2, c1, c2, m1, m2, f1, f2]
  simp only [List.nil_append, List.append_nil]
  exact List.Perm.refl _

/-- The blocking path for a page-aligned size below 2^32 on a sound layout,
with the CPU page size among the page sizes of the IOMMU: it ends regularly;
when it returns NULL every step has been unwound; when it returns an address
no stage failed. -/
theorem alloc_blocking_spec (maxOrder : Nat) (env : dma_env) (m : dma_iommu_mapping)
    (S : Nat) (attrs : dma_attrs) (coherent : Bool) (r : alloc_result)
    (hcfg : maxOrder ≤ 30) (hlay : iova_layout_ok m)
    (hspace : m.base + m.bits * PAGE_SIZE < U64) (hal : S % PAGE_SIZE = 0)
    (hS : S < 2 ^ 32) (h4k : env.pgsize_bitmap / PAGE_SIZE % 2 = 1)
    (hr : r =
      (if (__iommu_alloc_buffer env S attrs coherent).2.2 ≠ run_status.finished then
        { mapping := m, cpu_addr := cpu_addr.NULL, handle := DMA_ERROR_CODE,
          events := (__iommu_alloc_buffer env S attrs coherent).2.1,
          status := (__iommu_alloc_buffer env S attrs coherent).2.2 }
      else
        match (__iommu_alloc_buffer env S attrs coherent).1 with
        | none =>
          { mapping := m, cpu_addr := cpu_addr.NULL, handle := DMA_ERROR_CODE,
            events := (__iommu_alloc_buffer env S attrs coherent).2.1,
            status := run_status.finished }
        | some pages =>
          if (__iommu_create_mapping maxOrder env m pages S).2.1 = DMA_ERROR_CODE then
            { mapping := (__iommu_create_mapping maxOrder env m pages S).1,
              cpu_addr := cpu_addr.NULL,
              handle := (__iommu_create_mapping maxOrder env m pages S).2.1,
              events := (__iommu_alloc_buffer env S attrs coherent).2.1 ++
                (__iommu_create_mapping maxOrder env m pages S).2.2 ++
                __iommu_free_buffer pages S attrs,
              status := run_status.finished }
          else if attrs.no_kernel_mapping = true then
            { mapping := (__iommu_create_mapping maxOrder env m pages S).1,
              cpu_addr := cpu_addr.page_array pages,
              handle := (__iommu_create_mapping maxOrder env m pages S).2.1,
              events := (__iommu_alloc_buffer env S attrs coherent).2.1 ++
                (__iommu_create_mapping maxOrder env m pages S).2.2,
              status := run_status.finished }
          else if env.remap_ok = true then
            { mapping := (__iommu_create_mapping maxOrder env m pages S).1,
              cpu_addr := cpu_addr.remap pages,
              handle := (__iommu_create_mapping maxOrder env m pages S).2.1,
              events := (__iommu_alloc_buffer env S attrs coherent).2.1 ++
                (__iommu_create_mapping maxOrder env m pages S).2.2 ++
                [dma_event.dma_common_pages_remap S env.remap_ok],
              status := run_status.finished }
          else
            { mapping := (__iommu_remove_mapping
                (__iommu_create_mapping maxOrder env m pages S).1
                (__iommu_create_mapping maxOrder env m pages S).2.1 S).1,
              cpu_addr := cpu_addr.NULL,
              handle := (__iommu_create_mapping maxOrder env m pages S).2.1,
              events := (__iommu_alloc_buffer env S attrs coherent).2.1 ++
                (__iommu_create_mapping maxOrder env m pages S).2.2 ++
                [dma_event.dma_common_pages_remap S env.remap_ok] ++
                (__iommu_remove_mapping
                  (__iommu_create_mapping maxOrder env m pages S).1
                  (__iommu_create_mapping maxOrder env m pages S).2.1 S).2 ++
                __iommu_free_buffer pages S attrs,
              status := run_status.finished })) :
    r.status = run_status.finished ∧
    (r.cpu_addr = cpu_addr.NULL → unwound m r) ∧
    (r.cpu_addr ≠ cpu_addr.NULL → no_stage_failed env r) := by
  obtain ⟨s1, s2, s3, s4⟩ := alloc_buffer_spec env attrs coherent S h4k hS
  have hfb := filter_calls_of_quiet _ s2
  have hne : ¬ ((__iommu_alloc_buffer env S attrs coherent).2.2 ≠ run_status.finished) :=
    fun h => h s1
  rw [if_neg hne] at hr
  cases hb : (__iommu_alloc_buffer env S attrs coherent).1 with
  | none =>
    rw [hb] at hr
    have hr' : r =
        { mapping := m, cpu_addr := cpu_addr.NULL, handle := DMA_ERROR_CODE,
          events := (__iommu_alloc_buffer env S attrs coherent).2.1,
          status := run_status.finished } := hr
    rw [hr']
    refine ⟨rfl, fun _ => ⟨rfl, ?_, s3 hb⟩, fun h => absurd rfl h⟩
    exact entries_none_of_filter _ [] hfb (fun pt x => Or.inr rfl)
  | some pages =>
    rw [hb] at hr
    simp only [] at hr
    obtain ⟨p1, p2, p3, p4⟩ := s4 pages hb
    have hok := alloc_buffer_some_array_ok env attrs coherent S pages hb
    obtain ⟨c1, c2, c3⟩ := create_mapping_spec maxOrder env m pages S hcfg hlay hspace hal hS
    obtain ⟨n1, n2⟩ := calls_no_pages _ c1
    have hfc := filter_calls_of_calls _ c1
    obtain ⟨f1, f2, f3⟩ := free_buffer_spec pages S attrs hS p3 p4
    have hff := filter_calls_of_quiet _ f3
    generalize __iommu_alloc_buffer env S attrs coherent = b at hr s2 hfb p1 p2
    generalize __iommu_free_buffer pages S attrs = fb at hr f1 f2 f3 hff
    by_cases hE : (__iommu_create_mapping maxOrder env m pages S).2.1 = DMA_ERROR_CODE
    · have hr' : r =
          { mapping := (__iommu_create_mapping maxOrder env m pages S).1,
            cpu_addr := cpu_addr.NULL,
            handle := (__iommu_create_mapping maxOrder env m pages S).2.1,
            events := b.2.1 ++ (__iommu_create_mapping maxOrder env m pages S).2.2 ++ fb,
            status := run_status.finished } := by
        rw [hr, if_pos hE]
      rw [hr']
      obtain ⟨b1, b2⟩ := c2 hE
      generalize __iommu_create_mapping maxOrder env m pages S = c
        at c1 n1 n2 hfc b1 b2
      refine ⟨rfl, fun _ => ⟨b1, ?_, ?_⟩, fun h => absurd rfl h⟩
      · apply entries_none_of_filter _ c.2.2 _ b2
        show List.filter is_iommu_call (b.2.1 ++ c.2.2 ++ fb) = c.2.2
        rw [List.filter_append, List.filter_append, hfb, hfc, hff]
        simp only [List.nil_append, List.append_nil]
      · have := blocking_balance b.2.1 c.2.2 fb [] pages p1 p2 n1 n2 rfl rfl f1 f2
        simpa only [List.append_nil] using this
    · obtain ⟨b1, b2, b3, b4, b5⟩ := c3 hE
      have hrm := remove_mapping_aligned (__iommu_create_mapping maxOrder env m pages S).1
        (__iommu_create_mapping maxOrder env m pages S).2.1 S b1 b2 hal hS
      have hfe := free_iova_events_calls (__iommu_create_mapping maxOrder env m pages S).1
        (__iommu_create_mapping maxOrder env m pages S).2.1 S
      by_cases hK : attrs.no_kernel_mapping = true
      · have hr' : r =
            { mapping := (__iommu_create_mapping maxOrder env m pages S).1,
              cpu_addr := cpu_addr.page_array pages,
              handle := (__iommu_create_mapping maxOrder env m pages S).2.1,
              events := b.2.1 ++ (__iommu_create_mapping maxOrder env m pages S).2.2,
              status := run_status.finished } := by
          rw [hr, if_neg hE, if_pos hK]
        rw [hr']
        refine ⟨rfl, fun h => cpu_addr.noConfusion h, fun _ => ⟨hok, hE, ?_⟩⟩
        intro iova paddr size ret hmem
        rcases List.mem_append.mp hmem with h | h
        · exact absurd h (not_iommu_map_of_quiet _ s2 iova paddr size ret)
        · exact b5 iova paddr size ret h
      · by_cases hR : env.remap_ok = true
        · have hr' : r =
              { mapping := (__iommu_create_mapping maxOrder env m pages S).1,
                cpu_addr := cpu_addr.remap pages,
                handle := (__iommu_create_mapping maxOrder env m pages S).2.1,
                events := b.2.1 ++ (__iommu_create_mapping maxOrder env m pages S).2.2 ++
                  [dma_event.dma_common_pages_remap S env.remap_ok],
                status := run_status.finished } := by
            rw [hr, if_neg hE, if_neg hK, if_pos hR]
          rw [hr']
          refine ⟨rfl, fun h => cpu_addr.noConfusion h, fun _ => ⟨hok, hE, ?_⟩⟩
          intro iova paddr size ret hmem
          rcases List.mem_append.mp hmem with h | h
          · rcases List.mem_append.mp h with h | h
            · exact absurd h (not_iommu_map_of_quiet _ s2 iova paddr size ret)
            · exact b5 iova paddr size ret h
          · exact dma_event.noConfusion (List.mem_singleton.mp h)
        · have hr' : r =
              { mapping := __free_iova
                  (__iommu_create_mapping maxOrder env m pages S).1
                  (__iommu_create_mapping maxOrder env m pages S).2.1 S,
                cpu_addr := cpu_addr.NULL,
                handle := (__iommu_create_mapping maxOrder env m pages S).2.1,
                events := b.2.1 ++ (__iommu_create_mapping maxOrder env m pages S).2.2 ++
                  [dma_event.dma_common_pages_remap S env.remap_ok] ++
                  ([dma_event.iommu_unmap (__iommu_create_mapping maxOrder env m pages S).2.1 S] ++
                    free_iova_events (__iommu_create_mapping maxOrder env m pages S).1
                      (__iommu_create_mapping maxOrder env m pages S).2.1 S) ++ fb,
                status := run_status.finished } := by
            rw [hr, if_neg hE, if_neg hK, if_neg hR, hrm]
          rw [hr']
          generalize __iommu_create_mapping maxOrder env m pages S = c
            at c1 n1 n2 hfc b3 b4 hfe
          have hcalls2 : ∀ e ∈ [dma_event.iommu_unmap c.2.1 S] ++ free_iova_events c.1 c.2.1 S,
              is_iommu_call e = true := by
            intro e he
            rcases List.mem_append.mp he with h | h
            · rw [List.mem_singleton.mp h]; rfl
            · exact hfe e h
          obtain ⟨u1, u2⟩ := calls_no_pages _ hcalls2
          have hfu := filter_calls_of_calls _ hcalls2
          refine ⟨rfl, fun _ => ⟨b3, ?_, ?_⟩, fun h => absurd rfl h⟩
          · apply entries_none_of_filter _
              (c.2.2 ++ [dma_event.iommu_unmap c.2.1 S] ++ free_iova_events c.1 c.2.1 S) _ b4
            show List.filter is_iommu_call (b.2.1 ++ c.2.2 ++
              [dma_event.dma_common_pages_remap S env.remap_ok] ++
              ([dma_event.iommu_unmap c.2.1 S] ++ free_iova_events c.1 c.2.1 S) ++ fb) = _
            rw [List.filter_append, List.filter_append, List.filter_append, List.filter_append,
              hfb, hfc, hff, hfu]
            have hrem : List.filter is_iommu_call
                [dma_event.dma_common_pages_remap S env.remap_ok] = [] := rfl
            rw [hrem]
            simp only [List.nil_append, List.append_nil, List.append_assoc]
          · have hmid : pages_acquired ([dma_event.dma_common_pages_remap S env.remap_ok] ++
                ([dma_event.iommu_unmap c.2.1 S] ++ free_iova_events c.1 c.2.1 S)) = [] ∧
                pages_released ([dma_event.dma_common_pages_remap S env.remap_ok] ++
                ([dma_event.iommu_unmap c.2.1 S] ++ free_iova_events c.1 c.2.1 S)) = [] := by
              rw [pages_acquired_append, pages_released_append, u1, u2]
              exact ⟨rfl, rfl⟩
            have := blocking_balance b.2.1 c.2.2 fb
              ([dma_event.dma_common_pages_remap S env.remap_ok] ++
                ([dma_event.iommu_unmap c.2.1 S] ++ free_iova_events c.1 c.2.1 S))
              pages p1 p2 n1 n2 hmid.1 hmid.2 f1 f2
            simpa only [List.append_assoc] using this


theorem calls_snoc (evs : List dma_event) (e0 : dma_event)
    (h : ∀ e ∈ evs, is_iommu_call e = true) (h0 : is_iommu_call e0 = true) :
    ∀ e ∈ evs ++ [e0], is_iommu_call e = true := by
  intro e he
  rcases List.mem_append.mp he with h1 | h1
  · exact h e h1
  · rw [List.mem_singleton.mp h1]; exact h0

/-- The mapping loop of `__iommu_create_mapping` makes IOMMU calls only. -/
theorem create_mapping_loop_calls (env : dma_env) (pages : List Nat) (count : Nat) :
    ∀ (fuel i iova : Nat) (evs : List dma_event),
      (∀ e ∈ evs, is_iommu_call e = true) →
      ∀ e ∈ (create_mapping_loop env pages count fuel i iova evs).2.2,
        is_iommu_call e = true := by
  intro fuel
  induction fuel with
  | zero => intro i iova evs h; exact h
  | succ n ih =>
    intro i iova evs h
    unfold create_mapping_loop
    by_cases hi : i < count
    · rw [if_pos hi]
      simp only []
      split
      · exact calls_snoc _ _ h rfl
      · exact ih _ _ _ (calls_snoc _ _ h rfl)
    · rw [if_neg hi]; exact h

/-- The function `__iommu_create_mapping` makes IOMMU calls only. -/
theorem create_mapping_calls (maxOrder : Nat) (env : dma_env) (m : dma_iommu_mapping)
    (pages : List Nat) (S : Nat) :
    ∀ e ∈ (__iommu_create_mapping maxOrder env m pages S).2.2, is_iommu_call e = true := by
  have h0 := alloc_iova_events_calls maxOrder m S env.guard_map_ret
  have hl := create_mapping_loop_calls env pages ((PAGE_ALIGN S >>> PAGE_SHIFT) % U32)
    ((PAGE_ALIGN S >>> PAGE_SHIFT) % U32) 0 (__alloc_iova maxOrder m S env.guard_map_ret).2
    _ h0
  unfold __iommu_create_mapping
  simp only []
  split
  · exact h0
  · split
    · exact hl
    · intro e he
      rcases List.mem_append.mp he with h1 | h1
      · rcases List.mem_append.mp h1 with h2 | h2
        · exact hl e h2
        · rw [List.mem_singleton.mp h2]; rfl
      · exact free_iova_events_calls _ _ _ e h1

theorem not_alloc_of_call (e : dma_event) (h : is_iommu_call e = true) :
    is_alloc_pages e = false ∧ is_alloc_from_pool e = false := by
  cases e <;> first | exact ⟨rfl, rfl⟩ | exact Bool.noConfusion h


theorem filter_alloc_pages_calls (evs : List dma_event)
    (h : ∀ e ∈ evs, is_iommu_call e = true) :
    evs.filter is_alloc_pages = [] ∧ evs.filter is_alloc_from_pool = [] := by
  constructor
  · rw [List.filter_eq_nil_iff]
    intro e he
    rw [(not_alloc_of_call e (h e he)).1]
    exact Bool.noConfusion
  · rw [List.filter_eq_nil_iff]
    intro e he
    rw [(not_alloc_of_call e (h e he)).2]
    exact Bool.noConfusion

/-- The allocator calls of `__iommu_alloc_atomic` for a device that is not
coherent: no `alloc_pages`, and one `__alloc_from_pool` once the page array
has been granted. -/
theorem atomic_noncoherent_calls (maxOrder : Nat) (env : dma_env) (m : dma_iommu_mapping)
    (S : Nat) :
    (__iommu_alloc_atomic maxOrder env m S false).events.filter is_alloc_pages = [] ∧
    (__iommu_alloc_atomic maxOrder env m S false).events.filter is_alloc_from_pool =
      (if env.page_array_ok = true then
        [dma_event.alloc_from_pool S (env.alloc_from_pool S)] else []) := by
  unfold __iommu_alloc_atomic
  cases hA : env.page_array_ok
  · exact ⟨rfl, rfl⟩
  · simp only [Bool.not_true, Bool.false_eq_true, if_false, if_true]
    cases hp : env.alloc_from_pool S with
    | none => exact ⟨rfl, rfl⟩
    | some p =>
      simp only []
      obtain ⟨c1, c2⟩ := filter_alloc_pages_calls _
        (create_mapping_calls maxOrder env m (page_range p (S >>> PAGE_SHIFT)) S)
      split
      · simp only [List.filter_append, c1, c2]
        exact ⟨rfl, rfl⟩
      · simp only [List.filter_append, c1, c2]
        exact ⟨rfl, rfl⟩

/-- The allocator calls of `__iommu_alloc_atomic` for a coherent device: no
`__alloc_from_pool`, and one `alloc_pages` of the order of the size once the
page array has been granted. -/
theorem atomic_coherent_calls (maxOrder : Nat) (env : dma_env) (m : dma_iommu_mapping)
    (S : Nat) :
    (__iommu_alloc_atomic maxOrder env m S true).events.filter is_alloc_from_pool = [] ∧
    (__iommu_alloc_atomic maxOrder env m S true).events.filter is_alloc_pages =
      (if env.page_array_ok = true then
        [dma_event.alloc_pages (get_order S) (env.alloc_pages 0 (get_order S))] else []) := by
  unfold __iommu_alloc_atomic
  cases hA : env.page_array_ok
  · exact ⟨rfl, rfl⟩
  · simp only [Bool.not_true, Bool.false_eq_true, if_false, if_true]
    cases hp : env.alloc_pages 0 (get_order S) with
    | none => exact ⟨rfl, rfl⟩
    | some p =>
      simp only []
      obtain ⟨c1, c2⟩ := filter_alloc_pages_calls _
        (create_mapping_calls maxOrder env m (page_range p (S >>> PAGE_SHIFT)) S)
      split
      · simp only [List.filter_append, c1, c2]
        exact ⟨rfl, rfl⟩
      · simp only [List.filter_append, c1, c2]
        exact ⟨rfl, rfl⟩

/-- C18 (counterexample): a request that may not block, on a coherent
device: the backing page comes from `alloc_pages` (the general page
allocator) and the atomic pool is never asked. -/
theorem C18_coherent_atomic_uses_alloc_pages :
    (arm_iommu_alloc_attrs 9 generous_env (bitmap_mapping 0x10000000 16 0 (fun _ => false))
      4096 false no_attrs true).events =
    [dma_event.alloc_page_array 8 true, dma_event.alloc_pages 0 (some 0x100),
     dma_event.iommu_map 0x10000000 0x100000 4096 0, dma_event.free_page_array] := by
  decide

/-- C18 (amended): a request whose gfp flags disallow blocking is served by
`__iommu_alloc_atomic` on the page-aligned size, whatever the attributes. On
a device that is not coherent that path never calls `alloc_pages` and asks
the atomic pool once (when the page array has been granted); on a coherent
device it never asks the atomic pool and calls `alloc_pages` once, with the
order of the size. -/
theorem C18_non_blocking_path (maxOrder : Nat) (env : dma_env) (m : dma_iommu_mapping)
    (size : Nat) (attrs : dma_attrs) :
    (∀ coherent, arm_iommu_alloc_attrs maxOrder env m size false attrs coherent =
      __iommu_alloc_atomic maxOrder env m (PAGE_ALIGN size) coherent) ∧
    (arm_iommu_alloc_attrs maxOrder env m size false attrs false).events.filter
      is_alloc_pages = [] ∧
    (arm_iommu_alloc_attrs maxOrder env m size false attrs false).events.filter
      is_alloc_from_pool =
      (if env.page_array_ok = true then
        [dma_event.alloc_from_pool (PAGE_ALIGN size) (env.alloc_from_pool (PAGE_ALIGN size))]
       else []) ∧
    (arm_iommu_alloc_attrs maxOrder env m size false attrs true).events.filter
      is_alloc_from_pool = [] ∧
    (arm_iommu_alloc_attrs maxOrder env m size false attrs true).events.filter
      is_alloc_pages =
      (if env.page_array_ok = true then
        [dma_event.alloc_pages (get_order (PAGE_ALIGN size))
          (env.alloc_pages 0 (get_order (PAGE_ALIGN size)))]
       else []) := by
  have h : ∀ coherent, arm_iommu_alloc_attrs maxOrder env m size false attrs coherent =
      __iommu_alloc_atomic maxOrder env m (PAGE_ALIGN size) coherent := fun _ => rfl
  refine ⟨h, ?_, ?_, ?_, ?_⟩
  · rw [h]; exact (atomic_noncoherent_calls maxOrder env m _).1
  · rw [h]; exact (atomic_noncoherent_calls maxOrder env m _).2
  · rw [h]; exact (atomic_coherent_calls maxOrder env m _).1
  · rw [h]; exact (atomic_coherent_calls maxOrder env m _).2

/-- When `arm_iommu_alloc_attrs` returns an address, the page acquisition
did not fail, and on the path that remaps the pages the remap succeeded. -/
theorem alloc_attrs_not_null (maxOrder : Nat) (env : dma_env) (m : dma_iommu_mapping)
    (size : Nat) (blocking : Bool) (attrs : dma_attrs) (coherent : Bool)
    (h : (arm_iommu_alloc_attrs maxOrder env m size blocking attrs coherent).cpu_addr ≠
      cpu_addr.NULL) :
    ¬ page_acquisition_failed env (PAGE_ALIGN size) blocking attrs coherent ∧
    (blocking = true → attrs.no_kernel_mapping = false → env.remap_ok = true) := by
  cases blocking with
  | false =>
    refine ⟨?_, fun hb => Bool.noConfusion hb⟩
    intro hf
    apply h
    have hf2 : (if coherent = true then env.alloc_pages 0 (get_order (PAGE_ALIGN size))
        else env.alloc_from_pool (PAGE_ALIGN size)) = none := hf
    show (__iommu_alloc_atomic maxOrder env m (PAGE_ALIGN size) coherent).cpu_addr =
      cpu_addr.NULL
    unfold __iommu_alloc_atomic
    cases env.page_array_ok
    · rfl
    · simp only [Bool.not_true, Bool.false_eq_true, if_false]
      rw [hf2]
  | true =>
    unfold arm_iommu_alloc_attrs at h
    simp only [Bool.not_true, Bool.false_eq_true, if_false] at h
    split at h
    · exact absurd rfl h
    · split at h
      · exact absurd rfl h
      · rename_i pages hb
        have hacq : ¬ page_acquisition_failed env (PAGE_ALIGN size) true attrs coherent := by
          intro hf
          have hf2 : (__iommu_alloc_buffer env (PAGE_ALIGN size) attrs coherent).1 = none := hf
          rw [hb] at hf2
          exact Option.noConfusion hf2
        refine ⟨hacq, fun _ hk => ?_⟩
        split at h
        · exact absurd rfl h
        · rw [hk] at h
          simp only [Bool.false_eq_true, if_false] at h
          split at h
          · assumption
          · exact absurd rfl h

theorem PAGE_ALIGN_bounds (size : Nat) (hsize : size + PAGE_SIZE ≤ 2 ^ 32) :
    PAGE_ALIGN size % PAGE_SIZE = 0 ∧ PAGE_ALIGN size < 2 ^ 32 := by
  rw [PAGE_SIZE_eq] at hsize
  rw [PAGE_ALIGN_eq size (by rw [U64_eq]; omega), PAGE_SIZE_eq]
  omega

/-- C12 (counterexample): a space whose base 0x800 is not page-aligned, one
free page asked for on the blocking path, and an IOMMU whose `iommu_map`
fails: the call returns NULL, but page 0 of the bitmap, free before the
call, is still marked. -/
theorem C12_failed_alloc_leaves_page_marked :
    (arm_iommu_alloc_attrs 9 failing_map_env (bitmap_mapping 0x800 16 0 (fun _ => false))
      4096 true no_attrs true).cpu_addr = cpu_addr.NULL ∧
    (arm_iommu_alloc_attrs 9 failing_map_env (bitmap_mapping 0x800 16 0 (fun _ => false))
      4096 true no_attrs true).mapping.bitmap 0 = true := by
  decide

/-- C12 (amended): for a mapping with a page-aligned 64-bit base, at most
2^20 pages that end below 2^64 and a 32-bit erratum alignment (maximum order
at most 30), a size of at most 2^32 - PAGE_SIZE bytes and an IOMMU that
supports the CPU page size, `arm_iommu_alloc_attrs` returns normally.
Whenever it returns NULL, the IOVA bitmap equals its pre-call state, no
translation created by the call is left in the page table, and the pages
released are the pages acquired. It returns NULL whenever a stage fails:
when it returns an address, the page array was granted, the page acquisition
succeeded, the handle is not DMA_ERROR_CODE, no `iommu_map` call returned an
error, and on the path that remaps the pages the remap succeeded. -/
theorem C12_alloc_failure_unwinds (maxOrder : Nat) (env : dma_env) (m : dma_iommu_mapping)
    (size : Nat) (blocking : Bool) (attrs : dma_attrs) (coherent : Bool)
    (hcfg : maxOrder ≤ 30) (hlay : iova_layout_ok m)
    (hspace : m.base + m.bits * PAGE_SIZE < U64) (hsize : size + PAGE_SIZE ≤ 2 ^ 32)
    (h4k : env.pgsize_bitmap / PAGE_SIZE % 2 = 1) :
    (arm_iommu_alloc_attrs maxOrder env m size blocking attrs coherent).status =
      run_status.finished ∧
    ((arm_iommu_alloc_attrs maxOrder env m size blocking attrs coherent).cpu_addr =
        cpu_addr.NULL →
      (arm_iommu_alloc_attrs maxOrder env m size blocking attrs coherent).mapping.bitmap =
        m.bitmap ∧
      (∀ a, iommu_entries
        (arm_iommu_alloc_attrs maxOrder env m size blocking attrs coherent).events a = none) ∧
      (pages_released
        (arm_iommu_alloc_attrs maxOrder env m size blocking attrs coherent).events).Perm
      (pages_acquired
        (arm_iommu_alloc_attrs maxOrder env m size blocking attrs coherent).events)) ∧
    ((arm_iommu_alloc_attrs maxOrder env m size blocking attrs coherent).cpu_addr ≠
        cpu_addr.NULL →
      env.page_array_ok = true ∧
      ¬ page_acquisition_failed env (PAGE_ALIGN size) blocking attrs coherent ∧
      (arm_iommu_alloc_attrs maxOrder env m size blocking attrs coherent).handle ≠
        DMA_ERROR_CODE ∧
      (∀ iova paddr len ret, dma_event.iommu_map iova paddr len ret ∈
        (arm_iommu_alloc_attrs maxOrder env m size blocking attrs coherent).events →
        0 ≤ ret) ∧
      (blocking = true → attrs.no_kernel_mapping = false → env.remap_ok = true)) := by
  obtain ⟨hal, hS⟩ := PAGE_ALIGN_bounds size hsize
  have main : (arm_iommu_alloc_attrs maxOrder env m size blocking attrs coherent).status =
        run_status.finished ∧
      ((arm_iommu_alloc_attrs maxOrder env m size blocking attrs coherent).cpu_addr =
          cpu_addr.NULL →
        unwound m (arm_iommu_alloc_attrs maxOrder env m size blocking attrs coherent)) ∧
      ((arm_iommu_alloc_attrs maxOrder env m size blocking attrs coherent).cpu_addr ≠
          cpu_addr.NULL →
        no_stage_failed env
          (arm_iommu_alloc_attrs maxOrder env m size blocking attrs coherent)) := by
    cases blocking with
    | false =>
      exact alloc_atomic_spec maxOrder env m (PAGE_ALIGN size) coherent hcfg hlay hspace hal hS
    | true =>
      exact alloc_blocking_spec maxOrder env m (PAGE_ALIGN size) attrs coherent _
        hcfg hlay hspace hal hS h4k rfl
  obtain ⟨s, hN, hO⟩ := main
  refine ⟨s, fun h => hN h, fun h => ?_⟩
  obtain ⟨a, b, c⟩ := hO h
  obtain ⟨d, e⟩ := alloc_attrs_not_null maxOrder env m size blocking attrs coherent h
  exact ⟨a, d, b, c, e⟩

/-- C12 (witness): 16 free pages at 0x10000000, one page asked for on the
blocking path, and an IOMMU whose `iommu_map` fails: the call returns NULL
and the bitmap is the empty one again. -/
theorem C12_alloc_failure_unwinds_witness :
    (arm_iommu_alloc_attrs 9 failing_map_env
      (bitmap_mapping 0x10000000 16 0 (fun _ => false)) 4096 true no_attrs true).cpu_addr =
      cpu_addr.NULL ∧
    (arm_iommu_alloc_attrs 9 failing_map_env
      (bitmap_mapping 0x10000000 16 0 (fun _ => false)) 4096 true no_attrs true).mapping.bitmap =
      fun _ => false :=
  ⟨by decide,
   ((C12_alloc_failure_unwinds 9 failing_map_env
      (bitmap_mapping 0x10000000 16 0 (fun _ => false)) 4096 true no_attrs true
      (by decide) ⟨by decide, by decide, by decide, by decide⟩ (by decide) (by decide)
      (by decide)).2.1 (by decide)).1⟩

/-- C13 (failing input): 16 free pages at 0x10000000, a coherent device, and
one page asked for with gfp flags that do not allow blocking. The allocation
succeeds with the linear-map address of page 0x100 and the handle
0x10000000. The free with the same size and attributes finds the address
neither in the atomic pool nor among the remapped areas: it only warns.
Page 0 of the bitmap stays marked, the translation of 0x10000000 stays in
the page table, and the page is never released. -/
theorem C13_atomic_coherent_free_leaks :
    (arm_iommu_alloc_attrs 9 generous_env (bitmap_mapping 0x10000000 16 0 (fun _ => false))
      4096 false no_attrs true).cpu_addr = cpu_addr.page_address 0x100 ∧
    (arm_iommu_alloc_attrs 9 generous_env (bitmap_mapping 0x10000000 16 0 (fun _ => false))
      4096 false no_attrs true).handle = 0x10000000 ∧
    (arm_iommu_free_attrs
      (arm_iommu_alloc_attrs 9 generous_env (bitmap_mapping 0x10000000 16 0 (fun _ => false))
        4096 false no_attrs true).mapping 4096 (cpu_addr.page_address 0x100) 0x10000000
      no_attrs).2.1 = [dma_event.WARN] ∧
    (arm_iommu_free_attrs
      (arm_iommu_alloc_attrs 9 generous_env (bitmap_mapping 0x10000000 16 0 (fun _ => false))
        4096 false no_attrs true).mapping 4096 (cpu_addr.page_address 0x100) 0x10000000
      no_attrs).1.bitmap 0 = true ∧
    iommu_entries
      ((arm_iommu_alloc_attrs 9 generous_env (bitmap_mapping 0x10000000 16 0 (fun _ => false))
        4096 false no_attrs true).events ++ [dma_event.WARN]) 0x10000000 = some 0x100000 ∧
    pages_acquired
      ((arm_iommu_alloc_attrs 9 generous_env (bitmap_mapping 0x10000000 16 0 (fun _ => false))
        4096 false no_attrs true).events ++ [dma_event.WARN]) = [0x100] ∧
    pages_released
      ((arm_iommu_alloc_attrs 9 generous_env (bitmap_mapping 0x10000000 16 0 (fun _ => false))
        4096 false no_attrs true).events ++ [dma_event.WARN]) = [] := by
  decide

/-! ## C21: arm_iommu_create_mapping -/

/-- C21 (counterexample): a size of 2^44 bytes has 2^32 pages, not zero, but
the page count is kept in an `unsigned int` and reads 0: the call fails with
`-EINVAL`. -/
theorem C21_page_count_truncates :
    (arm_iommu_create_mapping 0 (2 ^ 44) (some 1) (some (bitmap_domain 0))).1 =
      Except.error (-EINVAL) ∧
    2 ^ 44 / PAGE_SIZE ≠ 0 := by
  constructor
  · rfl
  · decide

/-- C21 (amended): for every base and every size below 2^44 bytes (a page
count that fits the `unsigned int`), `arm_iommu_create_mapping` fails with
`-EINVAL` exactly when `size / PAGE_SIZE` is zero; otherwise, when the
context and the domain are allocated, it returns the zero-filled context
with `init == false`, the given base, the page count `size / PAGE_SIZE` and
the new domain. -/
theorem C21_create_mapping (base size : Nat) (kzalloc : Option Nat)
    (domain : Option iommu_domain) (hsize : size < 2 ^ 44) :
    ((arm_iommu_create_mapping base size kzalloc domain).1 = Except.error (-EINVAL) ↔
      size / PAGE_SIZE = 0) ∧
    (size / PAGE_SIZE ≠ 0 → ∀ addr d, kzalloc = some addr → domain = some d →
      (arm_iommu_create_mapping base size kzalloc domain).1 =
        Except.ok (uninitialized_mapping addr base (size / PAGE_SIZE) d) ∧
      (uninitialized_mapping addr base (size / PAGE_SIZE) d).init = false ∧
      (uninitialized_mapping addr base (size / PAGE_SIZE) d).base = base ∧
      (uninitialized_mapping addr base (size / PAGE_SIZE) d).bits = size / PAGE_SIZE) := by
  have hbits : (size >>> PAGE_SHIFT) % U32 = size / PAGE_SIZE := by
    rw [shiftRight_page, PAGE_SIZE_eq, U32_eq]
    omega
  unfold arm_iommu_create_mapping
  simp only [hbits]
  constructor
  · constructor
    · intro h
      by_contra h0
      rw [if_neg h0] at h
      cases kzalloc with
      | none => exact absurd h (by simp [EINVAL, ENOMEM])
      | some addr =>
        cases domain with
        | none => exact absurd h (by simp [EINVAL, ENOMEM])
        | some d => exact Except.noConfusion h
    · intro h
      rw [if_pos h]
  · intro h0 addr d hk hd
    rw [if_neg h0, hk, hd]
    exact ⟨rfl, rfl, rfl, rfl⟩

/-- C21 (witness): base 0x10000000 and 16 pages of size. -/
theorem C21_create_mapping_witness :
    (arm_iommu_create_mapping 0x10000000 0x10000 (some 1) (some (bitmap_domain 0))).1 =
      Except.ok (uninitialized_mapping 1 0x10000000 16 (bitmap_domain 0)) :=
  ((C21_create_mapping 0x10000000 0x10000 (some 1) (some (bitmap_domain 0))
    (by decide)).2 (by decide) 1 (bitmap_domain 0) rfl rfl).1

/-! ## C22: failure of the guard mapping in __alloc_iova -/

/-- A remark on the `unsigned int start` of `__alloc_iova`: in a space of
1024 pages with pages 0 and 600 used and the erratum alignment 16384, a
request of 2^44 - 20480 bytes makes the search for 2^32 - 4 pages fail with
the end index 2^32 + 508, which `start` holds as 508. The search has not
succeeded, but the test `start > mapping->bits` does not see the failure:
the run is marked, and when the guard mapping fails it is cleared again,
page 600 included. -/
theorem alloc_iova_failed_search_wraps :
    bitmap_find_next_zero_area (fun i => i == 0 || i == 600) 1024 0
      (alloc_iova_count (bitmap_mapping 0 1024 16384 (fun i => i == 0 || i == 600))
        (2 ^ 44 - 20480))
      ((1 <<< alloc_iova_order 9 (bitmap_mapping 0 1024 16384 (fun i => i == 0 || i == 600))
        (2 ^ 44 - 20480)) - 1) = 2 ^ 32 + 508 ∧
    alloc_iova_start 9 (bitmap_mapping 0 1024 16384 (fun i => i == 0 || i == 600))
      (2 ^ 44 - 20480) = 508 ∧
    iova_guard_len (bitmap_mapping 0 1024 16384 (fun i => i == 0 || i == 600))
      (PAGE_ALIGN (2 ^ 44 - 20480)) = 4096 ∧
    (__alloc_iova 9 (bitmap_mapping 0 1024 16384 (fun i => i == 0 || i == 600))
      (2 ^ 44 - 20480) (-12)).2 = DMA_ERROR_CODE ∧
    (bitmap_mapping 0 1024 16384 (fun i => i == 0 || i == 600)).bitmap 600 = true ∧
    (__alloc_iova 9 (bitmap_mapping 0 1024 16384 (fun i => i == 0 || i == 600))
      (2 ^ 44 - 20480) (-12)).1.bitmap 600 = false := by
  decide

/-- C22: for every mapping (its page count an `unsigned int`), every size
whose guard length is not zero (so the erratum is enabled) and every maximum
order: when the bitmap search succeeds (it returns an index that is not
above `bits`) and the mapping of the guard region fails, `__alloc_iova`
returns DMA_ERROR_CODE and the bitmap equals its pre-call state: the run
just marked is cleared again and no other bit changes. -/
theorem C22_guard_map_failure (maxOrder : Nat) (m : dma_iommu_mapping) (size : Nat)
    (ret : Int) (hbits : m.bits < U32)
    (hguard : iova_guard_len m (PAGE_ALIGN size) ≠ 0)
    (hfound : bitmap_find_next_zero_area m.bitmap m.bits 0 (alloc_iova_count m size)
      ((1 <<< alloc_iova_order maxOrder m size) - 1) ≤ m.bits)
    (hfail : ret ≠ 0) :
    (__alloc_iova maxOrder m size ret).2 = DMA_ERROR_CODE ∧
    (__alloc_iova maxOrder m size ret).1.bitmap = m.bitmap := by
  have hstart : alloc_iova_start maxOrder m size =
      bitmap_find_next_zero_area m.bitmap m.bits 0 (alloc_iova_count m size)
        ((1 <<< alloc_iova_order maxOrder m size) - 1) := by
    show (bitmap_find_next_zero_area m.bitmap m.bits 0 (alloc_iova_count m size)
      ((1 <<< alloc_iova_order maxOrder m size) - 1)) % U32 = _
    exact Nat.mod_eq_of_lt (lt_of_le_of_lt hfound hbits)
  obtain ⟨l1, _⟩ := bitmap_find_next_zero_area_loop_spec m.bitmap m.bits
    (alloc_iova_count m size) ((1 <<< alloc_iova_order maxOrder m size) - 1)
    (m.bits + 1) 0 (Nat.zero_le _) (by omega)
  have hcand := (l1 hfound).1
  rcases alloc_iova_cases maxOrder m size ret with ⟨hgt, _⟩ | ⟨_, _, h⟩ | ⟨_, hn, _⟩
  · rw [hstart] at hgt
    omega
  · rw [h]
    refine ⟨rfl, ?_⟩
    show bitmap_clear (bitmap_set m.bitmap (alloc_iova_start maxOrder m size)
      (alloc_iova_count m size)) (alloc_iova_start maxOrder m size)
      (alloc_iova_count m size) = m.bitmap
    rw [hstart]
    exact bitmap_clear_set _ _ _ hcand.2.2
  · exact absurd ⟨hguard, hfail⟩ hn

/-- C22 (witness): 16 free pages with the erratum alignment 16384: a request
of one page has a guard of three pages; the run of four pages is found at
page 0, the guard mapping fails, and the bitmap is the empty one again. -/
theorem C22_guard_map_failure_witness :
    (__alloc_iova 9 (bitmap_mapping 0x10000000 16 16384 (fun _ => false)) 4096 (-12)).2 =
      DMA_ERROR_CODE ∧
    (__alloc_iova 9 (bitmap_mapping 0x10000000 16 16384 (fun _ => false)) 4096 (-12)).1.bitmap =
      fun _ => false :=
  C22_guard_map_failure 9 (bitmap_mapping 0x10000000 16 16384 (fun _ => false)) 4096 (-12)
    (by decide) (by decide) (by decide) (by decide)

/-! ## C23: the refusals of the VMA operations -/

/-- C23: the refusals of the VMA operations change nothing.
`msm_gem_init_vma` on a VMA whose iova is not zero returns `-EBUSY`,
`msm_gem_map_vma` on a VMA whose iova is zero returns `-EINVAL`,
`msm_gem_purge_vma` with `inuse > 0` and `msm_gem_close_vma` with
`inuse > 0` or `mapped` return at once: the VMA and the address space (its
reference count included) are handed back as they were, and the only thing
issued is the `WARN_ON` report: no MMU call, no range-allocator call and no
reference-count call. -/
theorem C23_refusals_are_noops (aspace : msm_gem_address_space) (vma : msm_gem_vma)
    (npages : Nat) (insert_ret : Int) (node_start : Nat) (mmu_map_ret : Int) :
    (vma.iova ≠ 0 →
      msm_gem_init_vma aspace vma npages insert_ret node_start = (aspace, vma, -EBUSY) ∧
      msm_gem_init_vma_calls aspace vma npages insert_ret = [vma_call.WARN]) ∧
    (vma.iova = 0 →
      msm_gem_map_vma (some aspace) vma mmu_map_ret = (vma, -EINVAL) ∧
      msm_gem_map_vma none vma mmu_map_ret = (vma, -EINVAL) ∧
      msm_gem_map_vma_calls (some aspace) vma npages = [vma_call.WARN] ∧
      msm_gem_map_vma_calls none vma npages = [vma_call.WARN]) ∧
    (vma.inuse > 0 →
      msm_gem_purge_vma aspace vma = vma ∧
      msm_gem_purge_vma_calls aspace vma = [vma_call.WARN]) ∧
    (vma.inuse > 0 ∨ vma.mapped = true →
      msm_gem_close_vma aspace vma = (aspace, vma) ∧
      msm_gem_close_vma_calls aspace vma = [vma_call.WARN]) := by
  refine ⟨fun h => ?_, fun h => ?_, fun h => ?_, fun h => ?_⟩
  · unfold msm_gem_init_vma msm_gem_init_vma_calls
    rw [if_pos h, if_pos h]
    exact ⟨rfl, rfl⟩
  · unfold msm_gem_map_vma msm_gem_map_vma_calls
    simp only []
    rw [if_pos h, if_pos h, if_pos h, if_pos h]
    exact ⟨rfl, rfl, rfl, rfl⟩
  · unfold msm_gem_purge_vma msm_gem_purge_vma_calls
    simp only []
    rw [if_pos h, if_pos h]
    exact ⟨rfl, rfl⟩
  · unfold msm_gem_close_vma msm_gem_close_vma_calls
    rw [if_pos h, if_pos h]
    exact ⟨rfl, rfl⟩

/-- C23 (witness): a second `msm_gem_init_vma` on a VMA that holds the
address 0x5000 is refused with `-EBUSY` and hands everything back. -/
theorem C23_refusals_are_noops_witness :
    msm_gem_init_vma { mmu := true, kref := 2, destroyed := false }
      { iova := 0x5000, mapped := false, inuse := 0, node_start := 5, node_size := 1 }
      1 0 7 =
    ({ mmu := true, kref := 2, destroyed := false },
     { iova := 0x5000, mapped := false, inuse := 0, node_start := 5, node_size := 1 },
     -EBUSY) :=
  ((C23_refusals_are_noops { mmu := true, kref := 2, destroyed := false }
    { iova := 0x5000, mapped := false, inuse := 0, node_start := 5, node_size := 1 }
    1 0 7 0).1 (by decide)).1

/-! ## C29: the state after a successful msm_gem_init_vma -/

/-- C29 (counterexample): an address space that starts at address 0 hands
out the node at page 0. `msm_gem_init_vma` succeeds and takes its reference,
but leaves `iova == 0`: the following `msm_gem_map_vma` is refused with
`-EINVAL`, and `msm_gem_close_vma` does not call `drm_mm_remove_node`. -/
theorem C29_node_at_zero_is_not_reserved :
    (msm_gem_init_vma { mmu := true, kref := 1, destroyed := false } zeroed_vma 1 0 0).2.2 = 0 ∧
    (msm_gem_init_vma { mmu := true, kref := 1, destroyed := false } zeroed_vma 1 0 0).1.kref =
      2 ∧
    (msm_gem_init_vma { mmu := true, kref := 1, destroyed := false } zeroed_vma 1 0 0).2.1.iova =
      0 ∧
    (msm_gem_map_vma (some { mmu := true, kref := 2, destroyed := false })
      (msm_gem_init_vma { mmu := true, kref := 1, destroyed := false } zeroed_vma 1 0 0).2.1
      0).2 = -EINVAL ∧
    msm_gem_close_vma_calls { mmu := true, kref := 2, destroyed := false }
      (msm_gem_init_vma { mmu := true, kref := 1, destroyed := false } zeroed_vma 1 0 0).2.1 =
      [vma_call.kref_put] := by
  decide

/-- C29 (amended): a successful `msm_gem_init_vma` whose node has a
non-zero address `node.start << PAGE_SHIFT` leaves the VMA reserved: `iova`
is that address and not zero, `mapped` is false; a following
`msm_gem_map_vma` is not refused (it counts the use, attempts the MMU
mapping and returns its result), and a following `msm_gem_close_vma` on the
unused VMA removes the node from the range allocator before it drops the
reference. -/
theorem C29_init_reserves (aspace : msm_gem_address_space) (vma : msm_gem_vma)
    (npages node_start : Nat) (mmu_map_ret : Int) (hfree : vma.iova = 0)
    (hnode : (node_start <<< PAGE_SHIFT) % U64 ≠ 0) :
    (msm_gem_init_vma aspace vma npages 0 node_start).2.2 = 0 ∧
    (msm_gem_init_vma aspace vma npages 0 node_start).2.1.iova =
      (node_start <<< PAGE_SHIFT) % U64 ∧
    (msm_gem_init_vma aspace vma npages 0 node_start).2.1.iova ≠ 0 ∧
    (msm_gem_init_vma aspace vma npages 0 node_start).2.1.mapped = false ∧
    (msm_gem_map_vma (some (msm_gem_init_vma aspace vma npages 0 node_start).1)
      (msm_gem_init_vma aspace vma npages 0 node_start).2.1 mmu_map_ret).2 =
      (if aspace.mmu = true then mmu_map_ret else 0) ∧
    msm_gem_map_vma_calls (some (msm_gem_init_vma aspace vma npages 0 node_start).1)
      (msm_gem_init_vma aspace vma npages 0 node_start).2.1 npages =
      (if aspace.mmu = true then
        [vma_call.mmu_map ((node_start <<< PAGE_SHIFT) % U64) ((npages <<< PAGE_SHIFT) % U32)]
       else []) ∧
    (vma.inuse ≤ 0 →
      msm_gem_close_vma_calls (msm_gem_init_vma aspace vma npages 0 node_start).1
        (msm_gem_init_vma aspace vma npages 0 node_start).2.1 =
        [vma_call.drm_mm_remove_node node_start, vma_call.kref_put]) := by
  have hinit : msm_gem_init_vma aspace vma npages 0 node_start =
      ({ aspace with kref := aspace.kref + 1 },
       { vma with node_start := node_start, node_size := npages,
                  iova := (node_start <<< PAGE_SHIFT) % U64, mapped := false }, 0) := by
    unfold msm_gem_init_vma
    rw [if_neg (by rw [hfree]; exact fun h => h rfl), if_neg (fun h => h rfl)]
  rw [hinit]
  refine ⟨rfl, rfl, hnode, rfl, ?_, ?_, ?_⟩
  · unfold msm_gem_map_vma
    simp only []
    rw [if_neg hnode]
    simp only [Bool.false_eq_true, if_false]
    by_cases hm : aspace.mmu = true
    · rw [if_pos hm]
      by_cases hr : mmu_map_ret ≠ 0
      · rw [if_pos hr]
      · rw [if_neg hr]
    · rw [if_neg hm]
      rfl
  · unfold msm_gem_map_vma_calls
    simp only []
    rw [if_neg hnode]
    simp only [Bool.false_eq_true, if_false]
  · intro hin
    unfold msm_gem_close_vma_calls
    simp only []
    rw [if_neg (by simp only [Bool.false_eq_true, or_false]; omega), if_pos hnode]
    rfl

/-- C29 (witness): the node at page 5 gives the VMA the address 0x5000. -/
theorem C29_init_reserves_witness :
    (msm_gem_init_vma { mmu := true, kref := 1, destroyed := false } zeroed_vma 1 0 5).2.1.iova =
      0x5000 :=
  (C29_init_reserves { mmu := true, kref := 1, destroyed := false } zeroed_vma 1 5 0
    (by decide) (by decide)).2.1.trans (by decide)

/-! ## C27: the reference count of the address space over VMA calls -/

/-- The function `kref_put` lowers a count that is not zero by one. -/
theorem kref_put_succ (k : Nat) : (kref_put (k + 1)).1 = k := by
  unfold kref_put
  by_cases h : k + 1 = 1
  · rw [if_pos h]; show 0 = k; omega
  · rw [if_neg h]; show k + 1 - 1 = k; omega

/-- One call that respects the convention of the callers keeps the
invariant of the reference count. -/
theorem vma_kref_step (k0 : Nat) (held : Bool) (st : vma_state) (op : vma_op)
    (hinv : vma_kref_inv k0 held st) (hd : vma_op_disciplined st op) :
    vma_kref_inv k0 (vma_held_step held st op) (vma_step st op) := by
  obtain ⟨h1, h2⟩ := hinv
  cases op with
  | init npages insert_ret node_start =>
    unfold vma_held_step vma_step
    simp only []
    unfold msm_gem_init_vma
    by_cases hi : st.vma.iova ≠ 0
    · rw [if_pos hi]
      rw [if_neg (show ¬ (-EBUSY = 0) by decide)]
      exact ⟨h1, h2⟩
    · rw [if_neg hi]
      by_cases hr : insert_ret ≠ 0
      · rw [if_pos hr, if_neg hr]
        exact ⟨h1, h2⟩
      · rw [if_neg hr]
        rw [if_pos rfl]
        have hz : (node_start <<< PAGE_SHIFT) % U64 ≠ 0 := hd (by omega)
        have hheld : held = false := by
          cases held with
          | false => rfl
          | true => exact absurd (h1.mp rfl) hi
        refine ⟨⟨fun _ => hz, fun _ => rfl⟩, ?_⟩
        show st.aspace.kref + 1 = k0 + 1
        rw [h2, hheld]
        rfl
  | map mmu_map_ret =>
    unfold vma_held_step vma_step
    simp only []
    refine ⟨?_, h2⟩
    have hiova : (msm_gem_map_vma (some st.aspace) st.vma mmu_map_ret).1.iova = st.vma.iova := by
      unfold msm_gem_map_vma
      simp only []
      split
      · rfl
      · split
        · rfl
        · split
          · split <;> rfl
          · split <;> rfl
    rw [hiova]
    exact h1
  | unmap =>
    unfold vma_held_step vma_step
    simp only []
    refine ⟨?_, h2⟩
    have hiova : (msm_gem_unmap_vma st.aspace st.vma).iova = st.vma.iova := by
      unfold msm_gem_unmap_vma
      split <;> rfl
    rw [hiova]
    exact h1
  | purge =>
    unfold vma_held_step vma_step
    simp only []
    refine ⟨?_, h2⟩
    have hiova : (msm_gem_purge_vma st.aspace st.vma).iova = st.vma.iova := by
      unfold msm_gem_purge_vma
      split
      · rfl
      · split <;> rfl
    rw [hiova]
    exact h1
  | close =>
    unfold vma_held_step vma_step
    simp only []
    unfold msm_gem_close_vma
    by_cases hc : st.vma.inuse > 0 ∨ st.vma.mapped = true
    · rw [if_pos hc, if_pos hc]
      exact ⟨h1, h2⟩
    · rw [if_neg hc, if_neg hc]
      have hi : st.vma.iova ≠ 0 := by
        rcases hd with h | h | h
        · exact h
        · exact absurd (Or.inl h) hc
        · exact absurd (Or.inr h) hc
      have hheld : held = true := h1.mpr hi
      refine ⟨⟨fun h => Bool.noConfusion h, fun h => absurd rfl h⟩, ?_⟩
      show (kref_put st.aspace.kref).1 = k0 + 0
      rw [h2, hheld]
      exact kref_put_succ k0

/-- The invariant of the reference count holds after every call of a
sequence that respects the convention of the callers. -/
theorem vma_kref_trace (k0 : Nat) : ∀ (ops : List vma_op) (held : Bool) (st : vma_state),
    vma_kref_inv k0 held st → vma_ops_disciplined st ops →
    ∀ p ∈ vma_trace held st ops, vma_kref_inv k0 p.1 p.2 := by
  intro ops
  induction ops with
  | nil => intro held st _ _ p hp; exact absurd hp (List.not_mem_nil p)
  | cons op rest ih =>
    intro held st hinv hd p hp
    have hstep := vma_kref_step k0 held st op hinv hd.1
    rcases List.mem_cons.mp hp with h | h
    · rw [h]; exact hstep
    · exact ih _ _ hstep hd.2 p h

/-- C27 (counterexample): `msm_gem_close_vma` on the zeroed VMA, which no
`msm_gem_init_vma` has touched, drops a reference all the same: the count
goes from 1 to 0 and the address space is destroyed, although the VMA holds
no reservation. -/
theorem C27_close_without_init_drops_reference :
    vma_trace false
      { aspace := { mmu := true, kref := 1, destroyed := false }, vma := zeroed_vma }
      [vma_op.close] =
    [(false, { aspace := { mmu := true, kref := 0, destroyed := true }, vma := zeroed_vma })] := by
  decide

/-- C27 (amended): for every sequence of `msm_gem_init_vma`,
`msm_gem_map_vma`, `msm_gem_unmap_vma`, `msm_gem_purge_vma` and
`msm_gem_close_vma` calls on one VMA that starts zeroed, in which every
successful node insertion gives a non-zero address and every
`msm_gem_close_vma` is called on a VMA with a reserved address (or refuses
to act): after every call the reference count of the address space is its
initial value plus 1 if the VMA holds a reservation taken by a successful
init and not yet closed, and its initial value otherwise; the VMA holds a
reservation exactly when its iova is not zero. -/
theorem C27_kref_balanced (aspace : msm_gem_address_space) (ops : List vma_op)
    (hd : vma_ops_disciplined { aspace := aspace, vma := zeroed_vma } ops) :
    ∀ p ∈ vma_trace false { aspace := aspace, vma := zeroed_vma } ops,
      p.2.aspace.kref = aspace.kref + (if p.1 = true then 1 else 0) ∧
      (p.1 = true ↔ p.2.vma.iova ≠ 0) := by
  intro p hp
  have h := vma_kref_trace aspace.kref ops false { aspace := aspace, vma := zeroed_vma }
    ⟨⟨fun h => Bool.noConfusion h, fun h => absurd rfl h⟩, rfl⟩ hd p hp
  exact ⟨h.2, h.1⟩

/-- C27 (witness): init at page 5, map, unmap, purge, close on a count that
starts at 1: after the init the reservation is held and the count reads 2,
after the close it is given up and the count reads 1 again. -/
theorem C27_kref_balanced_witness :
    (vma_step { aspace := { mmu := true, kref := 1, destroyed := false }, vma := zeroed_vma }
      (vma_op.init 1 0 5)).aspace.kref = 2 ∧
    (vma_step (vma_step (vma_step (vma_step (vma_step
      { aspace := { mmu := true, kref := 1, destroyed := false }, vma := zeroed_vma }
      (vma_op.init 1 0 5)) (vma_op.map 0)) vma_op.unmap) vma_op.purge)
      vma_op.close).aspace.kref = 1 :=
  ⟨((C27_kref_balanced { mmu := true, kref := 1, destroyed := false }
      [vma_op.init 1 0 5, vma_op.map 0, vma_op.unmap, vma_op.purge, vma_op.close]
      ⟨fun _ => by decide, trivial, trivial, trivial, Or.inl (by decide), trivial⟩
      (true, vma_step
        { aspace := { mmu := true, kref := 1, destroyed := false }, vma := zeroed_vma }
        (vma_op.init 1 0 5)) (by decide)).1).trans (by decide),
   ((C27_kref_balanced { mmu := true, kref := 1, destroyed := false }
      [vma_op.init 1 0 5, vma_op.map 0, vma_op.unmap, vma_op.purge, vma_op.close]
      ⟨fun _ => by decide, trivial, trivial, trivial, Or.inl (by decide), trivial⟩
      (false, vma_step (vma_step (vma_step (vma_step (vma_step
        { aspace := { mmu := true, kref := 1, destroyed := false }, vma := zeroed_vma }
        (vma_op.init 1 0 5)) (vma_op.map 0)) vma_op.unmap) vma_op.purge) vma_op.close)
      (by decide)).1).trans (by decide)⟩

/-! ## C26: the destructor chosen by arm_iommu_release_mapping -/

/-- C26 (failing input): a domain that reports both `DOMAIN_ATTR_S1_BYPASS`
and `DOMAIN_ATTR_FAST`. `arm_iommu_init_mapping` tests the bypass attribute
first: it succeeds with the `swiotlb_dma_ops` and never runs
`fast_smmu_init_mapping`. `arm_iommu_release_mapping` tests the fast
attribute only: the last release runs `fast_smmu_release_mapping`. -/
theorem C26_bypass_context_released_as_fast :
    (arm_iommu_init_mapping friendly_env
      (uninitialized_mapping 1 0x10000000 16
        { id := 0, attr_s1_bypass := some 1, attr_fast := some 1,
          attr_bitmap_iova_allocator := none, attr_errata_min_iova_align := none,
          attr_secure_vmid := none })).2 = 0 ∧
    (arm_iommu_init_mapping friendly_env
      (uninitialized_mapping 1 0x10000000 16
        { id := 0, attr_s1_bypass := some 1, attr_fast := some 1,
          attr_bitmap_iova_allocator := none, attr_errata_min_iova_align := none,
          attr_secure_vmid := none })).1.ops = some dma_map_ops.swiotlb_dma_ops ∧
    (arm_iommu_init_mapping friendly_env
      (uninitialized_mapping 1 0x10000000 16
        { id := 0, attr_s1_bypass := some 1, attr_fast := some 1,
          attr_bitmap_iova_allocator := none, attr_errata_min_iova_align := none,
          attr_secure_vmid := none })).1.kref = 1 ∧
    (arm_iommu_release_mapping (some (arm_iommu_init_mapping friendly_env
      (uninitialized_mapping 1 0x10000000 16
        { id := 0, attr_s1_bypass := some 1, attr_fast := some 1,
          attr_bitmap_iova_allocator := none, attr_errata_min_iova_align := none,
          attr_secure_vmid := none })).1)).2 =
      [kernel_event.fast_smmu_release_mapping 1, kernel_event.iommu_domain_free 0,
       kernel_event.kfree_mapping 1] := by
  decide

/-! ## C28: the reference count over smmu_aspace_map_vma and smmu_aspace_unmap_vma -/

/-- C28 (failing input): an attached address space with the count 1 and a
`map_dma_buf` that fails with `-ENOMEM`. `smmu_aspace_map_vma` leaves
`iova == 0` but takes its reference all the same; `smmu_aspace_unmap_vma`
then returns at its first test and drops nothing: the count stays at 2. -/
theorem C28_failed_map_leaks_reference :
    smmu_aspace_map_vma (some { mmu := true, kref := 1, destroyed := false }) true zeroed_vma
      (-12) 0 =
      (some { mmu := true, kref := 2, destroyed := false }, zeroed_vma, -12,
       [vma_call.map_dma_buf, vma_call.kref_get]) ∧
    smmu_aspace_unmap_vma (some { mmu := true, kref := 2, destroyed := false }) zeroed_vma =
      (some { mmu := true, kref := 2, destroyed := false }, zeroed_vma, []) := by
  decide

/-! ## C30: the order mask in the page-acquisition loop -/

/-- C30 (failing input): an IOMMU that supports 64 KiB pages only and a
request of one page. The order mask 0x10 passes the test
`if (!order_mask)`; the first round of the loop masks it with
`(2U << __fls(1)) - 1 = 1`, which leaves 0, and takes `__fls` of it, which is
undefined. -/
theorem C30_order_mask_runs_empty :
    ((large_page_env.pgsize_bitmap % U32) >>> PAGE_SHIFT) &&&
      (((2 <<< large_page_env.MAX_ORDER) % U32 + U32 - 1) % U32) = 0x10 ∧
    __fls 1 = some 0 ∧
    0x10 &&& (((2 <<< 0) % U32 + U32 - 1) % U32) = 0 ∧
    __fls 0 = none ∧
    (__iommu_alloc_buffer large_page_env 4096 no_attrs true).2.2 =
      run_status.undefined_behaviour := by
  decide

/-! ## C24: the runs of __iommu_create_mapping -/

theorem run_length_le (l : List Nat) : ∀ next, run_length next l ≤ l.length := by
  induction l with
  | nil => intro next; exact Nat.le_refl 0
  | cons q rest ih =>
    intro next
    unfold run_length
    by_cases h : q = next
    · rw [if_pos h]
      have := ih (next + 1)
      simp only [List.length_cons]
      omega
    · rw [if_neg h]
      exact Nat.zero_le _

/-- The inner loop of `__iommu_create_mapping` stops where the run of
consecutive page-frame numbers ends, when no page-frame number reaches
2^32 - 1. -/
theorem run_end_eq (pages : List Nat) (hpfn : ∀ p ∈ pages, p + 1 < U32) :
    ∀ (fuel j next : Nat), pages.length - j ≤ fuel → next < U32 →
      run_end pages pages.length fuel j next = j + run_length next (pages.drop j) := by
  intro fuel
  induction fuel with
  | zero =>
    intro j next hf _
    have hj : pages.length ≤ j := by omega
    rw [List.drop_eq_nil_of_le hj]
    rfl
  | succ n ih =>
    intro j next hf hn
    unfold run_end
    by_cases hj : j < pages.length
    · rw [if_pos hj]
      have hd : pages.drop j = pages[j] :: pages.drop (j + 1) := List.drop_eq_getElem_cons hj
      have hg : pages.getD j 0 = pages[j] := by
        rw [List.getD_eq_getElem?_getD, List.getElem?_eq_getElem hj]; rfl
      rw [hd, hg]
      unfold run_length
      by_cases hq : pages[j] = next
      · rw [if_neg (fun h => h hq), if_pos hq]
        have hlt : next + 1 < U32 := by
          rw [← hq]; exact hpfn _ (List.getElem_mem hj)
        rw [Nat.mod_eq_of_lt hlt, ih (j + 1) (next + 1) (by omega) hlt]
        omega
      · rw [if_pos hq, if_neg hq]
        rfl
    · rw [if_neg hj]
      rw [List.drop_eq_nil_of_le (by omega)]
      rfl

theorem split_runs_nil (f : Nat) : split_runs f [] = [] := by
  cases f <;> rfl

/-- One round of the mapping loop when the `iommu_map` call succeeds. -/
theorem create_mapping_loop_step (env : dma_env) (pages : List Nat) (count n i iova : Nat)
    (evs : List dma_event) (hmap : ∀ a b c, env.iommu_map a b c = 0) (hi : i < count) :
    create_mapping_loop env pages count (n + 1) i iova evs =
      create_mapping_loop env pages count n
        (run_end pages count count (i + 1) ((pages.getD i 0 + 1) % U32))
        ((iova + ((run_end pages count count (i + 1) ((pages.getD i 0 + 1) % U32) - i)
          <<< PAGE_SHIFT) % U32) % U64)
        (evs ++ [dma_event.iommu_map iova (page_to_phys (pages.getD i 0))
          (((run_end pages count count (i + 1) ((pages.getD i 0 + 1) % U32) - i)
            <<< PAGE_SHIFT) % U32) 0]) := by
  conv => lhs; unfold create_mapping_loop
  rw [if_pos hi]
  simp only [hmap]
  rw [if_neg (by decide)]

/-- The mapping loop of `__iommu_create_mapping`, when every `iommu_map`
succeeds, fewer than 2^20 pages are mapped, no page-frame number reaches
2^32 - 1 and the range ends below 2^64: it runs to the end and issues the
calls of `run_maps` for the maximal runs of the pages left. -/
theorem create_mapping_loop_runs (env : dma_env) (pages : List Nat)
    (hmap : ∀ a b c, env.iommu_map a b c = 0) (hpfn : ∀ p ∈ pages, p + 1 < U32)
    (hn : pages.length < 2 ^ 20) :
    ∀ (fuel i iova : Nat) (evs : List dma_event) (f : Nat),
      i ≤ pages.length → pages.length - i ≤ fuel → pages.length - i ≤ f →
      iova + (pages.length - i) * 4096 < U64 →
      create_mapping_loop env pages pages.length fuel i iova evs =
        (true, iova + (pages.length - i) * 4096,
         evs ++ run_maps iova (split_runs f (pages.drop i))) := by
  intro fuel
  induction fuel with
  | zero =>
    intro i iova evs f hi hf _ _
    have hi2 : pages.length - i = 0 := by omega
    rw [List.drop_eq_nil_of_le (by omega), split_runs_nil, hi2]
    show (true, iova, evs) = (true, iova + 0 * 4096, evs ++ [])
    rw [Nat.zero_mul, Nat.add_zero, List.append_nil]
  | succ n ih =>
    intro i iova evs f hi hfuel hf hfit
    by_cases hlt : i < pages.length
    · rw [create_mapping_loop_step env pages pages.length n i iova evs hmap hlt]
      have hg : pages.getD i 0 = pages[i] := by
        rw [List.getD_eq_getElem?_getD, List.getElem?_eq_getElem hlt]; rfl
      have hp : pages[i] + 1 < U32 := hpfn _ (List.getElem_mem hlt)
      rw [hg, Nat.mod_eq_of_lt hp,
        run_end_eq pages hpfn pages.length (i + 1) (pages[i] + 1) (by omega) hp]
      have hk := run_length_le (pages.drop (i + 1)) (pages[i] + 1)
      rw [List.length_drop] at hk
      generalize hkdef : run_length (pages[i] + 1) (pages.drop (i + 1)) = k at hk
      have hlen : ((i + 1 + k - i) <<< PAGE_SHIFT) % U32 = (k + 1) * 4096 := by
        rw [shiftLeft_page, U32_eq]
        have : i + 1 + k - i = k + 1 := by omega
        rw [this]
        omega
      rw [hlen]
      have hio : (iova + (k + 1) * 4096) % U64 = iova + (k + 1) * 4096 := by
        apply Nat.mod_eq_of_lt
        have : (k + 1) * 4096 ≤ (pages.length - i) * 4096 :=
          Nat.mul_le_mul_right _ (by omega)
        omega
      rw [hio]
      obtain ⟨f2, hf2⟩ : ∃ f2, f = f2 + 1 := ⟨f - 1, by omega⟩
      rw [ih (i + 1 + k) (iova + (k + 1) * 4096) _ f2 (by omega) (by omega) (by omega)
        (by
          have e : (k + 1) * 4096 + (pages.length - (i + 1 + k)) * 4096 =
              (pages.length - i) * 4096 := by
            rw [← Nat.add_mul]; congr 1; omega
          omega)]
      have hd : pages.drop i = pages[i] :: pages.drop (i + 1) := List.drop_eq_getElem_cons hlt
      have hsplit : split_runs f (pages.drop i) =
          (pages[i] :: (pages.drop (i + 1)).take k) ::
            split_runs f2 (pages.drop (i + 1 + k)) := by
        rw [hf2, hd]
        show (pages[i] :: (pages.drop (i + 1)).take
            (run_length (pages[i] + 1) (pages.drop (i + 1)))) ::
          split_runs f2 ((pages.drop (i + 1)).drop
            (run_length (pages[i] + 1) (pages.drop (i + 1)))) = _
        rw [hkdef, List.drop_drop]
      have hrl : (pages[i] :: (pages.drop (i + 1)).take k).length = k + 1 := by
        rw [List.length_cons, List.length_take, List.length_drop]
        omega
      rw [hsplit]
      show _ = (true, iova + (pages.length - i) * 4096,
        evs ++ (dma_event.iommu_map iova (page_to_phys pages[i])
          ((pages[i] :: (pages.drop (i + 1)).take k).length * PAGE_SIZE) 0 ::
          run_maps (iova + (pages[i] :: (pages.drop (i + 1)).take k).length * PAGE_SIZE)
            (split_runs f2 (pages.drop (i + 1 + k)))))
      rw [hrl, PAGE_SIZE_eq, List.append_assoc]
      have e : iova + (k + 1) * 4096 + (pages.length - (i + 1 + k)) * 4096 =
          iova + (pages.length - i) * 4096 := by
        rw [Nat.add_assoc, ← Nat.add_mul]; congr 2; omega
      rw [e]
      rfl
    · have hi2 : pages.length - i = 0 := by omega
      rw [List.drop_eq_nil_of_le (by omega), split_runs_nil, hi2]
      unfold create_mapping_loop
      rw [if_neg hlt, Nat.zero_mul, Nat.add_zero]
      show (true, iova, evs) = (true, iova, evs ++ [])
      rw [List.append_nil]

theorem run_length_get : ∀ (l : List Nat) (next t : Nat), t < run_length next l →
    l.getD t 0 = next + t := by
  intro l
  induction l with
  | nil => intro next t h; exact absurd h (Nat.not_lt_zero _)
  | cons q rest ih =>
    intro next t h
    unfold run_length at h
    by_cases hq : q = next
    · rw [if_pos hq] at h
      cases t with
      | zero => exact hq
      | succ s =>
        show rest.getD s 0 = next + (s + 1)
        rw [ih (next + 1) s (by omega)]
        omega
    · rw [if_neg hq] at h
      exact absurd h (Nat.not_lt_zero _)

theorem run_length_stop : ∀ (l : List Nat) (next : Nat), run_length next l < l.length →
    l.getD (run_length next l) 0 ≠ next + run_length next l := by
  intro l
  induction l with
  | nil => intro next h; exact absurd h (Nat.not_lt_zero _)
  | cons q rest ih =>
    intro next h
    unfold run_length at h ⊢
    by_cases hq : q = next
    · rw [if_pos hq] at h ⊢
      simp only [List.length_cons] at h
      show rest.getD (run_length (next + 1) rest) 0 ≠ next + (run_length (next + 1) rest + 1)
      have := ih (next + 1) (by omega)
      omega
    · rw [if_neg hq]
      exact hq

theorem getD_take (l : List Nat) (k s : Nat) (hs : s < k) :
    (l.take k).getD s 0 = l.getD s 0 := by
  rw [List.getD_eq_getElem?_getD, List.getD_eq_getElem?_getD, List.getElem?_take_of_lt hs]

theorem headD_drop (l : List Nat) (k : Nat) : (l.drop k).headD 0 = l.getD k 0 := by
  rw [List.getD_eq_getElem?_getD, ← List.head?_drop]
  cases (l.drop k) <;> rfl

/-- The runs of `split_runs` are the list cut into pieces: joined in order
they give the list back. -/
theorem split_runs_join : ∀ (f : Nat) (l : List Nat), l.length ≤ f →
    (split_runs f l).flatten = l := by
  intro f
  induction f with
  | zero =>
    intro l h
    have : l = [] := List.length_eq_zero.mp (by omega)
    rw [this]; rfl
  | succ n ih =>
    intro l h
    cases l with
    | nil => rfl
    | cons p rest =>
      show (p :: rest.take (run_length (p + 1) rest)) ++
        (split_runs n (rest.drop (run_length (p + 1) rest))).flatten = p :: rest
      rw [ih _ (by rw [List.length_drop]; simp only [List.length_cons] at h; omega)]
      show p :: (rest.take _ ++ rest.drop _) = p :: rest
      rw [List.take_append_drop]

/-- Every run of `split_runs` is non-empty and has consecutive page-frame
numbers. -/
theorem split_runs_consecutive : ∀ (f : Nat) (l : List Nat), ∀ r ∈ split_runs f l,
    r ≠ [] ∧ ∀ t < r.length, r.getD t 0 = r.headD 0 + t := by
  intro f
  induction f with
  | zero => intro l r hr; exact absurd hr (List.not_mem_nil r)
  | succ n ih =>
    intro l r hr
    cases l with
    | nil => exact absurd hr (List.not_mem_nil r)
    | cons p rest =>
      have hr2 : r ∈ (p :: rest.take (run_length (p + 1) rest)) ::
          split_runs n (rest.drop (run_length (p + 1) rest)) := hr
      rcases List.mem_cons.mp hr2 with h | h
      · rw [h]
        refine ⟨List.cons_ne_nil _ _, ?_⟩
        intro t ht
        cases t with
        | zero => rfl
        | succ s =>
          have hk := run_length_le rest (p + 1)
          rw [List.length_cons, List.length_take] at ht
          have hs : s < run_length (p + 1) rest := by omega
          show (rest.take (run_length (p + 1) rest)).getD s 0 = p + (s + 1)
          rw [getD_take _ _ _ hs, run_length_get rest (p + 1) s hs]
          omega
      · exact ih _ r h

/-- Runs of `split_runs` that follow each other are not physically
adjacent: every run is maximal. -/
theorem split_runs_apart : ∀ (f : Nat) (l : List Nat),
    List.Chain' runs_apart (split_runs f l) := by
  intro f
  induction f with
  | zero => intro l; exact List.chain'_nil
  | succ n ih =>
    intro l
    cases l with
    | nil => exact List.chain'_nil
    | cons p rest =>
      show List.Chain' runs_apart ((p :: rest.take (run_length (p + 1) rest)) ::
        split_runs n (rest.drop (run_length (p + 1) rest)))
      rw [List.chain'_cons']
      refine ⟨?_, ih _⟩
      intro r2 hr2
      have hk := run_length_le rest (p + 1)
      generalize hkdef : run_length (p + 1) rest = k at hk hr2
      cases n with
      | zero => exact absurd hr2 (by simp [split_runs])
      | succ n2 =>
        cases hd : rest.drop k with
        | nil => rw [hd] at hr2; exact absurd hr2 (by simp [split_runs])
        | cons q rest2 =>
          rw [hd] at hr2
          have hr3 : r2 = q :: rest2.take (run_length (q + 1) rest2) := by
            have : (split_runs (n2 + 1) (q :: rest2)).head? =
                some (q :: rest2.take (run_length (q + 1) rest2)) := rfl
            rw [this] at hr2
            exact (Option.some.inj (Option.mem_def.mp hr2)).symm
          have hq : q = rest.getD k 0 := by
            rw [← headD_drop, hd]; rfl
          have hlt : k < rest.length := by
            by_contra hge
            rw [List.drop_eq_nil_of_le (by omega)] at hd
            exact List.noConfusion hd
          have hstop := run_length_stop rest (p + 1) (by rw [hkdef]; exact hlt)
          rw [hkdef] at hstop
          unfold runs_apart
          rw [hr3]
          show q ≠ p + (rest.take k).length.succ
          rw [List.length_take, hq]
          have : min k rest.length = k := by omega
          rw [this]
          omega

theorem page_to_phys_eq (p : Nat) (h : p < U32) : page_to_phys p = p * 4096 := by
  unfold page_to_phys
  rw [shiftLeft_page]
  apply Nat.mod_eq_of_lt
  rw [U32_eq] at h
  rw [U64_eq]
  omega

/-- The calls of `run_maps` from `iova` on leave the addresses below `iova`
as they were. -/
theorem run_maps_below : ∀ (runs : List (List Nat)) (iova : Nat) (pt : Nat → Option Nat)
    (a : Nat), a < iova → (run_maps iova runs).foldl iommu_apply pt a = pt a := by
  intro runs
  induction runs with
  | nil => intro iova pt a _; rfl
  | cons r rs ih =>
    intro iova pt a ha
    show (run_maps (iova + r.length * PAGE_SIZE) rs).foldl iommu_apply
      (iommu_apply pt (dma_event.iommu_map iova (page_to_phys (r.headD 0))
        (r.length * PAGE_SIZE) 0)) a = pt a
    rw [ih _ _ a (by omega)]
    show (if (0 : Int) = 0 then
      fun a => if iova ≤ a ∧ a < iova + r.length * PAGE_SIZE then
        some (page_to_phys (r.headD 0) + (a - iova)) else pt a
      else pt) a = pt a
    rw [if_pos rfl]
    show (if iova ≤ a ∧ a < iova + r.length * PAGE_SIZE then _ else pt a) = pt a
    rw [if_neg (by omega)]

/-- The calls of `run_maps` for runs of consecutive page-frame numbers below
2^32 map every byte of the i-th page of the range to the same byte of the
i-th page of the runs, whatever the page table held before. -/
theorem run_maps_entries : ∀ (runs : List (List Nat)),
    (∀ r ∈ runs, r ≠ [] ∧ ∀ t < r.length, r.getD t 0 = r.headD 0 + t) →
    (∀ r ∈ runs, ∀ t < r.length, r.getD t 0 < U32) →
    ∀ (iova : Nat) (pt : Nat → Option Nat) (i off : Nat),
      i < runs.flatten.length → off < 4096 →
      (run_maps iova runs).foldl iommu_apply pt (iova + i * 4096 + off) =
        some (page_to_phys (runs.flatten.getD i 0) + off) := by
  intro runs
  induction runs with
  | nil => intro _ _ iova pt i off hi _; exact absurd hi (Nat.not_lt_zero _)
  | cons r rs ih =>
    intro hc hp iova pt i off hi hoff
    obtain ⟨hne, hcons⟩ := hc r (List.mem_cons_self _ _)
    have hpr := hp r (List.mem_cons_self _ _)
    have hlen : 0 < r.length := List.length_pos.mpr hne
    have hfl : (r :: rs).flatten = r ++ rs.flatten := rfl
    rw [hfl] at hi ⊢
    show (run_maps (iova + r.length * PAGE_SIZE) rs).foldl iommu_apply
      (iommu_apply pt (dma_event.iommu_map iova (page_to_phys (r.headD 0))
        (r.length * PAGE_SIZE) 0)) (iova + i * 4096 + off) = _
    rw [PAGE_SIZE_eq]
    by_cases hir : i < r.length
    · rw [run_maps_below rs _ _ _ (by
        have : (i + 1) * 4096 ≤ r.length * 4096 := Nat.mul_le_mul_right _ (by omega)
        omega)]
      show (if (0 : Int) = 0 then
        fun a => if iova ≤ a ∧ a < iova + r.length * 4096 then
          some (page_to_phys (r.headD 0) + (a - iova)) else pt a
        else pt) (iova + i * 4096 + off) = _
      rw [if_pos rfl]
      show (if iova ≤ iova + i * 4096 + off ∧ iova + i * 4096 + off < iova + r.length * 4096
        then some (page_to_phys (r.headD 0) + (iova + i * 4096 + off - iova))
        else pt (iova + i * 4096 + off)) = _
      rw [if_pos (by
        have : (i + 1) * 4096 ≤ r.length * 4096 := Nat.mul_le_mul_right _ (by omega)
        omega)]
      rw [List.getD_append _ _ _ _ hir, hcons i hir]
      have h0 : r.headD 0 < U32 := by
        have := hpr 0 hlen
        rw [hcons 0 hlen] at this
        exact this
      have hi2 : r.headD 0 + i < U32 := by
        have := hpr i hir
        rw [hcons i hir] at this
        exact this
      rw [page_to_phys_eq _ h0, page_to_phys_eq _ hi2]
      have e : r.headD 0 * 4096 + (iova + i * 4096 + off - iova) =
          (r.headD 0 + i) * 4096 + off := by omega
      rw [e]
    · have hle : r.length ≤ i := by omega
      rw [List.getD_append_right _ _ _ _ hle]
      have hi3 : i - r.length < rs.flatten.length := by
        rw [List.length_append] at hi; omega
      have hrec := ih (fun r2 h2 => hc r2 (List.mem_cons_of_mem _ h2))
        (fun r2 h2 => hp r2 (List.mem_cons_of_mem _ h2))
        (iova + r.length * 4096)
        (iommu_apply pt (dma_event.iommu_map iova (page_to_phys (r.headD 0))
          (r.length * 4096) 0)) (i - r.length) off hi3 hoff
      have ea : iova + i * 4096 + off =
          iova + r.length * 4096 + (i - r.length) * 4096 + off := by omega
      rw [ea]
      exact hrec

/-- The result of `__iommu_create_mapping` when the reservation and every
`iommu_map` succeed: the reserved address, and the calls of the reservation
followed by one `iommu_map` per maximal run. -/
theorem create_mapping_runs (maxOrder : Nat) (env : dma_env) (m : dma_iommu_mapping)
    (pages : List Nat) (hcfg : maxOrder ≤ 30) (hlay : iova_layout_ok m)
    (hspace : m.base + m.bits * PAGE_SIZE < U64) (hn : pages.length < 2 ^ 20)
    (hpfn : ∀ p ∈ pages, p + 1 < U32) (hmap : ∀ a b c, env.iommu_map a b c = 0)
    (hok : (__alloc_iova maxOrder m (pages.length * PAGE_SIZE) env.guard_map_ret).2 ≠
      DMA_ERROR_CODE) :
    (__alloc_iova maxOrder m (pages.length * PAGE_SIZE) env.guard_map_ret).2 +
      pages.length * 4096 < U64 ∧
    __iommu_create_mapping maxOrder env m pages (pages.length * PAGE_SIZE) =
      ((__alloc_iova maxOrder m (pages.length * PAGE_SIZE) env.guard_map_ret).1,
       (__alloc_iova maxOrder m (pages.length * PAGE_SIZE) env.guard_map_ret).2,
       alloc_iova_events maxOrder m (pages.length * PAGE_SIZE) env.guard_map_ret ++
         run_maps (__alloc_iova maxOrder m (pages.length * PAGE_SIZE) env.guard_map_ret).2
           (split_runs pages.length pages)) := by
  have hal : (pages.length * PAGE_SIZE) % PAGE_SIZE = 0 := Nat.mul_mod_left _ _
  have hS : pages.length * PAGE_SIZE < 2 ^ 32 := by rw [PAGE_SIZE_eq]; omega
  obtain ⟨_, r2, _⟩ := alloc_iova_success_range maxOrder m _ env.guard_map_ret hcfg hlay
    hspace hal hS hok
  have hfit : (__alloc_iova maxOrder m (pages.length * PAGE_SIZE) env.guard_map_ret).2 +
      pages.length * 4096 < U64 := by
    have hsz : pages.length * PAGE_SIZE = pages.length * 4096 := by rw [PAGE_SIZE_eq]
    generalize (__alloc_iova maxOrder m (pages.length * PAGE_SIZE) env.guard_map_ret).2 = v
      at r2 ⊢
    omega
  refine ⟨hfit, ?_⟩
  have hcount : (PAGE_ALIGN (pages.length * PAGE_SIZE) >>> PAGE_SHIFT) % U32 =
      pages.length := by
    rw [PAGE_ALIGN_aligned _ hal hS, shiftRight_page, PAGE_SIZE_eq, U32_eq]
    omega
  have hloop := create_mapping_loop_runs env pages hmap hpfn hn pages.length 0
    (__alloc_iova maxOrder m (pages.length * PAGE_SIZE) env.guard_map_ret).2
    (alloc_iova_events maxOrder m (pages.length * PAGE_SIZE) env.guard_map_ret)
    pages.length (Nat.zero_le _) (by omega) (by omega) (by
      rw [Nat.sub_zero]; exact hfit)
  rw [List.drop_zero] at hloop
  unfold __iommu_create_mapping
  simp only []
  rw [if_neg hok, hcount, hloop]
  rfl

/-- C24 (counterexample): the pages with the page-frame numbers 2^32 - 1 and
0 are not physically adjacent, but `next_pfn` is an `unsigned int` and reads
0 after 2^32 - 1: both pages go into one `iommu_map` call of 8192 bytes, and
the second page of the range is mapped to the physical address 2^44, not to
the physical address 0 of the second page of the array. -/
theorem C24_pfn_wraps_into_one_run :
    (__iommu_create_mapping 9 generous_env (bitmap_mapping 0x10000000 16 0 (fun _ => false))
      [2 ^ 32 - 1, 0] 8192).2.1 = 0x10000000 ∧
    (__iommu_create_mapping 9 generous_env (bitmap_mapping 0x10000000 16 0 (fun _ => false))
      [2 ^ 32 - 1, 0] 8192).2.2 =
      [dma_event.iommu_map 0x10000000 ((2 ^ 32 - 1) * 4096) 8192 0] ∧
    iommu_entries
      (__iommu_create_mapping 9 generous_env (bitmap_mapping 0x10000000 16 0 (fun _ => false))
        [2 ^ 32 - 1, 0] 8192).2.2 (0x10000000 + 4096) = some (2 ^ 44) ∧
    page_to_phys 0 = 0 := by
  decide

/-- C24 (amended): for a mapping with a page-aligned 64-bit base, at most
2^20 pages that end below 2^64 and a 32-bit erratum alignment (maximum order
at most 30), a page array of fewer than 2^20 pages whose page-frame numbers
are below 2^32 - 1, mapped with its size `n * PAGE_SIZE`: when the IOVA
reservation and every `iommu_map` succeed, `__iommu_create_mapping` returns
the reserved address, and besides the calls of the reservation it issues
exactly the calls of `run_maps` for the maximal runs `split_runs` of the
array: one `iommu_map` per run, over adjacent IOVA ranges in order from the
returned address. The runs joined give the array, each run is non-empty with
consecutive page-frame numbers, runs that follow each other are not
physically adjacent, the lengths of the calls sum to `n * PAGE_SIZE`, and
every byte of the i-th page of the range is mapped to the same byte of
`pages[i]`. -/
theorem C24_create_mapping_runs (maxOrder : Nat) (env : dma_env) (m : dma_iommu_mapping)
    (pages : List Nat) (hcfg : maxOrder ≤ 30) (hlay : iova_layout_ok m)
    (hspace : m.base + m.bits * PAGE_SIZE < U64) (hn : pages.length < 2 ^ 20)
    (hpfn : ∀ p ∈ pages, p + 1 < U32) (hmap : ∀ a b c, env.iommu_map a b c = 0)
    (hok : (__alloc_iova maxOrder m (pages.length * PAGE_SIZE) env.guard_map_ret).2 ≠
      DMA_ERROR_CODE) :
    (__iommu_create_mapping maxOrder env m pages (pages.length * PAGE_SIZE)).2.1 =
      (__alloc_iova maxOrder m (pages.length * PAGE_SIZE) env.guard_map_ret).2 ∧
    (__iommu_create_mapping maxOrder env m pages (pages.length * PAGE_SIZE)).2.2 =
      alloc_iova_events maxOrder m (pages.length * PAGE_SIZE) env.guard_map_ret ++
        run_maps (__iommu_create_mapping maxOrder env m pages (pages.length * PAGE_SIZE)).2.1
          (split_runs pages.length pages) ∧
    (split_runs pages.length pages).flatten = pages ∧
    (∀ r ∈ split_runs pages.length pages,
      r ≠ [] ∧ ∀ t < r.length, r.getD t 0 = r.headD 0 + t) ∧
    List.Chain' runs_apart (split_runs pages.length pages) ∧
    ((split_runs pages.length pages).map (fun r => r.length * PAGE_SIZE)).sum =
      pages.length * PAGE_SIZE ∧
    (∀ i < pages.length, ∀ off < PAGE_SIZE,
      iommu_entries
        (__iommu_create_mapping maxOrder env m pages (pages.length * PAGE_SIZE)).2.2
        ((__iommu_create_mapping maxOrder env m pages (pages.length * PAGE_SIZE)).2.1 +
          i * PAGE_SIZE + off) =
        some (page_to_phys (pages.getD i 0) + off)) := by
  obtain ⟨_, hres⟩ := create_mapping_runs maxOrder env m pages hcfg hlay hspace hn hpfn
    hmap hok
  have hj := split_runs_join pages.length pages (Nat.le_refl _)
  have hc := split_runs_consecutive pages.length pages
  rw [hres]
  refine ⟨rfl, rfl, hj, hc, split_runs_apart _ _, ?_, ?_⟩
  · have h1 : ((split_runs pages.length pages).map (fun r => r.length * PAGE_SIZE)).sum =
        ((split_runs pages.length pages).map List.length).sum * PAGE_SIZE := by
      generalize split_runs pages.length pages = runs
      induction runs with
      | nil => rfl
      | cons r rs ih =>
        simp only [List.map_cons, List.sum_cons] at ih ⊢
        rw [ih, Nat.add_mul]
    rw [h1, ← List.length_flatten, hj]
  · intro i hi off hoff
    have hp : ∀ r ∈ split_runs pages.length pages, ∀ t < r.length, r.getD t 0 < U32 := by
      intro r hr t ht
      have hmem : r.getD t 0 ∈ pages := by
        rw [← hj, List.getD_eq_getElem _ _ ht]
        exact List.mem_flatten_of_mem hr (List.getElem_mem ht)
      have := hpfn _ hmem
      omega
    have hent := run_maps_entries (split_runs pages.length pages) hc hp
      (__alloc_iova maxOrder m (pages.length * PAGE_SIZE) env.guard_map_ret).2
      ((alloc_iova_events maxOrder m (pages.length * PAGE_SIZE) env.guard_map_ret).foldl
        iommu_apply (fun _ => none)) i off (by rw [hj]; exact hi)
      (by rw [PAGE_SIZE_eq] at hoff; exact hoff)
    rw [hj] at hent
    show iommu_entries
      (alloc_iova_events maxOrder m (pages.length * PAGE_SIZE) env.guard_map_ret ++
        run_maps (__alloc_iova maxOrder m (pages.length * PAGE_SIZE) env.guard_map_ret).2
          (split_runs pages.length pages))
      ((__alloc_iova maxOrder m (pages.length * PAGE_SIZE) env.guard_map_ret).2 +
        i * PAGE_SIZE + off) = _
    unfold iommu_entries
    rw [List.foldl_append]
    have e4 : i * PAGE_SIZE = i * 4096 := by rw [PAGE_SIZE_eq]
    rw [e4]
    exact hent

/-- C24 (witness): the pages 5, 6 and 9 in a free space at 0x10000000: one
call maps 8192 bytes from the physical address 0x5000, the next maps 4096
bytes from 0x9000 at the adjacent address. -/
theorem C24_create_mapping_runs_witness :
    (__iommu_create_mapping 9 generous_env (bitmap_mapping 0x10000000 16 0 (fun _ => false))
      [5, 6, 9] ([5, 6, 9].length * PAGE_SIZE)).2.2 =
    [dma_event.iommu_map 0x10000000 0x5000 8192 0,
     dma_event.iommu_map 0x10002000 0x9000 4096 0] :=
  (C24_create_mapping_runs 9 generous_env (bitmap_mapping 0x10000000 16 0 (fun _ => false))
    [5, 6, 9] (by decide) ⟨by decide, by decide, by decide, by decide⟩ (by decide)
    (by decide) (by decide) (fun _ _ _ => rfl) (by decide)).2.1.trans (by decide)

/-! ## C25: the chunks of __iommu_alloc_buffer -/

/-- One round of the retry loop: the order that failed leaves the mask, the
highest order left is lower, and the invariant holds again. -/
theorem retry_step (env : dma_env) (base : List Nat) (fuel : Nat) (t : buffer_try)
    (hinv : buffer_try_inv t base) (hc : t.page = none ∧ t.order ≠ 0) :
    ∃ k, k < t.order ∧
      alloc_buffer_retry env (fuel + 1) t =
        alloc_buffer_retry env fuel
          { page := env.alloc_pages t.calls k, order := k,
            order_mask := t.order_mask &&& (U32 - 1 - (1 <<< t.order) % U32),
            calls := t.calls + 1,
            events := t.events ++ [dma_event.alloc_pages k (env.alloc_pages t.calls k)],
            status := t.status } ∧
      buffer_try_inv
        { page := env.alloc_pages t.calls k, order := k,
          order_mask := t.order_mask &&& (U32 - 1 - (1 <<< t.order) % U32),
          calls := t.calls + 1,
          events := t.events ++ [dma_event.alloc_pages k (env.alloc_pages t.calls k)],
          status := t.status } base := by
  obtain ⟨h1, h2, h3, h4, h5, h6, h7, h8⟩ := hinv
  have hclear := clear_top_bit t.order_mask t.order h3 h4 h5
  have hpk : 2 ^ t.order = 2 * 2 ^ (t.order - 1) := by
    have : t.order = (t.order - 1) + 1 := by omega
    rw [this, pow_succ]; simp; ring
  have h32 : 2 ^ t.order ≤ 2 ^ 31 := Nat.pow_le_pow_right (by norm_num) (by omega)
  have hpos : 0 < t.order_mask - 2 ^ t.order := by
    generalize 2 ^ t.order = a at h3 h4 hpk ⊢
    generalize 2 ^ (t.order - 1) = b at hpk
    omega
  have hlt : t.order_mask - 2 ^ t.order < 2 ^ t.order := by
    rw [pow_succ] at h4
    generalize 2 ^ t.order = a at h3 h4 ⊢
    omega
  have hodd : (t.order_mask - 2 ^ t.order) % 2 = 1 := by
    generalize 2 ^ t.order = a at h3 h4 hpk ⊢
    generalize 2 ^ (t.order - 1) = b at hpk
    omega
  have h64 : t.order_mask - 2 ^ t.order < U64 := by
    rw [U64_eq]
    generalize 2 ^ t.order = a at h3 h4 hlt h32 ⊢
    omega
  obtain ⟨k, hk, hk1, hk2⟩ := fls_some _ hpos h64
  have hkl : k ≤ t.order - 1 := by
    apply fls_unique _ _ _ hk1
    have : t.order - 1 + 1 = t.order := by omega
    rw [this]
    exact hlt
  refine ⟨k, by omega, ?_, ?_⟩
  · rw [hclear]
    exact retry_unfold env fuel t hc _ k hclear hk
  · rw [hclear]
    refine ⟨h1, hodd, hk1, hk2, (by show k < 32; omega), ?_, ?_, ?_⟩
    · show pages_acquired (t.events ++ _) = _
      rw [pages_acquired_append, h6, hc.1, pages_acquired_single]
      cases env.alloc_pages t.calls k <;> simp [event_acquires]
    · show pages_released (t.events ++ _) = _
      rw [pages_released_append, h7, pages_released_single]
      rfl
    · intro e he
      rcases List.mem_append.mp he with h | h
      · exact h8 e h
      · rw [List.mem_singleton.mp h]; rfl

/-- When single pages are always supplied, the retry loop ends with a page;
the mask it leaves has no order the mask it received did not have, and its
calls extend the calls made before. -/
theorem alloc_buffer_retry_more (env : dma_env) (base : List Nat)
    (hsingle : ∀ k, env.alloc_pages k 0 ≠ none) :
    ∀ (fuel : Nat) (t : buffer_try), buffer_try_inv t base → t.order ≤ fuel →
      (t.order = 0 → t.page ≠ none) →
      (alloc_buffer_retry env fuel t).page ≠ none ∧
      (∀ b, (alloc_buffer_retry env fuel t).order_mask.testBit b = true →
        t.order_mask.testBit b = true) ∧
      (∃ tail, (alloc_buffer_retry env fuel t).events = t.events ++ tail) := by
  intro fuel
  induction fuel with
  | zero =>
    intro t _ hle h0
    have hn : ¬ (t.page = none ∧ t.order ≠ 0) := fun h => h.2 (by omega)
    rw [alloc_buffer_retry, if_neg hn]
    exact ⟨h0 (by omega), fun _ h => h, ⟨[], (List.append_nil _).symm⟩⟩
  | succ fuel ih =>
    intro t hinv hle h0
    by_cases hc : t.page = none ∧ t.order ≠ 0
    · obtain ⟨k, hk, hun, hinv2⟩ := retry_step env base fuel t hinv hc
      rw [hun]
      obtain ⟨r1, r2, tail, r3⟩ := ih _ hinv2 (by show k ≤ fuel; omega)
        (fun hk0 => by
          have hk0' : k = 0 := hk0
          show env.alloc_pages t.calls k ≠ none
          rw [hk0']
          exact hsingle _)
      refine ⟨r1, ?_, ?_⟩
      · intro b hb
        have := r2 b hb
        have h2 : (t.order_mask &&& (U32 - 1 - (1 <<< t.order) % U32)).testBit b = true := this
        rw [Nat.testBit_and, Bool.and_eq_true] at h2
        exact h2.1
      · refine ⟨[dma_event.alloc_pages k (env.alloc_pages t.calls k)] ++ tail, ?_⟩
        rw [r3]
        show t.events ++ [_] ++ tail = _
        rw [List.append_assoc]
    · have hself : alloc_buffer_retry env (fuel + 1) t = t := by
        rw [alloc_buffer_retry, if_neg hc]
      rw [hself]
      refine ⟨?_, fun _ h => h, ⟨[], (List.append_nil _).symm⟩⟩
      intro hp
      by_cases ho : t.order = 0
      · exact h0 ho hp
      · exact hc ⟨hp, ho⟩

theorem clear_buffer_memset (p size : Nat) (attrs : dma_attrs) (coh : Bool)
    (hz : attrs.skip_zeroing = false) :
    dma_event.memset_zero p size ∈ __dma_clear_buffer p size attrs coh := by
  unfold __dma_clear_buffer
  rw [hz]
  exact List.mem_append_left _ (List.mem_singleton.mpr rfl)

theorem chunk_bytes (k : Nat) (hk : k < 32) :
    (PAGE_SIZE <<< k) % U64 = PAGE_SIZE * 2 ^ k := by
  rw [Nat.shiftLeft_eq]
  apply Nat.mod_eq_of_lt
  have h : 2 ^ k ≤ 2 ^ 31 := Nat.pow_le_pow_right (by norm_num) (by omega)
  rw [PAGE_SIZE_eq, U64_eq]
  generalize 2 ^ k = a at h
  omega

/-- The loop `while (count)` when single pages are always supplied: it runs
to the end, and what it appends to the array are the pages of chunks that
fit the pages left, each with an order of the mask, each zero-filled unless
`DMA_ATTR_SKIP_ZEROING` is set. -/
theorem alloc_buffer_loop_chunks (env : dma_env) (attrs : dma_attrs) (coh : Bool)
    (mask0 : Nat) (hsingle : ∀ k, env.alloc_pages k 0 ≠ none) :
    ∀ (fuel : Nat) (s : buffer_loop), buffer_loop_inv s → s.count ≤ fuel →
      (∀ b, s.order_mask.testBit b = true → mask0.testBit b = true) →
      ∃ chunks,
        (alloc_buffer_loop env attrs coh fuel s).ok = true ∧
        (alloc_buffer_loop env attrs coh fuel s).pages = s.pages ++ chunk_pages chunks ∧
        chunks_fit mask0 s.count chunks ∧
        (∃ tail, (alloc_buffer_loop env attrs coh fuel s).events = s.events ++ tail) ∧
        (attrs.skip_zeroing = false → ∀ c ∈ chunks,
          dma_event.memset_zero c.1 (PAGE_SIZE * 2 ^ c.2) ∈
            (alloc_buffer_loop env attrs coh fuel s).events) := by
  intro fuel
  induction fuel with
  | zero =>
    intro s _ hle _
    have h0 : s.count = 0 := by omega
    rw [alloc_buffer_loop, if_pos h0]
    exact ⟨[], rfl, (List.append_nil _).symm, h0, ⟨[], (List.append_nil _).symm⟩,
      fun _ c hc => absurd hc (List.not_mem_nil c)⟩
  | succ fuel ih =>
    intro s hinv hle hsub
    obtain ⟨i1, i2, i3, i4, i5⟩ := hinv
    by_cases h0 : s.count = 0
    · rw [alloc_buffer_loop, if_pos h0]
      exact ⟨[], rfl, (List.append_nil _).symm, h0, ⟨[], (List.append_nil _).symm⟩,
        fun _ c hc => absurd hc (List.not_mem_nil c)⟩
    · obtain ⟨top, htop, ht1, ht2⟩ := fls_some s.count (by omega) (by rw [U64_eq]; omega)
      have htop30 : top ≤ 30 := fls_unique _ _ _ ht1 i2
      have hmask := top_mask_eq top htop30
      have hom : s.order_mask &&& (((2 <<< top) % U32 + U32 - 1) % U32) =
          s.order_mask % 2 ^ (top + 1) := by
        rw [hmask, Nat.and_pow_two_sub_one_eq_mod]
      have hodd : s.order_mask % 2 ^ (top + 1) % 2 = 1 := by
        rw [mod_two_pow_mod_two]; exact i1
      have hlt : s.order_mask % 2 ^ (top + 1) < 2 ^ (top + 1) :=
        Nat.mod_lt _ (Nat.two_pow_pos _)
      have h31 : 2 ^ (top + 1) ≤ 2 ^ 31 := Nat.pow_le_pow_right (by norm_num) (by omega)
      obtain ⟨order, hord, ho1, ho2⟩ := fls_some (s.order_mask % 2 ^ (top + 1)) (by omega)
        (by rw [U64_eq]; omega)
      have hot : order ≤ top := fls_unique _ _ _ ho1 hlt
      have hpow : 2 ^ order ≤ 2 ^ top := Nat.pow_le_pow_right (by norm_num) hot
      have hT : buffer_try_inv
          { page := env.alloc_pages s.calls order, order := order,
            order_mask := s.order_mask % 2 ^ (top + 1), calls := s.calls + 1,
            events := s.events ++
              [dma_event.alloc_pages order (env.alloc_pages s.calls order)],
            status := run_status.finished } s.pages := by
        refine ⟨rfl, hodd, ho1, ho2, (by show order < 32; omega), ?_, ?_, ?_⟩
        · show pages_acquired (s.events ++ _) = _
          rw [pages_acquired_append, i3, pages_acquired_single]
          cases env.alloc_pages s.calls order <;> simp [event_acquires]
        · show pages_released (s.events ++ _) = _
          rw [pages_released_append, i4, pages_released_single]
          rfl
        · intro e he
          rcases List.mem_append.mp he with h | h
          · exact i5 e h
          · rw [List.mem_singleton.mp h]; rfl
      obtain ⟨hr, hro⟩ := alloc_buffer_retry_spec env s.pages 64 _ hT (by show order ≤ 64; omega)
      obtain ⟨m1, m2, mtail, m3⟩ := alloc_buffer_retry_more env s.pages hsingle 64 _ hT
        (by show order ≤ 64; omega)
        (fun hz => by
          have hz2 : order = 0 := hz
          show env.alloc_pages s.calls order ≠ none
          rw [hz2]
          exact hsingle _)
      generalize hrdef : alloc_buffer_retry env 64
        { page := env.alloc_pages s.calls order, order := order,
          order_mask := s.order_mask % 2 ^ (top + 1), calls := s.calls + 1,
          events := s.events ++
            [dma_event.alloc_pages order (env.alloc_pages s.calls order)],
          status := run_status.finished } = r at hr hro m1 m2 m3
      obtain ⟨r1, r2, r3, r4, r5, r6, r7, r8⟩ := hr
      obtain ⟨_, u2⟩ := loop_unfold env attrs coh fuel s top _ order h0 htop (by omega) hom
        hord r hrdef r1
      have hro2 : r.order ≤ order := hro
      cases hp : r.page with
      | none => exact absurd hp m1
      | some p =>
        rw [u2 p hp]
        rw [hp] at r6
        have hsh : 1 <<< r.order = 2 ^ r.order := Nat.one_shiftLeft _
        have hpr : 2 ^ r.order ≤ 2 ^ order := Nat.pow_le_pow_right (by norm_num) hro2
        have hcnt : (s.count + U64 - (1 <<< r.order) % U64) % U64 = s.count - 2 ^ r.order := by
          rw [hsh, U64_eq]
          generalize 2 ^ r.order = a at hpr ⊢
          generalize 2 ^ order = b at hpr hpow
          generalize 2 ^ top = c at hpow ht1
          omega
        have hfits : 2 ^ r.order ≤ s.count := by
          generalize 2 ^ r.order = a at hpr ⊢
          generalize 2 ^ order = b at hpr hpow
          generalize 2 ^ top = c at hpow ht1
          omega
        have hpos := Nat.two_pow_pos r.order
        have hq := quiet_append _ _ (split_page_quiet p r.order)
          (clear_buffer_quiet p ((PAGE_SIZE <<< r.order) % U64) attrs coh)
        obtain ⟨q1, q2, q3⟩ := hq
        have hinv2 : buffer_loop_inv
            { pages := s.pages ++ page_range p (1 <<< r.order),
              order_mask := r.order_mask,
              count := (s.count + U64 - (1 <<< r.order) % U64) % U64,
              calls := r.calls,
              events := r.events ++
                (if r.order ≠ 0 then [dma_event.split_page p r.order] else []) ++
                __dma_clear_buffer p ((PAGE_SIZE <<< r.order) % U64) attrs coh } := by
          refine ⟨r2, ?_, ?_, ?_, ?_⟩
          · show (s.count + U64 - (1 <<< r.order) % U64) % U64 < 2 ^ 31
            rw [hcnt]; omega
          · show pages_acquired (r.events ++ _ ++ _) = s.pages ++ page_range p (1 <<< r.order)
            rw [List.append_assoc, pages_acquired_append, r6, q1, hsh]
            simp
          · show pages_released (r.events ++ _ ++ _) = []
            rw [List.append_assoc, pages_released_append, r7, q2]
            rfl
          · intro e he
            have he2 : e ∈ r.events ++ ((if r.order ≠ 0 then [dma_event.split_page p r.order]
                else []) ++ __dma_clear_buffer p ((PAGE_SIZE <<< r.order) % U64) attrs coh) := by
              rw [← List.append_assoc]; exact he
            rcases List.mem_append.mp he2 with h | h
            · exact r8 e h
            · exact q3 e h
        have hfuel : (s.count + U64 - (1 <<< r.order) % U64) % U64 ≤ fuel := by
          rw [hcnt]; omega
        have hsub2 : ∀ b, r.order_mask.testBit b = true → mask0.testBit b = true := by
          intro b hb
          have h1 : (s.order_mask % 2 ^ (top + 1)).testBit b = true := m2 b hb
          rw [Nat.testBit_mod_two_pow, Bool.and_eq_true] at h1
          exact hsub b h1.2
        obtain ⟨chunks, c1, c2, c3, ⟨tail, c4⟩, c5⟩ := ih _ hinv2 hfuel hsub2
        refine ⟨(p, r.order) :: chunks, c1, ?_, ?_, ?_, ?_⟩
        · rw [c2]
          show (s.pages ++ page_range p (1 <<< r.order)) ++ chunk_pages chunks =
            s.pages ++ (page_range p (2 ^ r.order) ++ chunk_pages chunks)
          rw [hsh, List.append_assoc]
        · refine ⟨hsub2 _ (testBit_top _ _ r3 r4), hfits, ?_⟩
          have c3b : chunks_fit mask0 ((s.count + U64 - (1 <<< r.order) % U64) % U64)
              chunks := c3
          rw [hcnt] at c3b
          exact c3b
        · refine ⟨[dma_event.alloc_pages order (env.alloc_pages s.calls order)] ++ mtail ++
            (if r.order ≠ 0 then [dma_event.split_page p r.order] else []) ++
            __dma_clear_buffer p ((PAGE_SIZE <<< r.order) % U64) attrs coh ++ tail, ?_⟩
          rw [c4]
          show r.events ++ _ ++ _ ++ tail = _
          rw [m3]
          simp only [List.append_assoc]
        · intro hz c hc
          rcases List.mem_cons.mp hc with h | h
          · rw [c4, h]
            apply List.mem_append_left
            show dma_event.memset_zero p (PAGE_SIZE * 2 ^ r.order) ∈ r.events ++ _ ++ _
            apply List.mem_append_right
            rw [chunk_bytes r.order r5]
            exact clear_buffer_memset p _ attrs coh hz
          · exact c5 hz c h

theorem chunks_fit_length (mask : Nat) : ∀ (chunks : List (Nat × Nat)) (n : Nat),
    chunks_fit mask n chunks → (chunk_pages chunks).length = n := by
  intro chunks
  induction chunks with
  | nil => intro n h; exact h.symm
  | cons c cs ih =>
    intro n h
    obtain ⟨_, h2, h3⟩ := h
    show (page_range c.1 (2 ^ c.2) ++ chunk_pages cs).length = n
    rw [List.length_append, page_range_length, ih _ h3]
    omega

/-- What `__iommu_alloc_buffer` returns without `DMA_ATTR_FORCE_CONTIGUOUS`
for a size below 2^32 when the page array is allocated, the IOMMU supports
the CPU page size and single pages are always supplied: the pages of chunks
that fit the page count, each with an order of the order mask, each
zero-filled unless `DMA_ATTR_SKIP_ZEROING` is set. -/
theorem alloc_buffer_chunks (env : dma_env) (attrs : dma_attrs) (coh : Bool) (size : Nat)
    (h4k : env.pgsize_bitmap / PAGE_SIZE % 2 = 1) (hsize : size < 2 ^ 32)
    (hA : env.page_array_ok = true) (hF : attrs.force_contiguous = false)
    (hsingle : ∀ k, env.alloc_pages k 0 ≠ none) :
    ∃ chunks,
      (__iommu_alloc_buffer env size attrs coh).1 = some (chunk_pages chunks) ∧
      (__iommu_alloc_buffer env size attrs coh).2.2 = run_status.finished ∧
      chunks_fit (buffer_order_mask env) (size / PAGE_SIZE) chunks ∧
      (attrs.skip_zeroing = false → ∀ c ∈ chunks,
        dma_event.memset_zero c.1 (PAGE_SIZE * 2 ^ c.2) ∈
          (__iommu_alloc_buffer env size attrs coh).2.1) := by
  have hcount : size >>> PAGE_SHIFT = size / PAGE_SIZE := by
    rw [shiftRight_page, PAGE_SIZE_eq]
  have hodd : (buffer_order_mask env) % 2 = 1 := by
    unfold buffer_order_mask
    apply odd_and
    · rw [shiftRight_page, U32_eq]
      rw [PAGE_SIZE_eq] at h4k
      omega
    · exact max_order_mask_odd _
  have hM : ¬ (buffer_order_mask env = 0) := by omega
  have hinv : buffer_loop_inv
      { pages := [], order_mask := buffer_order_mask env,
        count := size / PAGE_SIZE, calls := 0,
        events := [dma_event.alloc_page_array (size / PAGE_SIZE * 8 % U64)
          env.page_array_ok] } := by
    refine ⟨hodd, ?_, rfl, rfl, ?_⟩
    · show size / PAGE_SIZE < 2 ^ 31
      rw [PAGE_SIZE_eq]; omega
    · intro e he
      rw [List.mem_singleton.mp he]; rfl
  obtain ⟨l1, _⟩ := alloc_buffer_loop_spec env attrs coh (size / PAGE_SIZE) _
    hinv (le_refl _)
  obtain ⟨chunks, c1, c2, c3, _, c5⟩ := alloc_buffer_loop_chunks env attrs coh
    (buffer_order_mask env) hsingle (size / PAGE_SIZE) _ hinv (le_refl _) (fun _ h => h)
  have hres : __iommu_alloc_buffer env size attrs coh =
      (some (alloc_buffer_loop env attrs coh (size / PAGE_SIZE)
        { pages := [], order_mask := buffer_order_mask env,
          count := size / PAGE_SIZE, calls := 0,
          events := [dma_event.alloc_page_array (size / PAGE_SIZE * 8 % U64)
            env.page_array_ok] }).pages,
       (alloc_buffer_loop env attrs coh (size / PAGE_SIZE)
        { pages := [], order_mask := buffer_order_mask env,
          count := size / PAGE_SIZE, calls := 0,
          events := [dma_event.alloc_page_array (size / PAGE_SIZE * 8 % U64)
            env.page_array_ok] }).events,
       run_status.finished) := by
    unfold __iommu_alloc_buffer
    simp only [hcount]
    have hA2 : (!env.page_array_ok) = false := by rw [hA]; rfl
    simp only [hA2, hF, Bool.false_eq_true, if_false]
    have hM2 : ¬ (((env.pgsize_bitmap % U32) >>> PAGE_SHIFT) &&&
        (((2 <<< env.MAX_ORDER) % U32 + U32 - 1) % U32) = 0) := hM
    rw [if_neg hM2]
    have l1b : (alloc_buffer_loop env attrs coh (size / PAGE_SIZE)
        { pages := [],
          order_mask := ((env.pgsize_bitmap % U32) >>> PAGE_SHIFT) &&&
            (((2 <<< env.MAX_ORDER) % U32 + U32 - 1) % U32),
          count := size / PAGE_SIZE, calls := 0,
          events := [dma_event.alloc_page_array (size / PAGE_SIZE * 8 % U64)
            env.page_array_ok] }).status = run_status.finished := l1
    have c1b : (alloc_buffer_loop env attrs coh (size / PAGE_SIZE)
        { pages := [],
          order_mask := ((env.pgsize_bitmap % U32) >>> PAGE_SHIFT) &&&
            (((2 <<< env.MAX_ORDER) % U32 + U32 - 1) % U32),
          count := size / PAGE_SIZE, calls := 0,
          events := [dma_event.alloc_page_array (size / PAGE_SIZE * 8 % U64)
            env.page_array_ok] }).ok = true := c1
    rw [if_neg (by rw [l1b]; exact fun h => h rfl), if_pos c1b]
    rfl
  rw [hres]
  refine ⟨chunks, ?_, rfl, c3, c5⟩
  show some _ = some _
  rw [c2]
  rfl

/-- C25 (counterexample): the IOMMU supports the CPU page size and every
`alloc_pages` call succeeds, but the allocation of the page array fails:
`__iommu_alloc_buffer` returns NULL for a request of 3 pages. -/
theorem C25_page_array_failure_returns_null :
    no_array_env.pgsize_bitmap / PAGE_SIZE % 2 = 1 ∧
    (∀ k order, no_array_env.alloc_pages k order ≠ none) ∧
    (__iommu_alloc_buffer no_array_env (3 * PAGE_SIZE) no_attrs true).1 = none ∧
    (__iommu_alloc_buffer no_array_env (3 * PAGE_SIZE) no_attrs true).2.1 =
      [dma_event.alloc_page_array 24 false] := by
  refine ⟨by decide, fun _ _ => Option.some_ne_none _, by decide, by decide⟩

/-- The bound on the size in the amended C25 is needed too: a request of
2^32 pages makes the first round of the loop shift `2U` by 32 bits, which is
undefined for an `unsigned int`. -/
theorem alloc_buffer_huge_count_undefined :
    (__iommu_alloc_buffer generous_env (2 ^ 44) no_attrs true).2.2 =
      run_status.undefined_behaviour := by
  decide

/-- C25 (amended): for every page count `n` below 2^20 (a size below 2^32
bytes) requested without `DMA_ATTR_FORCE_CONTIGUOUS`, when the page array is
allocated, the page sizes of the IOMMU include PAGE_SIZE and a single page
is always supplied (requests of a higher order may fail in any way),
`__iommu_alloc_buffer` returns regularly a page array of `n` entries: the
pages of chunks, each with an order that is in the order mask and whose
`2 ^ order` does not exceed the pages still to come, and each chunk has been
zero-filled unless `DMA_ATTR_SKIP_ZEROING` is set. -/
theorem C25_alloc_buffer_chunks (env : dma_env) (attrs : dma_attrs) (coh : Bool) (n : Nat)
    (hn : n < 2 ^ 20) (h4k : env.pgsize_bitmap / PAGE_SIZE % 2 = 1)
    (hA : env.page_array_ok = true) (hF : attrs.force_contiguous = false)
    (hsingle : ∀ k, env.alloc_pages k 0 ≠ none) :
    ∃ chunks,
      (__iommu_alloc_buffer env (n * PAGE_SIZE) attrs coh).1 = some (chunk_pages chunks) ∧
      (__iommu_alloc_buffer env (n * PAGE_SIZE) attrs coh).2.2 = run_status.finished ∧
      (chunk_pages chunks).length = n ∧
      chunks_fit (buffer_order_mask env) n chunks ∧
      (attrs.skip_zeroing = false → ∀ c ∈ chunks,
        dma_event.memset_zero c.1 (PAGE_SIZE * 2 ^ c.2) ∈
          (__iommu_alloc_buffer env (n * PAGE_SIZE) attrs coh).2.1) := by
  have hS : n * PAGE_SIZE < 2 ^ 32 := by rw [PAGE_SIZE_eq]; omega
  have hdiv : n * PAGE_SIZE / PAGE_SIZE = n :=
    Nat.mul_div_cancel _ (by rw [PAGE_SIZE_eq]; norm_num)
  obtain ⟨chunks, c1, c2, c3, c4⟩ :=
    alloc_buffer_chunks env attrs coh (n * PAGE_SIZE) h4k hS hA hF hsingle
  rw [hdiv] at c3
  exact ⟨chunks, c1, c2, chunks_fit_length _ _ _ c3, c3, c4⟩

/-- C25 (witness): 3 pages from an IOMMU that supports 4 KiB and 8 KiB pages
when only single pages are to be had: the request of order 1 fails, and the
array is filled with three single pages. -/
theorem C25_alloc_buffer_chunks_witness :
    (__iommu_alloc_buffer fragmented_env (3 * PAGE_SIZE) no_attrs true).1 =
      some [0x110, 0x120, 0x130] ∧
    ∃ chunks,
      (__iommu_alloc_buffer fragmented_env (3 * PAGE_SIZE) no_attrs true).1 =
        some (chunk_pages chunks) ∧
      (__iommu_alloc_buffer fragmented_env (3 * PAGE_SIZE) no_attrs true).2.2 =
        run_status.finished ∧
      (chunk_pages chunks).length = 3 ∧
      chunks_fit (buffer_order_mask fragmented_env) 3 chunks ∧
      (no_attrs.skip_zeroing = false → ∀ c ∈ chunks,
        dma_event.memset_zero c.1 (PAGE_SIZE * 2 ^ c.2) ∈
          (__iommu_alloc_buffer fragmented_env (3 * PAGE_SIZE) no_attrs true).2.1) :=
  ⟨by decide,
   C25_alloc_buffer_chunks fragmented_env no_attrs true 3 (by decide) (by decide) (by decide)
    (by decide) (fun _ => Option.some_ne_none _)⟩

/-! ## C3: the alignment order is the ceiling of the logarithm of the page count -/

theorem ceil_log2_from_spec (n : Nat) : ∀ (fuel k : Nat),
    (∀ j, j < k → ¬ n ≤ 2 ^ j) → n ≤ 2 ^ (k + fuel) →
    n ≤ 2 ^ ceil_log2_from n fuel k ∧ ∀ j, n ≤ 2 ^ j → ceil_log2_from n fuel k ≤ j := by
  intro fuel
  induction fuel with
  | zero =>
    intro k hlow hup
    refine ⟨hup, fun j hj => ?_⟩
    show k ≤ j
    by_contra hc
    exact hlow j (by omega) hj
  | succ f ih =>
    intro k hlow hup
    unfold ceil_log2_from
    by_cases h : n ≤ 2 ^ k
    · rw [if_pos h]
      refine ⟨h, fun j hj => ?_⟩
      by_contra hc
      exact hlow j (by omega) hj
    · rw [if_neg h]
      apply ih (k + 1)
      · intro j hj
        by_cases hjk : j = k
        · rw [hjk]; exact h
        · exact hlow j (by omega)
      · have : k + 1 + f = k + (f + 1) := by omega
        rw [this]; exact hup

/-- The function `ceil_log2` is the ceiling of the base-2 logarithm: the
least `k` with `n ≤ 2 ^ k`. -/
theorem ceil_log2_spec (n : Nat) (hn : n ≤ 2 ^ 64) :
    n ≤ 2 ^ ceil_log2 n ∧ ∀ j, n ≤ 2 ^ j → ceil_log2 n ≤ j :=
  ceil_log2_from_spec n 64 0 (fun j hj => absurd hj (Nat.not_lt_zero j))
    (by rw [Nat.zero_add]; exact hn)

/-- On numbers up to 2^64 `ceil_log2` is the library's `Nat.clog 2`. -/
theorem ceil_log2_eq_clog (n : Nat) (hn : n ≤ 2 ^ 64) : ceil_log2 n = Nat.clog 2 n := by
  obtain ⟨h1, h2⟩ := ceil_log2_spec n hn
  apply Nat.le_antisymm
  · exact h2 _ (Nat.le_pow_clog (by norm_num) n)
  · exact (Nat.le_pow_iff_clog_le (by norm_num)).1 h1

/-- The kernel's `fls` of `n - 1` is the ceiling of the base-2 logarithm of
`n`, which is how `get_order` rounds a page count up to a power of two. -/
theorem fls_pred_eq_ceil_log2 (n : Nat) (h0 : 0 < n) (hn : n ≤ 2 ^ 64) :
    fls 64 (n - 1) = ceil_log2 n := by
  obtain ⟨c1, c2⟩ := ceil_log2_spec n hn
  have hx : n - 1 < 2 ^ 64 := by omega
  have f1 := fls_lt_pow 64 (n - 1) hx
  apply Nat.le_antisymm
  · by_cases hz : n - 1 = 0
    · rw [hz]
      show 0 ≤ _
      exact Nat.zero_le _
    · have f2 := fls_pow_le 64 (n - 1) (by omega)
      by_contra hc
      have hlt : ceil_log2 n + 1 ≤ fls 64 (n - 1) := by omega
      have hp : 2 ^ (ceil_log2 n + 1) ≤ 2 ^ fls 64 (n - 1) :=
        Nat.pow_le_pow_right (by norm_num) hlt
      rw [pow_succ] at hp
      generalize 2 ^ ceil_log2 n = a at c1 hp
      generalize 2 ^ fls 64 (n - 1) = b at f2 hp
      omega
  · apply c2
    generalize 2 ^ fls 64 (n - 1) = b at f1
    omega

/-- The order `__alloc_iova` aligns to, for a size below 2^32 that needs at
least one page: the ceiling of the base-2 logarithm of the number of pages
needed, guard included, capped at the maximum order. -/
theorem alloc_iova_order_spec (maxOrder : Nat) (m : dma_iommu_mapping) (size : Nat)
    (hmin : m.min_iova_align < 2 ^ 32) (hsize : size < 2 ^ 32)
    (hpages : 0 < iova_pages_needed m size) :
    alloc_iova_order maxOrder m size =
      min (ceil_log2 (iova_pages_needed m size)) maxOrder := by
  obtain ⟨T, t1, t2, t3, t4, t5, t6, t7, t8⟩ := iova_size_facts m size hmin hsize
  have hp : iova_pages_needed m size = T / 4096 := by
    unfold iova_pages_needed
    rw [t6, PAGE_SIZE_eq]
    omega
  rw [hp] at hpages ⊢
  have hord : get_order T = ceil_log2 (T / 4096) := by
    unfold get_order fls64
    have e1 : ((T + U64 - 1) % U64) >>> PAGE_SHIFT = T / 4096 - 1 := by
      rw [shiftRight_page, U64_eq]
      omega
    rw [e1]
    have e2 : (T / 4096 - 1) % U64 = T / 4096 - 1 := by
      apply Nat.mod_eq_of_lt
      rw [U64_eq]; omega
    rw [e2]
    exact fls_pred_eq_ceil_log2 (T / 4096) hpages (by
      have : T / 4096 < 2 ^ 21 := by omega
      omega)
  unfold alloc_iova_order
  simp only []
  rw [t5, hord]
  by_cases h : ceil_log2 (T / 4096) > maxOrder
  · rw [if_pos h]; omega
  · rw [if_neg h]; omega

/-- For every size below 2^32 the order `__alloc_iova` aligns to is at least
the ceiling of the logarithm of the pages needed, capped at the maximum
order (for a request of no page it is the maximum order itself). -/
theorem alloc_iova_order_ge (maxOrder : Nat) (m : dma_iommu_mapping) (size : Nat)
    (hmin : m.min_iova_align < 2 ^ 32) (hsize : size < 2 ^ 32) :
    min (ceil_log2 (iova_pages_needed m size)) maxOrder ≤
      alloc_iova_order maxOrder m size := by
  by_cases hpages : 0 < iova_pages_needed m size
  · rw [alloc_iova_order_spec maxOrder m size hmin hsize hpages]
  · have h0 : iova_pages_needed m size = 0 := by omega
    rw [h0]
    have : ceil_log2 0 = 0 := by decide
    rw [this]
    omega

/-- C3 (as stated, refuted): over a base of 0x1000 a successful two-page
allocation has the order `ceil(log2(2)) = 1` and returns 0x1000, which is
not a multiple of `PAGE_SIZE << 1`. -/
theorem C3_alignment_fails_for_unaligned_base :
    iova_pages_needed (bitmap_mapping 0x1000 16 0 (fun _ => false)) 8192 = 2 ∧
    ceil_log2 (iova_pages_needed (bitmap_mapping 0x1000 16 0 (fun _ => false)) 8192) = 1 ∧
    (__alloc_iova 9 (bitmap_mapping 0x1000 16 0 (fun _ => false)) 8192 0).2 ≠ DMA_ERROR_CODE ∧
    (__alloc_iova 9 (bitmap_mapping 0x1000 16 0 (fun _ => false)) 8192 0).2 %
      (PAGE_SIZE <<<
        min (ceil_log2 (iova_pages_needed (bitmap_mapping 0x1000 16 0 (fun _ => false)) 8192))
          9) ≠ 0 := by
  decide

/-- The bound on the size in the amended C3 is needed too: in a 1024-page
space at base 0 whose page 0 is used, a request of 2^44 - 16384 bytes needs
2^32 - 4 pages, order 9 after the cap. The search fails with the end index
2^32 + 508, which the `unsigned int start` holds as 508: the call returns the
address of page 508, which is not a multiple of `PAGE_SIZE << 9`. -/
theorem alloc_iova_misaligned_for_huge_size :
    iova_pages_needed (bitmap_mapping 0 1024 0 (fun i => i == 0)) (2 ^ 44 - 16384) =
      2 ^ 32 - 4 ∧
    min (ceil_log2 (iova_pages_needed (bitmap_mapping 0 1024 0 (fun i => i == 0))
      (2 ^ 44 - 16384))) 9 = 9 ∧
    (__alloc_iova 9 (bitmap_mapping 0 1024 0 (fun i => i == 0)) (2 ^ 44 - 16384) 0).2 =
      508 * PAGE_SIZE ∧
    (508 * PAGE_SIZE) % (PAGE_SIZE <<< 9) ≠ 0 := by
  decide

/-- C3 (amended): when the mapping base is itself a multiple of
`PAGE_SIZE << min(order, maxOrder)`, with order the ceiling of the base-2
logarithm of the number of pages needed, guard included, every address a
successful `__alloc_iova` returns is a multiple of it (mapping of at most
2^20 pages, 32-bit erratum alignment, size below 2^32, maxOrder at most 30);
and for a request of at least one page that capped order is exactly the
order the code aligns its search to. -/
theorem C3_iova_alignment (maxOrder : Nat) (m : dma_iommu_mapping) (size : Nat) (ret : Int)
    (hcfg : maxOrder ≤ 30) (hbits : m.bits ≤ 2 ^ 20) (hmin : m.min_iova_align < 2 ^ 32)
    (hsize : size < 2 ^ 32)
    (hbase : m.base %
      (PAGE_SIZE <<< min (ceil_log2 (iova_pages_needed m size)) maxOrder) = 0)
    (hok : (__alloc_iova maxOrder m size ret).2 ≠ DMA_ERROR_CODE) :
    (__alloc_iova maxOrder m size ret).2 %
      (PAGE_SIZE <<< min (ceil_log2 (iova_pages_needed m size)) maxOrder) = 0 ∧
    (0 < iova_pages_needed m size →
      alloc_iova_order maxOrder m size =
        min (ceil_log2 (iova_pages_needed m size)) maxOrder) := by
  refine ⟨?_, alloc_iova_order_spec maxOrder m size hmin hsize⟩
  have hge := alloc_iova_order_ge maxOrder m size hmin hsize
  rcases alloc_iova_cases maxOrder m size ret with ⟨_, h⟩ | ⟨_, _, h⟩ | ⟨hle, _, h⟩
  · rw [h] at hok; exact absurd rfl hok
  · rw [h] at hok; exact absurd rfl hok
  · obtain ⟨hc, _⟩ := (alloc_iova_start_spec maxOrder m size hbits hmin hsize (Or.inr hcfg)).1 hle
    have hsk := hc.1
    rw [align_mask_succ] at hsk
    have hk : min (ceil_log2 (iova_pages_needed m size)) maxOrder ≤ 30 :=
      le_trans (Nat.min_le_right _ _) hcfg
    have hsk2 : alloc_iova_start maxOrder m size %
        2 ^ min (ceil_log2 (iova_pages_needed m size)) maxOrder = 0 := by
      apply Nat.mod_eq_zero_of_dvd
      exact Nat.dvd_trans (pow_dvd_pow 2 hge) (Nat.dvd_of_mod_eq_zero hsk)
    rw [h, page_shift_order] at *
    exact iova_aligned_of_start m.base _ _ hk (le_trans hle hbits) hsk2 hbase

/-- C3 witness: a two-page allocation over the base 0x10000000. -/
theorem C3_iova_alignment_witness :
    (__alloc_iova 9 (bitmap_mapping 0x10000000 16 0 (fun _ => false)) 8192 0).2
      ≠ DMA_ERROR_CODE ∧
    (__alloc_iova 9 (bitmap_mapping 0x10000000 16 0 (fun _ => false)) 8192 0).2 %
      (PAGE_SIZE <<< min (ceil_log2
        (iova_pages_needed (bitmap_mapping 0x10000000 16 0 (fun _ => false)) 8192)) 9)
      = 0 :=
  ⟨by decide,
   (C3_iova_alignment 9 (bitmap_mapping 0x10000000 16 0 (fun _ => false)) 8192 0
    (by decide) (by decide) (by decide) (by decide) (by decide) (by decide)).1⟩

end MoeKernel
